import Mathlib

/-! IterativeMinMaxLinearEquationSolver.

A shallow embedding of `storm/solver/IterativeMinMaxLinearEquationSolver.cpp`, instantiated at
the exact value type (`storm::RationalNumber`, here `ℚ`).  Vectors are lists, a read outside a
vector yields `0`, pointers to the solver's buffers are values of an enumeration, and every
loop is a structurally recursive function over a step budget.
-/

set_option autoImplicit false

namespace storm

/-! ## Data model -/

/-- Direction of the optimisation, `storm::OptimizationDirection`. -/
inductive OptimizationDirection where
  | Minimize
  | Maximize
  deriving DecidableEq, Repr

/-- Status of an iterative solve, `storm::solver::SolverStatus`. -/
inductive SolverStatus where
  | Converged
  | TerminatedEarly
  | MaximalIterationsExceeded
  | InProgress
  deriving DecidableEq, Repr

/-- Side of the true value on which an iterate lies, `storm::solver::SolverGuarantee`. -/
inductive SolverGuarantee where
  | LessOrEqual
  | GreaterOrEqual
  | None
  deriving DecidableEq, Repr

/-- Way the matrix-vector product is carried out, `storm::solver::MultiplicationStyle`. -/
inductive MultiplicationStyle where
  | GaussSeidel
  | Regular
  deriving DecidableEq, Repr

/-- Exceptions that the solver raises through `STORM_LOG_THROW`. -/
inductive SolverException where
  | UnmetRequirementException
  | InvalidStateException
  | InvalidEnvironmentException
  | PrecisionExceededException
  deriving DecidableEq, Repr

/-- Modelled from the spec: the sparse transition system (`storm::storage::SparseMatrix`), whose
class is not part of the sources at hand.  States are row groups, each row group owns a
contiguous range of rows, and a row is a sparse list of `(column, value)` entries.  Row group
`g` owns the rows `rowGroupIndices[g] ..< rowGroupIndices[g + 1]`. -/
structure SparseMatrix where
  rows : List (List (Nat × ℚ))
  rowGroupIndices : List Nat
  deriving Repr

namespace SparseMatrix

/-- Number of row groups: one less than the number of group boundaries. -/
def getRowGroupCount (m : SparseMatrix) : Nat := m.rowGroupIndices.length - 1

/-- Entry `g` of `getRowGroupIndices()`. -/
def rowGroupIndex (m : SparseMatrix) (g : Nat) : Nat := m.rowGroupIndices.getD g 0

/-- Entries of row `r`, `getRow(r)`. -/
def getRow (m : SparseMatrix) (r : Nat) : List (Nat × ℚ) := m.rows.getD r []

/-- Product of row `r` with the vector `x`, `multiplyRowWithVector(r, x)`: the entries are
accumulated from zero in storage order. -/
def multiplyRowWithVector (m : SparseMatrix) (r : Nat) (x : List ℚ) : ℚ :=
  (m.getRow r).foldl (fun acc e => acc + e.2 * x.getD e.1 0) 0

/-- Every row group owns at least one row. -/
def GroupsNonEmpty (m : SparseMatrix) : Prop :=
  ∀ g, g < m.getRowGroupCount → m.rowGroupIndex g < m.rowGroupIndex (g + 1)

/-- Every entry of the matrix is non-negative. -/
def NonNegative (m : SparseMatrix) : Prop :=
  ∀ row ∈ m.rows, ∀ e ∈ row, 0 ≤ e.2

/-- Every row sums to at most one. -/
def RowSumsAtMostOne (m : SparseMatrix) : Prop :=
  ∀ row ∈ m.rows, (row.map Prod.snd).sum ≤ 1

/-- Rows owned by row group `g`, in ascending order. -/
def groupRows (m : SparseMatrix) (g : Nat) : List Nat :=
  List.range' (m.rowGroupIndex g) (m.rowGroupIndex (g + 1) - m.rowGroupIndex g)

/-- One-step value of row `r` under `x`: `A[r] * x + b[r]`. -/
def rowValue (m : SparseMatrix) (x b : List ℚ) (r : Nat) : ℚ :=
  m.multiplyRowWithVector r x + b.getD r 0

/-- One-step values of all rows of row group `g`. -/
def groupValues (m : SparseMatrix) (x b : List ℚ) (g : Nat) : List ℚ :=
  (m.groupRows g).map (m.rowValue x b)

end SparseMatrix

/-- The value `v` is the optimum of `vals`: it occurs in `vals` and no element of `vals` is
better, where better is smaller when minimising and larger when maximising. -/
def IsOptimum (dir : OptimizationDirection) (vals : List ℚ) (v : ℚ) : Prop :=
  v ∈ vals ∧ ∀ w ∈ vals, if dir = OptimizationDirection.Minimize then v ≤ w else w ≤ v

/-- The vector `x` solves the min/max system exactly: at every row group its entry is the
optimum of the one-step values of the group's rows. -/
def BellmanFixpoint (dir : OptimizationDirection) (m : SparseMatrix) (x b : List ℚ) : Prop :=
  ∀ g, g < m.getRowGroupCount → IsOptimum dir (m.groupValues x b g) (x.getD g 0)

/-! ## `isSolution` -/

/-- Inner loop of `isSolution`: scans `k` further rows of a group from `row`, reading the
right-hand side through the running iterator `bIt`, and keeps a strictly better value. -/
def isSolutionRows (dir : OptimizationDirection) (matrix : SparseMatrix) (values b : List ℚ) :
    Nat → Nat → Nat → ℚ → ℚ × Nat
  | 0, _, bIt, groupValue => (groupValue, bIt)
  | k + 1, row, bIt, groupValue =>
    let newValue := b.getD bIt 0 + matrix.multiplyRowWithVector row values
    let groupValue' :=
      if (dir = OptimizationDirection.Minimize ∧ newValue < groupValue) ∨
          (dir = OptimizationDirection.Maximize ∧ newValue > groupValue) then newValue
      else groupValue
    isSolutionRows dir matrix values b k (row + 1) (bIt + 1) groupValue'

/-- Outer loop of `isSolution` over `k` further row groups starting at `group`; the iterator
into `values` is the group index, the iterator `bIt` into `b` advances once per scanned row. -/
def isSolutionGroups (dir : OptimizationDirection) (matrix : SparseMatrix) (values b : List ℚ) :
    Nat → Nat → Nat → Bool
  | 0, _, _ => true
  | k + 1, group, bIt =>
    let row := matrix.rowGroupIndex group
    let groupValue := b.getD bIt 0 + matrix.multiplyRowWithVector row values
    let r := isSolutionRows dir matrix values b
      (matrix.rowGroupIndex (group + 1) - (row + 1)) (row + 1) (bIt + 1) groupValue
    if r.1 ≠ values.getD group 0 then false
    else isSolutionGroups dir matrix values b k (group + 1) r.2

/-- The substitution check `isSolution(dir, matrix, values, b)`; the comparator of the exact
value type is equality. -/
def isSolution (dir : OptimizationDirection) (matrix : SparseMatrix) (values b : List ℚ) : Bool :=
  isSolutionGroups dir matrix values b matrix.getRowGroupCount 0 0

/-! ## The solver object and its environment -/

/-- Modelled from the spec: a bound on the solution that the caller supplies (the bound store of
`AbstractEquationSolver` is not part of the sources at hand), one value for all states or one
value per state. -/
inductive Bound where
  | global (value : ℚ)
  | perState (values : List ℚ)
  deriving Repr

/-- Modelled from the spec: the custom early-termination predicate (`TerminationCondition` is not
part of the sources at hand); `terminateNow` is evaluated on the current iterate together with
the guarantee that holds for it. -/
structure TerminationCondition where
  terminateNow : List ℚ → SolverGuarantee → Bool
  requiresGuarantee : SolverGuarantee → Bool

/-- Settings of `env.solver().minMax()` that the solution methods read.  The relative variant of
`equalModuloPrecision` is not part of the sources at hand and is kept as the parameter
`relativeEqual value1 value2 precision`. -/
structure Environment where
  precision : ℚ
  relativeTerminationCriterion : Bool
  maximalNumberOfIterations : Nat
  multiplicationStyle : MultiplicationStyle
  relativeEqual : ℚ → ℚ → ℚ → Bool

/-- Members of an `IterativeMinMaxLinearEquationSolver` that the solution methods read.
`solveLinear rows x subB` stands for `LinearEquationSolver::solveEquations` on the system
`y = rows * y + subB` started from `x` (the linear-equation solvers are external); its result is
the success flag and the new content of `x`.  `relevantValues` lists the set positions of the
bit vector in ascending order. -/
structure Solver where
  A : SparseMatrix
  lowerBound : Option Bound
  upperBound : Option Bound
  initialScheduler : Option (List Nat)
  uniqueSolution : Bool
  trackScheduler : Bool
  terminationCondition : Option TerminationCondition
  relevantValues : Option (List Nat)
  supportsGaussSeidelMultiplication : Bool
  solveLinear : List (List (Nat × ℚ)) → List ℚ → List ℚ → Bool × List ℚ

/-- What a call of a solution method leaves behind: it either returns its boolean or raises an
exception, or it stops in a failed `STORM_LOG_ASSERT`. -/
inductive Outcome where
  | returned (converged : Bool)
  | raised (e : SolverException)
  | assertionFailed
  deriving DecidableEq, Repr

/-- Result of a solution method: the outcome, the content of the in/out vector `x` and the
scheduler choices stored in the solver. -/
structure SolveResult where
  outcome : Outcome
  x : List ℚ
  schedulerChoices : Option (List Nat)
  deriving Repr

namespace Solver

/-- The predicate `hasUpperBound()`. -/
def hasUpperBound (S : Solver) : Bool := S.upperBound.isSome

/-- The predicate `hasLowerBound()`. -/
def hasLowerBound (S : Solver) : Bool := S.lowerBound.isSome

end Solver

/-- Modelled from the spec: filling a vector of the given length from a bound
(`createLowerBoundsVector` and `createUpperBoundsVector` of `AbstractEquationSolver`, not part of
the sources at hand): a global bound is repeated, per-state bounds are copied.  Without a bound
the routine has nothing to fill the vector from, which is `none`; how the calling method ends
then is part of the model of that method. -/
def createBoundsVector (bound : Option Bound) (length : Nat) : Option (List ℚ) :=
  match bound with
  | none => none
  | some (Bound.global v) => some (List.replicate length v)
  | some (Bound.perState vs) => some vs

/-! ## Bellman updates -/

/-- The test `valueImproved(dir, value1, value2)`: `value2` is strictly better than `value1`. -/
def valueImproved (dir : OptimizationDirection) (value1 value2 : ℚ) : Bool :=
  if dir = OptimizationDirection.Minimize then decide (value2 < value1)
  else decide (value2 > value1)

/-- Reduction of the row values of one group: the first value, replaced by each later value that
is strictly better.  An empty group yields zero. -/
def reduceGroup (dir : OptimizationDirection) : List ℚ → ℚ
  | [] => 0
  | v :: vs => vs.foldl (fun best w => if valueImproved dir best w then w else best) v

/-- Position in the group of the value that `reduceGroup` selects: the first optimum. -/
def reduceGroupChoice (dir : OptimizationDirection) : List ℚ → Nat
  | [] => 0
  | v :: vs =>
    (vs.foldl (fun (acc : ℚ × Nat × Nat) w =>
      if valueImproved dir acc.1 w then (w, acc.2.2, acc.2.2 + 1)
      else (acc.1, acc.2.1, acc.2.2 + 1)) (v, 0, 1)).2.1

/-- Modelled from the spec: `multiplyAndReduce(dir, rowGroupIndices, x, &b, result)` of the
linear-equation solver (not part of the sources at hand), the Bellman update
`x' = min/max(A*x + b)` with one entry per row group, every entry computed from the old `x`. -/
def multiplyAndReduce (dir : OptimizationDirection) (A : SparseMatrix) (x b : List ℚ) : List ℚ :=
  (List.range A.getRowGroupCount).map (fun g => reduceGroup dir (A.groupValues x b g))

/-- Modelled from the spec: the scheduler choices that `multiplyAndReduce` records when it is
given a choices vector, per row group the local index of the row that achieved the optimum. -/
def multiplyAndReduceChoices (dir : OptimizationDirection) (A : SparseMatrix) (x b : List ℚ) :
    List Nat :=
  (List.range A.getRowGroupCount).map (fun g => reduceGroupChoice dir (A.groupValues x b g))

/-- Modelled from the spec: `multiplyAndReduceGaussSeidel(dir, rowGroupIndices, x, &b)` of the
linear-equation solver (not part of the sources at hand), the in-place Bellman update in which
successor values are read from the buffer being written.  The row groups are swept from the
last to the first. -/
def multiplyAndReduceGaussSeidel (dir : OptimizationDirection) (A : SparseMatrix)
    (x b : List ℚ) : List ℚ :=
  (List.range A.getRowGroupCount).reverse.foldl
    (fun y g => y.set g (reduceGroup dir (A.groupValues y b g))) x

/-- Comparison of two values, `equalModuloPrecision(val1, val2, precision, relative)`; modelled
from the spec for the absolute criterion: the values differ by at most `precision`. -/
def equalModuloPrecisionValue (env : Environment) (val1 val2 precision : ℚ) (relative : Bool) :
    Bool :=
  if relative then env.relativeEqual val1 val2 precision
  else decide (|val1 - val2| ≤ precision)

/-- Comparison of two vectors, entry by entry. -/
def equalModuloPrecision (env : Environment) (vectorLeft vectorRight : List ℚ) (precision : ℚ)
    (relative : Bool) : Bool :=
  (List.zip vectorLeft vectorRight).all
    (fun p => equalModuloPrecisionValue env p.1 p.2 precision relative)

/-- Comparison of two vectors at the given positions only. -/
def equalModuloPrecisionAt (env : Environment) (vectorLeft vectorRight : List ℚ)
    (positions : List Nat) (precision : ℚ) (relative : Bool) : Bool :=
  positions.all (fun i =>
    equalModuloPrecisionValue env (vectorLeft.getD i 0) (vectorRight.getD i 0) precision relative)

/-- The status update `updateStatusIfNotConverged`. -/
def updateStatusIfNotConverged (S : Solver) (status : SolverStatus) (x : List ℚ)
    (iterations maximalNumberOfIterations : Nat) (guarantee : SolverGuarantee) : SolverStatus :=
  if status ≠ SolverStatus.Converged then
    if (match S.terminationCondition with
        | some tc => tc.terminateNow x guarantee
        | none => false) then SolverStatus.TerminatedEarly
    else if iterations ≥ maximalNumberOfIterations then SolverStatus.MaximalIterationsExceeded
    else status
  else status

/-- The report `reportStatus`: it only logs, and raises for a status that is still in
progress. -/
def reportStatus (status : SolverStatus) : Option SolverException :=
  match status with
  | SolverStatus.Converged => none
  | SolverStatus.TerminatedEarly => none
  | SolverStatus.MaximalIterationsExceeded => none
  | SolverStatus.InProgress => some SolverException.InvalidStateException

/-! ## Policy iteration -/

/-- Modelled from the spec: `selectRowsFromRowGroups(scheduler, ...)` of the matrix (not part of
the sources at hand), the rows of the linear system induced by a scheduler: for every row group
the row at the scheduler's local index. -/
def selectRowsFromRowGroups (A : SparseMatrix) (scheduler : List Nat) : List (List (Nat × ℚ)) :=
  (List.range A.getRowGroupCount).map
    (fun g => A.getRow (A.rowGroupIndex g + scheduler.getD g 0))

/-- Modelled from the spec: `selectVectorValues(subB, scheduler, rowGroupIndices, originalB)` (not
part of the sources at hand), the right-hand side of the induced system. -/
def selectVectorValues (A : SparseMatrix) (scheduler : List Nat) (originalB : List ℚ) : List ℚ :=
  (List.range A.getRowGroupCount).map
    (fun g => originalB.getD (A.rowGroupIndex g + scheduler.getD g 0) 0)

/-- The routine `solveInducedEquationSystem`: resolves the nondeterminism by the scheduler and
hands the induced system to the linear-equation solver.  Whether the factory wants the system as
a fixed point or as an equation system only changes the format that is handed over. -/
def solveInducedEquationSystem (S : Solver) (scheduler : List Nat) (x originalB : List ℚ) :
    Bool × List ℚ :=
  S.solveLinear (selectRowsFromRowGroups S.A scheduler) x
    (selectVectorValues S.A scheduler originalB)

/-- Variables of the improvement scan of one round of policy iteration. -/
structure PolicyScan where
  scheduler : List Nat
  x : List ℚ
  schedulerImproved : Bool
  deriving Repr

/-- Body of the loop over the choices of a row group: a choice other than the current one whose
value under the current `x` is strictly better replaces the scheduler's choice and `x[group]`. -/
def improveChoice (S : Solver) (dir : OptimizationDirection) (b : List ℚ) (group currentChoice : Nat)
    (st : PolicyScan) (choice : Nat) : PolicyScan :=
  if choice - S.A.rowGroupIndex group = currentChoice then st
  else
    let choiceValue :=
      (S.A.getRow choice).foldl (fun acc e => acc + e.2 * st.x.getD e.1 0) 0 + b.getD choice 0
    if valueImproved dir (st.x.getD group 0) choiceValue then
      { scheduler := st.scheduler.set group (choice - S.A.rowGroupIndex group)
        x := st.x.set group choiceValue
        schedulerImproved := true }
    else st

/-- Scan of one row group; the current choice is read once, before the choices are scanned. -/
def improveGroup (S : Solver) (dir : OptimizationDirection) (b : List ℚ) (st : PolicyScan)
    (group : Nat) : PolicyScan :=
  (S.A.groupRows group).foldl (improveChoice S dir b group (st.scheduler.getD group 0)) st

/-- Scan of all row groups in ascending order. -/
def improveScheduler (S : Solver) (dir : OptimizationDirection) (b : List ℚ)
    (scheduler : List Nat) (x : List ℚ) : PolicyScan :=
  (List.range S.A.getRowGroupCount).foldl (improveGroup S dir b)
    { scheduler := scheduler, x := x, schedulerImproved := false }

/-- Variables of the round loop of policy iteration. -/
structure PolicyState where
  scheduler : List Nat
  x : List ℚ
  iterations : Nat
  status : SolverStatus
  deriving Repr

/-- One pass through the body of the do-while loop of `solveEquationsPolicyIteration`. -/
def policyIterationRound (S : Solver) (env : Environment) (dir : OptimizationDirection)
    (b : List ℚ) (st : PolicyState) : PolicyState :=
  let solved := (solveInducedEquationSystem S st.scheduler st.x b).2
  let scan := improveScheduler S dir b st.scheduler solved
  let status := if !scan.schedulerImproved then SolverStatus.Converged else st.status
  let iterations := st.iterations + 1
  { scheduler := scan.scheduler
    x := scan.x
    iterations := iterations
    status := updateStatusIfNotConverged S status scan.x iterations
      env.maximalNumberOfIterations
      (if dir = OptimizationDirection.Minimize then SolverGuarantee.GreaterOrEqual
       else SolverGuarantee.LessOrEqual) }

/-- The do-while loop: the body runs, and runs again while the status is in progress.  The
budget counts the passes that may still be made. -/
def policyIterationLoop (S : Solver) (env : Environment) (dir : OptimizationDirection)
    (b : List ℚ) : Nat → PolicyState → PolicyState
  | 0, st => st
  | fuel + 1, st =>
    let st' := policyIterationRound S env dir b st
    if st'.status = SolverStatus.InProgress then policyIterationLoop S env dir b fuel st'
    else st'

/-- The scheduler with which policy iteration starts: the initial scheduler when one is set, else
the first choice everywhere. -/
def initialPolicy (S : Solver) : List Nat :=
  match S.initialScheduler with
  | some scheduler => scheduler
  | none => List.replicate S.A.getRowGroupCount 0

/-- State in which the round loop of `solveEquationsPolicyIteration` ends.  The status leaves
`InProgress` at the latest when the iteration counter reaches the budget, so the loop makes at
most `max 1 maximalNumberOfIterations` passes. -/
def policyIterationRun (S : Solver) (env : Environment) (dir : OptimizationDirection)
    (x b : List ℚ) : PolicyState :=
  policyIterationLoop S env dir b (max 1 env.maximalNumberOfIterations)
    { scheduler := initialPolicy S, x := x, iterations := 0, status := SolverStatus.InProgress }

/-- The method `solveEquationsPolicyIteration`. -/
def solveEquationsPolicyIteration (S : Solver) (env : Environment) (dir : OptimizationDirection)
    (x b : List ℚ) : SolveResult :=
  let final := policyIterationRun S env dir x b
  match reportStatus final.status with
  | some e => { outcome := Outcome.raised e, x := final.x, schedulerChoices := none }
  | none =>
    { outcome := Outcome.returned
        (final.status = SolverStatus.Converged || final.status = SolverStatus.TerminatedEarly)
      x := final.x
      schedulerChoices := if S.trackScheduler then some final.scheduler else none }

/-- State of the round loop of policy iteration after `k` passes through its body. -/
def policyIterationStateAt (S : Solver) (env : Environment) (dir : OptimizationDirection)
    (x b : List ℚ) (k : Nat) : PolicyState :=
  Nat.iterate (policyIterationRound S env dir b) k
    { scheduler := initialPolicy S, x := x, iterations := 0, status := SolverStatus.InProgress }

/-- Vector obtained by solving the induced system in round `k` of policy iteration, counting the
rounds from zero. -/
def policyIterationSolved (S : Solver) (env : Environment) (dir : OptimizationDirection)
    (x b : List ℚ) (k : Nat) : List ℚ :=
  (solveInducedEquationSystem S (policyIterationStateAt S env dir x b k).scheduler
    (policyIterationStateAt S env dir x b k).x b).2

/-- Whether the improvement scan of round `k` of policy iteration changes the scheduler. -/
def policyIterationImproved (S : Solver) (env : Environment) (dir : OptimizationDirection)
    (x b : List ℚ) (k : Nat) : Bool :=
  (improveScheduler S dir b (policyIterationStateAt S env dir x b k).scheduler
    (policyIterationSolved S env dir x b k)).schedulerImproved

/-- Number of deterministic schedulers: the product over the row groups of their numbers of
rows. -/
def schedulerCount (A : SparseMatrix) : Nat :=
  ((List.range A.getRowGroupCount).map
    (fun g => A.rowGroupIndex (g + 1) - A.rowGroupIndex g)).prod

/-! ## Value iteration -/

/-- The vectors that the iterations work on: the in/out vector `x` of the caller and the two
auxiliary row-group vectors of the solver. -/
inductive Buf where
  | x
  | aux
  | aux2
  deriving DecidableEq, Repr

/-- Contents of the three vectors. -/
structure Buffers where
  x : List ℚ
  aux : List ℚ
  aux2 : List ℚ
  deriving Repr

namespace Buffers

/-- Content of the vector a pointer refers to. -/
def get (bufs : Buffers) : Buf → List ℚ
  | Buf.x => bufs.x
  | Buf.aux => bufs.aux
  | Buf.aux2 => bufs.aux2

/-- Assignment through a pointer. -/
def set (bufs : Buffers) (p : Buf) (v : List ℚ) : Buffers :=
  match p with
  | Buf.x => { bufs with x := v }
  | Buf.aux => { bufs with aux := v }
  | Buf.aux2 => { bufs with aux2 := v }

/-- Exchange of the contents of two vectors, `std::swap(*p, *q)`. -/
def swap (bufs : Buffers) (p q : Buf) : Buffers :=
  (bufs.set p (bufs.get q)).set q (bufs.get p)

end Buffers

/-- Variables of the loop of `performValueIteration`; `currentX` and `newX` are passed by
reference, so their final values are visible to the caller. -/
structure ValueIterationState where
  bufs : Buffers
  currentX : Buf
  newX : Buf
  iterations : Nat
  status : SolverStatus
  deriving Repr

/-- One pass through the body of the loop of `performValueIteration`. -/
def valueIterationStep (S : Solver) (env : Environment) (dir : OptimizationDirection)
    (b : List ℚ) (precision : ℚ) (relative : Bool) (guarantee : SolverGuarantee)
    (maximalNumberOfIterations : Nat) (useGaussSeidelMultiplication : Bool)
    (st : ValueIterationState) : ValueIterationState :=
  let bufs :=
    if useGaussSeidelMultiplication then
      st.bufs.set st.newX (multiplyAndReduceGaussSeidel dir S.A (st.bufs.get st.currentX) b)
    else st.bufs.set st.newX (multiplyAndReduce dir S.A (st.bufs.get st.currentX) b)
  let status :=
    if equalModuloPrecision env (bufs.get st.currentX) (bufs.get st.newX) precision relative then
      SolverStatus.Converged
    else st.status
  let iterations := st.iterations + 1
  { bufs := bufs
    currentX := st.newX
    newX := st.currentX
    iterations := iterations
    status := updateStatusIfNotConverged S status (bufs.get st.newX) iterations
      maximalNumberOfIterations guarantee }

/-- The while loop of `performValueIteration`. -/
def valueIterationLoop (S : Solver) (env : Environment) (dir : OptimizationDirection)
    (b : List ℚ) (precision : ℚ) (relative : Bool) (guarantee : SolverGuarantee)
    (maximalNumberOfIterations : Nat) (useGaussSeidelMultiplication : Bool) :
    Nat → ValueIterationState → ValueIterationState
  | 0, st => st
  | fuel + 1, st =>
    if st.status = SolverStatus.InProgress then
      valueIterationLoop S env dir b precision relative guarantee maximalNumberOfIterations
        useGaussSeidelMultiplication fuel
        (valueIterationStep S env dir b precision relative guarantee maximalNumberOfIterations
          useGaussSeidelMultiplication st)
    else st

/-- The routine `performValueIteration`.  The loop ends at the latest when the iteration counter
reaches the budget, after at most `max 1 (maximalNumberOfIterations - currentIterations)`
passes.  The result is the final state: its pointers are what the caller sees in `currentX` and
`newX`, and the reported number of iterations is `iterations - currentIterations`. -/
def performValueIteration (S : Solver) (env : Environment) (dir : OptimizationDirection)
    (bufs : Buffers) (currentX newX : Buf) (b : List ℚ) (precision : ℚ) (relative : Bool)
    (guarantee : SolverGuarantee) (currentIterations maximalNumberOfIterations : Nat)
    (multiplicationStyle : MultiplicationStyle) : ValueIterationState :=
  let useGaussSeidelMultiplication :=
    S.supportsGaussSeidelMultiplication && multiplicationStyle = MultiplicationStyle.GaussSeidel
  let originalX := currentX
  let st := valueIterationLoop S env dir b precision relative guarantee
    maximalNumberOfIterations useGaussSeidelMultiplication
    (max 1 (maximalNumberOfIterations - currentIterations))
    { bufs := bufs, currentX := currentX, newX := newX, iterations := currentIterations,
      status := SolverStatus.InProgress }
  if originalX = st.newX then { st with currentX := st.newX, newX := st.currentX } else st

/-- Start of `solveEquationsValueIteration`: the guarantee and the vector from which the
iteration starts; `none` when the bound that a bounds routine is to copy is missing. -/
def valueIterationStart (S : Solver) (dir : OptimizationDirection) (x b : List ℚ) :
    Option (SolverGuarantee × List ℚ) :=
  match S.initialScheduler with
  | some scheduler =>
    some (if dir = OptimizationDirection.Maximize then SolverGuarantee.LessOrEqual
          else SolverGuarantee.GreaterOrEqual,
          (solveInducedEquationSystem S scheduler x b).2)
  | none =>
    if !S.uniqueSolution then
      if dir = OptimizationDirection.Maximize then
        (createBoundsVector S.lowerBound x.length).map (fun v => (SolverGuarantee.LessOrEqual, v))
      else
        (createBoundsVector S.upperBound x.length).map
          (fun v => (SolverGuarantee.GreaterOrEqual, v))
    else
      match S.terminationCondition with
      | some tc =>
        if tc.requiresGuarantee SolverGuarantee.LessOrEqual && S.hasLowerBound then
          (createBoundsVector S.lowerBound x.length).map
            (fun v => (SolverGuarantee.LessOrEqual, v))
        else if tc.requiresGuarantee SolverGuarantee.GreaterOrEqual && S.hasUpperBound then
          (createBoundsVector S.upperBound x.length).map
            (fun v => (SolverGuarantee.GreaterOrEqual, v))
        else some (SolverGuarantee.None, x)
      | none => some (SolverGuarantee.None, x)

/-- Modelled from the spec: the way `solveEquationsValueIteration` and
`solveEquationsSoundValueIteration` end when a bound that their start needs is missing.  That
case is decided in `createLowerBoundsVector` and `createUpperBoundsVector` of
`AbstractEquationSolver`, which are not part of the sources at hand; by the spec, a solution
method whose requirement is unmet refuses to run and fails with the unmet-requirement error. -/
@[simp]
def missingBoundOutcome : Outcome := Outcome.raised SolverException.UnmetRequirementException

/-- The method `solveEquationsValueIteration`.  The auxiliary row-group vector is created with
one zero entry per row group. -/
def solveEquationsValueIteration (S : Solver) (env : Environment) (dir : OptimizationDirection)
    (x b : List ℚ) : SolveResult :=
  match valueIterationStart S dir x b with
  | none => { outcome := missingBoundOutcome, x := x, schedulerChoices := none }
  | some (guarantee, x0) =>
    let bufs : Buffers := { x := x0, aux := List.replicate S.A.getRowGroupCount 0, aux2 := [] }
    let st := performValueIteration S env dir bufs Buf.x Buf.aux b env.precision
      env.relativeTerminationCriterion guarantee 0 env.maximalNumberOfIterations
      env.multiplicationStyle
    let bufs := if st.currentX = Buf.aux then st.bufs.swap Buf.x st.currentX else st.bufs
    match reportStatus st.status with
    | some e => { outcome := Outcome.raised e, x := bufs.x, schedulerChoices := none }
    | none =>
      { outcome := Outcome.returned
          (st.status = SolverStatus.Converged || st.status = SolverStatus.TerminatedEarly)
        x := bufs.x
        schedulerChoices :=
          if S.trackScheduler then some (multiplyAndReduceChoices dir S.A bufs.x b) else none }

/-! ## Sound value iteration -/

/-- The routine `preserveOldRelevantValues`: the values at the relevant positions, in order. -/
def preserveOldRelevantValues (allValues : List ℚ) (relevantValues : List Nat) : List ℚ :=
  relevantValues.map (fun position => allValues.getD position 0)

/-- The overload `computeMaxAbsDiff(allValues, relevantValues, oldValues)`; the iterator into
`oldValues` is created at the first old value and is not advanced in the loop. -/
def computeMaxAbsDiff (allValues : List ℚ) (relevantValues : List Nat) (oldValues : List ℚ) : ℚ :=
  relevantValues.foldl
    (fun result value => max result |allValues.getD value 0 - oldValues.getD 0 0|) 0

/-- The overload `computeMaxAbsDiff(allOldValues, allNewValues, relevantValues)`. -/
def computeMaxAbsDiffVectors (allOldValues allNewValues : List ℚ) (relevantValues : List Nat) :
    ℚ :=
  relevantValues.foldl
    (fun result value => max result |allNewValues.getD value 0 - allOldValues.getD value 0|) 0

/-- Variables of the loop of `solveEquationsSoundValueIteration`; `tmp` is the null pointer under
Gauss-Seidel multiplication. -/
structure SoundState where
  bufs : Buffers
  lowerX : Buf
  upperX : Buf
  tmp : Option Buf
  iterations : Nat
  status : SolverStatus
  doConvergenceCheck : Bool
  maxLowerDiff : ℚ
  maxUpperDiff : ℚ
  oldValues : List ℚ
  deriving Repr

/-- Update of the lower bound: in place under Gauss-Seidel multiplication, otherwise into `*tmp`
followed by the exchange of the pointers `lowerX` and `tmp`. -/
def soundLowerStep (S : Solver) (dir : OptimizationDirection) (b : List ℚ)
    (useGaussSeidelMultiplication useDiffs : Bool) (st : SoundState) : SoundState :=
  let relevant := S.relevantValues.getD []
  if useGaussSeidelMultiplication then
    let oldValues :=
      if useDiffs then preserveOldRelevantValues (st.bufs.get st.lowerX) relevant
      else st.oldValues
    let bufs := st.bufs.set st.lowerX
      (multiplyAndReduceGaussSeidel dir S.A (st.bufs.get st.lowerX) b)
    { st with
      bufs := bufs
      oldValues := oldValues
      maxLowerDiff :=
        if useDiffs then computeMaxAbsDiff (bufs.get st.lowerX) relevant oldValues
        else st.maxLowerDiff }
  else
    match st.tmp with
    | none => st
    | some tmp =>
      let bufs := st.bufs.set tmp (multiplyAndReduce dir S.A (st.bufs.get st.lowerX) b)
      { st with
        bufs := bufs
        maxLowerDiff :=
          if useDiffs then computeMaxAbsDiffVectors (bufs.get st.lowerX) (bufs.get tmp) relevant
          else st.maxLowerDiff
        lowerX := tmp
        tmp := some st.lowerX }

/-- Update of the upper bound, the mirror image of the update of the lower bound. -/
def soundUpperStep (S : Solver) (dir : OptimizationDirection) (b : List ℚ)
    (useGaussSeidelMultiplication useDiffs : Bool) (st : SoundState) : SoundState :=
  let relevant := S.relevantValues.getD []
  if useGaussSeidelMultiplication then
    let oldValues :=
      if useDiffs then preserveOldRelevantValues (st.bufs.get st.upperX) relevant
      else st.oldValues
    let bufs := st.bufs.set st.upperX
      (multiplyAndReduceGaussSeidel dir S.A (st.bufs.get st.upperX) b)
    { st with
      bufs := bufs
      oldValues := oldValues
      maxUpperDiff :=
        if useDiffs then computeMaxAbsDiff (bufs.get st.upperX) relevant oldValues
        else st.maxUpperDiff }
  else
    match st.tmp with
    | none => st
    | some tmp =>
      let bufs := st.bufs.set tmp (multiplyAndReduce dir S.A (st.bufs.get st.upperX) b)
      { st with
        bufs := bufs
        maxUpperDiff :=
          if useDiffs then computeMaxAbsDiffVectors (bufs.get st.upperX) (bufs.get tmp) relevant
          else st.maxUpperDiff
        upperX := tmp
        tmp := some st.upperX }

/-- The updates of one pass: both bounds in every thousandth iteration and whenever the two last
improvements are equal, otherwise the bound with the greater last improvement.  The result also
tells which of the two steps were taken. -/
def soundBoundsStep (S : Solver) (dir : OptimizationDirection) (b : List ℚ)
    (useGaussSeidelMultiplication useDiffs : Bool) (st : SoundState) : SoundState × Bool × Bool :=
  if st.iterations % 1000 = 0 ∨ st.maxLowerDiff = st.maxUpperDiff then
    (soundUpperStep S dir b useGaussSeidelMultiplication useDiffs
      (soundLowerStep S dir b useGaussSeidelMultiplication useDiffs st), true, true)
  else if st.maxLowerDiff ≥ st.maxUpperDiff then
    (soundLowerStep S dir b useGaussSeidelMultiplication useDiffs st, true, false)
  else (soundUpperStep S dir b useGaussSeidelMultiplication useDiffs st, false, true)

/-- One pass through the body of the loop of `solveEquationsSoundValueIteration`. -/
def soundStep (S : Solver) (env : Environment) (dir : OptimizationDirection) (b : List ℚ)
    (precision : ℚ) (relative useGaussSeidelMultiplication useDiffs : Bool) (st : SoundState) :
    SoundState :=
  let r := soundBoundsStep S dir b useGaussSeidelMultiplication useDiffs st
  let st1 := r.1
  let lower := st1.bufs.get st1.lowerX
  let upper := st1.bufs.get st1.upperX
  let status :=
    if st1.doConvergenceCheck then
      match S.relevantValues with
      | some relevant =>
        if equalModuloPrecisionAt env lower upper relevant precision relative then
          SolverStatus.Converged
        else st1.status
      | none =>
        if equalModuloPrecision env lower upper precision relative then SolverStatus.Converged
        else st1.status
    else st1.status
  let iterations := st1.iterations + 1
  let status :=
    if r.2.1 then
      updateStatusIfNotConverged S status lower iterations env.maximalNumberOfIterations
        SolverGuarantee.LessOrEqual
    else status
  let status :=
    if r.2.2 then
      updateStatusIfNotConverged S status upper iterations env.maximalNumberOfIterations
        SolverGuarantee.GreaterOrEqual
    else status
  { st1 with
    iterations := iterations
    doConvergenceCheck := !st1.doConvergenceCheck
    status := status }

/-- The while loop of `solveEquationsSoundValueIteration`. -/
def soundLoop (S : Solver) (env : Environment) (dir : OptimizationDirection) (b : List ℚ)
    (precision : ℚ) (relative useGaussSeidelMultiplication useDiffs : Bool) :
    Nat → SoundState → SoundState
  | 0, st => st
  | fuel + 1, st =>
    if st.status = SolverStatus.InProgress ∧ st.iterations < env.maximalNumberOfIterations then
      soundLoop S env dir b precision relative useGaussSeidelMultiplication useDiffs fuel
        (soundStep S env dir b precision relative useGaussSeidelMultiplication useDiffs st)
    else st

/-- The flag `useGaussSeidelMultiplication` of the sound iteration. -/
def soundUsesGaussSeidel (S : Solver) (env : Environment) : Bool :=
  S.supportsGaussSeidelMultiplication &&
    env.multiplicationStyle = MultiplicationStyle.GaussSeidel

/-- The termination threshold of the sound iteration: twice the precision under the absolute
criterion. -/
def soundPrecision (env : Environment) : ℚ :=
  if !env.relativeTerminationCriterion then env.precision * 2 else env.precision

/-- State in which the loop of the sound iteration starts, given the lower and the upper bounds
vector. -/
def soundInitialState (S : Solver) (env : Environment) (lower upper : List ℚ) : SoundState :=
  let useGaussSeidelMultiplication := soundUsesGaussSeidel S env
  { bufs :=
      { x := lower
        aux := upper
        aux2 := if useGaussSeidelMultiplication then [] else List.replicate lower.length 0 }
    lowerX := Buf.x
    upperX := Buf.aux
    tmp := if useGaussSeidelMultiplication then none else some Buf.aux2
    iterations := 0
    status := SolverStatus.InProgress
    doConvergenceCheck := true
    maxLowerDiff := 0
    maxUpperDiff := 0
    oldValues :=
      if useGaussSeidelMultiplication && S.relevantValues.isSome then
        List.replicate (S.relevantValues.getD []).length 0
      else [] }

/-- State in which the loop of the sound iteration ends.  The iteration counter grows by one in
every pass and the loop stops when it reaches the budget, so the loop makes at most
`maximalNumberOfIterations` passes. -/
def soundValueIterationRun (S : Solver) (env : Environment) (dir : OptimizationDirection)
    (b : List ℚ) (lower upper : List ℚ) : SoundState :=
  soundLoop S env dir b (soundPrecision env) env.relativeTerminationCriterion
    (soundUsesGaussSeidel S env) S.relevantValues.isSome env.maximalNumberOfIterations
    (soundInitialState S env lower upper)

/-- End of `solveEquationsSoundValueIteration`: the mean of the bounds is stored in `*lowerX`,
then the result is to be written to `x`: the content of `x` is exchanged with `*tmp` when `tmp`
is the address of `x`, else with the auxiliary vector when that is the address of `x`. -/
def soundWriteBack (st : SoundState) : Buffers :=
  let bufs := st.bufs.set st.lowerX
    (List.zipWith (fun a b => (a + b) / 2) (st.bufs.get st.lowerX) (st.bufs.get st.upperX))
  if some Buf.x = st.tmp then bufs.swap Buf.x Buf.x
  else if Buf.x = Buf.aux then bufs.swap Buf.x Buf.aux
  else bufs

/-- The method `solveEquationsSoundValueIteration`.  The method checks the upper bound itself
before anything else.  The bounds vectors are then created by `createLowerBoundsVector` and
`createUpperBoundsVector`, the routines that `solveEquationsValueIteration` calls; a bound that
is missing there ends the method as it ends value iteration, with `missingBoundOutcome` and `x`
as it was passed in. -/
def solveEquationsSoundValueIteration (S : Solver) (env : Environment)
    (dir : OptimizationDirection) (x b : List ℚ) : SolveResult :=
  if !S.hasUpperBound then
    { outcome := Outcome.raised SolverException.UnmetRequirementException, x := x,
      schedulerChoices := none }
  else
    match createBoundsVector S.lowerBound x.length,
      createBoundsVector S.upperBound S.A.getRowGroupCount with
    | some lower, some upper =>
      let st := soundValueIterationRun S env dir b lower upper
      match reportStatus st.status with
      | some e => { outcome := Outcome.raised e, x := st.bufs.x, schedulerChoices := none }
      | none =>
        let bufs := soundWriteBack st
        { outcome := Outcome.returned (st.status = SolverStatus.Converged)
          x := bufs.x
          schedulerChoices :=
            if S.trackScheduler then some (multiplyAndReduceChoices dir S.A bufs.x b) else none }
    | _, _ => { outcome := missingBoundOutcome, x := x, schedulerChoices := none }

/-! ## Rational search -/

/-- Loop of `sharpen` over the digit precisions `p, p + 1, ...` with `k` precisions left.
`kmSharpen p x` stands for `storm::utility::kwek_mehlhorn::sharpen(p, x, tmp)` (external): it
yields the new content of `tmp`, or `none` when it raises `PrecisionExceededException`.  The
result is the returned boolean with the final content of `tmp`, or `none` for the exception. -/
def sharpenFrom {I : Type} (kmSharpen : Nat → List I → Option (List ℚ))
    (dir : OptimizationDirection) (A : SparseMatrix) (x : List I) (b : List ℚ) :
    Nat → Nat → List ℚ → Option (Bool × List ℚ)
  | 0, _, tmp => some (false, tmp)
  | k + 1, p, _ =>
    match kmSharpen p x with
    | none => none
    | some tmp' =>
      if isSolution dir A tmp' b then some (true, tmp')
      else sharpenFrom kmSharpen dir A x b k (p + 1) tmp'

/-- The routine `sharpen(dir, precision, A, x, b, tmp)`: tries the digit precisions
`0, ..., precision`. -/
def sharpen {I : Type} (kmSharpen : Nat → List I → Option (List ℚ))
    (dir : OptimizationDirection) (precision : Nat) (A : SparseMatrix) (x : List I) (b : List ℚ)
    (tmp : List ℚ) : Option (Bool × List ℚ) :=
  sharpenFrom kmSharpen dir A x b (precision + 1) 0 tmp

/-- Modelled from the spec: the maximal digit precision `ceil(log10(1 / precision))` up to which a
round sharpens (the rounding and logarithm routines are not part of the sources at hand): the
least `p` with `1 / precision ≤ 10 ^ p`. -/
def sharpenDigits (precision : ℚ) : Nat := Nat.clog 10 ⌈1 / precision⌉₊

/-- Imprecise vectors of the core routine when the imprecise type differs from the rational one:
the vectors `x` and `tmpX`, and whether `currentX` points to `x` (and `newX` to `tmpX`) or the
other way round. -/
structure ImpreciseVectors (I : Type) where
  x : List I
  tmpX : List I
  currentIsX : Bool

/-- Content of `*currentX`. -/
def ImpreciseVectors.current {I : Type} (v : ImpreciseVectors I) : List I :=
  if v.currentIsX then v.x else v.tmpX

/-- Variables of the loop of the core routine `solveEquationsRationalSearchHelper` when the
imprecise type differs from the rational one. -/
structure RationalSearchState (I : Type) where
  vectors : ImpreciseVectors I
  rationalX : List ℚ
  precision : ℚ
  overallIterations : Nat
  status : SolverStatus

/-- The while loop of the core routine for an imprecise type other than the rational one.
`impreciseIteration precision currentIterations vectors` stands for the call
`impreciseSolver.performValueIteration(...)`, which runs in the arithmetic of the imprecise type:
it yields the vectors and pointers it leaves and the number of iterations it reports.  Here
`TemporaryHelper::getTemporary` is `&rationalX` and `TemporaryHelper::swapSolutions` does
nothing.  The result is `none` when sharpening raises. -/
def rationalSearchLoop {I : Type}
    (impreciseIteration : ℚ → Nat → ImpreciseVectors I → ImpreciseVectors I × Nat)
    (kmSharpen : Nat → List I → Option (List ℚ)) (env : Environment)
    (dir : OptimizationDirection) (rationalA : SparseMatrix) (rationalB : List ℚ) :
    Nat → RationalSearchState I → Option (RationalSearchState I)
  | 0, st => some st
  | fuel + 1, st =>
    if st.status = SolverStatus.InProgress ∧
        st.overallIterations < env.maximalNumberOfIterations then
      let result := impreciseIteration st.precision st.overallIterations st.vectors
      let overallIterations := st.overallIterations + result.2
      let p := sharpenDigits st.precision
      match sharpen kmSharpen dir p rationalA result.1.current rationalB st.rationalX with
      | none => none
      | some (foundSolution, rationalX) =>
        rationalSearchLoop impreciseIteration kmSharpen env dir rationalA rationalB fuel
          { vectors := result.1
            rationalX := rationalX
            precision := if foundSolution then st.precision else st.precision / 10
            overallIterations := overallIterations
            status := if foundSolution then SolverStatus.Converged else st.status }
    else some st

/-- End of the core routine: a search that is still in progress with the budget used up has
exceeded the maximal number of iterations. -/
def rationalSearchFinalStatus (env : Environment) (status : SolverStatus)
    (overallIterations : Nat) : SolverStatus :=
  if status = SolverStatus.InProgress ∧ overallIterations = env.maximalNumberOfIterations then
    SolverStatus.MaximalIterationsExceeded
  else status

/-- Result of the core rational search: the outcome and the content of `rationalX`. -/
structure RationalSearchResult where
  outcome : Outcome
  rationalX : List ℚ

/-- The core routine `solveEquationsRationalSearchHelper(env, dir, impreciseSolver, rationalA,
rationalX, rationalB, A, x, b, tmpX)` for an imprecise type other than the rational one.  Every
call of the imprecise iteration performs at least one iteration, so the loop makes at most
`maximalNumberOfIterations` passes. -/
def solveEquationsRationalSearchHelper {I : Type}
    (impreciseIteration : ℚ → Nat → ImpreciseVectors I → ImpreciseVectors I × Nat)
    (kmSharpen : Nat → List I → Option (List ℚ)) (env : Environment)
    (dir : OptimizationDirection) (rationalA : SparseMatrix) (rationalX rationalB : List ℚ)
    (x tmpX : List I) : RationalSearchResult :=
  match rationalSearchLoop impreciseIteration kmSharpen env dir rationalA rationalB
      env.maximalNumberOfIterations
      { vectors := { x := x, tmpX := tmpX, currentIsX := true }
        rationalX := rationalX
        precision := env.precision
        overallIterations := 0
        status := SolverStatus.InProgress } with
  | none =>
    { outcome := Outcome.raised SolverException.PrecisionExceededException,
      rationalX := rationalX }
  | some st =>
    let status := rationalSearchFinalStatus env st.status st.overallIterations
    match reportStatus status with
    | some e => { outcome := Outcome.raised e, rationalX := st.rationalX }
    | none =>
      { outcome := Outcome.returned
          (status = SolverStatus.Converged || status = SolverStatus.TerminatedEarly)
        rationalX := st.rationalX }

/-- Variables of the loop of the core routine when the rational type also serves as the
imprecise type.  The routine is called with `rationalX` and `tmpX` both bound to the caller's
vector (`Buf.x`) and the imprecise `x` bound to the auxiliary row-group vector (`Buf.aux`). -/
structure ExactSearchState where
  bufs : Buffers
  currentX : Buf
  newX : Buf
  precision : ℚ
  overallIterations : Nat
  status : SolverStatus
  deriving Repr

/-- The specialisation `TemporaryHelper<RationalType, RationalType>::swapSolutions`, with
`rationalX` at `Buf.x` and the imprecise `x` at `Buf.aux`. -/
def swapSolutions (bufs : Buffers) (rationalSolution currentX : Buf) : Buffers :=
  if Buf.x = rationalSolution then bufs.swap Buf.aux currentX
  else (bufs.swap Buf.x rationalSolution).swap Buf.aux currentX

/-- The while loop of the core routine when both types are the rational type; the temporary of
`TemporaryHelper<RationalType, RationalType>::getTemporary` is `newX`. -/
def exactSearchLoop (S : Solver) (kmSharpen : Nat → List ℚ → Option (List ℚ))
    (env : Environment) (dir : OptimizationDirection) (b : List ℚ) :
    Nat → ExactSearchState → Option ExactSearchState
  | 0, st => some st
  | fuel + 1, st =>
    if st.status = SolverStatus.InProgress ∧
        st.overallIterations < env.maximalNumberOfIterations then
      let result := performValueIteration S env dir st.bufs st.currentX st.newX b st.precision
        env.relativeTerminationCriterion SolverGuarantee.LessOrEqual st.overallIterations
        env.maximalNumberOfIterations env.multiplicationStyle
      let overallIterations := st.overallIterations + (result.iterations - st.overallIterations)
      let p := sharpenDigits st.precision
      let temporaryRational := result.newX
      match sharpen kmSharpen dir p S.A (result.bufs.get result.currentX) b
          (result.bufs.get temporaryRational) with
      | none => none
      | some (foundSolution, tmp) =>
        let bufs := result.bufs.set temporaryRational tmp
        exactSearchLoop S kmSharpen env dir b fuel
          { bufs := if foundSolution then swapSolutions bufs temporaryRational result.currentX
              else bufs
            currentX := result.currentX
            newX := result.newX
            precision := if foundSolution then st.precision else st.precision / 10
            overallIterations := overallIterations
            status := if foundSolution then SolverStatus.Converged else st.status }
    else some st

/-- The core routine as the exact solver calls it on itself:
`solveEquationsRationalSearchHelper(env, dir, *this, *A, x, b, *A, *auxiliaryRowGroupVector, b,
x)`, in which `tmpX` is an alias of `rationalX`. -/
def solveEquationsRationalSearchHelperExact (S : Solver)
    (kmSharpen : Nat → List ℚ → Option (List ℚ)) (env : Environment)
    (dir : OptimizationDirection) (x b auxiliaryRowGroupVector : List ℚ) :
    RationalSearchResult :=
  match exactSearchLoop S kmSharpen env dir b env.maximalNumberOfIterations
      { bufs := { x := x, aux := auxiliaryRowGroupVector, aux2 := [] }
        currentX := Buf.aux
        newX := Buf.x
        precision := env.precision
        overallIterations := 0
        status := SolverStatus.InProgress } with
  | none =>
    { outcome := Outcome.raised SolverException.PrecisionExceededException, rationalX := x }
  | some st =>
    let status := rationalSearchFinalStatus env st.status st.overallIterations
    match reportStatus status with
    | some e => { outcome := Outcome.raised e, rationalX := st.bufs.x }
    | none =>
      { outcome := Outcome.returned
          (status = SolverStatus.Converged || status = SolverStatus.TerminatedEarly)
        rationalX := st.bufs.x }

/-! ## Selection of the method and requirements -/

/-- Equality of results in the exception monad is decidable. -/
instance instDecidableEqExcept {ε α : Type} [DecidableEq ε] [DecidableEq α] :
    DecidableEq (Except ε α) := fun a b =>
  match a, b with
  | Except.ok x, Except.ok y =>
    if h : x = y then isTrue (by rw [h]) else isFalse (fun h' => h (by cases h'; rfl))
  | Except.error x, Except.error y =>
    if h : x = y then isTrue (by rw [h]) else isFalse (fun h' => h (by cases h'; rfl))
  | Except.ok _, Except.error _ => isFalse (fun h' => by cases h')
  | Except.error _, Except.ok _ => isFalse (fun h' => by cases h')

/-- Modelled from the spec: the solution methods that can be configured (the enumeration
`storm::solver::MinMaxMethod` is not part of the sources at hand). -/
inductive MinMaxMethod where
  | ValueIteration
  | SoundValueIteration
  | PolicyIteration
  | RationalSearch
  deriving DecidableEq, Repr

/-- Settings of the environment that select the solution method: `env.solver().minMax()`
`.getMethod()` and `.isMethodSetFromDefault()`, and `env.solver().isForceSoundness()`. -/
structure MethodEnvironment where
  method : MinMaxMethod
  methodSetFromDefault : Bool
  forceSoundness : Bool
  deriving DecidableEq, Repr

/-- The routine `getMethod(env, isExactMode)`: the configured method, replaced by policy
iteration in exact mode when it was not chosen explicitly and is neither policy iteration nor
rational search; a method other than value iteration, policy iteration and rational search is
rejected. -/
def getMethod (env : MethodEnvironment) (isExactMode : Bool) :
    Except SolverException MinMaxMethod :=
  let method :=
    if isExactMode ∧ env.method ≠ MinMaxMethod.PolicyIteration ∧
        env.method ≠ MinMaxMethod.RationalSearch then
      if env.methodSetFromDefault then MinMaxMethod.PolicyIteration else env.method
    else env.method
  if method = MinMaxMethod.ValueIteration ∨ method = MinMaxMethod.PolicyIteration ∨
      method = MinMaxMethod.RationalSearch then Except.ok method
  else Except.error SolverException.InvalidEnvironmentException

/-- Modelled from the spec: the requirement flags of a min/max solver (the class
`MinMaxLinearEquationSolverRequirements` is not part of the sources at hand): which of the four
requirements are enabled. -/
structure MinMaxLinearEquationSolverRequirements where
  noEndComponents : Bool
  validInitialScheduler : Bool
  lowerBounds : Bool
  upperBounds : Bool
  deriving DecidableEq, Repr

namespace MinMaxLinearEquationSolverRequirements

/-- The call `requireNoEndComponents()`. -/
def requireNoEndComponents (r : MinMaxLinearEquationSolverRequirements) :
    MinMaxLinearEquationSolverRequirements := { r with noEndComponents := true }

/-- The call `requireValidInitialScheduler()`. -/
def requireValidInitialScheduler (r : MinMaxLinearEquationSolverRequirements) :
    MinMaxLinearEquationSolverRequirements := { r with validInitialScheduler := true }

/-- The call `requireLowerBounds()`. -/
def requireLowerBounds (r : MinMaxLinearEquationSolverRequirements) :
    MinMaxLinearEquationSolverRequirements := { r with lowerBounds := true }

/-- The call `requireUpperBounds()`. -/
def requireUpperBounds (r : MinMaxLinearEquationSolverRequirements) :
    MinMaxLinearEquationSolverRequirements := { r with upperBounds := true }

/-- The call `requireBounds()`: both bounds. -/
def requireBounds (r : MinMaxLinearEquationSolverRequirements) :
    MinMaxLinearEquationSolverRequirements := r.requireLowerBounds.requireUpperBounds

end MinMaxLinearEquationSolverRequirements

/-- The routine `getRequirements(env, direction)`.  `isExact` is the constant
`NumberTraits<ValueType>::IsExact` of the instantiation, `linear` are the requirements of the
linear-equation solver factory, with which the result starts, and `direction` is `none` when the
caller does not know the direction. -/
def getRequirements (S : Solver) (env : MethodEnvironment) (isExact : Bool)
    (linear : MinMaxLinearEquationSolverRequirements) (direction : Option OptimizationDirection) :
    Except SolverException MinMaxLinearEquationSolverRequirements :=
  match getMethod env isExact with
  | Except.error e => Except.error e
  | Except.ok method =>
    let requirements := linear
    if method = MinMaxMethod.ValueIteration then
      if env.forceSoundness then
        let requirements :=
          if !S.uniqueSolution then requirements.requireNoEndComponents else requirements
        Except.ok requirements.requireBounds
      else if !S.uniqueSolution then
        if S.trackScheduler then Except.ok requirements.requireNoEndComponents
        else
          let requirements :=
            if direction = none ∨ direction = some OptimizationDirection.Maximize then
              requirements.requireLowerBounds
            else requirements
          let requirements :=
            if direction = none ∨ direction = some OptimizationDirection.Minimize then
              requirements.requireUpperBounds
            else requirements
          Except.ok requirements
      else Except.ok requirements
    else if method = MinMaxMethod.RationalSearch then
      let requirements := requirements.requireLowerBounds
      if !S.uniqueSolution ∧ (direction = none ∨
          direction = some OptimizationDirection.Minimize ∨ S.trackScheduler) then
        Except.ok requirements.requireNoEndComponents
      else Except.ok requirements
    else if method = MinMaxMethod.PolicyIteration then
      if !S.uniqueSolution then Except.ok requirements.requireValidInitialScheduler
      else Except.ok requirements
    else Except.error SolverException.InvalidEnvironmentException

/-- What `IterativeMinMaxLinearEquationSolverFactory::create` leaves behind: a new solver, of
which the flag `requirementsChecked` is recorded, or an exception, or a failed assertion. -/
inductive Created where
  | solver (requirementsChecked : Bool)
  | raised (e : SolverException)
  | assertionFailed
  deriving DecidableEq, Repr

/-- The factory routine `create(env)`.  `linearEquationSolverFactory` tells whether the factory
holds a linear-equation solver factory and `requirementsChecked` is the flag of the factory. -/
def create (linearEquationSolverFactory requirementsChecked : Bool) (env : MethodEnvironment) :
    Created :=
  if !linearEquationSolverFactory then Created.assertionFailed
  else if env.method = MinMaxMethod.ValueIteration ∨ env.method = MinMaxMethod.PolicyIteration ∨
      env.method = MinMaxMethod.RationalSearch then Created.solver requirementsChecked
  else Created.raised SolverException.InvalidEnvironmentException

/-! ## Final status of the methods -/

/-- Status with which the iteration of `solveEquationsValueIteration` ends, the `result.status`
of the method; `none` when the method refuses to run for want of a bound. -/
def valueIterationStatus (S : Solver) (env : Environment) (dir : OptimizationDirection)
    (x b : List ℚ) : Option SolverStatus :=
  (valueIterationStart S dir x b).map (fun start =>
    (performValueIteration S env dir
      { x := start.2, aux := List.replicate S.A.getRowGroupCount 0, aux2 := [] }
      Buf.x Buf.aux b env.precision env.relativeTerminationCriterion start.1 0
      env.maximalNumberOfIterations env.multiplicationStyle).status)

/-- Status with which the loop of `solveEquationsSoundValueIteration` ends; `none` when a bounds
vector cannot be created. -/
def soundValueIterationStatus (S : Solver) (env : Environment) (dir : OptimizationDirection)
    (x b : List ℚ) : Option SolverStatus :=
  match createBoundsVector S.lowerBound x.length,
    createBoundsVector S.upperBound S.A.getRowGroupCount with
  | some lower, some upper => some (soundValueIterationRun S env dir b lower upper).status
  | _, _ => none

/-- Status that the core rational search reports for an imprecise type other than the rational
one; `none` when sharpening raises. -/
def rationalSearchStatus {I : Type}
    (impreciseIteration : ℚ → Nat → ImpreciseVectors I → ImpreciseVectors I × Nat)
    (kmSharpen : Nat → List I → Option (List ℚ)) (env : Environment)
    (dir : OptimizationDirection) (rationalA : SparseMatrix) (rationalX rationalB : List ℚ)
    (x tmpX : List I) : Option SolverStatus :=
  (rationalSearchLoop impreciseIteration kmSharpen env dir rationalA rationalB
      env.maximalNumberOfIterations
      { vectors := { x := x, tmpX := tmpX, currentIsX := true }
        rationalX := rationalX
        precision := env.precision
        overallIterations := 0
        status := SolverStatus.InProgress }).map
    (fun st => rationalSearchFinalStatus env st.status st.overallIterations)

/-- Status that the core rational search reports when the exact solver calls it on itself;
`none` when sharpening raises. -/
def rationalSearchExactStatus (S : Solver) (kmSharpen : Nat → List ℚ → Option (List ℚ))
    (env : Environment) (dir : OptimizationDirection) (x b auxiliaryRowGroupVector : List ℚ) :
    Option SolverStatus :=
  (exactSearchLoop S kmSharpen env dir b env.maximalNumberOfIterations
      { bufs := { x := x, aux := auxiliaryRowGroupVector, aux2 := [] }
        currentX := Buf.aux
        newX := Buf.x
        precision := env.precision
        overallIterations := 0
        status := SolverStatus.InProgress }).map
    (fun st => rationalSearchFinalStatus env st.status st.overallIterations)

/-! ## The long-run average helper: data -/

/-- Ways in which a routine of `SparseNondeterministicInfiniteHorizonHelper` ends without a
result: one of the exceptions it raises, `std::bad_function_call` for a call of an empty
`std::function`, `std::out_of_range` for a failed `std::map::at`, a failed `STORM_LOG_ASSERT`,
or behaviour that the language leaves undefined. -/
inductive HelperFailure where
  | InvalidOperationException
  | NotImplementedException
  | InvalidSettingsException
  | UnmetRequirementException
  | BadFunctionCall
  | OutOfRange
  | AssertionFailed
  | UndefinedBehaviour
  deriving DecidableEq, Repr

/-- Modelled from the spec: a maximal end component (`storm::storage::MaximalEndComponent` is not
part of the sources at hand), its states in ascending order, each with its allowed choices in
ascending order as global row indices. -/
abbrev MaximalEndComponent := List (Nat × List Nat)

/-- The test `mec.containsState(state)`. -/
def containsState (mec : MaximalEndComponent) (state : Nat) : Bool :=
  mec.any (fun stateChoicesPair => stateChoicesPair.1 = state)

/-- The choices `mec.getChoicesForState(state)`. -/
def getChoicesForState (mec : MaximalEndComponent) (state : Nat) : List Nat :=
  match mec.find? (fun stateChoicesPair => stateChoicesPair.1 = state) with
  | some stateChoicesPair => stateChoicesPair.2
  | none => []

/-- Modelled from the spec: the methods for the long-run average of an end component
(`storm::solver::LraMethod` is not part of the sources at hand); `Other` stands for every further
method of the enumeration. -/
inductive LraMethod where
  | LinearProgramming
  | ValueIteration
  | Other
  deriving DecidableEq, Repr

/-- Settings of the environment that the helper reads or changes: those of `env.solver().lra()`,
the flags `isForceSoundness()` and `isForceExact()` of `env.solver()`, and the precisions of the
min/max and the linear-equation solvers. -/
structure LraEnvironment where
  nondetLraMethod : LraMethod
  nondetLraMethodSetFromDefault : Bool
  forceSoundness : Bool
  forceExact : Bool
  precision : ℚ
  relativeTerminationCriterion : Bool
  aperiodicFactor : ℚ
  minMaxPrecision : ℚ
  minMaxRelativeTerminationCriterion : Bool
  linearEquationSolverPrecision : ℚ
  linearEquationSolverRelative : Bool

/-- A constraint of the linear program of `computeLraForMecLp`, named by its state and choice:
`x_state ≤ R` when `lessOrEqual` holds and `x_state ≥ R` otherwise, where `R` is
`kCoefficient * k` plus the sum of `p * x_s` over the pairs `(s, p)` of `successors` plus
`constant`. -/
structure LpConstraint where
  state : Nat
  choice : Nat
  kCoefficient : ℚ
  successors : List (Nat × ℚ)
  constant : ℚ
  lessOrEqual : Bool
  deriving DecidableEq, Repr

/-- Members of a `SparseNondeterministicInfiniteHorizonHelper` and the routines outside of it
that it calls.  `markovianStatesAndExitRates` holds the bit vector of Markovian states and the
exit rates, which the constructor sets together or not at all.  `mecDecomposition` is the
decomposition that was provided or computed (the decomposition algorithm is external).
`isExact` is the constant `NumberTraits<ValueType>::IsExact`.  `lraVi` stands for
`LraViHelper::performValueIteration`, called with the pointer to the produced choices if there is
one; it yields the value and the new content of the choices.  `lpOptimize dir variables
constraints` stands for the run of the LP solver and yields the value of `k`.
`sspRequirementsCritical` tells whether the requirements of the min/max solver factory still
hold an enabled critical requirement after the bounds are cleared.  `minMaxSolve env dir matrix
x rhs lower upper trackScheduler` stands for the min/max solver that the general factory creates
and its `solveEquations`; it yields the new content of `x` and the scheduler choices, if the
solver has a scheduler. -/
structure SparseNondeterministicInfiniteHorizonHelper where
  transitionMatrix : SparseMatrix
  backwardTransitions : Option SparseMatrix
  mecDecomposition : List MaximalEndComponent
  markovianStatesAndExitRates : Option (List Bool × List ℚ)
  optimizationDirection : OptimizationDirection
  produceScheduler : Bool
  isExact : Bool
  lraVi : LraEnvironment → MaximalEndComponent → Option (Nat → ℚ) → Option (Nat → ℚ) →
    Option (List Nat) → Except HelperFailure (ℚ × List Nat)
  lpOptimize : OptimizationDirection → List Nat → List LpConstraint → ℚ
  sspRequirementsCritical : LraEnvironment → Bool
  minMaxSolve : LraEnvironment → OptimizationDirection → SparseMatrix → List ℚ → List ℚ → ℚ → ℚ →
    Bool → List ℚ × Option (List Nat)

/-- Call of a `std::function`: an empty one raises `std::bad_function_call`. -/
def callGetter (getter : Option (Nat → ℚ)) (index : Nat) : Except HelperFailure ℚ :=
  match getter with
  | some f => Except.ok (f index)
  | none => Except.error HelperFailure.BadFunctionCall

/-- Assignment `_producedOptimalChoices.get()[state] = value`; access to choices that were never
allocated fails the assertion of the optional. -/
def setProducedChoice (choices : Option (List Nat)) (state value : Nat) :
    Except HelperFailure (Option (List Nat)) :=
  match choices with
  | some cs => Except.ok (some (cs.set state value))
  | none => Except.error HelperFailure.AssertionFailed

/-- The predicate `isContinuousTime()`. -/
def isContinuousTime (H : SparseNondeterministicInfiniteHorizonHelper) : Bool :=
  H.markovianStatesAndExitRates.isSome

/-- The optimization direction `invert(dir)`. -/
def invert (dir : OptimizationDirection) : OptimizationDirection :=
  match dir with
  | OptimizationDirection.Minimize => OptimizationDirection.Maximize
  | OptimizationDirection.Maximize => OptimizationDirection.Minimize

/-! ## The long-run average of one end component -/

/-- The constraint that `computeLraForMecLp` adds for a choice of a state of the end component.
A successor outside of the end component has no variable, and an empty getter cannot be
called. -/
def lpConstraint (H : SparseNondeterministicInfiniteHorizonHelper)
    (stateRewardsGetter actionRewardsGetter : Option (Nat → ℚ)) (mec : MaximalEndComponent)
    (state choice : Nat) : Except HelperFailure LpConstraint :=
  let stateIsMarkovian :=
    match H.markovianStatesAndExitRates with
    | some (markovianStates, _) => markovianStates.getD state false
    | none => false
  let exitRate :=
    match H.markovianStatesAndExitRates with
    | some (_, exitRates) => exitRates.getD state 0
    | none => 0
  let matrixRow := H.transitionMatrix.getRow choice
  let kCoefficient : ℚ :=
    if stateIsMarkovian then -(1 / exitRate) else if !isContinuousTime H then -1 else 0
  if matrixRow.all (fun element => containsState mec element.1) then
    match
      (if stateIsMarkovian then
        (callGetter stateRewardsGetter state).bind (fun s =>
          (callGetter actionRewardsGetter choice).map (fun a => s / exitRate + a))
      else if !isContinuousTime H then
        (callGetter stateRewardsGetter state).bind (fun s =>
          (callGetter actionRewardsGetter choice).map (fun a => s + a))
      else callGetter actionRewardsGetter choice) with
    | Except.error e => Except.error e
    | Except.ok value =>
      Except.ok
        { state := state
          choice := choice
          kCoefficient := kCoefficient
          successors := matrixRow
          constant := value
          lessOrEqual := decide (H.optimizationDirection = OptimizationDirection.Minimize) }
  else Except.error HelperFailure.OutOfRange

/-- The routine `computeLraForMecLp`: one variable per state of the end component and the
variable `k`, one constraint per state and allowed choice; after the run of the LP solver a
requested scheduler is refused. -/
def computeLraForMecLp (H : SparseNondeterministicInfiniteHorizonHelper)
    (stateRewardsGetter actionRewardsGetter : Option (Nat → ℚ)) (mec : MaximalEndComponent) :
    Except HelperFailure ℚ :=
  match (mec.mapM (fun stateChoicesPair =>
      stateChoicesPair.2.mapM (fun choice =>
        lpConstraint H stateRewardsGetter actionRewardsGetter mec stateChoicesPair.1 choice))) with
  | Except.error e => Except.error e
  | Except.ok constraints =>
    let value := H.lpOptimize (invert H.optimizationDirection)
      (mec.map (fun stateChoicesPair => stateChoicesPair.1)) constraints.flatten
    if H.produceScheduler then Except.error HelperFailure.NotImplementedException
    else Except.ok value

/-- The routine `computeLraForMecVi`: the value iteration helper is external; it gets the
produced choices when a scheduler is requested. -/
def computeLraForMecVi (H : SparseNondeterministicInfiniteHorizonHelper) (env : LraEnvironment)
    (stateRewardsGetter actionRewardsGetter : Option (Nat → ℚ)) (mec : MaximalEndComponent)
    (choices : Option (List Nat)) : Except HelperFailure (ℚ × Option (List Nat)) :=
  if H.produceScheduler then
    match choices with
    | none => Except.error HelperFailure.AssertionFailed
    | some cs =>
      (H.lraVi env mec stateRewardsGetter actionRewardsGetter (some cs)).map
        (fun r => (r.1, some r.2))
  else
    (H.lraVi env mec stateRewardsGetter actionRewardsGetter none).map (fun r => (r.1, choices))

/-- The scan of `computeLraForMec` over the allowed choices of a singleton end component in
discrete time: the best value and the choice that attains it, replaced only on a strict
improvement. -/
def bestChoice (dir : OptimizationDirection) (actionRewards : Nat → ℚ) (first : Nat)
    (others : List Nat) : ℚ × Nat :=
  others.foldl (fun (best : ℚ × Nat) choice =>
    let currentValue := actionRewards choice
    if (dir = OptimizationDirection.Minimize ∧ currentValue < best.1) ∨
        (dir = OptimizationDirection.Maximize ∧ currentValue > best.1) then (currentValue, choice)
    else best) (actionRewards first, first)

/-- The routine `computeLraForMec(env, stateRewardsGetter, actionRewardsGetter, mec)`, applied
to the produced choices `choices`: the value of the end component and the new produced
choices. -/
def computeLraForMec (H : SparseNondeterministicInfiniteHorizonHelper) (env : LraEnvironment)
    (stateRewardsGetter actionRewardsGetter : Option (Nat → ℚ)) (mec : MaximalEndComponent)
    (choices : Option (List Nat)) : Except HelperFailure (ℚ × Option (List Nat)) :=
  match mec with
  | [(state, mecChoices)] =>
    match H.markovianStatesAndExitRates with
    | some (markovianStates, exitRates) =>
      if !markovianStates.getD state false then
        Except.error HelperFailure.InvalidOperationException
      else if mecChoices.length ≠ 1 then Except.error HelperFailure.AssertionFailed
      else
        match (if H.produceScheduler then setProducedChoice choices state 0
            else Except.ok choices) with
        | Except.error e => Except.error e
        | Except.ok choices =>
          match callGetter stateRewardsGetter state,
            callGetter actionRewardsGetter (mecChoices.headD 0) with
          | Except.ok stateReward, Except.ok actionReward =>
            Except.ok (stateReward + exitRates.getD state 0 * actionReward, choices)
          | Except.error e, _ => Except.error e
          | _, Except.error e => Except.error e
    | none =>
      match mecChoices with
      | [] => Except.error HelperFailure.UndefinedBehaviour
      | first :: others =>
        match actionRewardsGetter with
        | none => Except.error HelperFailure.BadFunctionCall
        | some actionRewards =>
          let best := bestChoice H.optimizationDirection actionRewards first others
          match (if H.produceScheduler then
              setProducedChoice choices state (best.2 - H.transitionMatrix.rowGroupIndex state)
            else Except.ok choices) with
          | Except.error e => Except.error e
          | Except.ok choices =>
            match callGetter stateRewardsGetter state with
            | Except.error e => Except.error e
            | Except.ok stateReward => Except.ok (best.1 + stateReward, choices)
  | _ =>
    let method := env.nondetLraMethod
    let method :=
      if (H.isExact || env.forceExact) && env.nondetLraMethodSetFromDefault &&
          decide (method ≠ LraMethod.LinearProgramming) then LraMethod.LinearProgramming
      else if env.forceSoundness && env.nondetLraMethodSetFromDefault &&
          decide (method ≠ LraMethod.ValueIteration) then LraMethod.ValueIteration
      else method
    if method = LraMethod.LinearProgramming then
      (computeLraForMecLp H stateRewardsGetter actionRewardsGetter mec).map
        (fun value => (value, choices))
    else if method = LraMethod.ValueIteration then
      computeLraForMecVi H env stateRewardsGetter actionRewardsGetter mec choices
    else Except.error HelperFailure.InvalidSettingsException

/-! ## The reduction to a stochastic shortest path problem -/

/-- The largest value of `uint64_t`, `std::numeric_limits<uint64_t>::max()`, which marks a state
that is not mapped yet, a choice that is not resolved yet, and the row of an auxiliary state that
stays in its end component. -/
def uint64Max : Nat := 2 ^ 64 - 1

/-- First loop of `buildAndSolveSsp`: the bit vector `statesInMecs` and the map that sends every
state of an end component to the index of that end component. -/
def gatherMecStates (mecDecomposition : List MaximalEndComponent) (numberOfStates : Nat) :
    List Bool × List Nat :=
  (List.range mecDecomposition.length).foldl
    (fun acc currentMecIndex =>
      (mecDecomposition.getD currentMecIndex []).foldl
        (fun acc stateChoicesPair =>
          (acc.1.set stateChoicesPair.1 true, acc.2.set stateChoicesPair.1 currentMecIndex))
        acc)
    (List.replicate numberOfStates false, List.replicate numberOfStates uint64Max)

/-- The set positions of the bit vector `~statesInMecs`, in ascending order. -/
def statesNotContainedInAnyMec (statesInMecs : List Bool) : List Nat :=
  (List.range statesInMecs.length).filter (fun state => !statesInMecs.getD state false)

/-- The set positions of the bit vector `statesInMecs`, in ascending order. -/
def statesContainedInMecs (statesInMecs : List Bool) : List Nat :=
  (List.range statesInMecs.length).filter (fun state => statesInMecs.getD state false)

/-- The state map of `buildAndSolveSsp` with the number of states that are in no end component:
these states are numbered in their order, and the index of an end component is shifted by their
number. -/
def inputToSspStateMap (mecDecomposition : List MaximalEndComponent) (numberOfStates : Nat) :
    List Nat × Nat :=
  let gathered := gatherMecStates mecDecomposition numberOfStates
  let numbered := (statesNotContainedInAnyMec gathered.1).foldl
    (fun (acc : List Nat × Nat) nonMecState => (acc.1.set nonMecState acc.2, acc.2 + 1))
    (gathered.2, 0)
  ((statesContainedInMecs gathered.1).foldl
    (fun map mecState => map.set mecState (map.getD mecState 0 + numbered.2)) numbered.1,
   numbered.2)

/-- The map `auxiliaryStateToProbabilityMap` of `addSspMatrixChoice` after the probability
`value` towards `target` is recorded: a new key is inserted in key order, the value of a key that
is present grows. -/
def accumulateProbability : List (Nat × ℚ) → Nat → ℚ → List (Nat × ℚ)
  | [], target, value => [(target, value)]
  | (key, sum) :: rest, target, value =>
    if target = key then (key, sum + value) :: rest
    else if target < key then (target, value) :: (key, sum) :: rest
    else (key, sum) :: accumulateProbability rest target value

/-- The routine `addSspMatrixChoice`: the entries that it adds to the row `currentSspChoice` of
the matrix builder, in the order in which it adds them. -/
def addSspMatrixChoice (inputMatrixChoice : Nat) (inputTransitionMatrix : SparseMatrix)
    (inputToSspStateMap : List Nat) (numberOfStatesNotInMecs : Nat) : List (Nat × ℚ) :=
  let collected := (inputTransitionMatrix.getRow inputMatrixChoice).foldl
    (fun (acc : List (Nat × ℚ) × List (Nat × ℚ)) transition =>
      if transition.2 ≠ 0 then
        let sspTransitionTarget := inputToSspStateMap.getD transition.1 0
        if sspTransitionTarget < numberOfStatesNotInMecs then
          (acc.1 ++ [(sspTransitionTarget, transition.2)], acc.2)
        else (acc.1, accumulateProbability acc.2 sspTransitionTarget transition.2)
      else acc)
    ([], [])
  collected.1 ++ collected.2

/-- What `buildAndSolveSsp` has built so far: the rows given to the matrix builder (the index
of the next row, `currentSspChoice`, is their number), the starts of its row groups, the
right-hand side and the map from exit choices of auxiliary states to the original model. -/
structure SspBuilder where
  rows : List (List (Nat × ℚ))
  rowGroupStarts : List Nat
  rhs : List ℚ
  sspMecExitChoicesToOriginalMap : List (Nat × Nat)
  deriving Repr

/-- Body of the loop of `buildAndSolveSsp` over the states that are in no end component: a new
row group with the redirected rows of all choices of the state. -/
def addNonMecState (H : SparseNondeterministicInfiniteHorizonHelper) (stateMap : List Nat)
    (numberOfStatesNotInMecs : Nat) (builder : SspBuilder) (nonMecState : Nat) : SspBuilder :=
  (H.transitionMatrix.groupRows nonMecState).foldl
    (fun builder choice =>
      { builder with
        rows := builder.rows ++
          [addSspMatrixChoice choice H.transitionMatrix stateMap numberOfStatesNotInMecs]
        rhs := builder.rhs ++ [0] })
    { builder with rowGroupStarts := builder.rowGroupStarts ++ [builder.rows.length] }

/-- Body of the loop of `buildAndSolveSsp` over the end components: a new row group with the
redirected rows of the choices of its states that are not allowed in the end component, and a
last row without entries whose right-hand side is the value of the end component. -/
def addMecState (H : SparseNondeterministicInfiniteHorizonHelper) (stateMap : List Nat)
    (numberOfStatesNotInMecs : Nat) (mecLraValues : List ℚ) (builder : SspBuilder)
    (mecIndex : Nat) : SspBuilder :=
  let mec := H.mecDecomposition.getD mecIndex []
  let exits := mec.foldl
    (fun builder stateChoicesPair =>
      (H.transitionMatrix.groupRows stateChoicesPair.1).foldl
        (fun builder choice =>
          if !stateChoicesPair.2.contains choice then
            { builder with
              rows := builder.rows ++
                [addSspMatrixChoice choice H.transitionMatrix stateMap numberOfStatesNotInMecs]
              rhs := builder.rhs ++ [0]
              sspMecExitChoicesToOriginalMap :=
                if H.produceScheduler then
                  builder.sspMecExitChoicesToOriginalMap ++
                    [(stateChoicesPair.1,
                      choice - H.transitionMatrix.rowGroupIndex stateChoicesPair.1)]
                else builder.sspMecExitChoicesToOriginalMap }
          else builder)
        builder)
    { builder with rowGroupStarts := builder.rowGroupStarts ++ [builder.rows.length] }
  { exits with
    rows := exits.rows ++ [[]]
    rhs := exits.rhs ++ [mecLraValues.getD mecIndex 0]
    sspMecExitChoicesToOriginalMap :=
      if H.produceScheduler then
        exits.sspMecExitChoicesToOriginalMap ++ [(uint64Max, uint64Max)]
      else exits.sspMecExitChoicesToOriginalMap }

/-- The matrix builder and right-hand side of `buildAndSolveSsp` after both loops. -/
def buildSsp (H : SparseNondeterministicInfiniteHorizonHelper) (stateMap : List Nat)
    (statesInMecs : List Bool) (numberOfStatesNotInMecs : Nat) (mecLraValues : List ℚ) :
    SspBuilder :=
  (List.range H.mecDecomposition.length).foldl
    (addMecState H stateMap numberOfStatesNotInMecs mecLraValues)
    ((statesNotContainedInAnyMec statesInMecs).foldl
      (addNonMecState H stateMap numberOfStatesNotInMecs)
      { rows := [], rowGroupStarts := [], rhs := [], sspMecExitChoicesToOriginalMap := [] })

/-- The matrix that the builder yields, `sspMatrixBuilder.build(currentSspChoice, ...)`: the row
groups end at the number of rows. -/
def SspBuilder.build (builder : SspBuilder) : SparseMatrix :=
  { rows := builder.rows, rowGroupIndices := builder.rowGroupStarts ++ [builder.rows.length] }

/-- Modelled from the spec: the backward view `transpose(true)` of a transition matrix (the
matrix class is not part of the sources at hand): row `target` lists, for every row group in
ascending order and every non-zero entry of its rows that leads to `target`, the row group as
column with the value of the entry. -/
def transposeJoinGroups (m : SparseMatrix) : SparseMatrix :=
  { rows := (List.range m.getRowGroupCount).map (fun target =>
      ((List.range m.getRowGroupCount).map (fun group =>
        ((m.groupRows group).map (fun row =>
          (m.getRow row).filterMap (fun entry =>
            if entry.1 = target ∧ entry.2 ≠ 0 then some (group, entry.2)
            else none))).flatten)).flatten)
    rowGroupIndices := List.range (m.getRowGroupCount + 1) }

/-- Entries of the rows of a row group, `getRowGroup(group)`. -/
def getRowGroup (m : SparseMatrix) (group : Nat) : List (Nat × ℚ) :=
  ((m.groupRows group).map m.getRow).flatten

/-- The routine `setVectorValues(vector, positions, values)`: the set positions receive the
values in order. -/
def setVectorValues (vector : List Nat) (positions : List Nat) (values : List Nat) : List Nat :=
  (positions.foldl
    (fun (acc : List Nat × Nat) position =>
      (acc.1.set position (values.getD acc.2 0), acc.2 + 1))
    (vector, 0)).1

/-- The search of the backward search for a choice of `predecessorState` that is allowed in the
end component and has a non-zero transition to `currentState`: the first such choice. -/
def findPredChoice (H : SparseNondeterministicInfiniteHorizonHelper) (mec : MaximalEndComponent)
    (predecessorState currentState : Nat) : Option Nat :=
  (getChoicesForState mec predecessorState).find? (fun predChoice =>
    (H.transitionMatrix.getRow predChoice).any (fun forwardTransition =>
      forwardTransition.1 = currentState ∧ forwardTransition.2 ≠ 0))

/-- Body of the loop of the backward search over the backward transitions of `currentState`,
applied to the produced choices and the stack (its top is the head of the list). -/
def visitPredecessor (H : SparseNondeterministicInfiniteHorizonHelper)
    (mec : MaximalEndComponent) (currentState : Nat) (acc : List Nat × List Nat)
    (backwardsTransition : Nat × ℚ) : List Nat × List Nat :=
  let predecessorState := backwardsTransition.1
  if containsState mec predecessorState then
    if acc.1.getD predecessorState 0 = uint64Max then
      match findPredChoice H mec predecessorState currentState with
      | some predChoice =>
        (acc.1.set predecessorState
          (predChoice - H.transitionMatrix.rowGroupIndex predecessorState),
         predecessorState :: acc.2)
      | none => acc
    else acc
  else acc

/-- The backward depth-first search of `buildAndSolveSsp`: while the stack is not empty, its top
is removed and its predecessors are visited.  Every push resolves a state of the end component
that was not resolved, so the loop makes at most as many passes as the end component has
states. -/
def backwardSearch (H : SparseNondeterministicInfiniteHorizonHelper)
    (backwardTransitions : SparseMatrix) (mec : MaximalEndComponent) :
    Nat → List Nat → List Nat → List Nat
  | 0, _, choices => choices
  | fuel + 1, stack, choices =>
    match stack with
    | [] => choices
    | currentState :: stack =>
      let visited := (getRowGroup backwardTransitions currentState).foldl
        (visitPredecessor H mec currentState) (choices, stack)
      backwardSearch H backwardTransitions mec fuel visited.2 visited.1

/-- Body of the loop of `buildAndSolveSsp` that translates the choice of the solver at the
auxiliary state of an end component to the original model. -/
def stitchMec (H : SparseNondeterministicInfiniteHorizonHelper) (stateMap : List Nat)
    (numberOfStatesNotInMecs : Nat) (sspMatrix : SparseMatrix)
    (sspMecExitChoicesToOriginalMap : List (Nat × Nat)) (sspChoices : List Nat)
    (choices : List Nat) (mec : MaximalEndComponent) : List Nat :=
  let exitChoiceOffset := sspMatrix.rowGroupIndex numberOfStatesNotInMecs
  let sspState := stateMap.getD (mec.headD (0, [])).1 0
  let sspChoiceIndex := sspMatrix.rowGroupIndex sspState + sspChoices.getD sspState 0
  let originalStateChoice :=
    sspMecExitChoicesToOriginalMap.getD (sspChoiceIndex - exitChoiceOffset)
      (uint64Max, uint64Max)
  if originalStateChoice.1 = uint64Max then choices
  else
    let choices := choices.set originalStateChoice.1 originalStateChoice.2
    let choices := mec.foldl
      (fun choices stateActions =>
        if stateActions.1 ≠ originalStateChoice.1 then choices.set stateActions.1 uint64Max
        else choices)
      choices
    let backwardTransitions :=
      match H.backwardTransitions with
      | some backwardTransitions => backwardTransitions
      | none => transposeJoinGroups H.transitionMatrix
    backwardSearch H backwardTransitions mec mec.length [originalStateChoice.1] choices

/-- The routine `buildAndSolveSsp(env, mecLraValues)`, applied to the produced choices: the
result vector and the new produced choices.  An empty `mecLraValues` has no least and no
greatest element to take the bounds of the solver from. -/
def buildAndSolveSsp (H : SparseNondeterministicInfiniteHorizonHelper) (env : LraEnvironment)
    (mecLraValues : List ℚ) (choices : Option (List Nat)) :
    Except HelperFailure (List ℚ × Option (List Nat)) :=
  let numberOfStates := H.transitionMatrix.getRowGroupCount
  let statesInMecs := (gatherMecStates H.mecDecomposition numberOfStates).1
  let stateMap := (inputToSspStateMap H.mecDecomposition numberOfStates).1
  let numberOfStatesNotInMecs := (inputToSspStateMap H.mecDecomposition numberOfStates).2
  let numberOfSspStates := numberOfStatesNotInMecs + H.mecDecomposition.length
  let builder := buildSsp H stateMap statesInMecs numberOfStatesNotInMecs mecLraValues
  let sspMatrix := builder.build
  if H.sspRequirementsCritical env then Except.error HelperFailure.UnmetRequirementException
  else
    match mecLraValues.min?, mecLraValues.max? with
    | some lower, some upper =>
      let solved := H.minMaxSolve env H.optimizationDirection sspMatrix
        (List.replicate numberOfSspStates 0) builder.rhs lower upper H.produceScheduler
      let result := stateMap.map (fun sspState => solved.1.getD sspState 0)
      if H.produceScheduler then
        match solved.2 with
        | some sspChoices =>
          match choices with
          | none => Except.error HelperFailure.AssertionFailed
          | some produced =>
            let produced := setVectorValues produced (statesNotContainedInAnyMec statesInMecs)
              sspChoices
            Except.ok (result, some (H.mecDecomposition.foldl
              (stitchMec H stateMap numberOfStatesNotInMecs sspMatrix
                builder.sspMecExitChoicesToOriginalMap sspChoices) produced))
        | none => Except.ok (result, choices)
      else Except.ok (result, choices)
    | _, _ => Except.error HelperFailure.UndefinedBehaviour

/-! ## The long-run average values -/

/-- The environment that `computeLongRunAverageValues` prepares for the underlying solvers:
under forced soundness the precisions are half of the precision of the long-run average
settings. -/
def underlyingSolverEnvironment (env : LraEnvironment) : LraEnvironment :=
  if env.forceSoundness then
    { env with
      minMaxPrecision := env.precision / 2
      minMaxRelativeTerminationCriterion := env.relativeTerminationCriterion
      linearEquationSolverPrecision := env.precision / 2
      linearEquationSolverRelative := env.relativeTerminationCriterion
      precision := env.precision / 2 }
  else env

/-- The loop of `computeLongRunAverageValues` over the end components: their values in order,
and the produced choices. -/
def computeMecLraValues (H : SparseNondeterministicInfiniteHorizonHelper) (env : LraEnvironment)
    (stateRewardsGetter actionRewardsGetter : Option (Nat → ℚ)) :
    List MaximalEndComponent → List ℚ → Option (List Nat) →
      Except HelperFailure (List ℚ × Option (List Nat))
  | [], mecLraValues, choices => Except.ok (mecLraValues, choices)
  | mec :: rest, mecLraValues, choices =>
    match computeLraForMec H env stateRewardsGetter actionRewardsGetter mec choices with
    | Except.error e => Except.error e
    | Except.ok r =>
      computeMecLraValues H env stateRewardsGetter actionRewardsGetter rest
        (mecLraValues ++ [r.1]) r.2

/-- The routine `computeLongRunAverageValues(env, stateRewardsGetter, actionRewardsGetter)`,
applied to the produced choices of the helper: the values and the new produced choices.  When a
scheduler is requested the produced choices are resized to the number of states. -/
def computeLongRunAverageValues (H : SparseNondeterministicInfiniteHorizonHelper)
    (env : LraEnvironment) (stateRewardsGetter actionRewardsGetter : Option (Nat → ℚ))
    (producedOptimalChoices : Option (List Nat)) :
    Except HelperFailure (List ℚ × Option (List Nat)) :=
  let underlying := underlyingSolverEnvironment env
  let numberOfStates := H.transitionMatrix.getRowGroupCount
  let choices :=
    if H.produceScheduler then
      some (((producedOptimalChoices.getD []).take numberOfStates) ++
        List.replicate (numberOfStates - (producedOptimalChoices.getD []).length) 0)
    else producedOptimalChoices
  match computeMecLraValues H underlying stateRewardsGetter actionRewardsGetter
      H.mecDecomposition [] choices with
  | Except.error e => Except.error e
  | Except.ok r => buildAndSolveSsp H underlying r.1 r.2

/-- The routine `computeLongRunAverageValues(env, stateValues, actionValues)` for vectors that
may be absent: an absent vector counts as zero everywhere. -/
def computeLongRunAverageValuesOfVectors (H : SparseNondeterministicInfiniteHorizonHelper)
    (env : LraEnvironment) (stateValues actionValues : Option (List ℚ))
    (producedOptimalChoices : Option (List Nat)) :
    Except HelperFailure (List ℚ × Option (List Nat)) :=
  computeLongRunAverageValues H env
    (match stateValues with
      | some values => some (fun stateIndex => values.getD stateIndex 0)
      | none => some (fun _ => 0))
    (match actionValues with
      | some values => some (fun globalChoiceIndex => values.getD globalChoiceIndex 0)
      | none => some (fun _ => 0))
    producedOptimalChoices

/-- The routine `computeLongRunAverageProbabilities(env, psiStates)`. -/
def computeLongRunAverageProbabilities (H : SparseNondeterministicInfiniteHorizonHelper)
    (env : LraEnvironment) (psiStates : List Bool) (producedOptimalChoices : Option (List Nat)) :
    Except HelperFailure (List ℚ × Option (List Nat)) :=
  computeLongRunAverageValues H env
    (some (fun stateIndex => if psiStates.getD stateIndex false then 1 else 0))
    (some (fun _ => 0)) producedOptimalChoices

/-- A reward model as far as the helper reads it (`StandardRewardModel` is not part of the
sources at hand): which kinds of rewards it has, and its accessors. -/
structure StandardRewardModel where
  hasStateRewards : Bool
  hasStateActionRewards : Bool
  hasTransitionRewards : Bool
  getStateReward : Nat → ℚ
  getStateActionReward : Nat → ℚ
  getStateActionAndTransitionReward : Nat → SparseMatrix → ℚ

/-- The two getters that `computeLongRunAverageRewards` builds from a reward model, the state
getter first; an empty `std::function` is `none`. -/
def rewardGetters (H : SparseNondeterministicInfiniteHorizonHelper)
    (rewardModel : StandardRewardModel) : Option (Nat → ℚ) × Option (Nat → ℚ) :=
  let stateRewardsGetter : Option (Nat → ℚ) :=
    if rewardModel.hasStateRewards then some (fun stateIndex => rewardModel.getStateReward stateIndex)
    else some (fun _ => 0)
  let actionRewardsGetter : Option (Nat → ℚ) := none
  if rewardModel.hasStateActionRewards || rewardModel.hasTransitionRewards then
    if rewardModel.hasTransitionRewards then
      (stateRewardsGetter, some (fun globalChoiceIndex =>
        rewardModel.getStateActionAndTransitionReward globalChoiceIndex H.transitionMatrix))
    else
      (stateRewardsGetter, some (fun globalChoiceIndex =>
        rewardModel.getStateActionReward globalChoiceIndex))
  else (some (fun _ => 0), actionRewardsGetter)

/-- The routine `computeLongRunAverageRewards(env, rewardModel)`. -/
def computeLongRunAverageRewards (H : SparseNondeterministicInfiniteHorizonHelper)
    (env : LraEnvironment) (rewardModel : StandardRewardModel)
    (producedOptimalChoices : Option (List Nat)) :
    Except HelperFailure (List ℚ × Option (List Nat)) :=
  computeLongRunAverageValues H env (rewardGetters H rewardModel).1 (rewardGetters H rewardModel).2
    producedOptimalChoices

/-! ## Loop invariants -/

/-- Invariant of the loop of `performValueIteration` under regular multiplication with the
absolute criterion, started on the vectors `x` and `aux`. -/
def ValueIterationInvariant (S : Solver) (dir : OptimizationDirection) (b : List ℚ)
    (precision : ℚ) (st : ValueIterationState) : Prop :=
  ((st.currentX = Buf.x ∧ st.newX = Buf.aux) ∨ (st.currentX = Buf.aux ∧ st.newX = Buf.x)) ∧
  (st.bufs.get st.currentX).length = S.A.getRowGroupCount ∧
  (st.status = SolverStatus.Converged →
    ∃ y : List ℚ, y.length = S.A.getRowGroupCount ∧
      (∀ g, g < S.A.getRowGroupCount →
        |y.getD g 0 - (multiplyAndReduce dir S.A y b).getD g 0| ≤ precision) ∧
      st.bufs.get st.newX = y ∧ st.bufs.get st.currentX = multiplyAndReduce dir S.A y b)

/-- The two iterates of the sound iteration enclose the vector `xstar` at every position. -/
def Bracketed (xstar : List ℚ) (st : SoundState) : Prop :=
  ∀ s, (st.bufs.get st.lowerX).getD s 0 ≤ xstar.getD s 0 ∧
    xstar.getD s 0 ≤ (st.bufs.get st.upperX).getD s 0

/-- The pointers of the sound iteration refer to different vectors: `lowerX` and `upperX`
differ, and under regular multiplication `tmp` refers to the third vector. -/
def SoundPointers (useGaussSeidelMultiplication : Bool) (st : SoundState) : Prop :=
  st.lowerX ≠ st.upperX ∧
    (useGaussSeidelMultiplication = false →
      ∃ t, st.tmp = some t ∧ t ≠ st.lowerX ∧ t ≠ st.upperX)

/-- The scheduler holds, for every row group, the local index of one of the group's rows. -/
def ValidScheduler (A : SparseMatrix) (scheduler : List Nat) : Prop :=
  scheduler.length = A.getRowGroupCount ∧
    ∀ g, g < A.getRowGroupCount →
      A.rowGroupIndex g + scheduler.getD g 0 < A.rowGroupIndex (g + 1)

/-- The vector `y` has one entry per row group and solves the linear system induced by the
scheduler exactly: `y[g] = A[r] * y + b[r]` for the row `r` that the scheduler selects at `g`. -/
def InducedSolution (A : SparseMatrix) (b : List ℚ) (scheduler : List Nat) (y : List ℚ) : Prop :=
  y.length = A.getRowGroupCount ∧
    ∀ g, g < A.getRowGroupCount →
      y.getD g 0 = A.rowValue y b (A.rowGroupIndex g + scheduler.getD g 0)

/-- Entry of a sparse row at column `j` when the row is read as a dense row: the sum of the
values stored for that column. -/
def denseEntry (row : List (Nat × ℚ)) (j : Nat) : ℚ :=
  ((row.filter (fun e => decide (e.1 = j))).map Prod.snd).sum

/-- Row that the scheduler selects at row group `g`. -/
def selectedRow (A : SparseMatrix) (scheduler : List Nat) (g : Nat) : Nat :=
  A.rowGroupIndex g + scheduler.getD g 0

/-- Dense matrix of the linear system induced by a scheduler, one row and one column per row
group. -/
def inducedMatrix (A : SparseMatrix) (scheduler : List Nat) :
    Matrix (Fin A.getRowGroupCount) (Fin A.getRowGroupCount) ℚ :=
  Matrix.of (fun i j => denseEntry (A.getRow (selectedRow A scheduler i)) j)

/-- Order in the direction of the optimisation: `v` is at most as good as `w`, that is `v ≤ w`
when maximising and `w ≤ v` when minimising. -/
def NoBetter (dir : OptimizationDirection) (v w : ℚ) : Prop :=
  if dir = OptimizationDirection.Maximize then v ≤ w else w ≤ v

/-- Invariant of the improvement scan of policy iteration that started from the vector `x0`:
the scheduler is valid, the vector has one entry per row group, every entry is no better than
the one-step value of the row that the scheduler selects, the vector is nowhere worse than `x0`,
and it differs from `x0` once the scheduler has been improved. -/
def ScanInvariant (dir : OptimizationDirection) (A : SparseMatrix) (b x0 : List ℚ)
    (st : PolicyScan) : Prop :=
  ValidScheduler A st.scheduler ∧ st.x.length = A.getRowGroupCount ∧
  (∀ g, g < A.getRowGroupCount →
    NoBetter dir (st.x.getD g 0) (A.rowValue st.x b (selectedRow A st.scheduler g))) ∧
  (∀ i, NoBetter dir (x0.getD i 0) (st.x.getD i 0)) ∧
  (st.schedulerImproved = true → ∃ i, x0.getD i 0 ≠ st.x.getD i 0)

/-! ## Example systems -/

/-- A system with two states: the first state chooses between moving to the second state and
looping with probability one half, the second state has one row without successors. -/
def twoStateMatrix : SparseMatrix :=
  { rows := [[(1, 1)], [(0, 1 / 2)], []], rowGroupIndices := [0, 2, 3] }

/-- Right-hand side of the two-state system. -/
def twoStateB : List ℚ := [0, 1 / 4, 1]

/-- A linear-equation solver that leaves the vector as it is and reports success. -/
def idleLinearSolver : List (List (Nat × ℚ)) → List ℚ → List ℚ → Bool × List ℚ :=
  fun _ x _ => (true, x)

/-- A solver on the two-state system with a unique solution, global bounds `0` and `2`, no
initial scheduler, no termination condition and no relevant values. -/
def twoStateSolver : Solver :=
  { A := twoStateMatrix
    lowerBound := some (Bound.global 0)
    upperBound := some (Bound.global 2)
    initialScheduler := none
    uniqueSolution := true
    trackScheduler := false
    terminationCondition := none
    relevantValues := none
    supportsGaussSeidelMultiplication := true
    solveLinear := idleLinearSolver }

/-- An environment with precision one tenth, the absolute criterion, a budget of one hundred
iterations and regular multiplication. -/
def regularEnvironment : Environment :=
  { precision := 1 / 10
    relativeTerminationCriterion := false
    maximalNumberOfIterations := 100
    multiplicationStyle := MultiplicationStyle.Regular
    relativeEqual := fun _ _ _ => false }

/-- A sharpening routine that hands back the vector it is given, as for a vector that is already
rational. -/
def keepSharpen : Nat → List ℚ → Option (List ℚ) := fun _ x => some x

/-- A system with one state and one row, which loops with probability one half; with the
right-hand side `[0]` its only solution is `[0]`. -/
def halfMatrix : SparseMatrix :=
  { rows := [[(0, 1 / 2)]], rowGroupIndices := [0, 1] }

/-- A solver on the one-state system with the global bounds `0` and `4`. -/
def halfSolver : Solver :=
  { A := halfMatrix
    lowerBound := some (Bound.global 0)
    upperBound := some (Bound.global 4)
    initialScheduler := none
    uniqueSolution := true
    trackScheduler := false
    terminationCondition := none
    relevantValues := none
    supportsGaussSeidelMultiplication := true
    solveLinear := idleLinearSolver }

/-- The solver of the half system with its upper bound and without a lower bound. -/
def upperOnlySolver : Solver :=
  { halfSolver with lowerBound := none }

/-- An environment with precision one, the absolute criterion, a budget of one hundred
iterations and regular multiplication. -/
def unitEnvironment : Environment :=
  { precision := 1
    relativeTerminationCriterion := false
    maximalNumberOfIterations := 100
    multiplicationStyle := MultiplicationStyle.Regular
    relativeEqual := fun _ _ _ => false }

/-- A system with one state and two rows: the first row has no successors, the second loops
with weight two, so its row sum exceeds one. -/
def gainMatrix : SparseMatrix :=
  { rows := [[], [(0, 2)]], rowGroupIndices := [0, 2] }

/-- Right-hand side of the one-state system with the heavy loop. -/
def gainB : List ℚ := [0, 1]

/-- The exact linear-equation solver of the one-state system with the heavy loop: under the
first row the solution is `[0]`, under the second row it is the solution `[-1]` of
`y = 2 * y + 1`. -/
def gainLinearSolver : List (List (Nat × ℚ)) → List ℚ → List ℚ → Bool × List ℚ :=
  fun rows _ _ => if rows = [[]] then (true, [0]) else (true, [-1])

/-- A solver on the one-state system with the heavy loop, without an initial scheduler. -/
def gainSolver : Solver :=
  { A := gainMatrix
    lowerBound := none
    upperBound := none
    initialScheduler := none
    uniqueSolution := true
    trackScheduler := false
    terminationCondition := none
    relevantValues := none
    supportsGaussSeidelMultiplication := true
    solveLinear := gainLinearSolver }

/-- The exact linear-equation solver of the two-state system: `[1, 1]` when the first state
moves to the second state, `[1 / 2, 1]` when it takes its loop. -/
def twoStateLinearSolver : List (List (Nat × ℚ)) → List ℚ → List ℚ → Bool × List ℚ :=
  fun rows _ _ => if rows.head? = some [(1, 1)] then (true, [1, 1]) else (true, [1 / 2, 1])

/-- A solver on the two-state system for policy iteration, started from the scheduler that takes
the loop in the first state. -/
def twoStatePolicySolver : Solver :=
  { A := twoStateMatrix
    lowerBound := none
    upperBound := none
    initialScheduler := some [1, 0]
    uniqueSolution := true
    trackScheduler := true
    terminationCondition := none
    relevantValues := none
    supportsGaussSeidelMultiplication := true
    solveLinear := twoStateLinearSolver }

/-- A method environment in which the caller chose value iteration explicitly, without forced
soundness. -/
def explicitValueIteration : MethodEnvironment :=
  { method := MinMaxMethod.ValueIteration, methodSetFromDefault := false, forceSoundness := false }

/-- A method environment in which the caller chose sound value iteration explicitly. -/
def explicitSoundValueIteration : MethodEnvironment :=
  { method := MinMaxMethod.SoundValueIteration, methodSetFromDefault := false,
    forceSoundness := false }

/-- Requirements of a linear-equation solver that requires nothing. -/
def noRequirements : MinMaxLinearEquationSolverRequirements :=
  { noEndComponents := false, validInitialScheduler := false, lowerBounds := false,
    upperBounds := false }

/-- The two-state solver without bounds and without the mark of a unique solution. -/
def unboundedSolver : Solver :=
  { twoStateSolver with lowerBound := none, upperBound := none, uniqueSolution := false }

/-- A termination condition that holds for every vector and requires no guarantee. -/
def stoppingCondition : TerminationCondition :=
  { terminateNow := fun _ _ => true, requiresGuarantee := fun _ => false }

/-- The two-state solver with the termination condition that always holds. -/
def stoppingSolver : Solver :=
  { twoStateSolver with terminationCondition := some stoppingCondition }

/-- The two-state solver for policy iteration with the termination condition that always
holds. -/
def stoppingPolicySolver : Solver :=
  { twoStatePolicySolver with terminationCondition := some stoppingCondition }

/-- The regular environment with a budget of zero iterations. -/
def zeroBudgetEnvironment : Environment :=
  { regularEnvironment with maximalNumberOfIterations := 0 }

/-- The regular environment with a budget of one iteration. -/
def oneStepEnvironment : Environment :=
  { regularEnvironment with maximalNumberOfIterations := 1 }

/-- A system with two states, each with a single choice that loops with probability one. -/
def selfLoopMatrix : SparseMatrix :=
  { rows := [[(0, 1)], [(1, 1)]], rowGroupIndices := [0, 1, 2] }

/-- An environment for the long-run average helper: value iteration chosen explicitly, nothing
forced, all precisions one tenth. -/
def plainLraEnvironment : LraEnvironment :=
  { nondetLraMethod := LraMethod.ValueIteration
    nondetLraMethodSetFromDefault := false
    forceSoundness := false
    forceExact := false
    precision := 1 / 10
    relativeTerminationCriterion := false
    aperiodicFactor := 1 / 8
    minMaxPrecision := 1 / 10
    minMaxRelativeTerminationCriterion := false
    linearEquationSolverPrecision := 1 / 10
    linearEquationSolverRelative := false }

/-- A helper on the two-state system in discrete time, with the two singleton end components in
which each state keeps its choice.  Its min/max solver performs one Bellman update, which is
exact for a system whose rows have no entries. -/
def selfLoopHelper (dir : OptimizationDirection) : SparseNondeterministicInfiniteHorizonHelper :=
  { transitionMatrix := selfLoopMatrix
    backwardTransitions := none
    mecDecomposition := [[(0, [0])], [(1, [1])]]
    markovianStatesAndExitRates := none
    optimizationDirection := dir
    produceScheduler := false
    isExact := true
    lraVi := fun _ _ _ _ choices => Except.ok (0, choices.getD [])
    lpOptimize := fun _ _ _ => 0
    sspRequirementsCritical := fun _ => false
    minMaxSolve := fun _ dir matrix x rhs _ _ _ => (multiplyAndReduce dir matrix x rhs, none) }

/-- The helper on the two-state system in continuous time: the first state is Markovian with
exit rate two, the second state is not Markovian; a scheduler is requested. -/
def markovHelper : SparseNondeterministicInfiniteHorizonHelper :=
  { selfLoopHelper OptimizationDirection.Maximize with
    markovianStatesAndExitRates := some ([true, false], [2, 0])
    produceScheduler := true }

/-- A reward model with the state rewards one and zero and no other rewards. -/
def stateRewardsOnly : StandardRewardModel :=
  { hasStateRewards := true
    hasStateActionRewards := false
    hasTransitionRewards := false
    getStateReward := fun stateIndex => [1, 0].getD stateIndex 0
    getStateActionReward := fun _ => 0
    getStateActionAndTransitionReward := fun _ _ => 0 }

/-- The min/max solver that `buildAndSolveSsp` calls on the values `mecLraValues` of the end
components yields an exact solution of the reduced system, whatever bounds it is given. -/
def SspSolvedExactly (H : SparseNondeterministicInfiniteHorizonHelper) (env : LraEnvironment)
    (mecLraValues : List ℚ) : Prop :=
  ∀ lower upper : ℚ,
    BellmanFixpoint H.optimizationDirection
      (buildSsp H (inputToSspStateMap H.mecDecomposition H.transitionMatrix.getRowGroupCount).1
        (gatherMecStates H.mecDecomposition H.transitionMatrix.getRowGroupCount).1
        (inputToSspStateMap H.mecDecomposition H.transitionMatrix.getRowGroupCount).2
        mecLraValues).build
      (H.minMaxSolve env H.optimizationDirection
        (buildSsp H (inputToSspStateMap H.mecDecomposition H.transitionMatrix.getRowGroupCount).1
          (gatherMecStates H.mecDecomposition H.transitionMatrix.getRowGroupCount).1
          (inputToSspStateMap H.mecDecomposition H.transitionMatrix.getRowGroupCount).2
          mecLraValues).build
        (List.replicate
          ((inputToSspStateMap H.mecDecomposition H.transitionMatrix.getRowGroupCount).2 +
            H.mecDecomposition.length) 0)
        (buildSsp H (inputToSspStateMap H.mecDecomposition H.transitionMatrix.getRowGroupCount).1
          (gatherMecStates H.mecDecomposition H.transitionMatrix.getRowGroupCount).1
          (inputToSspStateMap H.mecDecomposition H.transitionMatrix.getRowGroupCount).2
          mecLraValues).rhs
        lower upper H.produceScheduler).1
      (buildSsp H (inputToSspStateMap H.mecDecomposition H.transitionMatrix.getRowGroupCount).1
        (gatherMecStates H.mecDecomposition H.transitionMatrix.getRowGroupCount).1
        (inputToSspStateMap H.mecDecomposition H.transitionMatrix.getRowGroupCount).2
        mecLraValues).rhs

/-- The end component that consists of the state `s` with all of its choices. -/
def singletonMec (A : SparseMatrix) (s : Nat) : MaximalEndComponent := [(s, A.groupRows s)]

/-- State of the loop of the sound iteration after `k` passes through its body, started from the
lower and the upper bounds vector. -/
def soundStateAt (S : Solver) (env : Environment) (dir : OptimizationDirection) (b : List ℚ)
    (lower upper : List ℚ) (k : Nat) : SoundState :=
  Nat.iterate
    (soundStep S env dir b (soundPrecision env) env.relativeTerminationCriterion
      (soundUsesGaussSeidel S env) S.relevantValues.isSome) k
    (soundInitialState S env lower upper)

/-- The convergence test of the sound iteration holds for the bounds of a state: the lower and
the upper bound agree up to `precision` at the relevant positions, or at all positions when no
relevant values are set. -/
def SoundTestHolds (S : Solver) (env : Environment) (precision : ℚ) (relative : Bool)
    (st : SoundState) : Prop :=
  match S.relevantValues with
  | some relevant =>
    equalModuloPrecisionAt env (st.bufs.get st.lowerX) (st.bufs.get st.upperX) relevant
      precision relative = true
  | none =>
    equalModuloPrecision env (st.bufs.get st.lowerX) (st.bufs.get st.upperX) precision
      relative = true

/-! ## Dispatch to the solution routines -/

/-- The solution routines among which `internalSolveEquations` chooses. -/
inductive SolutionRoutine where
  | solveEquationsValueIteration
  | solveEquationsSoundValueIteration
  | solveEquationsPolicyIteration
  | solveEquationsRationalSearch
  deriving DecidableEq, Repr

/-- The switch of `internalSolveEquations` on `getMethod(env, IsExact)`: the routine that is
run.  Value iteration is replaced by the sound iteration when `env.solver().isForceSoundness()`
holds; the default case of the switch raises `InvalidEnvironmentException`. -/
def internalSolveEquationsRoutine (env : MethodEnvironment) (isExact : Bool) :
    Except SolverException SolutionRoutine :=
  match getMethod env isExact with
  | Except.error e => Except.error e
  | Except.ok MinMaxMethod.ValueIteration =>
    if env.forceSoundness then Except.ok SolutionRoutine.solveEquationsSoundValueIteration
    else Except.ok SolutionRoutine.solveEquationsValueIteration
  | Except.ok MinMaxMethod.PolicyIteration =>
    Except.ok SolutionRoutine.solveEquationsPolicyIteration
  | Except.ok MinMaxMethod.RationalSearch =>
    Except.ok SolutionRoutine.solveEquationsRationalSearch
  | Except.ok _ => Except.error SolverException.InvalidEnvironmentException

/-- The method `internalSolveEquations`.  The wrapper `solveEquationsRationalSearch`, which picks
the number types of the rational search, is a parameter. -/
def internalSolveEquations (S : Solver) (env : Environment) (methodEnv : MethodEnvironment)
    (isExact : Bool)
    (solveEquationsRationalSearch :
      Environment → OptimizationDirection → List ℚ → List ℚ → SolveResult)
    (dir : OptimizationDirection) (x b : List ℚ) : SolveResult :=
  match internalSolveEquationsRoutine methodEnv isExact with
  | Except.error e => { outcome := Outcome.raised e, x := x, schedulerChoices := none }
  | Except.ok SolutionRoutine.solveEquationsValueIteration =>
    solveEquationsValueIteration S env dir x b
  | Except.ok SolutionRoutine.solveEquationsSoundValueIteration =>
    solveEquationsSoundValueIteration S env dir x b
  | Except.ok SolutionRoutine.solveEquationsPolicyIteration =>
    solveEquationsPolicyIteration S env dir x b
  | Except.ok SolutionRoutine.solveEquationsRationalSearch =>
    solveEquationsRationalSearch env dir x b

/-- A method environment in which value iteration is configured without an explicit choice of the
caller and soundness is forced. -/
def defaultSoundEnvironment : MethodEnvironment :=
  { method := MinMaxMethod.ValueIteration, methodSetFromDefault := true, forceSoundness := true }

/-- State of the improvement scan of a round of policy iteration when the scan reaches row
group `g`: the row groups before `g` have been scanned. -/
def policyScanBefore (S : Solver) (dir : OptimizationDirection) (b : List ℚ)
    (scheduler : List Nat) (x : List ℚ) (g : Nat) : PolicyScan :=
  (List.range g).foldl (improveGroup S dir b)
    { scheduler := scheduler, x := x, schedulerImproved := false }

/-- A system with one state and three choices, each of which loops with probability one. -/
def threeChoiceMatrix : SparseMatrix :=
  { rows := [[(0, 1)], [(0, 1)], [(0, 1)]], rowGroupIndices := [0, 3] }

/-- A helper on the one-state system with three choices in discrete time, whose end component
allows the second and the third choice; a scheduler is requested. -/
def threeChoiceHelper (dir : OptimizationDirection) :
    SparseNondeterministicInfiniteHorizonHelper :=
  { selfLoopHelper dir with
    transitionMatrix := threeChoiceMatrix
    mecDecomposition := [[(0, [1, 2])]]
    produceScheduler := true }

/-- The method that `computeLraForMec` uses for an end component with more than one state: the
configured method, replaced by linear programming for exact results and by value iteration for
sound results when the method was not chosen explicitly. -/
def selectedLraMethod (H : SparseNondeterministicInfiniteHorizonHelper) (env : LraEnvironment) :
    LraMethod :=
  let method := env.nondetLraMethod
  if (H.isExact || env.forceExact) && env.nondetLraMethodSetFromDefault &&
      decide (method ≠ LraMethod.LinearProgramming) then LraMethod.LinearProgramming
  else if env.forceSoundness && env.nondetLraMethodSetFromDefault &&
      decide (method ≠ LraMethod.ValueIteration) then LraMethod.ValueIteration
  else method

/-- A system with two states that move to each other with probability one. -/
def swapMatrix : SparseMatrix :=
  { rows := [[(1, 1)], [(0, 1)]], rowGroupIndices := [0, 1, 2] }

/-- A helper on the system of two states that move to each other, in discrete time, with the
one end component of both states; a scheduler is requested. -/
def swapHelper : SparseNondeterministicInfiniteHorizonHelper :=
  { selfLoopHelper OptimizationDirection.Maximize with
    transitionMatrix := swapMatrix
    mecDecomposition := [[(0, [0]), (1, [1])]]
    produceScheduler := true }

/-- An environment for the long-run average helper in which linear programming is chosen
explicitly. -/
def lpLraEnvironment : LraEnvironment :=
  { plainLraEnvironment with nondetLraMethod := LraMethod.LinearProgramming }

/-- The state belongs to an end component of the decomposition. -/
def inSomeMec (mecDecomposition : List MaximalEndComponent) (state : Nat) : Bool :=
  mecDecomposition.any (fun mec => containsState mec state)

/-- The states below `numberOfStates` that belong to no end component, in ascending order. -/
def nonMecStates (mecDecomposition : List MaximalEndComponent) (numberOfStates : Nat) :
    List Nat :=
  (List.range numberOfStates).filter (fun state => !inSomeMec mecDecomposition state)

/-- The states of the end components are states of the system with `numberOfStates` states. -/
def MecStatesInRange (mecDecomposition : List MaximalEndComponent) (numberOfStates : Nat) :
    Prop :=
  ∀ mec ∈ mecDecomposition, ∀ stateChoicesPair ∈ mec, stateChoicesPair.1 < numberOfStates

/-- The end components are pairwise state-disjoint: a state belongs to at most one of them. -/
def MecsDisjoint (mecDecomposition : List MaximalEndComponent) : Prop :=
  ∀ i j state, i < mecDecomposition.length → j < mecDecomposition.length →
    containsState (mecDecomposition.getD i []) state = true →
    containsState (mecDecomposition.getD j []) state = true → i = j

/-- The choices of the states of an end component that are not allowed in it, as pairs of the
state and the choice, in the order in which `buildAndSolveSsp` adds rows for them. -/
def mecExitChoices (A : SparseMatrix) (mec : MaximalEndComponent) : List (Nat × Nat) :=
  (mec.map (fun stateChoicesPair =>
    ((A.groupRows stateChoicesPair.1).filter
      (fun choice => !stateChoicesPair.2.contains choice)).map
      (fun choice => (stateChoicesPair.1, choice)))).flatten

/-- The entries that `buildAndSolveSsp` appends to `sspMecExitChoicesToOriginalMap` for an end
component when a scheduler is requested: the state and the local index of every choice that is
not allowed in the end component, and the pair of sentinels for the row that stays. -/
def mecExitEntries (A : SparseMatrix) (mec : MaximalEndComponent) : List (Nat × Nat) :=
  (mecExitChoices A mec).map (fun stateChoice =>
    (stateChoice.1, stateChoice.2 - A.rowGroupIndex stateChoice.1)) ++ [(uint64Max, uint64Max)]

/-- Sizes of the row groups of the reduced system: the numbers of choices of the states that are
in no end component, then for every end component the number of its exit choices plus one. -/
def sspGroupSizes (A : SparseMatrix) (mecDecomposition : List MaximalEndComponent)
    (numberOfStates : Nat) : List Nat :=
  (nonMecStates mecDecomposition numberOfStates).map (fun state => (A.groupRows state).length) ++
    mecDecomposition.map (fun mec => (mecExitChoices A mec).length + 1)

/-- The state `predecessor` has a choice that is allowed in the end component and has a non-zero
transition to `state`, which is what the backward search looks for. -/
def HasMecEdge (H : SparseNondeterministicInfiniteHorizonHelper) (mec : MaximalEndComponent)
    (predecessor state : Nat) : Prop :=
  (findPredChoice H mec predecessor state).isSome = true

/-- Reachability inside an end component: a path of states of the end component in which every
state has an allowed choice with a non-zero transition to the next one. -/
inductive MecReaches (H : SparseNondeterministicInfiniteHorizonHelper)
    (mec : MaximalEndComponent) : Nat → Nat → Prop
  | refl (state : Nat) : MecReaches H mec state state
  | step (predecessor state target : Nat) : containsState mec state = true →
      HasMecEdge H mec predecessor state → MecReaches H mec state target →
      MecReaches H mec predecessor target

/-- The backward transitions hold every transition of the matrix: when a choice of the state
`predecessor` has a non-zero transition to `state`, the row group of `state` in the backward
transitions has an entry with the column `predecessor`. -/
def BackwardComplete (A backwardTransitions : SparseMatrix) : Prop :=
  ∀ predecessor state, predecessor < A.getRowGroupCount → state < A.getRowGroupCount →
    ∀ choice ∈ A.groupRows predecessor,
      (∃ transition ∈ A.getRow choice, transition.1 = state ∧ transition.2 ≠ 0) →
      ∃ backwardsTransition ∈ getRowGroup backwardTransitions state,
        backwardsTransition.1 = predecessor

/-- The contract of a decomposition into end components: no end component is empty, the states
are states of the system, the end components are pairwise state-disjoint, the allowed choices of
a state are choices of that state and lead only to states of the same end component, and every
end component is strongly connected through its allowed choices. -/
structure MecContract (H : SparseNondeterministicInfiniteHorizonHelper) : Prop where
  nonEmpty : ∀ mec ∈ H.mecDecomposition, mec ≠ []
  inRange : MecStatesInRange H.mecDecomposition H.transitionMatrix.getRowGroupCount
  disjoint : MecsDisjoint H.mecDecomposition
  choicesOfState : ∀ mec ∈ H.mecDecomposition, ∀ stateChoicesPair ∈ mec,
    ∀ choice ∈ stateChoicesPair.2, choice ∈ H.transitionMatrix.groupRows stateChoicesPair.1
  closed : ∀ mec ∈ H.mecDecomposition, ∀ stateChoicesPair ∈ mec,
    ∀ choice ∈ stateChoicesPair.2, ∀ transition ∈ H.transitionMatrix.getRow choice,
      containsState mec transition.1 = true
  connected : ∀ mec ∈ H.mecDecomposition, ∀ state target, containsState mec state = true →
    containsState mec target = true → MecReaches H mec state target

/-- Number of the states of the end component whose produced choice is the sentinel. -/
def unresolvedCount (mec : MaximalEndComponent) (choices : List Nat) : Nat :=
  (mec.map Prod.fst).countP (fun state => choices.getD state 0 = uint64Max)

/-- Progress of the backward search in an end component from the produced choices `choices` and
the stack `stack` to `choices'` and `stack'`: resolved entries and entries outside of the end
component are kept, a changed entry is a choice of its state, the stack keeps its states and
gains only resolved ones, every newly resolved state is on the stack, and the length of the
stack plus the number of unresolved states does not grow. -/
def SearchProgress (A : SparseMatrix) (mec : MaximalEndComponent) (choices stack choices'
    stack' : List Nat) : Prop :=
  choices'.length = choices.length ∧
  (∀ s, choices.getD s 0 ≠ uint64Max → choices'.getD s 0 = choices.getD s 0) ∧
  (∀ s, containsState mec s = false → choices'.getD s 0 = choices.getD s 0) ∧
  (∀ s, choices'.getD s 0 ≠ choices.getD s 0 → choices'.getD s 0 < (A.groupRows s).length) ∧
  (∀ s, s ∈ stack → s ∈ stack') ∧
  (∀ s, s ∈ stack' → s ∈ stack ∨ choices'.getD s 0 ≠ uint64Max) ∧
  (∀ s, choices.getD s 0 = uint64Max → choices'.getD s 0 ≠ uint64Max → s ∈ stack') ∧
  stack'.length + unresolvedCount mec choices' ≤ stack.length + unresolvedCount mec choices

/-- The min/max solver that `buildAndSolveSsp` calls on the values `mecLraValues` returns a
scheduler for the reduced system whose choice at every row group is a row of that group. -/
def SspSchedulerValid (H : SparseNondeterministicInfiniteHorizonHelper) (env : LraEnvironment)
    (mecLraValues : List ℚ) : Prop :=
  ∀ lower upper, mecLraValues.min? = some lower → mecLraValues.max? = some upper →
    ∃ sspChoices,
      (H.minMaxSolve env H.optimizationDirection
        (buildSsp H (inputToSspStateMap H.mecDecomposition H.transitionMatrix.getRowGroupCount).1
          (gatherMecStates H.mecDecomposition H.transitionMatrix.getRowGroupCount).1
          (inputToSspStateMap H.mecDecomposition H.transitionMatrix.getRowGroupCount).2
          mecLraValues).build
        (List.replicate
          ((inputToSspStateMap H.mecDecomposition H.transitionMatrix.getRowGroupCount).2 +
            H.mecDecomposition.length) 0)
        (buildSsp H (inputToSspStateMap H.mecDecomposition H.transitionMatrix.getRowGroupCount).1
          (gatherMecStates H.mecDecomposition H.transitionMatrix.getRowGroupCount).1
          (inputToSspStateMap H.mecDecomposition H.transitionMatrix.getRowGroupCount).2
          mecLraValues).rhs
        lower upper H.produceScheduler).2 = some sspChoices ∧
      ∀ g, g < (inputToSspStateMap H.mecDecomposition H.transitionMatrix.getRowGroupCount).2 +
          H.mecDecomposition.length →
        sspChoices.getD g 0 <
          ((buildSsp H
            (inputToSspStateMap H.mecDecomposition H.transitionMatrix.getRowGroupCount).1
            (gatherMecStates H.mecDecomposition H.transitionMatrix.getRowGroupCount).1
            (inputToSspStateMap H.mecDecomposition H.transitionMatrix.getRowGroupCount).2
            mecLraValues).build.groupRows g).length

/-- A system with four states: the first two states move to each other, the second state can
also move to the third state, which loops, and the fourth state moves to the first one. -/
def exitMatrix : SparseMatrix :=
  { rows := [[(1, 1)], [(0, 1)], [(2, 1)], [(2, 1)], [(0, 1)]],
    rowGroupIndices := [0, 1, 3, 4, 5] }

/-- A helper on the system with four states in discrete time, with the end component of the
first two states, which the second state can leave, and the end component of the third state;
a scheduler is requested, and the min/max solver returns the scheduler that takes the first row
of every row group of the reduced system. -/
def exitHelper : SparseNondeterministicInfiniteHorizonHelper :=
  { selfLoopHelper OptimizationDirection.Maximize with
    transitionMatrix := exitMatrix
    mecDecomposition := [[(0, [0]), (1, [1])], [(2, [3])]]
    produceScheduler := true
    minMaxSolve := fun _ _ _ _ _ _ _ _ => ([2, 2, 2], some [0, 0, 0]) }

/-! ## Bellman update of one row group -/

/-- Body of the loop of `computeOptimalValueForRowGroup` over the rows after the first one:
`xi` is a reference to `x[group]`, so that a row that is strictly better is written into the
vector from which the following rows are evaluated. -/
def optimalValueStep (A : SparseMatrix) (group : Nat) (dir : OptimizationDirection) (b : List ℚ)
    (acc : List ℚ × Nat) (row : Nat) : List ℚ × Nat :=
  let choiceVal := A.multiplyRowWithVector row acc.1 + b.getD row 0
  if dir = OptimizationDirection.Minimize then
    if choiceVal < acc.1.getD group 0 then (acc.1.set group choiceVal, row) else acc
  else
    if choiceVal > acc.1.getD group 0 then (acc.1.set group choiceVal, row) else acc

/-- The routine `computeOptimalValueForRowGroup(group, dir, x, b, choice)`: the new content of
`x` and the value `optimalRow - getRowGroupIndices()[group]` that is stored in `*choice` when
the pointer is not null.  The assertion `row != groupEnd` fails for an empty row group, which is
`none`. -/
def computeOptimalValueForRowGroup (A : SparseMatrix) (group : Nat) (dir : OptimizationDirection)
    (x b : List ℚ) : Option (List ℚ × Nat) :=
  let row := A.rowGroupIndex group
  let groupEnd := A.rowGroupIndex (group + 1)
  if row = groupEnd then none
  else
    let result := (List.range' (row + 1) (groupEnd - (row + 1))).foldl
      (optimalValueStep A group dir b)
      (x.set group (A.multiplyRowWithVector row x + b.getD row 0), row)
    some (result.1, result.2 - A.rowGroupIndex group)

/-! ## Scheduler of the game helper -/

/-- The routine `expandScheduler(scheduler, psiStates, notPhiStates)` of `SparseSmgRpatlHelper`:
the states in `psiStates` and in `notPhiStates` get the choice `0`, every other state gets the
choice of `scheduler` at the running counter `maybeStatesCounter`, which then advances.  The
loop counter and its bound have the type `uint`. -/
def expandScheduler (scheduler : List Nat) (psiStates notPhiStates : List Bool) : List Nat :=
  let schedulerSize := psiStates.length % 2 ^ 32
  ((List.range schedulerSize).foldl
    (fun (acc : List Nat × Nat) stateCounter =>
      if psiStates.getD stateCounter false then (acc.1.set stateCounter 0, acc.2)
      else if notPhiStates.getD stateCounter false then (acc.1.set stateCounter 0, acc.2)
      else (acc.1.set stateCounter (scheduler.getD acc.2 0), acc.2 + 1))
    (List.replicate psiStates.length 0, 0)).1

/-- The routine `computeNextProbabilities` of `SparseSmgRpatlHelper` as far as its result goes.
The class `GameViHelper` is not part of the sources at hand: `values` is the vector that
`performNextIteration` leaves in `x`, which has one entry per state, and `helperScheduler` is
what `extractScheduler` returns, the scheduler of the helper on the whole transition matrix.  The
scheduler is expanded with `psiStates` and the complement of the set of all states. -/
def computeNextProbabilities (numberOfStates : Nat) (psiStates : List Bool)
    (produceScheduler : Bool) (values : List ℚ) (helperScheduler : List Nat) :
    List ℚ × Option (List Nat) :=
  let allStates := List.replicate numberOfStates true
  (values,
    if produceScheduler then
      some (expandScheduler helperScheduler psiStates (allStates.map (fun bit => !bit)))
    else none)

/-- The routine `computeUntilProbabilities` of `SparseSmgRpatlHelper` as far as its result goes:
`values` is the vector after `performValueIteration` and `fillResultVector`, and
`helperScheduler` is what `extractScheduler` returns, the scheduler of the helper on the
submatrix of the states in `phiStates & ~psiStates`.  The scheduler is expanded with `psiStates`
and the complement of `phiStates`. -/
def computeUntilProbabilities (phiStates psiStates : List Bool) (produceScheduler : Bool)
    (values : List ℚ) (helperScheduler : List Nat) : List ℚ × Option (List Nat) :=
  (values,
    if produceScheduler then
      some (expandScheduler helperScheduler psiStates (phiStates.map (fun bit => !bit)))
    else none)

/-- A system with one state and two rows: the first row has no successors, the second row loops
with probability one half. -/
def loopChoiceMatrix : SparseMatrix :=
  { rows := [[], [(0, 1 / 2)]], rowGroupIndices := [0, 2] }

/-- A method environment in which the caller chose rational search explicitly. -/
def explicitRationalSearch : MethodEnvironment :=
  { method := MinMaxMethod.RationalSearch, methodSetFromDefault := false,
    forceSoundness := false }

/-- A method environment in which the caller chose policy iteration explicitly. -/
def explicitPolicyIteration : MethodEnvironment :=
  { method := MinMaxMethod.PolicyIteration, methodSetFromDefault := false,
    forceSoundness := false }

/-- An environment for the long-run average helper in which linear programming is the method
set from the default and soundness is forced. -/
def exactSoundLraEnvironment : LraEnvironment :=
  { plainLraEnvironment with
    nondetLraMethod := LraMethod.LinearProgramming
    nondetLraMethodSetFromDefault := true
    forceSoundness := true }

/-! ## Constraints of the linear program of an end component -/

/-- The test `_markovianStates && _markovianStates->get(state)` of `computeLraForMecLp`. -/
def stateIsMarkovian (H : SparseNondeterministicInfiniteHorizonHelper) (state : Nat) : Bool :=
  match H.markovianStatesAndExitRates with
  | some (markovianStates, _) => markovianStates.getD state false
  | none => false

/-- The entry `(*_exitRates)[state]`. -/
def exitRateOf (H : SparseNondeterministicInfiniteHorizonHelper) (state : Nat) : ℚ :=
  match H.markovianStatesAndExitRates with
  | some (_, exitRates) => exitRates.getD state 0
  | none => 0

/-- Constraint of the linear program in the words of the specification, for the allowed choice
`choice` with the transition row `row` of the state `state`: `x_state ≤ R` when minimizing and
`x_state ≥ R` when maximizing, where `R = T + Σ P * x + V`; for a Markovian state `T` is
`-k / exitRate` and `V` is `stateReward / exitRate + actionReward`, in discrete time `T` is `-k`
and `V` is `stateReward + actionReward`, and for a state of a continuous-time model that is not
Markovian `T` is absent and `V` is `actionReward`. -/
def specLpConstraint (minimizing markovian continuousTime : Bool)
    (exitRate stateReward actionReward : ℚ) (row : List (Nat × ℚ)) (state choice : Nat) :
    LpConstraint :=
  if markovian then
    { state := state
      choice := choice
      kCoefficient := -1 / exitRate
      successors := row
      constant := stateReward / exitRate + actionReward
      lessOrEqual := minimizing }
  else if continuousTime then
    { state := state
      choice := choice
      kCoefficient := 0
      successors := row
      constant := actionReward
      lessOrEqual := minimizing }
  else
    { state := state
      choice := choice
      kCoefficient := -1
      successors := row
      constant := stateReward + actionReward
      lessOrEqual := minimizing }

/-- The constraints of the specification for all states and allowed choices of an end component,
in the order of its states and of their choices. -/
def specLpConstraints (H : SparseNondeterministicInfiniteHorizonHelper)
    (stateReward actionReward : Nat → ℚ) (mec : MaximalEndComponent) : List LpConstraint :=
  (mec.map (fun stateChoicesPair =>
    stateChoicesPair.2.map (fun choice =>
      specLpConstraint (decide (H.optimizationDirection = OptimizationDirection.Minimize))
        (stateIsMarkovian H stateChoicesPair.1) (isContinuousTime H)
        (exitRateOf H stateChoicesPair.1) (stateReward stateChoicesPair.1) (actionReward choice)
        (H.transitionMatrix.getRow choice) stateChoicesPair.1 choice))).flatten

/-- A helper on the system of two states that move to each other, in continuous time: the first
state is Markovian with exit rate two, the second state is not Markovian.  The values are
minimized, no scheduler is requested, and the stand-in of the LP solver yields the sum of the
constants of the constraints that it is given. -/
def markovSwapHelper : SparseNondeterministicInfiniteHorizonHelper :=
  { selfLoopHelper OptimizationDirection.Minimize with
    transitionMatrix := swapMatrix
    mecDecomposition := [[(0, [0]), (1, [1])]]
    markovianStatesAndExitRates := some ([true, false], [2, 0])
    lpOptimize := fun _ _ constraints => (constraints.map (fun c => c.constant)).sum }

/-! ## Rounds of rational search -/

/-- Variables of the core routine before its loop when both types are the rational type, as the
exact solver calls it on itself. -/
def exactSearchStart (env : Environment) (x auxiliaryRowGroupVector : List ℚ) :
    ExactSearchState :=
  { bufs := { x := x, aux := auxiliaryRowGroupVector, aux2 := [] }
    currentX := Buf.aux
    newX := Buf.x
    precision := env.precision
    overallIterations := 0
    status := SolverStatus.InProgress }

/-- The call `impreciseSolver.performValueIteration(dir, currentX, newX, b, precision, ...)` of a
pass through the loop of the core routine when both types are the rational type: it starts from
the content of `*currentX`, with the current precision and the iterations counted so far. -/
def exactSearchIteration (S : Solver) (env : Environment) (dir : OptimizationDirection)
    (b : List ℚ) (st : ExactSearchState) : ValueIterationState :=
  performValueIteration S env dir st.bufs st.currentX st.newX b st.precision
    env.relativeTerminationCriterion SolverGuarantee.LessOrEqual st.overallIterations
    env.maximalNumberOfIterations env.multiplicationStyle

/-- One pass through the body of the while loop of the core routine when both types are the
rational type: the call of `performValueIteration` with the current precision, the count of its
iterations, sharpening of `*currentX` into the temporary up to the digit precision `p`, and
either the end of the search or the division of the precision by ten.  The result is `none` when
sharpening raises. -/
def exactSearchRound (S : Solver) (kmSharpen : Nat → List ℚ → Option (List ℚ))
    (env : Environment) (dir : OptimizationDirection) (b : List ℚ) (st : ExactSearchState) :
    Option ExactSearchState :=
  let result := exactSearchIteration S env dir b st
  let overallIterations := st.overallIterations + (result.iterations - st.overallIterations)
  let p := sharpenDigits st.precision
  let temporaryRational := result.newX
  match sharpen kmSharpen dir p S.A (result.bufs.get result.currentX) b
      (result.bufs.get temporaryRational) with
  | none => none
  | some (foundSolution, tmp) =>
    let bufs := result.bufs.set temporaryRational tmp
    some
      { bufs := if foundSolution then swapSolutions bufs temporaryRational result.currentX
          else bufs
        currentX := result.currentX
        newX := result.newX
        precision := if foundSolution then st.precision else st.precision / 10
        overallIterations := overallIterations
        status := if foundSolution then SolverStatus.Converged else st.status }

/-- Variables of the core routine before its loop for an imprecise type other than the rational
one. -/
def rationalSearchStart {I : Type} (env : Environment) (rationalX : List ℚ) (x tmpX : List I) :
    RationalSearchState I :=
  { vectors := { x := x, tmpX := tmpX, currentIsX := true }
    rationalX := rationalX
    precision := env.precision
    overallIterations := 0
    status := SolverStatus.InProgress }

/-- One pass through the body of the while loop of the core routine for an imprecise type other
than the rational one; `none` when sharpening raises. -/
def rationalSearchRound {I : Type}
    (impreciseIteration : ℚ → Nat → ImpreciseVectors I → ImpreciseVectors I × Nat)
    (kmSharpen : Nat → List I → Option (List ℚ)) (dir : OptimizationDirection)
    (rationalA : SparseMatrix) (rationalB : List ℚ) (st : RationalSearchState I) :
    Option (RationalSearchState I) :=
  let result := impreciseIteration st.precision st.overallIterations st.vectors
  let overallIterations := st.overallIterations + result.2
  let p := sharpenDigits st.precision
  match sharpen kmSharpen dir p rationalA result.1.current rationalB st.rationalX with
  | none => none
  | some (foundSolution, rationalX) =>
    some
      { vectors := result.1
        rationalX := rationalX
        precision := if foundSolution then st.precision else st.precision / 10
        overallIterations := overallIterations
        status := if foundSolution then SolverStatus.Converged else st.status }

deriving instance DecidableEq for Buffers, ExactSearchState

/-- The state of the exact search on the one-state system with the sharpening routine that hands
back its argument, started from `[1]` with precision one tenth, after the first pass: four
iterations led to `[1 / 16]`, which is no solution. -/
def halfSearchAfterOne : ExactSearchState :=
  { bufs := { x := [1 / 16], aux := [1 / 16], aux2 := [] }
    currentX := Buf.aux
    newX := Buf.x
    precision := 1 / 100
    overallIterations := 4
    status := SolverStatus.InProgress }

/-- The state of the same search after the second pass. -/
def halfSearchAfterTwo : ExactSearchState :=
  { bufs := { x := [1 / 64], aux := [1 / 64], aux2 := [] }
    currentX := Buf.aux
    newX := Buf.x
    precision := 1 / 1000
    overallIterations := 7
    status := SolverStatus.InProgress }

/-- The state of the exact search on the one-state system with the right-hand side `[1 / 3]` and
the sharpening routine that hands back its argument, started with the auxiliary vector `[0]` and
precision one tenth, after the first pass: three iterations were counted, and `*currentX` holds
`[1 / 2]`. -/
def thirdSearchAfterOne : ExactSearchState :=
  { bufs := { x := [1 / 2], aux := [1 / 2], aux2 := [] }
    currentX := Buf.aux
    newX := Buf.x
    precision := 1 / 100
    overallIterations := 3
    status := SolverStatus.InProgress }

/-! ## Redirected rows of the reduced system -/

/-- The transitions of a row with non-zero probability whose successor the state map sends to
the state `target` of the reduced system. -/
def successorsMappedTo (row : List (Nat × ℚ)) (inputToSspStateMap : List Nat) (target : Nat) :
    List (Nat × ℚ) :=
  row.filter (fun transition =>
    decide (transition.2 ≠ 0) && decide (inputToSspStateMap.getD transition.1 0 = target))

/-- A system with four states of which only the row of the first state matters here: it moves to
the first two states with probability one quarter each and to the last state with probability
one half. -/
def redirectMatrix : SparseMatrix :=
  { rows := [[(0, 1 / 4), (1, 1 / 4), (3, 1 / 2)], [(0, 1)], [(2, 1)], [(3, 1)]],
    rowGroupIndices := [0, 1, 2, 3, 4] }

/-- A system with two states in which the first state moves to either state with probability one
half. -/
def coinMatrix : SparseMatrix :=
  { rows := [[(0, 1 / 2), (1, 1 / 2)], [(1, 1)]], rowGroupIndices := [0, 1, 2] }

/-! ## The reduced system of a helper -/

/-- The state map `inputToSspStateMap` that `buildAndSolveSsp` computes for the helper. -/
def sspStateMapOf (H : SparseNondeterministicInfiniteHorizonHelper) : List Nat :=
  (inputToSspStateMap H.mecDecomposition H.transitionMatrix.getRowGroupCount).1

/-- The number `numberOfStatesNotInMecs` that `buildAndSolveSsp` computes for the helper. -/
def nonMecCountOf (H : SparseNondeterministicInfiniteHorizonHelper) : Nat :=
  (inputToSspStateMap H.mecDecomposition H.transitionMatrix.getRowGroupCount).2

/-- The matrix builder, right-hand side and exit map that `buildAndSolveSsp` builds for the
helper and the values of its end components. -/
def sspBuilderOf (H : SparseNondeterministicInfiniteHorizonHelper) (mecLraValues : List ℚ) :
    SspBuilder :=
  buildSsp H (sspStateMapOf H)
    (gatherMecStates H.mecDecomposition H.transitionMatrix.getRowGroupCount).1
    (nonMecCountOf H) mecLraValues

/-- The rows of the reduced system by row group: for every state in no end component the
redirected rows of its choices, then for every end component the redirected rows of its exit
choices and the row without entries. -/
def sspRowBlocks (H : SparseNondeterministicInfiniteHorizonHelper) (stateMap : List Nat)
    (k : Nat) : List (List (List (Nat × ℚ))) :=
  (nonMecStates H.mecDecomposition H.transitionMatrix.getRowGroupCount).map (fun state =>
    (H.transitionMatrix.groupRows state).map
      (fun choice => addSspMatrixChoice choice H.transitionMatrix stateMap k)) ++
  (List.range H.mecDecomposition.length).map (fun i =>
    (mecExitChoices H.transitionMatrix (H.mecDecomposition.getD i [])).map
      (fun stateChoice => addSspMatrixChoice stateChoice.2 H.transitionMatrix stateMap k) ++
      [[]])

/-- The right-hand side of the reduced system by row group: zeros for the rows of the states in
no end component and for the exit rows, and the value of the end component for its last row. -/
def sspRhsBlocks (H : SparseNondeterministicInfiniteHorizonHelper) (mecLraValues : List ℚ) :
    List (List ℚ) :=
  (nonMecStates H.mecDecomposition H.transitionMatrix.getRowGroupCount).map (fun state =>
    List.replicate (H.transitionMatrix.groupRows state).length 0) ++
  (List.range H.mecDecomposition.length).map (fun i =>
    List.replicate (mecExitChoices H.transitionMatrix (H.mecDecomposition.getD i [])).length 0 ++
      [mecLraValues.getD i 0])

/-! ## Paths to the exit of an end component -/

/-- Following the recorded choices leads from a state of the end component to `exitState`: the
state is `exitState`, or it is another state of the end component whose recorded choice is the
local index of a choice that is allowed in the end component and has a transition with non-zero
probability to a state of the end component from which the recorded choices lead to
`exitState`. -/
inductive LeadsToExit (H : SparseNondeterministicInfiniteHorizonHelper)
    (mec : MaximalEndComponent) (exitState : Nat) (choices : List Nat) : Nat → Prop
  | exit : LeadsToExit H mec exitState choices exitState
  | step (state next predChoice : Nat) :
      containsState mec state = true → state ≠ exitState →
      predChoice ∈ getChoicesForState mec state →
      choices.getD state 0 = predChoice - H.transitionMatrix.rowGroupIndex state →
      choices.getD state 0 ≠ uint64Max →
      (∃ transition ∈ H.transitionMatrix.getRow predChoice,
        transition.1 = next ∧ transition.2 ≠ 0) →
      containsState mec next = true →
      LeadsToExit H mec exitState choices next →
      LeadsToExit H mec exitState choices state

/-! # Properties -/

/-! ## Optimum of a row group -/

theorem valueImproved_iff (dir : OptimizationDirection) (v w : ℚ) :
    valueImproved dir v w = true ↔
      ((dir = OptimizationDirection.Minimize ∧ w < v) ∨
        (dir = OptimizationDirection.Maximize ∧ w > v)) := by
  cases dir <;> simp [valueImproved]

theorem improve_pick (dir : OptimizationDirection) (v w : ℚ) :
    ((if valueImproved dir v w then w else v) = v ∨ (if valueImproved dir v w then w else v) = w) ∧
    (if dir = OptimizationDirection.Minimize then
      (if valueImproved dir v w then w else v) ≤ v ∧ (if valueImproved dir v w then w else v) ≤ w
     else
      v ≤ (if valueImproved dir v w then w else v) ∧ w ≤ (if valueImproved dir v w then w else v)) := by
  cases dir
  · simp only [valueImproved, if_true, decide_eq_true_eq]
    by_cases h : w < v
    · simp only [if_pos h]
      exact ⟨Or.inr trivial, le_of_lt h, le_refl _⟩
    · simp only [if_neg h]
      exact ⟨Or.inl trivial, le_refl _, not_lt.1 h⟩
  · simp only [valueImproved, reduceCtorEq, if_false, decide_eq_true_eq]
    by_cases h : w > v
    · simp only [if_pos h]
      exact ⟨Or.inr trivial, le_of_lt h, le_refl _⟩
    · simp only [if_neg h]
      exact ⟨Or.inl trivial, le_refl _, not_lt.1 h⟩

theorem foldl_improve_isOptimum (dir : OptimizationDirection) (vs : List ℚ) (v : ℚ) :
    IsOptimum dir (v :: vs)
      (vs.foldl (fun best w => if valueImproved dir best w then w else best) v) := by
  induction vs generalizing v with
  | nil => cases dir <;> simp [IsOptimum]
  | cons w ws ih =>
    simp only [List.foldl_cons]
    obtain ⟨hmem, hall⟩ := ih (if valueImproved dir v w then w else v)
    obtain ⟨hpick, hbest⟩ := improve_pick dir v w
    generalize (if valueImproved dir v w then w else v) = v' at hmem hall hpick hbest
    generalize List.foldl (fun best w => if valueImproved dir best w then w else best) v' ws = r
      at hmem hall
    have hr := hall v' (List.mem_cons_self _ _)
    refine ⟨?_, ?_⟩
    · rcases List.mem_cons.1 hmem with h1 | h1
      · rcases hpick with h2 | h2
        · rw [h1, h2]; exact List.mem_cons_self _ _
        · rw [h1, h2]; exact List.mem_cons_of_mem _ (List.mem_cons_self _ _)
      · exact List.mem_cons_of_mem _ (List.mem_cons_of_mem _ h1)
    · intro u hu
      have hu' : u = v ∨ u = w ∨ u ∈ ws := by simpa using hu
      rcases hu' with h1 | h1 | h1
      · subst h1
        cases dir
        · simp only [if_true] at hr hbest ⊢
          exact le_trans hr hbest.1
        · simp only [reduceCtorEq, if_false] at hr hbest ⊢
          exact le_trans hbest.1 hr
      · subst h1
        cases dir
        · simp only [if_true] at hr hbest ⊢
          exact le_trans hr hbest.2
        · simp only [reduceCtorEq, if_false] at hr hbest ⊢
          exact le_trans hbest.2 hr
      · exact hall u (List.mem_cons_of_mem _ h1)

theorem reduceGroup_isOptimum (dir : OptimizationDirection) (vals : List ℚ) (h : vals ≠ []) :
    IsOptimum dir vals (reduceGroup dir vals) := by
  cases vals with
  | nil => exact absurd rfl h
  | cons v vs => exact foldl_improve_isOptimum dir vs v

theorem isOptimum_unique (dir : OptimizationDirection) (vals : List ℚ) (v w : ℚ)
    (hv : IsOptimum dir vals v) (hw : IsOptimum dir vals w) : v = w := by
  have h1 := hv.2 w hw.1
  have h2 := hw.2 v hv.1
  cases dir
  · simp only [if_true] at h1 h2
    exact le_antisymm h1 h2
  · simp only [reduceCtorEq, if_false] at h1 h2
    exact le_antisymm h2 h1

theorem isOptimum_iff_reduceGroup (dir : OptimizationDirection) (vals : List ℚ) (v : ℚ)
    (h : vals ≠ []) : IsOptimum dir vals v ↔ reduceGroup dir vals = v :=
  ⟨fun hv => isOptimum_unique dir vals _ _ (reduceGroup_isOptimum dir vals h) hv,
   fun hv => hv ▸ reduceGroup_isOptimum dir vals h⟩

/-! ## The substitution check -/

theorem isSolutionRows_eq (dir : OptimizationDirection) (m : SparseMatrix) (values b : List ℚ)
    (k row : Nat) (gv : ℚ) :
    isSolutionRows dir m values b k row row gv =
      (((List.range' row k).map (m.rowValue values b)).foldl
        (fun best w => if valueImproved dir best w then w else best) gv, row + k) := by
  induction k generalizing row gv with
  | zero => simp [isSolutionRows]
  | succ k ih =>
    simp only [isSolutionRows, List.range'_succ, List.map_cons, List.foldl_cons]
    rw [ih (row + 1)]
    have hadd : b.getD row 0 + m.multiplyRowWithVector row values = m.rowValue values b row := by
      simp [SparseMatrix.rowValue, add_comm]
    rw [hadd]
    have hif : (if (dir = OptimizationDirection.Minimize ∧ m.rowValue values b row < gv) ∨
          (dir = OptimizationDirection.Maximize ∧ m.rowValue values b row > gv)
        then m.rowValue values b row else gv) =
        (if valueImproved dir gv (m.rowValue values b row) = true then m.rowValue values b row
          else gv) := by
      by_cases h : valueImproved dir gv (m.rowValue values b row) = true
      · rw [if_pos h, if_pos ((valueImproved_iff _ _ _).1 h)]
      · rw [if_neg h, if_neg (fun h' => h ((valueImproved_iff _ _ _).2 h'))]
    rw [hif]
    congr 1
    omega

theorem isSolution_group_value (dir : OptimizationDirection) (m : SparseMatrix)
    (values b : List ℚ) (g : Nat) (h : m.rowGroupIndex g < m.rowGroupIndex (g + 1)) :
    isSolutionRows dir m values b (m.rowGroupIndex (g + 1) - (m.rowGroupIndex g + 1))
        (m.rowGroupIndex g + 1) (m.rowGroupIndex g + 1)
        (b.getD (m.rowGroupIndex g) 0 + m.multiplyRowWithVector (m.rowGroupIndex g) values) =
      (reduceGroup dir (m.groupValues values b g), m.rowGroupIndex (g + 1)) := by
  rw [isSolutionRows_eq]
  have hrows : m.groupRows g = m.rowGroupIndex g ::
      List.range' (m.rowGroupIndex g + 1) (m.rowGroupIndex (g + 1) - (m.rowGroupIndex g + 1)) := by
    unfold SparseMatrix.groupRows
    have : m.rowGroupIndex (g + 1) - m.rowGroupIndex g =
        (m.rowGroupIndex (g + 1) - (m.rowGroupIndex g + 1)) + 1 := by omega
    rw [this, List.range'_succ]
  have hadd : b.getD (m.rowGroupIndex g) 0 + m.multiplyRowWithVector (m.rowGroupIndex g) values =
      m.rowValue values b (m.rowGroupIndex g) := by
    simp [SparseMatrix.rowValue, add_comm]
  simp only [SparseMatrix.groupValues, hrows, List.map_cons, reduceGroup, hadd]
  congr 1
  omega

theorem isSolutionGroups_iff (dir : OptimizationDirection) (m : SparseMatrix)
    (values b : List ℚ) (k g : Nat)
    (hne : ∀ g', g ≤ g' → g' < g + k → m.rowGroupIndex g' < m.rowGroupIndex (g' + 1)) :
    isSolutionGroups dir m values b k g (m.rowGroupIndex g) = true ↔
      ∀ g', g ≤ g' → g' < g + k → IsOptimum dir (m.groupValues values b g') (values.getD g' 0) := by
  induction k generalizing g with
  | zero =>
    simp only [isSolutionGroups, true_iff]
    intro g' h1 h2
    omega
  | succ k ih =>
    have hg := hne g (le_refl _) (by omega)
    have hvals : m.groupValues values b g ≠ [] := by
      unfold SparseMatrix.groupValues SparseMatrix.groupRows
      intro h
      have := congrArg List.length h
      simp at this
      omega
    simp only [isSolutionGroups]
    rw [isSolution_group_value dir m values b g hg]
    simp only []
    have ih' := ih (g + 1) (fun g' h1 h2 => hne g' (by omega) (by omega))
    by_cases hv : reduceGroup dir (m.groupValues values b g) = values.getD g 0
    · simp only [hv, ne_eq, not_true_eq_false, if_false]
      rw [ih']
      constructor
      · intro h g' h1 h2
        rcases Nat.eq_or_lt_of_le h1 with h3 | h3
        · subst h3
          exact (isOptimum_iff_reduceGroup dir _ _ hvals).2 hv
        · exact h g' h3 (by omega)
      · intro h g' h1 h2
        exact h g' (by omega) (by omega)
    · simp only [ne_eq, hv, not_false_eq_true, if_true]
      constructor
      · intro h
        exact absurd h (by simp)
      · intro h
        exact absurd ((isOptimum_iff_reduceGroup dir _ _ hvals).1 (h g (le_refl _) (by omega))) hv

/-- C3: for a matrix whose row groups start at row zero and each hold at least one row,
`isSolution(dir, matrix, values, b)` is true exactly when at every row group the entry of
`values` is the optimum (minimum when minimising, maximum when maximising) of
`b[r] + sum_c matrix[r][c] * values[c]` over the rows `r` of the group, with exact equality. -/
theorem isSolution_iff_bellmanFixpoint (dir : OptimizationDirection) (matrix : SparseMatrix)
    (values b : List ℚ) (hstart : matrix.rowGroupIndex 0 = 0) (hne : matrix.GroupsNonEmpty) :
    isSolution dir matrix values b = true ↔ BellmanFixpoint dir matrix values b := by
  unfold isSolution BellmanFixpoint
  have h := isSolutionGroups_iff dir matrix values b matrix.getRowGroupCount 0
    (fun g' _ h2 => hne g' (by omega))
  rw [hstart] at h
  rw [h]
  constructor
  · intro h1 g hg
    exact h1 g (Nat.zero_le _) (by omega)
  · intro h1 g _ hg
    exact h1 g (by omega)

/-! ## The Bellman operator is monotone and non-expansive -/

theorem foldl_add_eq_sum {α : Type} (f : α → ℚ) (l : List α) (a : ℚ) :
    l.foldl (fun acc e => acc + f e) a = a + (l.map f).sum := by
  induction l generalizing a with
  | nil => simp
  | cons e l ih => simp [ih, add_assoc]

theorem multiplyRowWithVector_eq_sum (m : SparseMatrix) (r : Nat) (x : List ℚ) :
    m.multiplyRowWithVector r x = ((m.getRow r).map (fun e => e.2 * x.getD e.1 0)).sum := by
  unfold SparseMatrix.multiplyRowWithVector
  rw [foldl_add_eq_sum (fun e : Nat × ℚ => e.2 * x.getD e.1 0)]
  simp

theorem getRow_mem_or_nil (m : SparseMatrix) (r : Nat) : m.getRow r ∈ m.rows ∨ m.getRow r = [] := by
  unfold SparseMatrix.getRow
  by_cases h : r < m.rows.length
  · left
    rw [List.getD_eq_getElem _ _ h]
    exact List.getElem_mem h
  · right
    exact List.getD_eq_default _ _ (not_lt.1 h)

theorem getRow_nonneg (m : SparseMatrix) (hnn : m.NonNegative) (r : Nat) :
    ∀ e ∈ m.getRow r, 0 ≤ e.2 := by
  rcases getRow_mem_or_nil m r with h | h
  · exact hnn _ h
  · rw [h]; simp

theorem getRow_sum_le_one (m : SparseMatrix) (hrs : m.RowSumsAtMostOne) (r : Nat) :
    ((m.getRow r).map Prod.snd).sum ≤ 1 := by
  rcases getRow_mem_or_nil m r with h | h
  · exact hrs _ h
  · rw [h]; simp

theorem row_sum_mono (row : List (Nat × ℚ)) (hnn : ∀ e ∈ row, 0 ≤ e.2) (x y : List ℚ)
    (hxy : ∀ i, x.getD i 0 ≤ y.getD i 0) :
    (row.map (fun e => e.2 * x.getD e.1 0)).sum ≤ (row.map (fun e => e.2 * y.getD e.1 0)).sum := by
  induction row with
  | nil => simp
  | cons e row ih =>
    simp only [List.map_cons, List.sum_cons]
    have h1 := ih (fun e' he' => hnn e' (List.mem_cons_of_mem _ he'))
    have h2 := mul_le_mul_of_nonneg_left (hxy e.1) (hnn e (List.mem_cons_self _ _))
    linarith

theorem row_sum_diff_le (row : List (Nat × ℚ)) (hnn : ∀ e ∈ row, 0 ≤ e.2) (x y : List ℚ) (ε : ℚ)
    (hxy : ∀ i, |x.getD i 0 - y.getD i 0| ≤ ε) :
    |(row.map (fun e => e.2 * x.getD e.1 0)).sum - (row.map (fun e => e.2 * y.getD e.1 0)).sum| ≤
      (row.map Prod.snd).sum * ε := by
  induction row with
  | nil => simp
  | cons e row ih =>
    simp only [List.map_cons, List.sum_cons]
    have h1 := ih (fun e' he' => hnn e' (List.mem_cons_of_mem _ he'))
    have h0 := hnn e (List.mem_cons_self _ _)
    have h2 := hxy e.1
    rw [abs_le] at h1 h2 ⊢
    have h3 := mul_le_mul_of_nonneg_left h2.1 h0
    have h4 := mul_le_mul_of_nonneg_left h2.2 h0
    constructor <;> nlinarith

theorem rowValue_mono (m : SparseMatrix) (hnn : m.NonNegative) (x y b : List ℚ)
    (hxy : ∀ i, x.getD i 0 ≤ y.getD i 0) (r : Nat) : m.rowValue x b r ≤ m.rowValue y b r := by
  unfold SparseMatrix.rowValue
  rw [multiplyRowWithVector_eq_sum, multiplyRowWithVector_eq_sum]
  have := row_sum_mono (m.getRow r) (getRow_nonneg m hnn r) x y hxy
  linarith

theorem rowValue_diff_le (m : SparseMatrix) (hnn : m.NonNegative) (hrs : m.RowSumsAtMostOne)
    (x y b : List ℚ) (ε : ℚ) (hε : 0 ≤ ε) (hxy : ∀ i, |x.getD i 0 - y.getD i 0| ≤ ε) (r : Nat) :
    |m.rowValue x b r - m.rowValue y b r| ≤ ε := by
  unfold SparseMatrix.rowValue
  rw [multiplyRowWithVector_eq_sum, multiplyRowWithVector_eq_sum]
  have h1 := row_sum_diff_le (m.getRow r) (getRow_nonneg m hnn r) x y ε hxy
  have h2 := getRow_sum_le_one m hrs r
  have h3 : ((m.getRow r).map Prod.snd).sum * ε ≤ ε := by nlinarith
  have h4 : ((m.getRow r).map (fun e => e.2 * x.getD e.1 0)).sum + b.getD r 0 -
      (((m.getRow r).map (fun e => e.2 * y.getD e.1 0)).sum + b.getD r 0) =
      ((m.getRow r).map (fun e => e.2 * x.getD e.1 0)).sum -
        ((m.getRow r).map (fun e => e.2 * y.getD e.1 0)).sum := by ring
  rw [h4]
  exact le_trans h1 h3

theorem reduceGroup_map_mono (dir : OptimizationDirection) (l : List Nat) (f f' : Nat → ℚ)
    (h : ∀ r ∈ l, f r ≤ f' r) : reduceGroup dir (l.map f) ≤ reduceGroup dir (l.map f') := by
  by_cases hl : l = []
  · subst hl; simp [reduceGroup]
  · have hne : l.map f ≠ [] := by simpa using hl
    have hne' : l.map f' ≠ [] := by simpa using hl
    obtain ⟨hm, ha⟩ := reduceGroup_isOptimum dir _ hne
    obtain ⟨hm', ha'⟩ := reduceGroup_isOptimum dir _ hne'
    obtain ⟨r, hr, hfr⟩ := List.mem_map.1 hm
    obtain ⟨r', hr', hfr'⟩ := List.mem_map.1 hm'
    cases dir
    · have h1 := ha (f r') (List.mem_map.2 ⟨r', hr', rfl⟩)
      simp only [if_true] at h1
      rw [← hfr']
      exact le_trans h1 (h r' hr')
    · have h1 := ha' (f' r) (List.mem_map.2 ⟨r, hr, rfl⟩)
      simp only [reduceCtorEq, if_false] at h1
      rw [← hfr]
      exact le_trans (h r hr) h1

theorem reduceGroup_map_diff_le (dir : OptimizationDirection) (l : List Nat) (f f' : Nat → ℚ)
    (ε : ℚ) (hε : 0 ≤ ε) (h : ∀ r ∈ l, |f r - f' r| ≤ ε) :
    |reduceGroup dir (l.map f) - reduceGroup dir (l.map f')| ≤ ε := by
  have h1 : reduceGroup dir (l.map f) ≤ reduceGroup dir (l.map (fun r => f' r + ε)) :=
    reduceGroup_map_mono dir l f _ (fun r hr => by have := abs_le.1 (h r hr); linarith)
  have h2 : reduceGroup dir (l.map f') ≤ reduceGroup dir (l.map (fun r => f r + ε)) :=
    reduceGroup_map_mono dir l f' _ (fun r hr => by have := abs_le.1 (h r hr); linarith)
  by_cases hl : l = []
  · subst hl; simpa [reduceGroup] using hε
  · have hshift : ∀ (k : Nat → ℚ) (c : ℚ),
        reduceGroup dir (l.map (fun r => k r + c)) = reduceGroup dir (l.map k) + c := by
      intro k c
      have hne : l.map k ≠ [] := by simpa using hl
      have hne' : l.map (fun r => k r + c) ≠ [] := by simpa using hl
      refine (isOptimum_iff_reduceGroup dir _ _ hne').1 ?_
      obtain ⟨hm, ha⟩ := reduceGroup_isOptimum dir _ hne
      obtain ⟨r, hr, hfr⟩ := List.mem_map.1 hm
      refine ⟨List.mem_map.2 ⟨r, hr, by rw [hfr]⟩, ?_⟩
      intro w hw
      obtain ⟨r', hr', hw'⟩ := List.mem_map.1 hw
      have h3 := ha (k r') (List.mem_map.2 ⟨r', hr', rfl⟩)
      subst hw'
      cases dir
      · simp only [if_true] at h3 ⊢; linarith
      · simp only [reduceCtorEq, if_false] at h3 ⊢; linarith
    rw [hshift f' ε] at h1
    rw [hshift f ε] at h2
    rw [abs_le]
    constructor <;> linarith

/-! ## Value iteration -/

theorem multiplyAndReduce_length (dir : OptimizationDirection) (A : SparseMatrix) (x b : List ℚ) :
    (multiplyAndReduce dir A x b).length = A.getRowGroupCount := by
  simp [multiplyAndReduce]

theorem multiplyAndReduce_getD (dir : OptimizationDirection) (A : SparseMatrix) (x b : List ℚ)
    (g : Nat) (hg : g < A.getRowGroupCount) :
    (multiplyAndReduce dir A x b).getD g 0 = reduceGroup dir (A.groupValues x b g) := by
  unfold multiplyAndReduce
  rw [List.getD_eq_getElem _ _ (by simpa using hg)]
  simp

theorem multiplyAndReduce_getD_of_le (dir : OptimizationDirection) (A : SparseMatrix)
    (x b : List ℚ) (g : Nat) (hg : A.getRowGroupCount ≤ g) :
    (multiplyAndReduce dir A x b).getD g 0 = 0 := by
  apply List.getD_eq_default
  simpa [multiplyAndReduce] using hg

theorem zip_all_getD (p : ℚ → ℚ → Bool) (a c : List ℚ)
    (h : (List.zip a c).all (fun q => p q.1 q.2) = true) (i : Nat)
    (hi : i < a.length) (hi' : i < c.length) : p (a.getD i 0) (c.getD i 0) = true := by
  induction a generalizing c i with
  | nil => simp at hi
  | cons u a ih =>
    cases c with
    | nil => simp at hi'
    | cons w c =>
      simp only [List.zip_cons_cons, List.all_cons, Bool.and_eq_true] at h
      cases i with
      | zero => simpa using h.1
      | succ i =>
        simp only [List.getD_cons_succ]
        exact ih c h.2 i (by simpa using hi) (by simpa using hi')

theorem equalModuloPrecision_absolute (env : Environment) (a c : List ℚ) (precision : ℚ)
    (h : equalModuloPrecision env a c precision false = true) (i : Nat)
    (hi : i < a.length) (hi' : i < c.length) : |a.getD i 0 - c.getD i 0| ≤ precision := by
  unfold equalModuloPrecision at h
  have := zip_all_getD (fun u w => equalModuloPrecisionValue env u w precision false) a c h i hi hi'
  simpa [equalModuloPrecisionValue] using this

theorem updateStatusIfNotConverged_converged_iff (S : Solver) (status : SolverStatus) (x : List ℚ)
    (iterations maximalNumberOfIterations : Nat) (guarantee : SolverGuarantee) :
    updateStatusIfNotConverged S status x iterations maximalNumberOfIterations guarantee =
        SolverStatus.Converged ↔ status = SolverStatus.Converged := by
  unfold updateStatusIfNotConverged
  by_cases h : status = SolverStatus.Converged
  · simp [h]
  · simp only [ne_eq, h, not_false_eq_true, if_true, iff_false]
    split
    · simp
    · split
      · simp
      · exact h

theorem updateStatusIfNotConverged_ne_terminatedEarly (S : Solver) (status : SolverStatus)
    (x : List ℚ) (iterations maximalNumberOfIterations : Nat) (guarantee : SolverGuarantee)
    (hnt : S.terminationCondition = none) (h : status ≠ SolverStatus.TerminatedEarly) :
    updateStatusIfNotConverged S status x iterations maximalNumberOfIterations guarantee ≠
      SolverStatus.TerminatedEarly := by
  unfold updateStatusIfNotConverged
  rw [hnt]
  simp only [Bool.false_eq_true, if_false]
  split
  · split
    · simp
    · exact h
  · exact h


theorem buffers_get_set_self (bufs : Buffers) (p : Buf) (v : List ℚ) :
    (bufs.set p v).get p = v := by
  cases p <;> rfl

theorem buffers_get_set_other (bufs : Buffers) (p q : Buf) (v : List ℚ) (h : q ≠ p) :
    (bufs.set p v).get q = bufs.get q := by
  cases p <;> cases q <;> first | rfl | exact absurd rfl h

theorem valueIterationStep_invariant (S : Solver) (env : Environment)
    (dir : OptimizationDirection) (b : List ℚ) (precision : ℚ) (guarantee : SolverGuarantee)
    (maximalNumberOfIterations : Nat) (st : ValueIterationState)
    (hinv : ValueIterationInvariant S dir b precision st)
    (hstatus : st.status = SolverStatus.InProgress) :
    ValueIterationInvariant S dir b precision
      (valueIterationStep S env dir b precision false guarantee maximalNumberOfIterations false
        st) := by
  obtain ⟨hptr, hlen, _⟩ := hinv
  have hne : st.currentX ≠ st.newX := by
    rcases hptr with ⟨h1, h2⟩ | ⟨h1, h2⟩ <;> rw [h1, h2] <;> decide
  unfold valueIterationStep
  simp only [Bool.false_eq_true, if_false]
  refine ⟨?_, ?_, ?_⟩
  · rcases hptr with ⟨h1, h2⟩ | ⟨h1, h2⟩
    · exact Or.inr ⟨h2, h1⟩
    · exact Or.inl ⟨h2, h1⟩
  · simp only [buffers_get_set_self]
    exact multiplyAndReduce_length _ _ _ _
  · intro hconv
    simp only [buffers_get_set_self, buffers_get_set_other _ _ _ _ hne] at hconv ⊢
    rw [updateStatusIfNotConverged_converged_iff] at hconv
    have hcheck : equalModuloPrecision env (st.bufs.get st.currentX)
        (multiplyAndReduce dir S.A (st.bufs.get st.currentX) b) precision false = true := by
      by_contra hc
      rw [if_neg hc, hstatus] at hconv
      exact absurd hconv (by decide)
    refine ⟨st.bufs.get st.currentX, hlen, ?_, rfl, rfl⟩
    intro g hg
    exact equalModuloPrecision_absolute env _ _ precision hcheck g (by omega)
      (by rw [multiplyAndReduce_length]; exact hg)

theorem valueIterationLoop_invariant (S : Solver) (env : Environment)
    (dir : OptimizationDirection) (b : List ℚ) (precision : ℚ) (guarantee : SolverGuarantee)
    (maximalNumberOfIterations fuel : Nat) (st : ValueIterationState)
    (hinv : ValueIterationInvariant S dir b precision st) :
    ValueIterationInvariant S dir b precision
      (valueIterationLoop S env dir b precision false guarantee maximalNumberOfIterations false
        fuel st) := by
  induction fuel generalizing st with
  | zero => exact hinv
  | succ fuel ih =>
    unfold valueIterationLoop
    by_cases h : st.status = SolverStatus.InProgress
    · rw [if_pos h]
      exact ih _ (valueIterationStep_invariant S env dir b precision guarantee _ st hinv h)
    · rw [if_neg h]
      exact hinv

theorem valueIterationLoop_ne_terminatedEarly (S : Solver) (env : Environment)
    (dir : OptimizationDirection) (b : List ℚ) (precision : ℚ) (relative : Bool)
    (guarantee : SolverGuarantee) (maximalNumberOfIterations : Nat) (useGaussSeidel : Bool)
    (fuel : Nat) (st : ValueIterationState) (hnt : S.terminationCondition = none)
    (h : st.status ≠ SolverStatus.TerminatedEarly) :
    (valueIterationLoop S env dir b precision relative guarantee maximalNumberOfIterations
      useGaussSeidel fuel st).status ≠ SolverStatus.TerminatedEarly := by
  induction fuel generalizing st with
  | zero => exact h
  | succ fuel ih =>
    unfold valueIterationLoop
    by_cases hs : st.status = SolverStatus.InProgress
    · rw [if_pos hs]
      apply ih
      unfold valueIterationStep
      simp only []
      apply updateStatusIfNotConverged_ne_terminatedEarly _ _ _ _ _ _ hnt
      have hif : ∀ c : Bool, (if c = true then SolverStatus.Converged else st.status) ≠
          SolverStatus.TerminatedEarly := by
        intro c
        cases c
        · simpa using h
        · simp
      exact hif _
    · rw [if_neg hs]
      exact h

theorem performValueIteration_regular_spec (S : Solver) (env : Environment)
    (dir : OptimizationDirection) (x0 aux aux2 b : List ℚ) (precision : ℚ)
    (guarantee : SolverGuarantee) (currentIterations maximalNumberOfIterations : Nat)
    (hlen : x0.length = S.A.getRowGroupCount) :
    (performValueIteration S env dir { x := x0, aux := aux, aux2 := aux2 } Buf.x Buf.aux b
        precision false guarantee currentIterations maximalNumberOfIterations
        MultiplicationStyle.Regular).currentX = Buf.x ∧
    ((performValueIteration S env dir { x := x0, aux := aux, aux2 := aux2 } Buf.x Buf.aux b
        precision false guarantee currentIterations maximalNumberOfIterations
        MultiplicationStyle.Regular).status = SolverStatus.Converged →
      ∃ y : List ℚ, y.length = S.A.getRowGroupCount ∧
        (∀ g, g < S.A.getRowGroupCount →
          |y.getD g 0 - (multiplyAndReduce dir S.A y b).getD g 0| ≤ precision) ∧
        ((performValueIteration S env dir { x := x0, aux := aux, aux2 := aux2 } Buf.x Buf.aux b
            precision false guarantee currentIterations maximalNumberOfIterations
            MultiplicationStyle.Regular).bufs.x = y ∨
          (performValueIteration S env dir { x := x0, aux := aux, aux2 := aux2 } Buf.x Buf.aux b
            precision false guarantee currentIterations maximalNumberOfIterations
            MultiplicationStyle.Regular).bufs.x = multiplyAndReduce dir S.A y b)) ∧
    (S.terminationCondition = none →
      (performValueIteration S env dir { x := x0, aux := aux, aux2 := aux2 } Buf.x Buf.aux b
        precision false guarantee currentIterations maximalNumberOfIterations
        MultiplicationStyle.Regular).status ≠ SolverStatus.TerminatedEarly) := by
  have hinit : ValueIterationInvariant S dir b precision
      { bufs := { x := x0, aux := aux, aux2 := aux2 }, currentX := Buf.x, newX := Buf.aux,
        iterations := currentIterations, status := SolverStatus.InProgress } :=
    ⟨Or.inl ⟨rfl, rfl⟩, hlen, fun h => by simp at h⟩
  have hinv := valueIterationLoop_invariant S env dir b precision guarantee
    maximalNumberOfIterations (max 1 (maximalNumberOfIterations - currentIterations)) _ hinit
  have hte := fun hnt => valueIterationLoop_ne_terminatedEarly S env dir b precision false
    guarantee maximalNumberOfIterations false
    (max 1 (maximalNumberOfIterations - currentIterations))
    { bufs := { x := x0, aux := aux, aux2 := aux2 }, currentX := Buf.x, newX := Buf.aux,
      iterations := currentIterations, status := SolverStatus.InProgress } hnt (by simp)
  have hgs : (S.supportsGaussSeidelMultiplication &&
      decide (MultiplicationStyle.Regular = MultiplicationStyle.GaussSeidel)) = false := by simp
  unfold performValueIteration
  simp only [hgs]
  generalize valueIterationLoop S env dir b precision false guarantee maximalNumberOfIterations
    false (max 1 (maximalNumberOfIterations - currentIterations))
    { bufs := { x := x0, aux := aux, aux2 := aux2 }, currentX := Buf.x, newX := Buf.aux,
      iterations := currentIterations, status := SolverStatus.InProgress } = st at hinv hte
  obtain ⟨hptr, _, hconv⟩ := hinv
  rcases hptr with ⟨h1, h2⟩ | ⟨h1, h2⟩
  · have hno : ¬ (Buf.x = st.newX) := by rw [h2]; decide
    rw [if_neg hno]
    refine ⟨h1, ?_, hte⟩
    intro hc
    obtain ⟨y, hy, hclose, _, hcur⟩ := hconv hc
    refine ⟨y, hy, hclose, Or.inr ?_⟩
    rw [← hcur, h1]
    rfl
  · have hyes : Buf.x = st.newX := by rw [h2]
    rw [if_pos hyes]
    refine ⟨h2, ?_, hte⟩
    intro hc
    obtain ⟨y, hy, hclose, hnew, _⟩ := hconv hc
    refine ⟨y, hy, hclose, Or.inl ?_⟩
    rw [← hnew, h2]
    rfl

/-- C1: when the matrix entries are non-negative and every row sums to at most one, and
`solveEquationsValueIteration` runs with the absolute termination criterion, regular
multiplication and no custom termination condition from a vector with one entry per row group
and returns true (status Converged), then at every row group `g` the returned `x[g]` differs by
at most the precision from the optimum over the rows `a` of `g` of `A[a] * x + b[a]`. -/
theorem valueIteration_converged_residual (S : Solver) (env : Environment)
    (dir : OptimizationDirection) (x b : List ℚ)
    (hnn : S.A.NonNegative) (hrs : S.A.RowSumsAtMostOne)
    (habs : env.relativeTerminationCriterion = false)
    (hreg : env.multiplicationStyle = MultiplicationStyle.Regular)
    (hnt : S.terminationCondition = none)
    (hlen : ∀ guarantee x0, valueIterationStart S dir x b = some (guarantee, x0) →
      x0.length = S.A.getRowGroupCount)
    (hconv : (solveEquationsValueIteration S env dir x b).outcome = Outcome.returned true) :
    ∀ g, g < S.A.getRowGroupCount → ∀ v,
      IsOptimum dir (S.A.groupValues (solveEquationsValueIteration S env dir x b).x b g) v →
      |(solveEquationsValueIteration S env dir x b).x.getD g 0 - v| ≤ env.precision := by
  cases hstart : valueIterationStart S dir x b with
  | none =>
    simp [solveEquationsValueIteration, hstart] at hconv
  | some p =>
    obtain ⟨guarantee, x0⟩ := p
    have hx0 := hlen guarantee x0 hstart
    obtain ⟨hcur, hspec, hte⟩ := performValueIteration_regular_spec S env dir x0
      (List.replicate S.A.getRowGroupCount 0) [] b env.precision guarantee 0
      env.maximalNumberOfIterations hx0
    have hte' := hte hnt
    simp only [solveEquationsValueIteration, hstart, habs, hreg] at hconv ⊢
    generalize performValueIteration S env dir
      { x := x0, aux := List.replicate S.A.getRowGroupCount 0, aux2 := [] } Buf.x Buf.aux b
      env.precision false guarantee 0 env.maximalNumberOfIterations
      MultiplicationStyle.Regular = st at hcur hspec hte' hconv ⊢
    have hnoswap : ¬ (st.currentX = Buf.aux) := by rw [hcur]; decide
    simp only [if_neg hnoswap] at hconv ⊢
    have hstatus : st.status = SolverStatus.Converged := by
      cases hs : st.status
      · rfl
      · exact absurd hs hte'
      · simp [hs, reportStatus] at hconv
      · simp [hs, reportStatus] at hconv
    have hrep : reportStatus st.status = none := by rw [hstatus]; rfl
    simp only [hrep]
    obtain ⟨y, hy, hclose, hx⟩ := hspec hstatus
    intro g hg v hv
    have hvals : ∀ z : List ℚ, IsOptimum dir (S.A.groupValues z b g) v →
        (multiplyAndReduce dir S.A z b).getD g 0 = v := by
      intro z hz
      rw [multiplyAndReduce_getD _ _ _ _ _ hg]
      have hne : S.A.groupValues z b g ≠ [] := List.ne_nil_of_mem hz.1
      exact (isOptimum_iff_reduceGroup dir _ _ hne).1 hz
    rcases hx with hx | hx
    · rw [hx] at hv ⊢
      rw [← hvals y hv]
      exact hclose g hg
    · rw [hx] at hv ⊢
      rw [← hvals _ hv]
      have hε : 0 ≤ env.precision := le_trans (abs_nonneg _) (hclose g hg)
      have hall : ∀ i, |y.getD i 0 - (multiplyAndReduce dir S.A y b).getD i 0| ≤ env.precision := by
        intro i
        by_cases hi : i < S.A.getRowGroupCount
        · exact hclose i hi
        · rw [multiplyAndReduce_getD_of_le _ _ _ _ _ (not_lt.1 hi),
            List.getD_eq_default _ _ (by omega)]
          simpa using hε
      rw [multiplyAndReduce_getD _ _ _ _ _ hg, multiplyAndReduce_getD _ _ _ _ _ hg]
      unfold SparseMatrix.groupValues
      rw [abs_sub_comm]
      apply reduceGroup_map_diff_le dir _ _ _ _ hε
      intro r _
      rw [abs_sub_comm]
      exact rowValue_diff_le S.A hnn hrs _ _ b _ hε hall r

theorem twoStateMatrix_nonNegative : twoStateMatrix.NonNegative := by
  unfold SparseMatrix.NonNegative twoStateMatrix
  simp

theorem twoStateMatrix_rowSums : twoStateMatrix.RowSumsAtMostOne := by
  unfold SparseMatrix.RowSumsAtMostOne twoStateMatrix
  simp
  norm_num

theorem twoStateMatrix_groupsNonEmpty : twoStateMatrix.GroupsNonEmpty := by
  intro g hg
  have hg' : g < 2 := hg
  interval_cases g <;> decide

/-- Witness of C3 on the two-state system: the check accepts the vector `[1, 1]`, which is the
exact solution when maximising. -/
theorem isSolution_iff_bellmanFixpoint_witness :
    isSolution OptimizationDirection.Maximize twoStateMatrix [1, 1] twoStateB = true ∧
      BellmanFixpoint OptimizationDirection.Maximize twoStateMatrix [1, 1] twoStateB :=
  ⟨by decide!,
    (isSolution_iff_bellmanFixpoint OptimizationDirection.Maximize twoStateMatrix [1, 1]
      twoStateB (by decide) twoStateMatrix_groupsNonEmpty).1 (by decide!)⟩

/-- Witness of C1 on the two-state system: value iteration from `[0, 0]` converges and the
returned vector has a Bellman residual of at most one tenth. -/
theorem valueIteration_converged_residual_witness :
    (solveEquationsValueIteration twoStateSolver regularEnvironment
        OptimizationDirection.Maximize [0, 0] twoStateB).outcome = Outcome.returned true ∧
    ∀ g, g < twoStateMatrix.getRowGroupCount → ∀ v,
      IsOptimum OptimizationDirection.Maximize
        (twoStateMatrix.groupValues (solveEquationsValueIteration twoStateSolver
          regularEnvironment OptimizationDirection.Maximize [0, 0] twoStateB).x twoStateB g) v →
      |(solveEquationsValueIteration twoStateSolver regularEnvironment
          OptimizationDirection.Maximize [0, 0] twoStateB).x.getD g 0 - v| ≤ 1 / 10 :=
  ⟨by decide!,
    valueIteration_converged_residual twoStateSolver regularEnvironment
      OptimizationDirection.Maximize [0, 0] twoStateB twoStateMatrix_nonNegative
      twoStateMatrix_rowSums rfl rfl rfl
      (by
        intro guarantee x0 h
        simp [valueIterationStart, twoStateSolver] at h
        rw [← h.2]
        rfl)
      (by decide!)⟩

/-! ## Rational search -/

theorem sharpenFrom_found {I : Type} (kmSharpen : Nat → List I → Option (List ℚ))
    (dir : OptimizationDirection) (A : SparseMatrix) (x : List I) (b : List ℚ) (k p : Nat)
    (tmp t : List ℚ) (h : sharpenFrom kmSharpen dir A x b k p tmp = some (true, t)) :
    isSolution dir A t b = true := by
  induction k generalizing p tmp with
  | zero => simp [sharpenFrom] at h
  | succ k ih =>
    unfold sharpenFrom at h
    cases hk : kmSharpen p x with
    | none => simp [hk] at h
    | some tmp' =>
      simp only [hk] at h
      by_cases hs : isSolution dir A tmp' b = true
      · rw [if_pos hs] at h
        simp only [Option.some.injEq, Prod.mk.injEq, true_and] at h
        rw [← h]
        exact hs
      · rw [if_neg hs] at h
        exact ih _ _ h

theorem rationalSearchLoop_spec {I : Type}
    (impreciseIteration : ℚ → Nat → ImpreciseVectors I → ImpreciseVectors I × Nat)
    (kmSharpen : Nat → List I → Option (List ℚ)) (env : Environment)
    (dir : OptimizationDirection) (rationalA : SparseMatrix) (rationalB : List ℚ) (fuel : Nat)
    (st st' : RationalSearchState I)
    (hinv : (st.status = SolverStatus.Converged →
        isSolution dir rationalA st.rationalX rationalB = true) ∧
      st.status ≠ SolverStatus.TerminatedEarly)
    (h : rationalSearchLoop impreciseIteration kmSharpen env dir rationalA rationalB fuel st =
      some st') :
    (st'.status = SolverStatus.Converged →
        isSolution dir rationalA st'.rationalX rationalB = true) ∧
      st'.status ≠ SolverStatus.TerminatedEarly := by
  induction fuel generalizing st with
  | zero =>
    simp only [rationalSearchLoop, Option.some.injEq] at h
    rw [← h]
    exact hinv
  | succ fuel ih =>
    unfold rationalSearchLoop at h
    by_cases hc : st.status = SolverStatus.InProgress ∧
        st.overallIterations < env.maximalNumberOfIterations
    · rw [if_pos hc] at h
      simp only [] at h
      cases hsh : sharpen kmSharpen dir (sharpenDigits st.precision) rationalA
          (impreciseIteration st.precision st.overallIterations st.vectors).1.current rationalB
          st.rationalX with
      | none => simp [hsh] at h
      | some r =>
        obtain ⟨found, rationalX⟩ := r
        simp only [hsh] at h
        refine ih _ ?_ h
        cases found
        · simp only [Bool.false_eq_true, if_false]
          refine ⟨?_, hinv.2⟩
          intro hconv
          rw [hc.1] at hconv
          exact absurd hconv (by decide)
        · simp only [if_true]
          refine ⟨fun _ => ?_, by decide⟩
          exact sharpenFrom_found kmSharpen dir rationalA _ rationalB _ _ _ _ hsh
    · rw [if_neg hc] at h
      simp only [Option.some.injEq] at h
      rw [← h]
      exact hinv

theorem rationalSearchFinalStatus_good (env : Environment) (status : SolverStatus) (n : Nat)
    (hte : status ≠ SolverStatus.TerminatedEarly)
    (h : (match reportStatus (rationalSearchFinalStatus env status n) with
      | some e => Outcome.raised e
      | none => Outcome.returned
          (rationalSearchFinalStatus env status n = SolverStatus.Converged ||
            rationalSearchFinalStatus env status n = SolverStatus.TerminatedEarly)) =
      Outcome.returned true) :
    status = SolverStatus.Converged := by
  unfold rationalSearchFinalStatus at h
  cases status
  · rfl
  · exact absurd rfl hte
  · simp [reportStatus] at h
  · by_cases hn : n = env.maximalNumberOfIterations
    · simp [reportStatus, hn] at h
    · simp [reportStatus, hn] at h

theorem valueIterationLoop_pointers (S : Solver) (env : Environment)
    (dir : OptimizationDirection) (b : List ℚ) (precision : ℚ) (relative : Bool)
    (guarantee : SolverGuarantee) (maximalNumberOfIterations : Nat) (useGaussSeidel : Bool)
    (fuel : Nat) (st : ValueIterationState) (p q : Buf)
    (h : (st.currentX = p ∧ st.newX = q) ∨ (st.currentX = q ∧ st.newX = p)) :
    ((valueIterationLoop S env dir b precision relative guarantee maximalNumberOfIterations
        useGaussSeidel fuel st).currentX = p ∧
      (valueIterationLoop S env dir b precision relative guarantee maximalNumberOfIterations
        useGaussSeidel fuel st).newX = q) ∨
    ((valueIterationLoop S env dir b precision relative guarantee maximalNumberOfIterations
        useGaussSeidel fuel st).currentX = q ∧
      (valueIterationLoop S env dir b precision relative guarantee maximalNumberOfIterations
        useGaussSeidel fuel st).newX = p) := by
  induction fuel generalizing st with
  | zero => exact h
  | succ fuel ih =>
    unfold valueIterationLoop
    by_cases hs : st.status = SolverStatus.InProgress
    · rw [if_pos hs]
      apply ih
      unfold valueIterationStep
      simp only []
      rcases h with ⟨h1, h2⟩ | ⟨h1, h2⟩
      · exact Or.inr ⟨h2, h1⟩
      · exact Or.inl ⟨h2, h1⟩
    · rw [if_neg hs]
      exact h

theorem performValueIteration_pointers (S : Solver) (env : Environment)
    (dir : OptimizationDirection) (bufs : Buffers) (currentX newX : Buf) (b : List ℚ)
    (precision : ℚ) (relative : Bool) (guarantee : SolverGuarantee)
    (currentIterations maximalNumberOfIterations : Nat) (style : MultiplicationStyle)
    (hne : currentX ≠ newX) :
    (performValueIteration S env dir bufs currentX newX b precision relative guarantee
      currentIterations maximalNumberOfIterations style).currentX = currentX ∧
    (performValueIteration S env dir bufs currentX newX b precision relative guarantee
      currentIterations maximalNumberOfIterations style).newX = newX := by
  unfold performValueIteration
  simp only []
  have hptr := valueIterationLoop_pointers S env dir b precision relative guarantee
    maximalNumberOfIterations
    (S.supportsGaussSeidelMultiplication && decide (style = MultiplicationStyle.GaussSeidel))
    (max 1 (maximalNumberOfIterations - currentIterations))
    { bufs := bufs, currentX := currentX, newX := newX, iterations := currentIterations,
      status := SolverStatus.InProgress } currentX newX (Or.inl ⟨rfl, rfl⟩)
  generalize valueIterationLoop S env dir b precision relative guarantee
    maximalNumberOfIterations
    (S.supportsGaussSeidelMultiplication && decide (style = MultiplicationStyle.GaussSeidel))
    (max 1 (maximalNumberOfIterations - currentIterations))
    { bufs := bufs, currentX := currentX, newX := newX, iterations := currentIterations,
      status := SolverStatus.InProgress } = st at hptr
  rcases hptr with ⟨h1, h2⟩ | ⟨h1, h2⟩
  · have hno : ¬ (currentX = st.newX) := by rw [h2]; exact hne
    rw [if_neg hno]
    exact ⟨h1, h2⟩
  · have hyes : currentX = st.newX := by rw [h2]
    rw [if_pos hyes]
    exact ⟨h2, h1⟩

theorem buffers_swap_self (bufs : Buffers) (p : Buf) : bufs.swap p p = bufs := by
  cases p <;> rfl

theorem exactSearchLoop_spec (S : Solver) (kmSharpen : Nat → List ℚ → Option (List ℚ))
    (env : Environment) (dir : OptimizationDirection) (b : List ℚ) (fuel : Nat)
    (st st' : ExactSearchState)
    (hinv : st.currentX = Buf.aux ∧ st.newX = Buf.x ∧
      (st.status = SolverStatus.Converged → isSolution dir S.A st.bufs.x b = true) ∧
      st.status ≠ SolverStatus.TerminatedEarly)
    (h : exactSearchLoop S kmSharpen env dir b fuel st = some st') :
    (st'.status = SolverStatus.Converged → isSolution dir S.A st'.bufs.x b = true) ∧
      st'.status ≠ SolverStatus.TerminatedEarly := by
  induction fuel generalizing st with
  | zero =>
    simp only [exactSearchLoop, Option.some.injEq] at h
    rw [← h]
    exact ⟨hinv.2.2.1, hinv.2.2.2⟩
  | succ fuel ih =>
    unfold exactSearchLoop at h
    by_cases hc : st.status = SolverStatus.InProgress ∧
        st.overallIterations < env.maximalNumberOfIterations
    · rw [if_pos hc] at h
      simp only [] at h
      obtain ⟨hcur, hnew, _, hte⟩ := hinv
      have hptr := performValueIteration_pointers S env dir st.bufs st.currentX st.newX b
        st.precision env.relativeTerminationCriterion SolverGuarantee.LessOrEqual
        st.overallIterations env.maximalNumberOfIterations env.multiplicationStyle
        (by rw [hcur, hnew]; decide)
      generalize performValueIteration S env dir st.bufs st.currentX st.newX b
        st.precision env.relativeTerminationCriterion SolverGuarantee.LessOrEqual
        st.overallIterations env.maximalNumberOfIterations env.multiplicationStyle = result
        at h hptr
      rw [hcur, hnew] at hptr
      obtain ⟨hrc, hrn⟩ := hptr
      rw [hrc, hrn] at h
      cases hsh : sharpen kmSharpen dir (sharpenDigits st.precision) S.A
          (result.bufs.get Buf.aux) b (result.bufs.get Buf.x) with
      | none => simp [hsh] at h
      | some r =>
        obtain ⟨found, tmp⟩ := r
        simp only [hsh] at h
        refine ih _ ⟨rfl, rfl, ?_, ?_⟩ h
        · cases found
          · simp only [Bool.false_eq_true, if_false]
            intro hconv
            rw [hc.1] at hconv
            exact absurd hconv (by decide)
          · simp only [if_true]
            intro _
            have hsol := sharpenFrom_found kmSharpen dir S.A _ b _ _ _ _ hsh
            simp only [swapSolutions, if_true, buffers_swap_self]
            exact hsol
        · cases found
          · simpa using hte
          · simp
    · rw [if_neg hc] at h
      simp only [Option.some.injEq] at h
      rw [← h]
      exact ⟨hinv.2.2.1, hinv.2.2.2⟩

/-- C2: whenever the core routine of rational search returns true, the vector it leaves in
`rationalX` passes `isSolution(dir, rationalA, rationalX, rationalB)`, that is, it satisfies the
Bellman equation with zero error.  This holds when the imprecise type differs from the rational
type (for every imprecise iteration and every sharpening routine), and when both are the
rational type and `tmpX` is an alias of `rationalX`. -/
theorem rationalSearch_returns_exact_solution (env : Environment) (dir : OptimizationDirection) :
    (∀ (I : Type)
      (impreciseIteration : ℚ → Nat → ImpreciseVectors I → ImpreciseVectors I × Nat)
      (kmSharpen : Nat → List I → Option (List ℚ)) (rationalA : SparseMatrix)
      (rationalX rationalB : List ℚ) (x tmpX : List I),
      (solveEquationsRationalSearchHelper impreciseIteration kmSharpen env dir rationalA
          rationalX rationalB x tmpX).outcome = Outcome.returned true →
        isSolution dir rationalA
          (solveEquationsRationalSearchHelper impreciseIteration kmSharpen env dir rationalA
            rationalX rationalB x tmpX).rationalX rationalB = true) ∧
    (∀ (S : Solver) (kmSharpen : Nat → List ℚ → Option (List ℚ))
      (x b auxiliaryRowGroupVector : List ℚ),
      (solveEquationsRationalSearchHelperExact S kmSharpen env dir x b
          auxiliaryRowGroupVector).outcome = Outcome.returned true →
        isSolution dir S.A
          (solveEquationsRationalSearchHelperExact S kmSharpen env dir x b
            auxiliaryRowGroupVector).rationalX b = true) := by
  constructor
  · intro I impreciseIteration kmSharpen rationalA rationalX rationalB x tmpX hret
    unfold solveEquationsRationalSearchHelper at hret ⊢
    cases hloop : rationalSearchLoop impreciseIteration kmSharpen env dir rationalA rationalB
        env.maximalNumberOfIterations
        { vectors := { x := x, tmpX := tmpX, currentIsX := true }
          rationalX := rationalX
          precision := env.precision
          overallIterations := 0
          status := SolverStatus.InProgress } with
    | none => simp [hloop] at hret
    | some st =>
      simp only [hloop] at hret ⊢
      obtain ⟨hsol, hte⟩ := rationalSearchLoop_spec impreciseIteration kmSharpen env dir
        rationalA rationalB _ _ st ⟨fun h => by simp at h, by simp⟩ hloop
      have hstatus : st.status = SolverStatus.Converged := by
        apply rationalSearchFinalStatus_good env st.status st.overallIterations hte
        revert hret
        cases reportStatus (rationalSearchFinalStatus env st.status st.overallIterations) <;>
          simp
      revert hret
      cases reportStatus (rationalSearchFinalStatus env st.status st.overallIterations)
      · intro _
        exact hsol hstatus
      · simp
  · intro S kmSharpen x b auxiliaryRowGroupVector hret
    unfold solveEquationsRationalSearchHelperExact at hret ⊢
    cases hloop : exactSearchLoop S kmSharpen env dir b env.maximalNumberOfIterations
        { bufs := { x := x, aux := auxiliaryRowGroupVector, aux2 := [] }
          currentX := Buf.aux
          newX := Buf.x
          precision := env.precision
          overallIterations := 0
          status := SolverStatus.InProgress } with
    | none => simp [hloop] at hret
    | some st =>
      simp only [hloop] at hret ⊢
      obtain ⟨hsol, hte⟩ := exactSearchLoop_spec S kmSharpen env dir b _ _ st
        ⟨rfl, rfl, fun h => by simp at h, by simp⟩ hloop
      have hstatus : st.status = SolverStatus.Converged := by
        apply rationalSearchFinalStatus_good env st.status st.overallIterations hte
        revert hret
        cases reportStatus (rationalSearchFinalStatus env st.status st.overallIterations) <;>
          simp
      revert hret
      cases reportStatus (rationalSearchFinalStatus env st.status st.overallIterations)
      · intro _
        exact hsol hstatus
      · simp

/-- Witness of C2 on the two-state system: the exact core routine returns true and leaves the
exact solution `[1, 1]` in `rationalX`. -/
theorem rationalSearch_returns_exact_solution_witness :
    (solveEquationsRationalSearchHelperExact twoStateSolver keepSharpen regularEnvironment
        OptimizationDirection.Maximize [0, 0] twoStateB [0, 0]).outcome = Outcome.returned true ∧
    isSolution OptimizationDirection.Maximize twoStateSolver.A
      (solveEquationsRationalSearchHelperExact twoStateSolver keepSharpen regularEnvironment
        OptimizationDirection.Maximize [0, 0] twoStateB [0, 0]).rationalX twoStateB = true :=
  ⟨by decide!,
    (rationalSearch_returns_exact_solution regularEnvironment
      OptimizationDirection.Maximize).2 twoStateSolver keepSharpen [0, 0] twoStateB [0, 0]
      (by decide!)⟩

/-! ## Sound value iteration -/

theorem reportStatus_eq_some (status : SolverStatus) (e : SolverException)
    (h : reportStatus status = some e) : e = SolverException.InvalidStateException := by
  cases status <;> simp [reportStatus] at h
  exact h.symm

theorem createBoundsVector_eq_none (bound : Option Bound) (length : Nat) :
    createBoundsVector bound length = none ↔ bound = none := by
  cases bound with
  | none => simp [createBoundsVector]
  | some v => cases v <;> simp [createBoundsVector]

/-- C10, counterexample: the solver of the half system with its upper bound and without a lower
bound.  The requirement check passes, the lower bounds vector cannot be created, and the method
raises the unmet-requirement exception although the solver has an upper bound. -/
theorem soundValueIteration_unmet_with_upper_bound :
    ¬ ((solveEquationsSoundValueIteration upperOnlySolver unitEnvironment
          OptimizationDirection.Maximize [0] [1]).outcome =
        Outcome.raised SolverException.UnmetRequirementException ↔
      upperOnlySolver.hasUpperBound = false) := by
  decide

/-- C10, amended: `solveEquationsSoundValueIteration` raises the unmet-requirement exception
exactly when the solver has no upper bound or no lower bound, and when it raises, the vector `x`
is left as it was passed in. -/
theorem soundValueIteration_unmet_iff_bound_missing (S : Solver) (env : Environment)
    (dir : OptimizationDirection) (x b : List ℚ) :
    ((solveEquationsSoundValueIteration S env dir x b).outcome =
        Outcome.raised SolverException.UnmetRequirementException ↔
      (S.hasUpperBound = false ∨ S.hasLowerBound = false)) ∧
    ((solveEquationsSoundValueIteration S env dir x b).outcome =
        Outcome.raised SolverException.UnmetRequirementException →
      (solveEquationsSoundValueIteration S env dir x b).x = x) := by
  by_cases hub : S.hasUpperBound = true
  · cases hl : createBoundsVector S.lowerBound x.length with
    | none =>
      have hlb : S.hasLowerBound = false := by
        have := (createBoundsVector_eq_none _ _).1 hl
        simp [Solver.hasLowerBound, this]
      unfold solveEquationsSoundValueIteration
      simp [hub, hl, hlb]
    | some lower =>
      have hlb : S.hasLowerBound = true := by
        cases hb : S.lowerBound with
        | none => rw [hb] at hl; simp [createBoundsVector] at hl
        | some v => simp [Solver.hasLowerBound, hb]
      cases hu : createBoundsVector S.upperBound S.A.getRowGroupCount with
      | none =>
        have := (createBoundsVector_eq_none _ _).1 hu
        simp [Solver.hasUpperBound, this] at hub
      | some upper =>
        have hne : (solveEquationsSoundValueIteration S env dir x b).outcome ≠
            Outcome.raised SolverException.UnmetRequirementException := by
          unfold solveEquationsSoundValueIteration
          simp only [hub, Bool.not_true, Bool.false_eq_true, if_false, hl, hu]
          split
          · rename_i e he
            have := reportStatus_eq_some _ _ he
            subst this
            simp
          · simp
        constructor
        · constructor
          · intro h
            exact absurd h hne
          · intro h
            rw [hub, hlb] at h
            exact absurd h (by decide)
        · intro h
          exact absurd h hne
  · have hub' : S.hasUpperBound = false := by simpa using hub
    unfold solveEquationsSoundValueIteration
    simp [hub']

theorem getD_set_nat (y : List Nat) (g s : Nat) (v : Nat) :
    (y.set g v).getD s 0 = if s = g ∧ g < y.length then v else y.getD s 0 := by
  simp only [List.getD_eq_getElem?_getD, List.getElem?_set]
  by_cases h : g = s
  · subst h
    by_cases h2 : g < y.length
    · simp [h2]
    · simp [h2]
      rw [List.getElem?_eq_none (by omega)]
      rfl
  · have : ¬ (s = g) := fun h' => h h'.symm
    simp [h, this]

theorem getD_set (y : List ℚ) (g s : Nat) (v : ℚ) :
    (y.set g v).getD s 0 = if s = g ∧ g < y.length then v else y.getD s 0 := by
  simp only [List.getD_eq_getElem?_getD, List.getElem?_set]
  by_cases h : g = s
  · subst h
    by_cases h2 : g < y.length
    · simp [h2]
    · simp [h2]
      rw [List.getElem?_eq_none (by omega)]
      rfl
  · have : ¬ (s = g) := fun h' => h h'.symm
    simp [h, this]

theorem fixpoint_reduceGroup (dir : OptimizationDirection) (A : SparseMatrix)
    (xstar b : List ℚ) (hfix : BellmanFixpoint dir A xstar b) (g : Nat)
    (hg : g < A.getRowGroupCount) :
    reduceGroup dir (A.groupValues xstar b g) = xstar.getD g 0 :=
  (isOptimum_iff_reduceGroup dir _ _ (List.ne_nil_of_mem (hfix g hg).1)).1 (hfix g hg)

theorem reduceGroup_groupValues_mono (dir : OptimizationDirection) (A : SparseMatrix)
    (hnn : A.NonNegative) (y z b : List ℚ) (hyz : ∀ i, y.getD i 0 ≤ z.getD i 0) (g : Nat) :
    reduceGroup dir (A.groupValues y b g) ≤ reduceGroup dir (A.groupValues z b g) := by
  unfold SparseMatrix.groupValues
  exact reduceGroup_map_mono dir _ _ _ (fun r _ => rowValue_mono A hnn y z b hyz r)

theorem multiplyAndReduce_le_fixpoint (dir : OptimizationDirection) (A : SparseMatrix)
    (hnn : A.NonNegative) (xstar b : List ℚ) (hfix : BellmanFixpoint dir A xstar b)
    (hlen : xstar.length = A.getRowGroupCount) (y : List ℚ)
    (hy : ∀ i, y.getD i 0 ≤ xstar.getD i 0) (s : Nat) :
    (multiplyAndReduce dir A y b).getD s 0 ≤ xstar.getD s 0 := by
  by_cases hs : s < A.getRowGroupCount
  · rw [multiplyAndReduce_getD _ _ _ _ _ hs, ← fixpoint_reduceGroup dir A xstar b hfix s hs]
    exact reduceGroup_groupValues_mono dir A hnn y xstar b hy s
  · rw [multiplyAndReduce_getD_of_le _ _ _ _ _ (not_lt.1 hs),
      List.getD_eq_default _ _ (by omega)]

theorem fixpoint_le_multiplyAndReduce (dir : OptimizationDirection) (A : SparseMatrix)
    (hnn : A.NonNegative) (xstar b : List ℚ) (hfix : BellmanFixpoint dir A xstar b)
    (hlen : xstar.length = A.getRowGroupCount) (y : List ℚ)
    (hy : ∀ i, xstar.getD i 0 ≤ y.getD i 0) (s : Nat) :
    xstar.getD s 0 ≤ (multiplyAndReduce dir A y b).getD s 0 := by
  by_cases hs : s < A.getRowGroupCount
  · rw [multiplyAndReduce_getD _ _ _ _ _ hs, ← fixpoint_reduceGroup dir A xstar b hfix s hs]
    exact reduceGroup_groupValues_mono dir A hnn xstar y b hy s
  · rw [multiplyAndReduce_getD_of_le _ _ _ _ _ (not_lt.1 hs),
      List.getD_eq_default _ _ (by omega)]

theorem gaussSeidel_sweep_le_fixpoint (dir : OptimizationDirection) (A : SparseMatrix)
    (hnn : A.NonNegative) (xstar b : List ℚ) (hfix : BellmanFixpoint dir A xstar b)
    (groups : List Nat) (hgroups : ∀ g ∈ groups, g < A.getRowGroupCount) (y : List ℚ)
    (hy : ∀ i, y.getD i 0 ≤ xstar.getD i 0) (s : Nat) :
    (groups.foldl (fun y g => y.set g (reduceGroup dir (A.groupValues y b g))) y).getD s 0 ≤
      xstar.getD s 0 := by
  induction groups generalizing y with
  | nil => exact hy s
  | cons g groups ih =>
    simp only [List.foldl_cons]
    apply ih (fun g' hg' => hgroups g' (List.mem_cons_of_mem _ hg'))
    intro i
    rw [getD_set]
    split
    · rename_i h
      rw [h.1, ← fixpoint_reduceGroup dir A xstar b hfix g (hgroups g (List.mem_cons_self _ _))]
      exact reduceGroup_groupValues_mono dir A hnn y xstar b hy g
    · exact hy i

theorem fixpoint_le_gaussSeidel_sweep (dir : OptimizationDirection) (A : SparseMatrix)
    (hnn : A.NonNegative) (xstar b : List ℚ) (hfix : BellmanFixpoint dir A xstar b)
    (groups : List Nat) (hgroups : ∀ g ∈ groups, g < A.getRowGroupCount) (y : List ℚ)
    (hy : ∀ i, xstar.getD i 0 ≤ y.getD i 0) (s : Nat) :
    xstar.getD s 0 ≤
      (groups.foldl (fun y g => y.set g (reduceGroup dir (A.groupValues y b g))) y).getD s 0 := by
  induction groups generalizing y with
  | nil => exact hy s
  | cons g groups ih =>
    simp only [List.foldl_cons]
    apply ih (fun g' hg' => hgroups g' (List.mem_cons_of_mem _ hg'))
    intro i
    rw [getD_set]
    split
    · rename_i h
      rw [h.1, ← fixpoint_reduceGroup dir A xstar b hfix g (hgroups g (List.mem_cons_self _ _))]
      exact reduceGroup_groupValues_mono dir A hnn xstar y b hy g
    · exact hy i

theorem gaussSeidel_le_fixpoint (dir : OptimizationDirection) (A : SparseMatrix)
    (hnn : A.NonNegative) (xstar b : List ℚ) (hfix : BellmanFixpoint dir A xstar b)
    (y : List ℚ) (hy : ∀ i, y.getD i 0 ≤ xstar.getD i 0) (s : Nat) :
    (multiplyAndReduceGaussSeidel dir A y b).getD s 0 ≤ xstar.getD s 0 :=
  gaussSeidel_sweep_le_fixpoint dir A hnn xstar b hfix _
    (fun g hg => by simpa using hg) y hy s

theorem fixpoint_le_gaussSeidel (dir : OptimizationDirection) (A : SparseMatrix)
    (hnn : A.NonNegative) (xstar b : List ℚ) (hfix : BellmanFixpoint dir A xstar b)
    (y : List ℚ) (hy : ∀ i, xstar.getD i 0 ≤ y.getD i 0) (s : Nat) :
    xstar.getD s 0 ≤ (multiplyAndReduceGaussSeidel dir A y b).getD s 0 :=
  fixpoint_le_gaussSeidel_sweep dir A hnn xstar b hfix _
    (fun g hg => by simpa using hg) y hy s

theorem soundLowerStep_invariant (S : Solver) (dir : OptimizationDirection) (b xstar : List ℚ)
    (useGaussSeidel useDiffs : Bool) (st : SoundState) (hnn : S.A.NonNegative)
    (hfix : BellmanFixpoint dir S.A xstar b) (hlen : xstar.length = S.A.getRowGroupCount)
    (hp : SoundPointers useGaussSeidel st) (hb : Bracketed xstar st) :
    SoundPointers useGaussSeidel (soundLowerStep S dir b useGaussSeidel useDiffs st) ∧
      Bracketed xstar (soundLowerStep S dir b useGaussSeidel useDiffs st) := by
  cases useGaussSeidel
  · obtain ⟨hlu, htmp⟩ := hp
    obtain ⟨t, ht, htl, htu⟩ := htmp rfl
    unfold soundLowerStep
    simp only [Bool.false_eq_true, if_false, ht]
    refine ⟨⟨htu, fun _ => ⟨st.lowerX, rfl, fun h => htl h.symm, hlu⟩⟩, ?_⟩
    intro s
    simp only [buffers_get_set_self, buffers_get_set_other _ _ _ _ (Ne.symm htu)]
    exact ⟨multiplyAndReduce_le_fixpoint dir S.A hnn xstar b hfix hlen _ (fun i => (hb i).1) s,
      (hb s).2⟩
  · obtain ⟨hlu, _⟩ := hp
    unfold soundLowerStep
    simp only [if_true]
    refine ⟨⟨hlu, fun h => absurd h (by decide)⟩, ?_⟩
    intro s
    simp only [buffers_get_set_self, buffers_get_set_other _ _ _ _ (Ne.symm hlu)]
    exact ⟨gaussSeidel_le_fixpoint dir S.A hnn xstar b hfix _ (fun i => (hb i).1) s, (hb s).2⟩

theorem soundUpperStep_invariant (S : Solver) (dir : OptimizationDirection) (b xstar : List ℚ)
    (useGaussSeidel useDiffs : Bool) (st : SoundState) (hnn : S.A.NonNegative)
    (hfix : BellmanFixpoint dir S.A xstar b) (hlen : xstar.length = S.A.getRowGroupCount)
    (hp : SoundPointers useGaussSeidel st) (hb : Bracketed xstar st) :
    SoundPointers useGaussSeidel (soundUpperStep S dir b useGaussSeidel useDiffs st) ∧
      Bracketed xstar (soundUpperStep S dir b useGaussSeidel useDiffs st) := by
  cases useGaussSeidel
  · obtain ⟨hlu, htmp⟩ := hp
    obtain ⟨t, ht, htl, htu⟩ := htmp rfl
    unfold soundUpperStep
    simp only [Bool.false_eq_true, if_false, ht]
    refine ⟨⟨fun h => htl h.symm, fun _ => ⟨st.upperX, rfl, Ne.symm hlu, fun h => htu h.symm⟩⟩,
      ?_⟩
    intro s
    simp only [buffers_get_set_self, buffers_get_set_other _ _ _ _ (Ne.symm htl)]
    exact ⟨(hb s).1,
      fixpoint_le_multiplyAndReduce dir S.A hnn xstar b hfix hlen _ (fun i => (hb i).2) s⟩
  · obtain ⟨hlu, _⟩ := hp
    unfold soundUpperStep
    simp only [if_true]
    refine ⟨⟨hlu, fun h => absurd h (by decide)⟩, ?_⟩
    intro s
    simp only [buffers_get_set_self, buffers_get_set_other _ _ _ _ hlu]
    exact ⟨(hb s).1, fixpoint_le_gaussSeidel dir S.A hnn xstar b hfix _ (fun i => (hb i).2) s⟩

theorem soundBoundsStep_invariant (S : Solver) (dir : OptimizationDirection) (b xstar : List ℚ)
    (useGaussSeidel useDiffs : Bool) (st : SoundState) (hnn : S.A.NonNegative)
    (hfix : BellmanFixpoint dir S.A xstar b) (hlen : xstar.length = S.A.getRowGroupCount)
    (hp : SoundPointers useGaussSeidel st) (hb : Bracketed xstar st) :
    SoundPointers useGaussSeidel (soundBoundsStep S dir b useGaussSeidel useDiffs st).1 ∧
      Bracketed xstar (soundBoundsStep S dir b useGaussSeidel useDiffs st).1 := by
  unfold soundBoundsStep
  split
  · have h1 := soundLowerStep_invariant S dir b xstar useGaussSeidel useDiffs st hnn hfix hlen
      hp hb
    exact soundUpperStep_invariant S dir b xstar useGaussSeidel useDiffs _ hnn hfix hlen
      h1.1 h1.2
  · split
    · exact soundLowerStep_invariant S dir b xstar useGaussSeidel useDiffs st hnn hfix hlen
        hp hb
    · exact soundUpperStep_invariant S dir b xstar useGaussSeidel useDiffs st hnn hfix hlen
        hp hb

theorem soundStep_invariant (S : Solver) (env : Environment) (dir : OptimizationDirection)
    (b xstar : List ℚ) (precision : ℚ) (relative useGaussSeidel useDiffs : Bool)
    (st : SoundState) (hnn : S.A.NonNegative)
    (hfix : BellmanFixpoint dir S.A xstar b) (hlen : xstar.length = S.A.getRowGroupCount)
    (hp : SoundPointers useGaussSeidel st) (hb : Bracketed xstar st) :
    SoundPointers useGaussSeidel
        (soundStep S env dir b precision relative useGaussSeidel useDiffs st) ∧
      Bracketed xstar (soundStep S env dir b precision relative useGaussSeidel useDiffs st) :=
  soundBoundsStep_invariant S dir b xstar useGaussSeidel useDiffs st hnn hfix hlen hp hb

theorem soundLoop_invariant (S : Solver) (env : Environment) (dir : OptimizationDirection)
    (b xstar : List ℚ) (precision : ℚ) (relative useGaussSeidel useDiffs : Bool) (fuel : Nat)
    (st : SoundState) (hnn : S.A.NonNegative)
    (hfix : BellmanFixpoint dir S.A xstar b) (hlen : xstar.length = S.A.getRowGroupCount)
    (hp : SoundPointers useGaussSeidel st) (hb : Bracketed xstar st) :
    SoundPointers useGaussSeidel
        (soundLoop S env dir b precision relative useGaussSeidel useDiffs fuel st) ∧
      Bracketed xstar
        (soundLoop S env dir b precision relative useGaussSeidel useDiffs fuel st) := by
  induction fuel generalizing st with
  | zero => exact ⟨hp, hb⟩
  | succ fuel ih =>
    unfold soundLoop
    split
    · have h := soundStep_invariant S env dir b xstar precision relative useGaussSeidel useDiffs
        st hnn hfix hlen hp hb
      exact ih _ h.1 h.2
    · exact ⟨hp, hb⟩

theorem soundInitialState_pointers (S : Solver) (env : Environment) (lower upper : List ℚ) :
    SoundPointers (soundUsesGaussSeidel S env) (soundInitialState S env lower upper) := by
  unfold SoundPointers soundInitialState
  refine ⟨by simp, ?_⟩
  intro h
  simp only [h, Bool.false_eq_true, if_false]
  exact ⟨Buf.aux2, rfl, by simp, by simp⟩

/-- C6: for a system with non-negative entries and a vector `xstar` (one entry per row group)
that is a fixpoint of the Bellman operator for the direction, if the initial lower vector is
pointwise at most `xstar` and the initial upper vector is pointwise at least `xstar`, then after
any number of passes of the loop of `solveEquationsSoundValueIteration`, whichever steps were
taken and with regular or Gauss-Seidel multiplication, `lower[s] ≤ xstar[s] ≤ upper[s]` holds
at every state `s`. -/
theorem soundValueIteration_bracketing (S : Solver) (env : Environment)
    (dir : OptimizationDirection) (b xstar lower upper : List ℚ) (precision : ℚ)
    (relative useDiffs : Bool) (passes : Nat)
    (hnn : S.A.NonNegative) (hfix : BellmanFixpoint dir S.A xstar b)
    (hlen : xstar.length = S.A.getRowGroupCount)
    (hlower : ∀ s, lower.getD s 0 ≤ xstar.getD s 0)
    (hupper : ∀ s, xstar.getD s 0 ≤ upper.getD s 0) :
    Bracketed xstar
      (soundLoop S env dir b precision relative (soundUsesGaussSeidel S env) useDiffs passes
        (soundInitialState S env lower upper)) :=
  (soundLoop_invariant S env dir b xstar precision relative (soundUsesGaussSeidel S env)
    useDiffs passes _ hnn hfix hlen (soundInitialState_pointers S env lower upper)
    (fun s => ⟨hlower s, hupper s⟩)).2

theorem twoState_fixpoint :
    BellmanFixpoint OptimizationDirection.Maximize twoStateMatrix [1, 1] twoStateB := by
  intro g hg
  have hg' : g < 2 := hg
  interval_cases g
  · unfold IsOptimum
    decide!
  · unfold IsOptimum
    decide!

/-- Witness of C6 on the two-state system: after three passes from the bounds `[0, 0]` and
`[2, 2]` the iterates still enclose the solution `[1, 1]`. -/
theorem soundValueIteration_bracketing_witness :
    Bracketed [1, 1]
      (soundLoop twoStateSolver regularEnvironment OptimizationDirection.Maximize twoStateB
        (1 / 5) false (soundUsesGaussSeidel twoStateSolver regularEnvironment) false 3
        (soundInitialState twoStateSolver regularEnvironment [0, 0] [2, 2])) :=
  soundValueIteration_bracketing twoStateSolver regularEnvironment
    OptimizationDirection.Maximize twoStateB [1, 1] [0, 0] [2, 2] (1 / 5) false false 3
    twoStateMatrix_nonNegative twoState_fixpoint rfl
    (by intro s; rcases s with _ | _ | s <;> simp)
    (by intro s; rcases s with _ | _ | s <;> simp)

/-- C5, evaluated: under regular multiplication on the one-state system with the bounds `0` and
`4`, the loop ends after one pass with the lower iterate `[0]` and the upper iterate `[2]`,
whose mean is `[1]`, and `solveEquationsSoundValueIteration` returns true with `x = [2]`. -/
theorem soundValueIteration_regular_not_mean :
    (soundValueIterationRun halfSolver unitEnvironment OptimizationDirection.Maximize [0] [0]
        [4]).iterations = 1 ∧
    (soundValueIterationRun halfSolver unitEnvironment OptimizationDirection.Maximize [0] [0]
        [4]).bufs.get
      (soundValueIterationRun halfSolver unitEnvironment OptimizationDirection.Maximize [0] [0]
        [4]).lowerX = [0] ∧
    (soundValueIterationRun halfSolver unitEnvironment OptimizationDirection.Maximize [0] [0]
        [4]).bufs.get
      (soundValueIterationRun halfSolver unitEnvironment OptimizationDirection.Maximize [0] [0]
        [4]).upperX = [2] ∧
    (solveEquationsSoundValueIteration halfSolver unitEnvironment
        OptimizationDirection.Maximize [0] [0]).outcome = Outcome.returned true ∧
    (solveEquationsSoundValueIteration halfSolver unitEnvironment
        OptimizationDirection.Maximize [0] [0]).x = [2] := by
  decide!

/-- C4, evaluated: the one-state system has non-negative entries, row sums at most one and the
unique solution `[0]`, which lies between the bounds `0` and `4`; with precision one and regular
multiplication `solveEquationsSoundValueIteration` returns true, and the returned `x[0] = 2`
is further than the precision from the solution. -/
theorem soundValueIteration_regular_unsound :
    isSolution OptimizationDirection.Maximize halfMatrix [0] [0] = true ∧
    (∀ y : ℚ, isSolution OptimizationDirection.Maximize halfMatrix [y] [0] = true → y = 0) ∧
    (solveEquationsSoundValueIteration halfSolver unitEnvironment
        OptimizationDirection.Maximize [0] [0]).outcome = Outcome.returned true ∧
    ¬ |(solveEquationsSoundValueIteration halfSolver unitEnvironment
        OptimizationDirection.Maximize [0] [0]).x.getD 0 0 - 0| ≤ unitEnvironment.precision := by
  refine ⟨by decide!, ?_, by decide!, by decide!⟩
  intro y hy
  simp [isSolution, isSolutionGroups, isSolutionRows, halfMatrix,
    SparseMatrix.getRowGroupCount, SparseMatrix.rowGroupIndex,
    SparseMatrix.multiplyRowWithVector, SparseMatrix.getRow] at hy
  linarith

/-! ## Policy iteration -/

theorem improveChoice_eq (S : Solver) (dir : OptimizationDirection) (b : List ℚ)
    (group currentChoice : Nat) (st : PolicyScan) (choice : Nat) :
    improveChoice S dir b group currentChoice st choice =
      if choice - S.A.rowGroupIndex group = currentChoice then st
      else if valueImproved dir (st.x.getD group 0) (S.A.rowValue st.x b choice) = true then
        { scheduler := st.scheduler.set group (choice - S.A.rowGroupIndex group)
          x := st.x.set group (S.A.rowValue st.x b choice)
          schedulerImproved := true }
      else st := rfl

theorem improveChoice_not_improved (S : Solver) (dir : OptimizationDirection) (b : List ℚ)
    (group currentChoice : Nat) (st : PolicyScan) (choice : Nat)
    (h : (improveChoice S dir b group currentChoice st choice).schedulerImproved = false) :
    st.schedulerImproved = false ∧ improveChoice S dir b group currentChoice st choice = st ∧
      (choice - S.A.rowGroupIndex group ≠ currentChoice →
        valueImproved dir (st.x.getD group 0) (S.A.rowValue st.x b choice) = false) := by
  rw [improveChoice_eq] at h ⊢
  by_cases hc : choice - S.A.rowGroupIndex group = currentChoice
  · rw [if_pos hc] at h ⊢
    exact ⟨h, rfl, fun h' => absurd hc h'⟩
  · rw [if_neg hc] at h ⊢
    by_cases hv : valueImproved dir (st.x.getD group 0) (S.A.rowValue st.x b choice) = true
    · rw [if_pos hv] at h
      simp at h
    · rw [if_neg hv] at h ⊢
      exact ⟨h, rfl, fun _ => by simpa using hv⟩

theorem improveRows_not_improved (S : Solver) (dir : OptimizationDirection) (b : List ℚ)
    (group currentChoice : Nat) (rows : List Nat) (st : PolicyScan)
    (h : (rows.foldl (improveChoice S dir b group currentChoice) st).schedulerImproved = false) :
    st.schedulerImproved = false ∧
      rows.foldl (improveChoice S dir b group currentChoice) st = st ∧
      ∀ choice ∈ rows, choice - S.A.rowGroupIndex group ≠ currentChoice →
        valueImproved dir (st.x.getD group 0) (S.A.rowValue st.x b choice) = false := by
  induction rows generalizing st with
  | nil => exact ⟨h, rfl, fun _ hc => absurd hc (List.not_mem_nil _)⟩
  | cons c rows ih =>
    simp only [List.foldl_cons] at h ⊢
    obtain ⟨h1, h2, h3⟩ := ih _ h
    obtain ⟨h4, h5, h6⟩ := improveChoice_not_improved S dir b group currentChoice st c h1
    rw [h5] at h2 h3
    refine ⟨h4, by rw [h5]; exact h2, ?_⟩
    intro choice hmem
    rcases List.mem_cons.1 hmem with hm | hm
    · subst hm
      exact h6
    · exact h3 choice hm

theorem improveGroups_not_improved (S : Solver) (dir : OptimizationDirection) (b : List ℚ)
    (groups : List Nat) (st : PolicyScan)
    (h : (groups.foldl (improveGroup S dir b) st).schedulerImproved = false) :
    st.schedulerImproved = false ∧ groups.foldl (improveGroup S dir b) st = st ∧
      ∀ group ∈ groups, ∀ choice ∈ S.A.groupRows group,
        choice - S.A.rowGroupIndex group ≠ st.scheduler.getD group 0 →
        valueImproved dir (st.x.getD group 0) (S.A.rowValue st.x b choice) = false := by
  induction groups generalizing st with
  | nil => exact ⟨h, rfl, fun _ hc => absurd hc (List.not_mem_nil _)⟩
  | cons g groups ih =>
    simp only [List.foldl_cons] at h ⊢
    obtain ⟨h1, h2, h3⟩ := ih _ h
    unfold improveGroup at h1 h2 h3
    obtain ⟨h4, h5, h6⟩ := improveRows_not_improved S dir b g _ _ st h1
    rw [h5] at h2 h3
    refine ⟨h4, by unfold improveGroup; rw [h5]; exact h2, ?_⟩
    intro group hmem
    rcases List.mem_cons.1 hmem with hm | hm
    · subst hm
      exact h6
    · exact h3 group hm

theorem improveChoice_valid (S : Solver) (dir : OptimizationDirection) (b : List ℚ)
    (group currentChoice : Nat) (st : PolicyScan) (choice : Nat)
    (hchoice : choice ∈ S.A.groupRows group)
    (hv : ValidScheduler S.A st.scheduler) :
    ValidScheduler S.A (improveChoice S dir b group currentChoice st choice).scheduler := by
  rw [improveChoice_eq]
  split
  · exact hv
  · split
    · simp only []
      refine ⟨by rw [List.length_set]; exact hv.1, ?_⟩
      intro g hg
      rw [getD_set_nat]
      split
      · rename_i hcond
        rw [hcond.1]
        unfold SparseMatrix.groupRows at hchoice
        rw [List.mem_range'_1] at hchoice
        omega
      · exact hv.2 g hg
    · exact hv

theorem improveRows_valid (S : Solver) (dir : OptimizationDirection) (b : List ℚ)
    (group currentChoice : Nat) (rows : List Nat) (st : PolicyScan)
    (hrows : ∀ c ∈ rows, c ∈ S.A.groupRows group)
    (hv : ValidScheduler S.A st.scheduler) :
    ValidScheduler S.A (rows.foldl (improveChoice S dir b group currentChoice) st).scheduler := by
  induction rows generalizing st with
  | nil => exact hv
  | cons c rows ih =>
    simp only [List.foldl_cons]
    exact ih _ (fun c' hc' => hrows c' (List.mem_cons_of_mem _ hc'))
      (improveChoice_valid S dir b group currentChoice st c (hrows c (List.mem_cons_self _ _)) hv)

theorem improveGroups_valid (S : Solver) (dir : OptimizationDirection) (b : List ℚ)
    (groups : List Nat) (st : PolicyScan) (hv : ValidScheduler S.A st.scheduler) :
    ValidScheduler S.A (groups.foldl (improveGroup S dir b) st).scheduler := by
  induction groups generalizing st with
  | nil => exact hv
  | cons g groups ih =>
    simp only [List.foldl_cons]
    exact ih _ (improveRows_valid S dir b g _ _ st (fun c hc => hc) hv)

theorem policyIterationRound_valid (S : Solver) (env : Environment)
    (dir : OptimizationDirection) (b : List ℚ) (st : PolicyState)
    (hv : ValidScheduler S.A st.scheduler) :
    ValidScheduler S.A (policyIterationRound S env dir b st).scheduler :=
  improveGroups_valid S dir b _ _ hv

theorem policyIterationLoop_last_round (S : Solver) (env : Environment)
    (dir : OptimizationDirection) (b : List ℚ) (fuel : Nat) (st : PolicyState)
    (hv : ValidScheduler S.A st.scheduler) (hs : st.status = SolverStatus.InProgress) :
    ∃ prev : PolicyState, ValidScheduler S.A prev.scheduler ∧
      prev.status = SolverStatus.InProgress ∧
      policyIterationLoop S env dir b (fuel + 1) st = policyIterationRound S env dir b prev := by
  induction fuel generalizing st with
  | zero =>
    refine ⟨st, hv, hs, ?_⟩
    simp [policyIterationLoop]
  | succ fuel ih =>
    unfold policyIterationLoop
    simp only []
    by_cases hc : (policyIterationRound S env dir b st).status = SolverStatus.InProgress
    · rw [if_pos hc]
      exact ih _ (policyIterationRound_valid S env dir b st hv) hc
    · rw [if_neg hc]
      exact ⟨st, hv, hs, rfl⟩

theorem policyIterationRound_converged (S : Solver) (env : Environment)
    (dir : OptimizationDirection) (b : List ℚ) (prev : PolicyState)
    (hs : prev.status = SolverStatus.InProgress)
    (hconv : (policyIterationRound S env dir b prev).status = SolverStatus.Converged) :
    (policyIterationRound S env dir b prev).scheduler = prev.scheduler ∧
    (policyIterationRound S env dir b prev).x =
      (solveInducedEquationSystem S prev.scheduler prev.x b).2 ∧
    ∀ group, group < S.A.getRowGroupCount → ∀ choice ∈ S.A.groupRows group,
      choice - S.A.rowGroupIndex group ≠ prev.scheduler.getD group 0 →
      valueImproved dir ((solveInducedEquationSystem S prev.scheduler prev.x b).2.getD group 0)
        (S.A.rowValue (solveInducedEquationSystem S prev.scheduler prev.x b).2 b choice) =
        false := by
  unfold policyIterationRound at hconv ⊢
  simp only [] at hconv ⊢
  rw [updateStatusIfNotConverged_converged_iff] at hconv
  have himp : (improveScheduler S dir b prev.scheduler
      (solveInducedEquationSystem S prev.scheduler prev.x b).2).schedulerImproved = false := by
    cases hi : (improveScheduler S dir b prev.scheduler
      (solveInducedEquationSystem S prev.scheduler prev.x b).2).schedulerImproved
    · rfl
    · rw [hi, hs] at hconv
      simp at hconv
  unfold improveScheduler at himp ⊢
  obtain ⟨_, h2, h3⟩ := improveGroups_not_improved S dir b _ _ himp
  rw [h2]
  refine ⟨rfl, rfl, ?_⟩
  intro group hg choice hchoice hne
  exact h3 group (List.mem_range.2 hg) choice hchoice hne

theorem not_valueImproved_le (dir : OptimizationDirection) (v w : ℚ)
    (h : valueImproved dir v w = false) :
    if dir = OptimizationDirection.Minimize then v ≤ w else w ≤ v := by
  cases dir
  · simp only [valueImproved, if_true, decide_eq_false_iff_not, not_lt] at h ⊢
    exact h
  · simp only [valueImproved, reduceCtorEq, if_false, decide_eq_false_iff_not, not_lt] at h ⊢
    exact h

theorem induced_no_improvement_optimum (dir : OptimizationDirection) (A : SparseMatrix)
    (b : List ℚ) (scheduler : List Nat) (y : List ℚ) (hv : ValidScheduler A scheduler)
    (hy : InducedSolution A b scheduler y)
    (hno : ∀ group, group < A.getRowGroupCount → ∀ choice ∈ A.groupRows group,
      choice - A.rowGroupIndex group ≠ scheduler.getD group 0 →
      valueImproved dir (y.getD group 0) (A.rowValue y b choice) = false)
    (g : Nat) (hg : g < A.getRowGroupCount) :
    A.rowGroupIndex g + scheduler.getD g 0 ∈ A.groupRows g ∧
      IsOptimum dir (A.groupValues y b g) (y.getD g 0) := by
  have hmem : A.rowGroupIndex g + scheduler.getD g 0 ∈ A.groupRows g := by
    unfold SparseMatrix.groupRows
    rw [List.mem_range'_1]
    have := hv.2 g hg
    omega
  refine ⟨hmem, ?_, ?_⟩
  · rw [hy.2 g hg]
    exact List.mem_map.2 ⟨_, hmem, rfl⟩
  · intro w hw
    obtain ⟨c, hc, hcw⟩ := List.mem_map.1 hw
    subst hcw
    by_cases hcc : c - A.rowGroupIndex g = scheduler.getD g 0
    · have hge : A.rowGroupIndex g ≤ c := by
        unfold SparseMatrix.groupRows at hc
        rw [List.mem_range'_1] at hc
        exact hc.1
      have hceq : c = A.rowGroupIndex g + scheduler.getD g 0 := by omega
      rw [hceq, ← hy.2 g hg]
      split <;> exact le_refl _
    · exact not_valueImproved_le dir _ _ (hno g hg c hc hcc)

/-- C7: when `solveEquationsPolicyIteration` starts from a scheduler that selects a row of
every row group and ends with status Converged, and the linear-equation solver returns the
exact solution of the system induced by the scheduler of the last round, then the method
returns true, the returned `x` equals at every row group `g` the optimum over the rows `a` of
`g` of `A[a] * x + b[a]` exactly, and the final scheduler selects at `g` a row of `g` whose
value is that optimum. -/
theorem policyIteration_converged_fixpoint (S : Solver) (env : Environment)
    (dir : OptimizationDirection) (x b : List ℚ)
    (hvalid : ValidScheduler S.A (initialPolicy S))
    (hconv : (policyIterationRun S env dir x b).status = SolverStatus.Converged)
    (hexact : ∀ x0, InducedSolution S.A b (policyIterationRun S env dir x b).scheduler
      (solveInducedEquationSystem S (policyIterationRun S env dir x b).scheduler x0 b).2) :
    (solveEquationsPolicyIteration S env dir x b).outcome = Outcome.returned true ∧
    BellmanFixpoint dir S.A (solveEquationsPolicyIteration S env dir x b).x b ∧
    ∀ g, g < S.A.getRowGroupCount →
      S.A.rowGroupIndex g + (policyIterationRun S env dir x b).scheduler.getD g 0 ∈
        S.A.groupRows g ∧
      IsOptimum dir (S.A.groupValues (solveEquationsPolicyIteration S env dir x b).x b g)
        (S.A.rowValue (solveEquationsPolicyIteration S env dir x b).x b
          (S.A.rowGroupIndex g + (policyIterationRun S env dir x b).scheduler.getD g 0)) := by
  have hx : (solveEquationsPolicyIteration S env dir x b).x =
      (policyIterationRun S env dir x b).x := by
    unfold solveEquationsPolicyIteration
    simp only []
    split <;> rfl
  have hout : (solveEquationsPolicyIteration S env dir x b).outcome = Outcome.returned true := by
    unfold solveEquationsPolicyIteration
    simp only [hconv, reportStatus]
    rfl
  rw [hx]
  have hfuel : max 1 env.maximalNumberOfIterations =
      (max 1 env.maximalNumberOfIterations - 1) + 1 := by omega
  obtain ⟨prev, hpv, hps, hlast⟩ := policyIterationLoop_last_round S env dir b
    (max 1 env.maximalNumberOfIterations - 1)
    { scheduler := initialPolicy S, x := x, iterations := 0,
      status := SolverStatus.InProgress } hvalid rfl
  rw [← hfuel] at hlast
  have hrun : policyIterationRun S env dir x b = policyIterationRound S env dir b prev := hlast
  rw [hrun] at hconv hexact ⊢
  obtain ⟨hsched, hxs, hno⟩ := policyIterationRound_converged S env dir b prev hps hconv
  have hsol := hexact prev.x
  rw [hsched] at hsol ⊢
  rw [← hxs] at hsol hno
  have hopt := induced_no_improvement_optimum dir S.A b prev.scheduler _ hpv hsol hno
  refine ⟨hout, fun g hg => (hopt g hg).2, fun g hg => ⟨(hopt g hg).1, ?_⟩⟩
  rw [← hsol.2 g hg]
  exact (hopt g hg).2

/-! ## Inverse positivity of the induced linear systems -/

theorem inverse_positive {n : Nat} (M : Matrix (Fin n) (Fin n) ℚ)
    (hnn : ∀ i j, 0 ≤ M i j) (hrow : ∀ i, ∑ j, M i j ≤ 1)
    (hdet : (1 - M).det ≠ 0) (d : Fin n → ℚ)
    (hd : ∀ i, ∑ j, M i j * d j ≤ d i) : ∀ i, 0 ≤ d i := by
  by_contra hcon
  push_neg at hcon
  obtain ⟨i1, hi1⟩ := hcon
  obtain ⟨i0, -, hmin⟩ := Finset.exists_min_image Finset.univ d ⟨i1, Finset.mem_univ _⟩
  have hm : d i0 < 0 := lt_of_le_of_lt (hmin i1 (Finset.mem_univ _)) hi1
  -- properties of rows at minimal positions
  have hS : ∀ i, d i = d i0 → (∀ j, M i j ≠ 0 → d j = d i0) ∧ ∑ j, M i j = 1 := by
    intro i hi
    have h1 : ∑ j, M i j * d j ≤ d i0 := hi ▸ hd i
    have h2 : ∀ j, 0 ≤ M i j * (d j - d i0) := fun j =>
      mul_nonneg (hnn i j) (sub_nonneg.2 (hmin j (Finset.mem_univ _)))
    have h3 : ∑ j, M i j * (d j - d i0) = ∑ j, M i j * d j - (∑ j, M i j) * d i0 := by
      rw [Finset.sum_mul, ← Finset.sum_sub_distrib]
      exact Finset.sum_congr rfl (fun j _ => by ring)
    have h4 : 0 ≤ ∑ j, M i j * (d j - d i0) := Finset.sum_nonneg (fun j _ => h2 j)
    have h5 : (1 - ∑ j, M i j) * d i0 ≤ 0 :=
      mul_nonpos_of_nonneg_of_nonpos (sub_nonneg.2 (hrow i)) (le_of_lt hm)
    have h6 : ∑ j, M i j * (d j - d i0) = 0 := by
      apply le_antisymm _ h4
      rw [h3]
      nlinarith
    have h7 : (1 - ∑ j, M i j) * d i0 = 0 := by
      rw [h3] at h6
      nlinarith
    constructor
    · intro j hj
      have := (Finset.sum_eq_zero_iff_of_nonneg (fun j _ => h2 j)).1 h6 j (Finset.mem_univ _)
      rcases mul_eq_zero.1 this with h | h
      · exact absurd h hj
      · linarith
    · rcases mul_eq_zero.1 h7 with h | h
      · linarith
      · linarith
  -- the modified matrix
  let C : Matrix (Fin n) (Fin n) ℚ := fun i j => if d i = d i0 then (1 - M) i j else (1 : Matrix (Fin n) (Fin n) ℚ) i j
  let w : Fin n → ℚ := fun j => if d j = d i0 then 1 else 0
  have hsum : ∀ i : Fin n, (∑ x : Fin n, if d x = d i0 then if i = x then (1 : ℚ) else 0 else 0) =
      if d i = d i0 then 1 else 0 := by
    intro i
    have hx : ∀ x : Fin n, (if d x = d i0 then if i = x then (1 : ℚ) else 0 else 0) =
        if i = x then (if d i = d i0 then 1 else 0) else 0 := by
      intro x
      by_cases hix : i = x
      · subst hix; simp
      · simp [hix]
    rw [Finset.sum_congr rfl (fun x _ => hx x)]
    simp
  have hCw : Matrix.mulVec C w = 0 := by
    funext i
    simp only [Matrix.mulVec, Matrix.dotProduct, Pi.zero_apply, C, w]
    by_cases hi : d i = d i0
    · simp only [hi, if_true]
      have hrows := hS i hi
      have : ∀ j, (1 - M) i j * (if d j = d i0 then (1:ℚ) else 0) = (1 : Matrix (Fin n) (Fin n) ℚ) i j * (if d j = d i0 then (1:ℚ) else 0) - M i j := by
        intro j
        by_cases hj : d j = d i0
        · simp [hj, Matrix.sub_apply]
        · have : M i j = 0 := by
            by_contra hne
            exact hj (hrows.1 j hne)
          simp [hj, this]
      rw [Finset.sum_congr rfl (fun j _ => this j), Finset.sum_sub_distrib, hrows.2]
      simp [Matrix.one_apply, hi, hsum]
    · simp only [hi, if_false]
      simp [Matrix.one_apply, hi, hsum]
  have hw : w ≠ 0 := by
    intro h
    have := congrFun h i0
    simp [w] at this
  have hdetC : C.det = 0 := Matrix.exists_mulVec_eq_zero_iff.1 ⟨w, hw, hCw⟩
  obtain ⟨u, hu, huC⟩ := Matrix.exists_vecMul_eq_zero_iff.2 hdetC
  have hu0 : ∀ j, d j ≠ d i0 → u j = 0 := by
    intro j hj
    have := congrFun huC j
    simp only [Matrix.vecMul, Matrix.dotProduct, Pi.zero_apply, C] at this
    have hterm : ∀ i, u i * (if d i = d i0 then (1 - M) i j else (1 : Matrix (Fin n) (Fin n) ℚ) i j) = if i = j then u j else 0 := by
      intro i
      by_cases hi : d i = d i0
      · have hij : i ≠ j := fun h => hj (h ▸ hi)
        have : M i j = 0 := by
          by_contra hne
          exact hj ((hS i hi).1 j hne)
        simp [hi, hij, Matrix.sub_apply, Matrix.one_apply, this]
      · by_cases hij : i = j
        · subst hij; simp [hi, Matrix.one_apply]
        · simp [hi, hij, Matrix.one_apply]
    rw [Finset.sum_congr rfl (fun i _ => hterm i)] at this
    simpa using this
  have huM : Matrix.vecMul u (1 - M) = 0 := by
    funext j
    have := congrFun huC j
    simp only [Matrix.vecMul, Matrix.dotProduct, Pi.zero_apply, C] at this ⊢
    rw [← this]
    apply Finset.sum_congr rfl
    intro i _
    by_cases hi : d i = d i0
    · simp [hi]
    · simp [hi, hu0 i hi]
  exact hdet (Matrix.exists_vecMul_eq_zero_iff.1 ⟨u, hu, huM⟩)

theorem fin_sum_ite_eq (n a : Nat) (f : Nat → ℚ) :
    (∑ j : Fin n, if a = (j : Nat) then f j else 0) = if a < n then f a else 0 := by
  rw [Fin.sum_univ_eq_sum_range (fun j => if a = j then f j else 0) n]
  rw [Finset.sum_ite_eq]
  simp

theorem denseEntry_cons (e : Nat × ℚ) (row : List (Nat × ℚ)) (j : Nat) :
    denseEntry (e :: row) j = (if e.1 = j then e.2 else 0) + denseEntry row j := by
  unfold denseEntry
  by_cases h : e.1 = j
  · simp [List.filter_cons, h]
  · simp [List.filter_cons, h]

theorem denseEntry_nonneg (row : List (Nat × ℚ)) (hnn : ∀ e ∈ row, 0 ≤ e.2) (j : Nat) :
    0 ≤ denseEntry row j := by
  induction row with
  | nil => simp [denseEntry]
  | cons e row ih =>
    rw [denseEntry_cons]
    have h1 := ih (fun e' he' => hnn e' (List.mem_cons_of_mem _ he'))
    have h2 := hnn e (List.mem_cons_self _ _)
    split <;> linarith

theorem row_sum_eq_dense (n : Nat) (row : List (Nat × ℚ)) (v : List ℚ) (hv : v.length ≤ n) :
    (row.map (fun e => e.2 * v.getD e.1 0)).sum =
      ∑ j : Fin n, denseEntry row j * v.getD j 0 := by
  induction row with
  | nil => simp [denseEntry]
  | cons e row ih =>
    simp only [List.map_cons, List.sum_cons, ih, denseEntry_cons, add_mul,
      Finset.sum_add_distrib]
    congr 1
    have h1 : ∀ j : Fin n, (if e.1 = (j : Nat) then e.2 else 0) * v.getD j 0 =
        if e.1 = (j : Nat) then (fun k => e.2 * v.getD k 0) j else 0 := by
      intro j
      split <;> simp
    rw [Finset.sum_congr rfl (fun j _ => h1 j)]
    rw [fin_sum_ite_eq n e.1 (fun k => e.2 * v.getD k 0)]
    by_cases h : e.1 < n
    · simp [h]
    · simp only [h, if_false]
      rw [List.getD_eq_default _ _ (by omega)]
      simp

theorem dense_row_sum_le (n : Nat) (row : List (Nat × ℚ)) (hnn : ∀ e ∈ row, 0 ≤ e.2) :
    ∑ j : Fin n, denseEntry row j ≤ (row.map Prod.snd).sum := by
  induction row with
  | nil => simp [denseEntry]
  | cons e row ih =>
    simp only [List.map_cons, List.sum_cons, denseEntry_cons, Finset.sum_add_distrib]
    have h1 := ih (fun e' he' => hnn e' (List.mem_cons_of_mem _ he'))
    have h2 := hnn e (List.mem_cons_self _ _)
    have h3 : (∑ j : Fin n, if e.1 = (j : Nat) then e.2 else 0) ≤ e.2 := by
      have := fin_sum_ite_eq n e.1 (fun _ => e.2)
      simp only [] at this
      rw [this]
      split <;> linarith
    linarith

theorem rowValue_dense (A : SparseMatrix) (b v : List ℚ) (n r : Nat) (hv : v.length ≤ n) :
    A.rowValue v b r = ∑ j : Fin n, denseEntry (A.getRow r) j * v.getD j 0 + b.getD r 0 := by
  unfold SparseMatrix.rowValue
  rw [multiplyRowWithVector_eq_sum, row_sum_eq_dense n _ v hv]

theorem getD_ofFn (n : Nat) (f : Fin n → ℚ) (k : Nat) :
    (List.ofFn f).getD k 0 = if h : k < n then f ⟨k, h⟩ else 0 := by
  by_cases h : k < n
  · rw [List.getD_eq_getElem _ _ (by simpa using h)]
    simp [h]
  · rw [List.getD_eq_default _ _ (by simpa using h)]
    simp [h]

theorem induced_det_ne_zero (A : SparseMatrix) (b : List ℚ) (scheduler : List Nat) (y : List ℚ)
    (hy : InducedSolution A b scheduler y)
    (huniq : ∀ y1 y2, InducedSolution A b scheduler y1 → InducedSolution A b scheduler y2 →
      y1 = y2) :
    (1 - inducedMatrix A scheduler).det ≠ 0 := by
  intro hdet
  obtain ⟨v, hv, hMv⟩ := Matrix.exists_mulVec_eq_zero_iff.2 hdet
  apply hv
  have hvi : ∀ i : Fin A.getRowGroupCount,
      v i = ∑ j : Fin A.getRowGroupCount,
        denseEntry (A.getRow (selectedRow A scheduler i)) j * v j := by
    intro i
    have := congrFun hMv i
    simp only [Matrix.mulVec, Matrix.dotProduct, Matrix.sub_apply, Pi.zero_apply, sub_mul,
      Finset.sum_sub_distrib, Matrix.one_apply, ite_mul, one_mul, zero_mul,
      Finset.sum_ite_eq, Finset.mem_univ, if_true, inducedMatrix, Matrix.of_apply] at this
    linarith
  have hy2 : InducedSolution A b scheduler
      (List.ofFn (fun i : Fin A.getRowGroupCount => y.getD i 0 + v i)) := by
    refine ⟨by simp, ?_⟩
    intro g hg
    rw [getD_ofFn, dif_pos hg]
    have hrow := rowValue_dense A b (List.ofFn (fun i : Fin A.getRowGroupCount =>
      y.getD i 0 + v i)) A.getRowGroupCount (selectedRow A scheduler g) (by simp)
    have hrowy := rowValue_dense A b y A.getRowGroupCount (selectedRow A scheduler g)
      (le_of_eq hy.1)
    have hyg := hy.2 g hg
    unfold selectedRow at hrow hrowy
    rw [hrow, hyg, hrowy]
    have hterm : ∀ j : Fin A.getRowGroupCount,
        denseEntry (A.getRow (A.rowGroupIndex g + scheduler.getD g 0)) j *
          (List.ofFn (fun i : Fin A.getRowGroupCount => y.getD i 0 + v i)).getD j 0 =
        denseEntry (A.getRow (A.rowGroupIndex g + scheduler.getD g 0)) j * y.getD j 0 +
          denseEntry (A.getRow (A.rowGroupIndex g + scheduler.getD g 0)) j * v j := by
      intro j
      rw [getD_ofFn, dif_pos j.2]
      ring
    rw [Finset.sum_congr rfl (fun j _ => hterm j), Finset.sum_add_distrib]
    have := hvi ⟨g, hg⟩
    unfold selectedRow at this
    simp only [] at this
    rw [this]
    ring
  have heq := huniq _ _ hy hy2
  funext i
  have hi := congrArg (fun l : List ℚ => l.getD i 0) heq
  simp only [getD_ofFn, dif_pos i.2] at hi
  simp only [Pi.zero_apply]
  linarith

theorem inducedMatrix_nonneg (A : SparseMatrix) (hnn : A.NonNegative) (scheduler : List Nat)
    (i j : Fin A.getRowGroupCount) : 0 ≤ inducedMatrix A scheduler i j :=
  denseEntry_nonneg _ (getRow_nonneg A hnn _) _

theorem inducedMatrix_row_sum (A : SparseMatrix) (hnn : A.NonNegative)
    (hrs : A.RowSumsAtMostOne) (scheduler : List Nat) (i : Fin A.getRowGroupCount) :
    ∑ j, inducedMatrix A scheduler i j ≤ 1 :=
  le_trans (dense_row_sum_le _ _ (getRow_nonneg A hnn _)) (getRow_sum_le_one A hrs _)

theorem noBetter_refl (dir : OptimizationDirection) (v : ℚ) : NoBetter dir v v := by
  unfold NoBetter
  split <;> exact le_refl _

theorem noBetter_trans (dir : OptimizationDirection) (u v w : ℚ) (h1 : NoBetter dir u v)
    (h2 : NoBetter dir v w) : NoBetter dir u w := by
  unfold NoBetter at *
  split
  · rename_i h; rw [if_pos h] at h1 h2; exact le_trans h1 h2
  · rename_i h; rw [if_neg h] at h1 h2; exact le_trans h2 h1

theorem noBetter_antisymm (dir : OptimizationDirection) (v w : ℚ) (h1 : NoBetter dir v w)
    (h2 : NoBetter dir w v) : v = w := by
  unfold NoBetter at *
  by_cases h : dir = OptimizationDirection.Maximize
  · rw [if_pos h] at h1 h2; exact le_antisymm h1 h2
  · rw [if_neg h] at h1 h2; exact le_antisymm h2 h1

theorem induced_dominates (dir : OptimizationDirection) (A : SparseMatrix)
    (hnn : A.NonNegative) (hrs : A.RowSumsAtMostOne) (b : List ℚ) (scheduler : List Nat)
    (y z : List ℚ) (hy : InducedSolution A b scheduler y)
    (hzlen : z.length = A.getRowGroupCount)
    (hz : ∀ g, g < A.getRowGroupCount →
      NoBetter dir (z.getD g 0) (A.rowValue z b (selectedRow A scheduler g)))
    (huniq : ∀ y1 y2, InducedSolution A b scheduler y1 → InducedSolution A b scheduler y2 →
      y1 = y2) :
    ∀ g, NoBetter dir (z.getD g 0) (y.getD g 0) := by
  have hdet := induced_det_ne_zero A b scheduler y hy huniq
  have hMnn := inducedMatrix_nonneg A hnn scheduler
  have hMrow := inducedMatrix_row_sum A hnn hrs scheduler
  have hrowy : ∀ i : Fin A.getRowGroupCount, y.getD i 0 =
      ∑ j : Fin A.getRowGroupCount, inducedMatrix A scheduler i j * y.getD j 0 +
        b.getD (selectedRow A scheduler i) 0 := by
    intro i
    rw [hy.2 i i.2]
    exact rowValue_dense A b y _ _ (le_of_eq hy.1)
  have hrowz : ∀ i : Fin A.getRowGroupCount, A.rowValue z b (selectedRow A scheduler i) =
      ∑ j : Fin A.getRowGroupCount, inducedMatrix A scheduler i j * z.getD j 0 +
        b.getD (selectedRow A scheduler i) 0 :=
    fun i => rowValue_dense A b z _ _ (le_of_eq hzlen)
  intro g
  by_cases hg : g < A.getRowGroupCount
  · by_cases hdir : dir = OptimizationDirection.Maximize
    · have hd := inverse_positive (inducedMatrix A scheduler) hMnn hMrow hdet
        (fun i => y.getD i 0 - z.getD i 0) (by
          intro i
          have h1 := hz i i.2
          unfold NoBetter at h1
          rw [if_pos hdir, hrowz i] at h1
          have h2 := hrowy i
          simp only [mul_sub, Finset.sum_sub_distrib]
          linarith)
      have := hd ⟨g, hg⟩
      unfold NoBetter
      rw [if_pos hdir]
      simp only [] at this
      linarith
    · have hd := inverse_positive (inducedMatrix A scheduler) hMnn hMrow hdet
        (fun i => z.getD i 0 - y.getD i 0) (by
          intro i
          have h1 := hz i i.2
          unfold NoBetter at h1
          rw [if_neg hdir, hrowz i] at h1
          have h2 := hrowy i
          simp only [mul_sub, Finset.sum_sub_distrib]
          linarith)
      have := hd ⟨g, hg⟩
      unfold NoBetter
      rw [if_neg hdir]
      simp only [] at this
      linarith
  · rw [List.getD_eq_default _ _ (by omega), List.getD_eq_default _ _ (by have := hy.1; omega)]
    exact noBetter_refl dir 0

theorem rowValue_noBetter (dir : OptimizationDirection) (A : SparseMatrix)
    (hnn : A.NonNegative) (y z b : List ℚ) (h : ∀ i, NoBetter dir (y.getD i 0) (z.getD i 0))
    (r : Nat) : NoBetter dir (A.rowValue y b r) (A.rowValue z b r) := by
  unfold NoBetter at h ⊢
  by_cases hdir : dir = OptimizationDirection.Maximize
  · simp only [hdir, if_true] at h ⊢
    exact rowValue_mono A hnn y z b h r
  · simp only [hdir, if_false] at h ⊢
    exact rowValue_mono A hnn z y b h r

theorem valueImproved_noBetter (dir : OptimizationDirection) (v w : ℚ)
    (h : valueImproved dir v w = true) : NoBetter dir v w ∧ ∀ u, NoBetter dir u v → u ≠ w := by
  cases dir
  · simp only [valueImproved, if_true, decide_eq_true_eq] at h
    simp only [NoBetter, reduceCtorEq, if_false]
    exact ⟨le_of_lt h, fun u hu heq => by rw [heq] at hu; linarith⟩
  · simp only [valueImproved, reduceCtorEq, if_false, decide_eq_true_eq] at h
    simp only [NoBetter, if_true]
    exact ⟨le_of_lt h, fun u hu heq => by rw [heq] at hu; linarith⟩

theorem improveChoice_scanInvariant (S : Solver) (dir : OptimizationDirection) (b x0 : List ℚ)
    (hnn : S.A.NonNegative) (group currentChoice : Nat) (st : PolicyScan) (choice : Nat)
    (hgroup : group < S.A.getRowGroupCount) (hchoice : choice ∈ S.A.groupRows group)
    (hinv : ScanInvariant dir S.A b x0 st) :
    ScanInvariant dir S.A b x0 (improveChoice S dir b group currentChoice st choice) := by
  have hvalid' := improveChoice_valid S dir b group currentChoice st choice hchoice hinv.1
  rw [improveChoice_eq] at hvalid' ⊢
  by_cases hc : choice - S.A.rowGroupIndex group = currentChoice
  · rw [if_pos hc]
    exact hinv
  · rw [if_neg hc] at hvalid' ⊢
    by_cases hv : valueImproved dir (st.x.getD group 0) (S.A.rowValue st.x b choice) = true
    · rw [if_pos hv] at hvalid' ⊢
      obtain ⟨hvalid, hlen, hrow, hmono, _⟩ := hinv
      obtain ⟨hnb, hstrict⟩ := valueImproved_noBetter dir _ _ hv
      have hgx : group < st.x.length := by omega
      have hgs : group < st.scheduler.length := by have := hvalid.1; omega
      have hstep : ∀ i, NoBetter dir (st.x.getD i 0)
          ((st.x.set group (S.A.rowValue st.x b choice)).getD i 0) := by
        intro i
        rw [getD_set]
        split
        · rename_i h
          rw [h.1]
          exact hnb
        · exact noBetter_refl dir _
      have hge : S.A.rowGroupIndex group ≤ choice := by
        unfold SparseMatrix.groupRows at hchoice
        rw [List.mem_range'_1] at hchoice
        exact hchoice.1
      refine ⟨hvalid', by simp only [List.length_set]; exact hlen, ?_, ?_, ?_⟩
      · intro g hg
        simp only [selectedRow]
        rw [getD_set, getD_set_nat]
        by_cases hgg : g = group
        · subst hgg
          simp only [true_and, hgx, hgs, if_true]
          have hsel : S.A.rowGroupIndex g + (choice - S.A.rowGroupIndex g) = choice := by omega
          rw [hsel]
          exact rowValue_noBetter dir S.A hnn _ _ b hstep choice
        · simp only [hgg, false_and, if_false]
          exact noBetter_trans dir _ _ _ (hrow g hg)
            (rowValue_noBetter dir S.A hnn _ _ b hstep _)
      · intro i
        exact noBetter_trans dir _ _ _ (hmono i) (hstep i)
      · intro _
        refine ⟨group, ?_⟩
        simp only []
        rw [getD_set]
        simp only [true_and, hgx, if_true]
        exact hstrict _ (hmono group)
    · rw [if_neg hv]
      exact hinv

theorem improveRows_scanInvariant (S : Solver) (dir : OptimizationDirection) (b x0 : List ℚ)
    (hnn : S.A.NonNegative) (group currentChoice : Nat) (rows : List Nat) (st : PolicyScan)
    (hgroup : group < S.A.getRowGroupCount) (hrows : ∀ c ∈ rows, c ∈ S.A.groupRows group)
    (hinv : ScanInvariant dir S.A b x0 st) :
    ScanInvariant dir S.A b x0 (rows.foldl (improveChoice S dir b group currentChoice) st) := by
  induction rows generalizing st with
  | nil => exact hinv
  | cons c rows ih =>
    simp only [List.foldl_cons]
    exact ih _ (fun c' hc' => hrows c' (List.mem_cons_of_mem _ hc'))
      (improveChoice_scanInvariant S dir b x0 hnn group currentChoice st c hgroup
        (hrows c (List.mem_cons_self _ _)) hinv)

theorem improveGroups_scanInvariant (S : Solver) (dir : OptimizationDirection) (b x0 : List ℚ)
    (hnn : S.A.NonNegative) (groups : List Nat) (st : PolicyScan)
    (hgroups : ∀ g ∈ groups, g < S.A.getRowGroupCount)
    (hinv : ScanInvariant dir S.A b x0 st) :
    ScanInvariant dir S.A b x0 (groups.foldl (improveGroup S dir b) st) := by
  induction groups generalizing st with
  | nil => exact hinv
  | cons g groups ih =>
    simp only [List.foldl_cons]
    exact ih _ (fun g' hg' => hgroups g' (List.mem_cons_of_mem _ hg'))
      (improveRows_scanInvariant S dir b x0 hnn g _ _ st (hgroups g (List.mem_cons_self _ _))
        (fun c hc => hc) hinv)

theorem improveScheduler_scanInvariant (S : Solver) (dir : OptimizationDirection) (b : List ℚ)
    (hnn : S.A.NonNegative) (scheduler : List Nat) (y : List ℚ)
    (hvalid : ValidScheduler S.A scheduler) (hy : InducedSolution S.A b scheduler y) :
    ScanInvariant dir S.A b y (improveScheduler S dir b scheduler y) := by
  unfold improveScheduler
  apply improveGroups_scanInvariant S dir b y hnn _ _ (fun g hg => List.mem_range.1 hg)
  refine ⟨hvalid, hy.1, ?_, fun i => noBetter_refl dir _, fun h => by simp at h⟩
  intro g hg
  simp only [selectedRow]
  rw [← hy.2 g hg]
  exact noBetter_refl dir _

theorem policyIterationStateAt_succ (S : Solver) (env : Environment)
    (dir : OptimizationDirection) (x b : List ℚ) (k : Nat) :
    policyIterationStateAt S env dir x b (k + 1) =
      policyIterationRound S env dir b (policyIterationStateAt S env dir x b k) := by
  unfold policyIterationStateAt
  exact Function.iterate_succ_apply' _ _ _

theorem policyIterationStateAt_valid (S : Solver) (env : Environment)
    (dir : OptimizationDirection) (x b : List ℚ)
    (hvalid : ValidScheduler S.A (initialPolicy S)) (k : Nat) :
    ValidScheduler S.A (policyIterationStateAt S env dir x b k).scheduler := by
  induction k with
  | zero => exact hvalid
  | succ k ih =>
    rw [policyIterationStateAt_succ]
    exact policyIterationRound_valid S env dir b _ ih

theorem policyIterationRound_scan (S : Solver) (env : Environment)
    (dir : OptimizationDirection) (b : List ℚ) (st : PolicyState) :
    (policyIterationRound S env dir b st).scheduler =
        (improveScheduler S dir b st.scheduler
          (solveInducedEquationSystem S st.scheduler st.x b).2).scheduler ∧
      (policyIterationRound S env dir b st).x =
        (improveScheduler S dir b st.scheduler
          (solveInducedEquationSystem S st.scheduler st.x b).2).x :=
  ⟨rfl, rfl⟩

theorem policyIteration_round_noBetter (S : Solver) (env : Environment)
    (dir : OptimizationDirection) (b : List ℚ) (st : PolicyState)
    (hnn : S.A.NonNegative) (hrs : S.A.RowSumsAtMostOne)
    (hvalid : ValidScheduler S.A st.scheduler)
    (hexact : ∀ scheduler, ValidScheduler S.A scheduler → ∀ x0,
      InducedSolution S.A b scheduler (solveInducedEquationSystem S scheduler x0 b).2)
    (huniq : ∀ scheduler, ValidScheduler S.A scheduler → ∀ y z,
      InducedSolution S.A b scheduler y → InducedSolution S.A b scheduler z → y = z) :
    (∀ s, NoBetter dir ((solveInducedEquationSystem S st.scheduler st.x b).2.getD s 0)
      ((policyIterationRound S env dir b st).x.getD s 0)) ∧
    (∀ s, NoBetter dir ((policyIterationRound S env dir b st).x.getD s 0)
      ((solveInducedEquationSystem S (policyIterationRound S env dir b st).scheduler
        (policyIterationRound S env dir b st).x b).2.getD s 0)) := by
  have hy := hexact st.scheduler hvalid st.x
  have hscan := improveScheduler_scanInvariant S dir b hnn st.scheduler _ hvalid hy
  obtain ⟨h1, h2⟩ := policyIterationRound_scan S env dir b st
  rw [h1, h2]
  obtain ⟨hv', hlen', hrow', hmono', _⟩ := hscan
  refine ⟨hmono', ?_⟩
  exact induced_dominates dir S.A hnn hrs b _ _ _ (hexact _ hv' _) hlen' hrow' (huniq _ hv')

/-- C8, amended: for a system with non-negative entries and row sums at most one, started from a
scheduler that selects a row of every row group, in which the induced linear system of every
scheduler has a unique solution and is solved exactly, the vector obtained by solving the induced
system in round `k + 1` of `solveEquationsPolicyIteration` is pointwise at least (when
maximising) or at most (when minimising) the vector obtained in round `k`, for every `k`. -/
theorem policyIteration_monotone (S : Solver) (env : Environment)
    (dir : OptimizationDirection) (x b : List ℚ) (k : Nat)
    (hnn : S.A.NonNegative) (hrs : S.A.RowSumsAtMostOne)
    (hvalid : ValidScheduler S.A (initialPolicy S))
    (hexact : ∀ scheduler, ValidScheduler S.A scheduler → ∀ x0,
      InducedSolution S.A b scheduler (solveInducedEquationSystem S scheduler x0 b).2)
    (huniq : ∀ scheduler, ValidScheduler S.A scheduler → ∀ y z,
      InducedSolution S.A b scheduler y → InducedSolution S.A b scheduler z → y = z) :
    ∀ s,
      (dir = OptimizationDirection.Maximize →
        (policyIterationSolved S env dir x b k).getD s 0 ≤
          (policyIterationSolved S env dir x b (k + 1)).getD s 0) ∧
      (dir = OptimizationDirection.Minimize →
        (policyIterationSolved S env dir x b (k + 1)).getD s 0 ≤
          (policyIterationSolved S env dir x b k).getD s 0) := by
  intro s
  have hv := policyIterationStateAt_valid S env dir x b hvalid k
  obtain ⟨h1, h2⟩ := policyIteration_round_noBetter S env dir b
    (policyIterationStateAt S env dir x b k) hnn hrs hv hexact huniq
  have h := noBetter_trans dir _ _ _ (h1 s) (h2 s)
  unfold policyIterationSolved
  rw [policyIterationStateAt_succ]
  unfold NoBetter at h
  constructor
  · intro hdir
    rw [if_pos hdir] at h
    exact h
  · intro hdir
    rw [if_neg (by rw [hdir]; decide)] at h
    exact h

theorem policyIterationSolved_chain (S : Solver) (env : Environment)
    (dir : OptimizationDirection) (x b : List ℚ)
    (hnn : S.A.NonNegative) (hrs : S.A.RowSumsAtMostOne)
    (hvalid : ValidScheduler S.A (initialPolicy S))
    (hexact : ∀ scheduler, ValidScheduler S.A scheduler → ∀ x0,
      InducedSolution S.A b scheduler (solveInducedEquationSystem S scheduler x0 b).2)
    (huniq : ∀ scheduler, ValidScheduler S.A scheduler → ∀ y z,
      InducedSolution S.A b scheduler y → InducedSolution S.A b scheduler z → y = z)
    (k m : Nat) (s : Nat) :
    NoBetter dir ((policyIterationSolved S env dir x b k).getD s 0)
      ((policyIterationSolved S env dir x b (k + m)).getD s 0) := by
  induction m with
  | zero => exact noBetter_refl dir _
  | succ m ih =>
    have hv := policyIterationStateAt_valid S env dir x b hvalid (k + m)
    obtain ⟨h1, h2⟩ := policyIteration_round_noBetter S env dir b
      (policyIterationStateAt S env dir x b (k + m)) hnn hrs hv hexact huniq
    have h := noBetter_trans dir _ _ _ (h1 s) (h2 s)
    have hstep : NoBetter dir ((policyIterationSolved S env dir x b (k + m)).getD s 0)
        ((policyIterationSolved S env dir x b (k + m + 1)).getD s 0) := by
      unfold policyIterationSolved
      rw [policyIterationStateAt_succ]
      exact h
    exact noBetter_trans dir _ _ _ ih hstep

theorem policyIterationSolved_ne_of_improved (S : Solver) (env : Environment)
    (dir : OptimizationDirection) (x b : List ℚ)
    (hnn : S.A.NonNegative) (hrs : S.A.RowSumsAtMostOne)
    (hvalid : ValidScheduler S.A (initialPolicy S))
    (hexact : ∀ scheduler, ValidScheduler S.A scheduler → ∀ x0,
      InducedSolution S.A b scheduler (solveInducedEquationSystem S scheduler x0 b).2)
    (huniq : ∀ scheduler, ValidScheduler S.A scheduler → ∀ y z,
      InducedSolution S.A b scheduler y → InducedSolution S.A b scheduler z → y = z)
    (k m : Nat) (himp : policyIterationImproved S env dir x b k = true) :
    policyIterationSolved S env dir x b (k + 1 + m) ≠ policyIterationSolved S env dir x b k := by
  intro heq
  have hv := policyIterationStateAt_valid S env dir x b hvalid k
  have hy := hexact _ hv (policyIterationStateAt S env dir x b k).x
  have hscan := improveScheduler_scanInvariant S dir b hnn _ _ hv hy
  obtain ⟨_, _, _, hmono, hstrict⟩ := hscan
  obtain ⟨i, hi⟩ := hstrict himp
  obtain ⟨_, h2⟩ := policyIteration_round_noBetter S env dir b
    (policyIterationStateAt S env dir x b k) hnn hrs hv hexact huniq
  have hchain := policyIterationSolved_chain S env dir x b hnn hrs hvalid hexact huniq
    (k + 1) m i
  have hnext : NoBetter dir
      ((improveScheduler S dir b (policyIterationStateAt S env dir x b k).scheduler
        (solveInducedEquationSystem S (policyIterationStateAt S env dir x b k).scheduler
          (policyIterationStateAt S env dir x b k).x b).2).x.getD i 0)
      ((policyIterationSolved S env dir x b (k + 1)).getD i 0) := by
    have := h2 i
    unfold policyIterationSolved
    rw [policyIterationStateAt_succ]
    exact this
  have hup := noBetter_trans dir _ _ _ hnext hchain
  rw [heq] at hup
  exact hi (noBetter_antisymm dir _ _ (hmono i) hup)

theorem policyIteration_scheduler_ne_of_improved (S : Solver) (env : Environment)
    (dir : OptimizationDirection) (x b : List ℚ)
    (hnn : S.A.NonNegative) (hrs : S.A.RowSumsAtMostOne)
    (hvalid : ValidScheduler S.A (initialPolicy S))
    (hexact : ∀ scheduler, ValidScheduler S.A scheduler → ∀ x0,
      InducedSolution S.A b scheduler (solveInducedEquationSystem S scheduler x0 b).2)
    (huniq : ∀ scheduler, ValidScheduler S.A scheduler → ∀ y z,
      InducedSolution S.A b scheduler y → InducedSolution S.A b scheduler z → y = z)
    (k j : Nat) (hkj : k < j) (himp : policyIterationImproved S env dir x b k = true) :
    (policyIterationStateAt S env dir x b j).scheduler ≠
      (policyIterationStateAt S env dir x b k).scheduler := by
  intro heq
  obtain ⟨m, hm⟩ : ∃ m, j = k + 1 + m := ⟨j - (k + 1), by omega⟩
  subst hm
  apply policyIterationSolved_ne_of_improved S env dir x b hnn hrs hvalid hexact huniq k m himp
  have hvk := policyIterationStateAt_valid S env dir x b hvalid k
  have hvj := policyIterationStateAt_valid S env dir x b hvalid (k + 1 + m)
  have h1 : InducedSolution S.A b (policyIterationStateAt S env dir x b k).scheduler
      (policyIterationSolved S env dir x b k) :=
    hexact _ hvk (policyIterationStateAt S env dir x b k).x
  have h2 : InducedSolution S.A b (policyIterationStateAt S env dir x b (k + 1 + m)).scheduler
      (policyIterationSolved S env dir x b (k + 1 + m)) :=
    hexact _ hvj (policyIterationStateAt S env dir x b (k + 1 + m)).x
  rw [heq] at h2
  exact huniq _ hvk _ _ h2 h1

theorem prod_fin_eq_list (n : Nat) (f : Nat → Nat) :
    ∏ g : Fin n, f g = ((List.range n).map f).prod := by
  rw [Fin.prod_univ_eq_prod_range f n]
  induction n with
  | zero => simp
  | succ n ih => rw [Finset.prod_range_succ, ih, List.range_succ]; simp

theorem list_eq_of_getD (l1 l2 : List Nat) (hlen : l1.length = l2.length)
    (h : ∀ g, g < l1.length → l1.getD g 0 = l2.getD g 0) : l1 = l2 := by
  apply List.ext_getElem hlen
  intro g h1 h2
  have := h g h1
  rw [List.getD_eq_getElem _ _ h1, List.getD_eq_getElem _ _ h2] at this
  exact this

theorem validSchedulers_card (A : SparseMatrix) (m : Nat) (schedulers : Fin m → List Nat)
    (hvalid : ∀ k, ValidScheduler A (schedulers k))
    (hinj : ∀ j k, schedulers j = schedulers k → j = k) : m ≤ schedulerCount A := by
  have hbound : ∀ (k : Fin m) (g : Fin A.getRowGroupCount),
      (schedulers k).getD g 0 < A.rowGroupIndex (g + 1) - A.rowGroupIndex g := by
    intro k g
    have := (hvalid k).2 g g.2
    omega
  have hφ : Function.Injective
      (fun (k : Fin m) (g : Fin A.getRowGroupCount) =>
        (⟨(schedulers k).getD g 0, hbound k g⟩ :
          Fin (A.rowGroupIndex (g + 1) - A.rowGroupIndex g))) := by
    intro j k hjk
    apply hinj
    apply list_eq_of_getD _ _ (by rw [(hvalid j).1, (hvalid k).1])
    intro g hg
    have hg' : g < A.getRowGroupCount := by rw [← (hvalid j).1]; exact hg
    have := congrFun hjk ⟨g, hg'⟩
    simpa using this
  have hcard := Fintype.card_le_of_injective _ hφ
  rw [Fintype.card_pi] at hcard
  simp only [Fintype.card_fin] at hcard
  rw [prod_fin_eq_list A.getRowGroupCount
    (fun g => A.rowGroupIndex (g + 1) - A.rowGroupIndex g)] at hcard
  exact hcard

theorem exists_round_without_improvement (S : Solver) (env : Environment)
    (dir : OptimizationDirection) (x b : List ℚ)
    (hnn : S.A.NonNegative) (hrs : S.A.RowSumsAtMostOne)
    (hvalid : ValidScheduler S.A (initialPolicy S))
    (hexact : ∀ scheduler, ValidScheduler S.A scheduler → ∀ x0,
      InducedSolution S.A b scheduler (solveInducedEquationSystem S scheduler x0 b).2)
    (huniq : ∀ scheduler, ValidScheduler S.A scheduler → ∀ y z,
      InducedSolution S.A b scheduler y → InducedSolution S.A b scheduler z → y = z) :
    ∃ k, k < schedulerCount S.A ∧ policyIterationImproved S env dir x b k = false := by
  by_contra hcon
  have hall : ∀ k, k < schedulerCount S.A → policyIterationImproved S env dir x b k = true := by
    intro k hk
    by_contra h
    exact hcon ⟨k, hk, by simpa using h⟩
  have hcard := validSchedulers_card S.A (schedulerCount S.A + 1)
    (fun k => (policyIterationStateAt S env dir x b k).scheduler)
    (fun k => policyIterationStateAt_valid S env dir x b hvalid k)
    (by
      intro j k hjk
      by_contra hne
      have hne' : (j : Nat) ≠ (k : Nat) := fun h => hne (Fin.ext h)
      rcases Nat.lt_or_gt_of_ne hne' with hlt | hlt
      · exact policyIteration_scheduler_ne_of_improved S env dir x b hnn hrs hvalid hexact
          huniq j k hlt (hall j (by have := k.2; omega)) hjk.symm
      · exact policyIteration_scheduler_ne_of_improved S env dir x b hnn hrs hvalid hexact
          huniq k j hlt (hall k (by have := j.2; omega)) hjk)
  omega

theorem policyIterationLoop_eq_iterate (S : Solver) (env : Environment)
    (dir : OptimizationDirection) (b : List ℚ) (k fuel : Nat) (st : PolicyState)
    (hin : ∀ j, j < k →
      (Nat.iterate (policyIterationRound S env dir b) (j + 1) st).status =
        SolverStatus.InProgress)
    (hout : (Nat.iterate (policyIterationRound S env dir b) (k + 1) st).status ≠
      SolverStatus.InProgress)
    (hk : k < fuel) :
    policyIterationLoop S env dir b fuel st =
      Nat.iterate (policyIterationRound S env dir b) (k + 1) st := by
  induction k generalizing st fuel with
  | zero =>
    obtain ⟨f, rfl⟩ : ∃ f, fuel = f + 1 := ⟨fuel - 1, by omega⟩
    unfold policyIterationLoop
    simp only [Function.iterate_succ, Function.iterate_zero, Function.comp_apply, id_eq] at hout ⊢
    rw [if_neg hout]
  | succ k ih =>
    obtain ⟨f, rfl⟩ : ∃ f, fuel = f + 1 := ⟨fuel - 1, by omega⟩
    unfold policyIterationLoop
    have h0 := hin 0 (by omega)
    simp only [Function.iterate_succ, Function.iterate_zero, Function.comp_apply, id_eq] at h0
    simp only []
    rw [if_pos h0]
    rw [ih f (policyIterationRound S env dir b st)
      (fun j hj => by
        have := hin (j + 1) (by omega)
        simpa only [Function.iterate_succ, Function.comp_apply] using this)
      (by simpa only [Function.iterate_succ, Function.comp_apply] using hout)
      (by omega)]
    simp only [Function.iterate_succ, Function.comp_apply]

theorem policyIterationStateAt_iterations (S : Solver) (env : Environment)
    (dir : OptimizationDirection) (x b : List ℚ) (k : Nat) :
    (policyIterationStateAt S env dir x b k).iterations = k := by
  induction k with
  | zero => rfl
  | succ k ih =>
    rw [policyIterationStateAt_succ]
    unfold policyIterationRound
    simp only [ih]

theorem policyIterationStateAt_status_of_not_improved (S : Solver) (env : Environment)
    (dir : OptimizationDirection) (x b : List ℚ) (k : Nat)
    (himp : policyIterationImproved S env dir x b k = false) :
    (policyIterationStateAt S env dir x b (k + 1)).status = SolverStatus.Converged := by
  rw [policyIterationStateAt_succ]
  unfold policyIterationImproved policyIterationSolved at himp
  unfold policyIterationRound
  simp only []
  rw [updateStatusIfNotConverged_converged_iff, himp]
  rfl

theorem policyIterationStateAt_status_of_improved (S : Solver) (env : Environment)
    (dir : OptimizationDirection) (x b : List ℚ) (k : Nat)
    (hnt : S.terminationCondition = none)
    (himp : policyIterationImproved S env dir x b k = true)
    (hs : (policyIterationStateAt S env dir x b k).status = SolverStatus.InProgress)
    (hk : k + 1 < env.maximalNumberOfIterations) :
    (policyIterationStateAt S env dir x b (k + 1)).status = SolverStatus.InProgress := by
  rw [policyIterationStateAt_succ]
  unfold policyIterationImproved policyIterationSolved at himp
  unfold policyIterationRound
  simp only [himp, hs, policyIterationStateAt_iterations]
  unfold updateStatusIfNotConverged
  rw [hnt]
  have hlt : ¬ (k + 1 ≥ env.maximalNumberOfIterations) := by omega
  simp [hlt]

/-- C9, amended: for a finite system with non-negative entries and row sums at most one, started
from a scheduler that selects a row of every row group, in which the induced linear system of
every scheduler has a unique solution and is solved exactly, with no custom termination
condition and an iteration budget of at least the number of deterministic schedulers, the
do-while loop of `solveEquationsPolicyIteration` ends with status Converged after at most that
many rounds, and the method returns true. -/
theorem policyIteration_terminates (S : Solver) (env : Environment)
    (dir : OptimizationDirection) (x b : List ℚ)
    (hnn : S.A.NonNegative) (hrs : S.A.RowSumsAtMostOne)
    (hvalid : ValidScheduler S.A (initialPolicy S))
    (hexact : ∀ scheduler, ValidScheduler S.A scheduler → ∀ x0,
      InducedSolution S.A b scheduler (solveInducedEquationSystem S scheduler x0 b).2)
    (huniq : ∀ scheduler, ValidScheduler S.A scheduler → ∀ y z,
      InducedSolution S.A b scheduler y → InducedSolution S.A b scheduler z → y = z)
    (hnt : S.terminationCondition = none)
    (hbudget : schedulerCount S.A ≤ env.maximalNumberOfIterations) :
    (policyIterationRun S env dir x b).status = SolverStatus.Converged ∧
    (policyIterationRun S env dir x b).iterations ≤ schedulerCount S.A ∧
    (solveEquationsPolicyIteration S env dir x b).outcome = Outcome.returned true := by
  have hex := exists_round_without_improvement S env dir x b hnn hrs hvalid hexact huniq
  have hk0 := Nat.find_spec hex
  have hmin : ∀ j, j < Nat.find hex → policyIterationImproved S env dir x b j = true := by
    intro j hj
    have h := Nat.find_min hex hj
    by_contra hne
    exact h ⟨by omega, by simpa using hne⟩
  generalize Nat.find hex = k0 at hk0 hmin
  have hstatus : ∀ j, j ≤ k0 →
      (policyIterationStateAt S env dir x b j).status = SolverStatus.InProgress := by
    intro j
    induction j with
    | zero => intro _; rfl
    | succ j ih =>
      intro hj
      exact policyIterationStateAt_status_of_improved S env dir x b j hnt (hmin j (by omega))
        (ih (by omega)) (by omega)
  have hfinal := policyIterationStateAt_status_of_not_improved S env dir x b k0 hk0.2
  have hrun : policyIterationRun S env dir x b = policyIterationStateAt S env dir x b (k0 + 1) := by
    unfold policyIterationRun
    exact policyIterationLoop_eq_iterate S env dir b k0 _ _
      (fun j hj => hstatus (j + 1) (by omega))
      (by
        have : (policyIterationStateAt S env dir x b (k0 + 1)).status ≠
            SolverStatus.InProgress := by rw [hfinal]; decide
        exact this)
      (by omega)
  have hconv : (policyIterationRun S env dir x b).status = SolverStatus.Converged := by
    rw [hrun]; exact hfinal
  refine ⟨hconv, ?_, ?_⟩
  · rw [hrun, policyIterationStateAt_iterations]
    omega
  · unfold solveEquationsPolicyIteration
    simp only [hconv, reportStatus]
    rfl

/-! ## Policy iteration on the example systems -/

theorem gain_valid_cases (scheduler : List Nat) (h : ValidScheduler gainMatrix scheduler) :
    scheduler = [0] ∨ scheduler = [1] := by
  obtain ⟨hlen, hrow⟩ := h
  have hlen' : scheduler.length = 1 := hlen
  obtain ⟨a, rfl⟩ := List.length_eq_one.1 hlen'
  have h0 := hrow 0 (by decide)
  simp [SparseMatrix.rowGroupIndex, gainMatrix] at h0
  interval_cases a <;> simp

theorem gain_nonNegative : gainMatrix.NonNegative := by
  unfold SparseMatrix.NonNegative gainMatrix
  simp

theorem gain_initial_valid : ValidScheduler gainMatrix (initialPolicy gainSolver) := by
  refine ⟨rfl, ?_⟩
  intro g hg
  have hg' : g < 1 := hg
  interval_cases g
  decide

theorem gain_exact (scheduler : List Nat) (h : ValidScheduler gainMatrix scheduler)
    (x0 : List ℚ) :
    InducedSolution gainSolver.A gainB scheduler
      (solveInducedEquationSystem gainSolver scheduler x0 gainB).2 := by
  rcases gain_valid_cases scheduler h with rfl | rfl
  · have hsol : (solveInducedEquationSystem gainSolver [0] x0 gainB).2 = [0] := rfl
    rw [hsol]
    refine ⟨rfl, ?_⟩
    intro g hg
    have hg' : g < 1 := hg
    interval_cases g
    decide!
  · have hsol : (solveInducedEquationSystem gainSolver [1] x0 gainB).2 = [-1] := rfl
    rw [hsol]
    refine ⟨rfl, ?_⟩
    intro g hg
    have hg' : g < 1 := hg
    interval_cases g
    decide!

theorem gain_unique (scheduler : List Nat) (h : ValidScheduler gainMatrix scheduler)
    (y z : List ℚ) (hy : InducedSolution gainSolver.A gainB scheduler y)
    (hz : InducedSolution gainSolver.A gainB scheduler z) : y = z := by
  obtain ⟨hly, hy0⟩ := hy
  obtain ⟨hlz, hz0⟩ := hz
  have hly' : y.length = 1 := hly
  have hlz' : z.length = 1 := hlz
  obtain ⟨u, rfl⟩ := List.length_eq_one.1 hly'
  obtain ⟨w, rfl⟩ := List.length_eq_one.1 hlz'
  have h1 := hy0 0 (by decide)
  have h2 := hz0 0 (by decide)
  rcases gain_valid_cases scheduler h with rfl | rfl
  · simp [SparseMatrix.rowValue, SparseMatrix.multiplyRowWithVector, SparseMatrix.getRow,
      SparseMatrix.rowGroupIndex, gainSolver, gainMatrix, gainB] at h1 h2
    rw [h1, h2]
  · simp [SparseMatrix.rowValue, SparseMatrix.multiplyRowWithVector, SparseMatrix.getRow,
      SparseMatrix.rowGroupIndex, gainSolver, gainMatrix, gainB] at h1 h2
    have : u = w := by linarith
    rw [this]

/-- Counterexample to C8 as stated: the one-state system with the heavy loop has non-negative
entries, both of its schedulers induce a linear system with a unique solution, and the systems
are solved exactly; when maximising from the first row, round `0` solves to `[0]` and round `1`
solves to `[-1]`, which is smaller. -/
theorem policyIteration_not_monotone :
    gainMatrix.NonNegative ∧
    ValidScheduler gainMatrix (initialPolicy gainSolver) ∧
    (∀ scheduler, ValidScheduler gainSolver.A scheduler → ∀ x0,
      InducedSolution gainSolver.A gainB scheduler
        (solveInducedEquationSystem gainSolver scheduler x0 gainB).2) ∧
    (∀ scheduler, ValidScheduler gainSolver.A scheduler → ∀ y z,
      InducedSolution gainSolver.A gainB scheduler y →
      InducedSolution gainSolver.A gainB scheduler z → y = z) ∧
    policyIterationSolved gainSolver regularEnvironment OptimizationDirection.Maximize [0]
      gainB 0 = [0] ∧
    policyIterationSolved gainSolver regularEnvironment OptimizationDirection.Maximize [0]
      gainB 1 = [-1] ∧
    ¬ ((policyIterationSolved gainSolver regularEnvironment OptimizationDirection.Maximize [0]
        gainB 0).getD 0 0 ≤
      (policyIterationSolved gainSolver regularEnvironment OptimizationDirection.Maximize [0]
        gainB 1).getD 0 0) :=
  ⟨gain_nonNegative, gain_initial_valid, gain_exact, gain_unique, by decide!, by decide!,
    by decide!⟩

/-- Counterexample to C9 as stated: on the one-state system with the heavy loop, which has two
schedulers, policy iteration without a custom termination condition and with a budget of one
hundred iterations switches the scheduler in every round and ends with the status
MaximalIterationsExceeded after one hundred rounds. -/
theorem policyIteration_not_terminating :
    gainMatrix.NonNegative ∧
    ValidScheduler gainMatrix (initialPolicy gainSolver) ∧
    (∀ scheduler, ValidScheduler gainSolver.A scheduler → ∀ x0,
      InducedSolution gainSolver.A gainB scheduler
        (solveInducedEquationSystem gainSolver scheduler x0 gainB).2) ∧
    (∀ scheduler, ValidScheduler gainSolver.A scheduler → ∀ y z,
      InducedSolution gainSolver.A gainB scheduler y →
      InducedSolution gainSolver.A gainB scheduler z → y = z) ∧
    gainSolver.terminationCondition = none ∧
    schedulerCount gainMatrix = 2 ∧
    schedulerCount gainMatrix ≤ regularEnvironment.maximalNumberOfIterations ∧
    (policyIterationRun gainSolver regularEnvironment OptimizationDirection.Maximize [0]
      gainB).status = SolverStatus.MaximalIterationsExceeded ∧
    (policyIterationRun gainSolver regularEnvironment OptimizationDirection.Maximize [0]
      gainB).iterations = 100 ∧
    (solveEquationsPolicyIteration gainSolver regularEnvironment OptimizationDirection.Maximize
      [0] gainB).outcome = Outcome.returned false :=
  ⟨gain_nonNegative, gain_initial_valid, gain_exact, gain_unique, rfl, by decide, by decide,
    by decide!, by decide!, by decide!⟩

theorem twoState_valid_cases (scheduler : List Nat)
    (h : ValidScheduler twoStateMatrix scheduler) :
    scheduler = [0, 0] ∨ scheduler = [1, 0] := by
  obtain ⟨hlen, hrow⟩ := h
  have hlen' : scheduler.length = 2 := hlen
  obtain ⟨a, c, rfl⟩ := List.length_eq_two.1 hlen'
  have h0 := hrow 0 (by decide)
  have h1 := hrow 1 (by decide)
  simp [SparseMatrix.rowGroupIndex, twoStateMatrix] at h0 h1
  have hc : c = 0 := by omega
  subst hc
  interval_cases a <;> simp

theorem twoState_initial_valid :
    ValidScheduler twoStatePolicySolver.A (initialPolicy twoStatePolicySolver) := by
  refine ⟨rfl, ?_⟩
  intro g hg
  have hg' : g < 2 := hg
  interval_cases g <;> decide

theorem twoState_valid_zero : ValidScheduler twoStatePolicySolver.A [0, 0] := by
  refine ⟨rfl, ?_⟩
  intro g hg
  have hg' : g < 2 := hg
  interval_cases g <;> decide

theorem twoState_exact (scheduler : List Nat)
    (h : ValidScheduler twoStatePolicySolver.A scheduler) (x0 : List ℚ) :
    InducedSolution twoStatePolicySolver.A twoStateB scheduler
      (solveInducedEquationSystem twoStatePolicySolver scheduler x0 twoStateB).2 := by
  rcases twoState_valid_cases scheduler h with rfl | rfl
  · have hsol : (solveInducedEquationSystem twoStatePolicySolver [0, 0] x0 twoStateB).2 =
        [1, 1] := rfl
    rw [hsol]
    refine ⟨rfl, ?_⟩
    intro g hg
    have hg' : g < 2 := hg
    interval_cases g <;> decide!
  · have hsol : (solveInducedEquationSystem twoStatePolicySolver [1, 0] x0 twoStateB).2 =
        [1 / 2, 1] := rfl
    rw [hsol]
    refine ⟨rfl, ?_⟩
    intro g hg
    have hg' : g < 2 := hg
    interval_cases g <;> decide!

theorem twoState_unique (scheduler : List Nat)
    (h : ValidScheduler twoStatePolicySolver.A scheduler) (y z : List ℚ)
    (hy : InducedSolution twoStatePolicySolver.A twoStateB scheduler y)
    (hz : InducedSolution twoStatePolicySolver.A twoStateB scheduler z) : y = z := by
  obtain ⟨hly, hy0⟩ := hy
  obtain ⟨hlz, hz0⟩ := hz
  have hly' : y.length = 2 := hly
  have hlz' : z.length = 2 := hlz
  obtain ⟨u0, u1, rfl⟩ := List.length_eq_two.1 hly'
  obtain ⟨w0, w1, rfl⟩ := List.length_eq_two.1 hlz'
  have h1 := hy0 0 (by decide)
  have h2 := hz0 0 (by decide)
  have h3 := hy0 1 (by decide)
  have h4 := hz0 1 (by decide)
  rcases twoState_valid_cases scheduler h with rfl | rfl
  · simp [SparseMatrix.rowValue, SparseMatrix.multiplyRowWithVector, SparseMatrix.getRow,
      SparseMatrix.rowGroupIndex, twoStatePolicySolver, twoStateMatrix, twoStateB]
      at h1 h2 h3 h4
    have h1' : u0 = u1 := h1
    have h2' : w0 = w1 := h2
    rw [h1', h2', h3, h4]
  · simp [SparseMatrix.rowValue, SparseMatrix.multiplyRowWithVector, SparseMatrix.getRow,
      SparseMatrix.rowGroupIndex, twoStatePolicySolver, twoStateMatrix, twoStateB]
      at h1 h2 h3 h4
    have e0 : u0 = w0 := by linarith
    rw [e0, h3, h4]

/-- Witness of C7 on the two-state system: policy iteration from the looping scheduler converges,
returns `[1, 1]`, and that vector solves the min/max system exactly. -/
theorem policyIteration_converged_fixpoint_witness :
    (policyIterationRun twoStatePolicySolver regularEnvironment OptimizationDirection.Maximize
      [0, 0] twoStateB).status = SolverStatus.Converged ∧
    (solveEquationsPolicyIteration twoStatePolicySolver regularEnvironment
      OptimizationDirection.Maximize [0, 0] twoStateB).x = [1, 1] ∧
    BellmanFixpoint OptimizationDirection.Maximize twoStatePolicySolver.A
      (solveEquationsPolicyIteration twoStatePolicySolver regularEnvironment
        OptimizationDirection.Maximize [0, 0] twoStateB).x twoStateB :=
  ⟨by decide!, by decide!,
    (policyIteration_converged_fixpoint twoStatePolicySolver regularEnvironment
      OptimizationDirection.Maximize [0, 0] twoStateB twoState_initial_valid (by decide!)
      (fun x0 => by
        have hs : (policyIterationRun twoStatePolicySolver regularEnvironment
            OptimizationDirection.Maximize [0, 0] twoStateB).scheduler = [0, 0] := by decide!
        rw [hs]
        exact twoState_exact [0, 0] twoState_valid_zero x0)).2.1⟩

/-- Witness of C8 on the two-state system: when maximising from the looping scheduler, the first
entry of the vector solved in round `1` is at least the one solved in round `0`. -/
theorem policyIteration_monotone_witness :
    (policyIterationSolved twoStatePolicySolver regularEnvironment
      OptimizationDirection.Maximize [0, 0] twoStateB 0).getD 0 0 ≤
    (policyIterationSolved twoStatePolicySolver regularEnvironment
      OptimizationDirection.Maximize [0, 0] twoStateB 1).getD 0 0 :=
  ((policyIteration_monotone twoStatePolicySolver regularEnvironment
    OptimizationDirection.Maximize [0, 0] twoStateB 0 twoStateMatrix_nonNegative
    twoStateMatrix_rowSums twoState_initial_valid twoState_exact twoState_unique) 0).1 rfl

/-- Witness of C9 on the two-state system, which has two schedulers: policy iteration from the
looping scheduler ends with status Converged after at most two rounds. -/
theorem policyIteration_terminates_witness :
    (policyIterationRun twoStatePolicySolver regularEnvironment OptimizationDirection.Maximize
      [0, 0] twoStateB).status = SolverStatus.Converged ∧
    (policyIterationRun twoStatePolicySolver regularEnvironment OptimizationDirection.Maximize
      [0, 0] twoStateB).iterations ≤ schedulerCount twoStatePolicySolver.A ∧
    (solveEquationsPolicyIteration twoStatePolicySolver regularEnvironment
      OptimizationDirection.Maximize [0, 0] twoStateB).outcome = Outcome.returned true :=
  policyIteration_terminates twoStatePolicySolver regularEnvironment
    OptimizationDirection.Maximize [0, 0] twoStateB twoStateMatrix_nonNegative
    twoStateMatrix_rowSums twoState_initial_valid twoState_exact twoState_unique rfl
    (by decide)

/-! ## Selection of the method and requirements -/

/-- C16: `getMethod(env, isExactMode)` returns policy iteration when the exact mode is on, the
configured method is neither policy iteration nor rational search, and the method was set from
the default; it returns the configured method unchanged when the caller set the method
explicitly or when the exact mode is off, provided the method is one of the supported value
iteration, policy iteration and rational search. -/
theorem getMethod_escalation (env : MethodEnvironment) (isExactMode : Bool) :
    (isExactMode = true ∧ env.method ≠ MinMaxMethod.PolicyIteration ∧
        env.method ≠ MinMaxMethod.RationalSearch ∧ env.methodSetFromDefault = true →
      getMethod env isExactMode = Except.ok MinMaxMethod.PolicyIteration) ∧
    ((env.methodSetFromDefault = false ∨ isExactMode = false) →
      (env.method = MinMaxMethod.ValueIteration ∨ env.method = MinMaxMethod.PolicyIteration ∨
        env.method = MinMaxMethod.RationalSearch) →
      getMethod env isExactMode = Except.ok env.method) := by
  obtain ⟨method, fromDefault, sound⟩ := env
  cases method <;> cases fromDefault <;> cases isExactMode <;> simp [getMethod]

/-- C15: when `getMethod` yields value iteration and soundness is not forced, `getRequirements`
returns the requirements of the linear-equation solver unchanged if the solution is marked
unique; if it is not and scheduler tracking is on, it adds exactly "no end components"; if it is
not and tracking is off, it adds "lower bounds" exactly when the direction is Maximize or unknown
and "upper bounds" exactly when the direction is Minimize or unknown, and nothing else. -/
theorem getRequirements_valueIteration (S : Solver) (env : MethodEnvironment) (isExact : Bool)
    (linear : MinMaxLinearEquationSolverRequirements) (direction : Option OptimizationDirection)
    (hmethod : getMethod env isExact = Except.ok MinMaxMethod.ValueIteration)
    (hsound : env.forceSoundness = false) :
    (S.uniqueSolution = true → getRequirements S env isExact linear direction = Except.ok linear) ∧
    (S.uniqueSolution = false → S.trackScheduler = true →
      getRequirements S env isExact linear direction =
        Except.ok { linear with noEndComponents := true }) ∧
    (S.uniqueSolution = false → S.trackScheduler = false →
      getRequirements S env isExact linear direction =
        Except.ok
          { linear with
            lowerBounds := linear.lowerBounds ||
              decide (direction = none ∨ direction = some OptimizationDirection.Maximize)
            upperBounds := linear.upperBounds ||
              decide (direction = none ∨ direction = some OptimizationDirection.Minimize) }) := by
  obtain ⟨nec, vis, lb, ub⟩ := linear
  refine ⟨?_, ?_, ?_⟩
  · intro hu
    simp [getRequirements, hmethod, hsound, hu]
  · intro hu ht
    simp [getRequirements, hmethod, hsound, hu, ht,
      MinMaxLinearEquationSolverRequirements.requireNoEndComponents]
  · intro hu ht
    rcases direction with _ | d
    · simp [getRequirements, hmethod, hsound, hu, ht,
        MinMaxLinearEquationSolverRequirements.requireLowerBounds,
        MinMaxLinearEquationSolverRequirements.requireUpperBounds]
    · cases d <;>
        simp [getRequirements, hmethod, hsound, hu, ht,
          MinMaxLinearEquationSolverRequirements.requireLowerBounds,
          MinMaxLinearEquationSolverRequirements.requireUpperBounds]

/-- Witness of C15: the two-state solver, whose solution is marked unique, with value iteration
configured explicitly and evaluated in the inexact mode. -/
theorem getRequirements_valueIteration_witness :
    getMethod explicitValueIteration false = Except.ok MinMaxMethod.ValueIteration ∧
    getRequirements twoStateSolver
      explicitValueIteration false
      noRequirements (some OptimizationDirection.Maximize) =
      Except.ok noRequirements :=
  ⟨by decide,
   (getRequirements_valueIteration twoStateSolver
      explicitValueIteration false
      noRequirements (some OptimizationDirection.Maximize) (by decide) rfl).1 rfl⟩

/-- Counterexample to C17: with sound value iteration configured and the exact mode off, both
`getMethod` and the factory routine `create` raise the invalid-environment error. -/
theorem soundValueIteration_not_selectable :
    getMethod explicitSoundValueIteration false =
      Except.error SolverException.InvalidEnvironmentException ∧
    create true false explicitSoundValueIteration =
      Created.raised SolverException.InvalidEnvironmentException := by
  decide

/-- C17, amended: with the exact mode off, `getMethod` returns the configured method and the
factory routine `create` (of a factory that holds a linear-equation solver factory) yields a
solver exactly for value iteration, policy iteration and rational search; for every other
configured method, sound value iteration included, both raise the invalid-environment error. -/
theorem supported_methods (env : MethodEnvironment) (requirementsChecked : Bool) :
    ((env.method = MinMaxMethod.ValueIteration ∨ env.method = MinMaxMethod.PolicyIteration ∨
        env.method = MinMaxMethod.RationalSearch) →
      getMethod env false = Except.ok env.method ∧
      create true requirementsChecked env = Created.solver requirementsChecked) ∧
    (¬ (env.method = MinMaxMethod.ValueIteration ∨ env.method = MinMaxMethod.PolicyIteration ∨
        env.method = MinMaxMethod.RationalSearch) →
      env.method = MinMaxMethod.SoundValueIteration ∧
      getMethod env false = Except.error SolverException.InvalidEnvironmentException ∧
      create true requirementsChecked env =
        Created.raised SolverException.InvalidEnvironmentException) := by
  obtain ⟨method, fromDefault, sound⟩ := env
  cases method <;> simp [getMethod, create]

/-! ## Preconditions, budget and result of the methods -/

/-- C11: when the solution is not marked unique (as it would be for a system declared free of
end components), no initial scheduler is set and the bound that the direction needs (the lower
bound for Maximize, the upper bound for Minimize) is missing, `solveEquationsValueIteration`
raises the unmet-requirement error; it performs no iteration and leaves `x` as it was. -/
theorem valueIteration_refuses_missing_bound (S : Solver) (env : Environment)
    (dir : OptimizationDirection) (x b : List ℚ)
    (hunique : S.uniqueSolution = false) (hscheduler : S.initialScheduler = none)
    (hbound : (if dir = OptimizationDirection.Maximize then S.lowerBound else S.upperBound) =
      none) :
    (solveEquationsValueIteration S env dir x b).outcome =
      Outcome.raised SolverException.UnmetRequirementException ∧
    (solveEquationsValueIteration S env dir x b).x = x ∧
    valueIterationStatus S env dir x b = none := by
  have hstart : valueIterationStart S dir x b = none := by
    unfold valueIterationStart
    rw [hscheduler]
    simp only [hunique, Bool.not_false, if_true]
    by_cases hd : dir = OptimizationDirection.Maximize
    · rw [if_pos hd] at hbound
      rw [if_pos hd, hbound]
      rfl
    · rw [if_neg hd] at hbound
      rw [if_neg hd, hbound]
      rfl
  unfold solveEquationsValueIteration valueIterationStatus
  rw [hstart]
  exact ⟨rfl, rfl, rfl⟩

/-- Witness of C11: the two-state system without bounds and without the mark of a unique
solution, maximizing. -/
theorem valueIteration_refuses_missing_bound_witness :
    (solveEquationsValueIteration unboundedSolver regularEnvironment
      OptimizationDirection.Maximize [0, 0] twoStateB).outcome =
      Outcome.raised SolverException.UnmetRequirementException ∧
    (solveEquationsValueIteration unboundedSolver regularEnvironment
      OptimizationDirection.Maximize [0, 0] twoStateB).x = [0, 0] ∧
    valueIterationStatus unboundedSolver regularEnvironment OptimizationDirection.Maximize
      [0, 0] twoStateB = none :=
  valueIteration_refuses_missing_bound unboundedSolver regularEnvironment
    OptimizationDirection.Maximize [0, 0] twoStateB rfl rfl rfl

/-- C12, evaluation: with a budget of zero iterations sound value iteration raises the
invalid-state error, while value iteration, policy iteration and the core rational search return
`false` under the same budget. -/
theorem soundValueIteration_zero_budget :
    (solveEquationsSoundValueIteration halfSolver zeroBudgetEnvironment
      OptimizationDirection.Maximize [0] [0]).outcome =
      Outcome.raised SolverException.InvalidStateException ∧
    (solveEquationsValueIteration halfSolver zeroBudgetEnvironment
      OptimizationDirection.Maximize [1] [0]).outcome = Outcome.returned false ∧
    (solveEquationsPolicyIteration twoStatePolicySolver zeroBudgetEnvironment
      OptimizationDirection.Maximize [0, 0] twoStateB).outcome = Outcome.returned false ∧
    (solveEquationsRationalSearchHelperExact halfSolver keepSharpen zeroBudgetEnvironment
      OptimizationDirection.Maximize [1] [0] [0]).outcome = Outcome.returned false := by
  refine ⟨?_, ?_, ?_, ?_⟩ <;> decide!

/-- C14, evaluation: on the two-state system with a budget of one iteration, started from
`[0, 0]` under regular multiplication, `performValueIteration` performs one Bellman update and
leaves `currentX` pointing to a vector that still holds `[0, 0]`, while the first iterate is
`[1 / 4, 1]`; `solveEquationsValueIteration` returns `x = [0, 0]`. -/
theorem valueIteration_returns_previous_iterate :
    (performValueIteration twoStateSolver oneStepEnvironment OptimizationDirection.Maximize
      { x := [0, 0], aux := [0, 0], aux2 := [] } Buf.x Buf.aux twoStateB (1 / 10) false
      SolverGuarantee.None 0 1 MultiplicationStyle.Regular).iterations = 1 ∧
    (performValueIteration twoStateSolver oneStepEnvironment OptimizationDirection.Maximize
      { x := [0, 0], aux := [0, 0], aux2 := [] } Buf.x Buf.aux twoStateB (1 / 10) false
      SolverGuarantee.None 0 1 MultiplicationStyle.Regular).bufs.get
      (performValueIteration twoStateSolver oneStepEnvironment OptimizationDirection.Maximize
        { x := [0, 0], aux := [0, 0], aux2 := [] } Buf.x Buf.aux twoStateB (1 / 10) false
        SolverGuarantee.None 0 1 MultiplicationStyle.Regular).currentX = [0, 0] ∧
    multiplyAndReduce OptimizationDirection.Maximize twoStateMatrix [0, 0] twoStateB =
      [1 / 4, 1] ∧
    (solveEquationsValueIteration twoStateSolver oneStepEnvironment
      OptimizationDirection.Maximize [0, 0] twoStateB).x = [0, 0] := by
  refine ⟨?_, ?_, ?_, ?_⟩ <;> decide!

theorem updateStatusIfNotConverged_ne_inProgress (S : Solver) (status : SolverStatus)
    (x : List ℚ) (iterations maximalNumberOfIterations : Nat) (guarantee : SolverGuarantee)
    (h : iterations ≥ maximalNumberOfIterations) :
    updateStatusIfNotConverged S status x iterations maximalNumberOfIterations guarantee ≠
      SolverStatus.InProgress := by
  unfold updateStatusIfNotConverged
  by_cases hc : status ≠ SolverStatus.Converged
  · rw [if_pos hc]
    split_ifs <;> simp
  · rw [if_neg hc]
    have hc' : status = SolverStatus.Converged := not_not.mp hc
    rw [hc']
    simp

theorem valueIterationLoop_status_ne_inProgress (S : Solver) (env : Environment)
    (dir : OptimizationDirection) (b : List ℚ) (precision : ℚ) (relative : Bool)
    (guarantee : SolverGuarantee) (maximalNumberOfIterations : Nat)
    (useGaussSeidelMultiplication : Bool) (fuel : Nat) (st : ValueIterationState)
    (hfuel : 1 ≤ fuel) (hbudget : maximalNumberOfIterations ≤ st.iterations + fuel) :
    (valueIterationLoop S env dir b precision relative guarantee maximalNumberOfIterations
      useGaussSeidelMultiplication fuel st).status ≠ SolverStatus.InProgress := by
  induction fuel generalizing st with
  | zero => omega
  | succ fuel ih =>
    unfold valueIterationLoop
    by_cases hs : st.status = SolverStatus.InProgress
    · rw [if_pos hs]
      have hit : (valueIterationStep S env dir b precision relative guarantee
          maximalNumberOfIterations useGaussSeidelMultiplication st).iterations =
          st.iterations + 1 := rfl
      by_cases hf : 1 ≤ fuel
      · exact ih _ hf (by rw [hit]; omega)
      · have hf0 : fuel = 0 := by omega
        subst hf0
        unfold valueIterationLoop
        exact updateStatusIfNotConverged_ne_inProgress S _ _ _ _ _ (by omega)
    · rw [if_neg hs]
      exact hs

theorem performValueIteration_status_ne_inProgress (S : Solver) (env : Environment)
    (dir : OptimizationDirection) (bufs : Buffers) (currentX newX : Buf) (b : List ℚ)
    (precision : ℚ) (relative : Bool) (guarantee : SolverGuarantee)
    (currentIterations maximalNumberOfIterations : Nat) (style : MultiplicationStyle) :
    (performValueIteration S env dir bufs currentX newX b precision relative guarantee
      currentIterations maximalNumberOfIterations style).status ≠ SolverStatus.InProgress := by
  unfold performValueIteration
  simp only []
  have h := valueIterationLoop_status_ne_inProgress S env dir b precision relative guarantee
    maximalNumberOfIterations
    (S.supportsGaussSeidelMultiplication && decide (style = MultiplicationStyle.GaussSeidel))
    (max 1 (maximalNumberOfIterations - currentIterations))
    { bufs := bufs, currentX := currentX, newX := newX, iterations := currentIterations,
      status := SolverStatus.InProgress } (le_max_left _ _)
    (by
      have := le_max_right 1 (maximalNumberOfIterations - currentIterations)
      simp only []
      omega)
  split_ifs
  · exact h
  · exact h

theorem policyIterationLoop_status_ne_inProgress (S : Solver) (env : Environment)
    (dir : OptimizationDirection) (b : List ℚ) (fuel : Nat) (st : PolicyState)
    (hfuel : 1 ≤ fuel) (hbudget : env.maximalNumberOfIterations ≤ st.iterations + fuel) :
    (policyIterationLoop S env dir b fuel st).status ≠ SolverStatus.InProgress := by
  induction fuel generalizing st with
  | zero => omega
  | succ fuel ih =>
    unfold policyIterationLoop
    simp only []
    have hit : (policyIterationRound S env dir b st).iterations = st.iterations + 1 := rfl
    by_cases hs : (policyIterationRound S env dir b st).status = SolverStatus.InProgress
    · rw [if_pos hs]
      by_cases hf : 1 ≤ fuel
      · exact ih _ hf (by rw [hit]; omega)
      · exfalso
        have hf0 : fuel = 0 := by omega
        subst hf0
        exact updateStatusIfNotConverged_ne_inProgress S _ _ _ _ _ (by omega) hs
    · rw [if_neg hs]
      exact hs

theorem policyIterationRun_status_ne_inProgress (S : Solver) (env : Environment)
    (dir : OptimizationDirection) (x b : List ℚ) :
    (policyIterationRun S env dir x b).status ≠ SolverStatus.InProgress := by
  unfold policyIterationRun
  apply policyIterationLoop_status_ne_inProgress S env dir b _ _ (le_max_left _ _)
  have := le_max_right 1 env.maximalNumberOfIterations
  simp only []
  omega

theorem returned_of_status (status : SolverStatus) (x : List ℚ)
    (choices : Option (List Nat)) (h : status ≠ SolverStatus.InProgress) :
    (match reportStatus status with
      | some e => ({ outcome := Outcome.raised e, x := x, schedulerChoices := none } : SolveResult)
      | none =>
        { outcome := Outcome.returned
            (status = SolverStatus.Converged || status = SolverStatus.TerminatedEarly)
          x := x
          schedulerChoices := choices }).outcome =
      Outcome.returned
        (decide (status = SolverStatus.Converged ∨ status = SolverStatus.TerminatedEarly)) := by
  cases status <;> simp [reportStatus] at h ⊢

/-- Counterexample to C13: on the two-state system with a termination condition that always
holds, value iteration and policy iteration end with the status `TerminatedEarly` and return
`true`. -/
theorem terminatedEarly_returns_true :
    valueIterationStatus stoppingSolver regularEnvironment OptimizationDirection.Maximize
      [0, 0] twoStateB = some SolverStatus.TerminatedEarly ∧
    (solveEquationsValueIteration stoppingSolver regularEnvironment
      OptimizationDirection.Maximize [0, 0] twoStateB).outcome = Outcome.returned true ∧
    (policyIterationRun stoppingPolicySolver regularEnvironment OptimizationDirection.Maximize
      [0, 0] twoStateB).status = SolverStatus.TerminatedEarly ∧
    (solveEquationsPolicyIteration stoppingPolicySolver regularEnvironment
      OptimizationDirection.Maximize [0, 0] twoStateB).outcome = Outcome.returned true := by
  refine ⟨?_, ?_, ?_, ?_⟩ <;> decide!

theorem rationalSearchFinalStatus_ne_terminatedEarly (env : Environment) (status : SolverStatus)
    (overallIterations : Nat) (h : status ≠ SolverStatus.TerminatedEarly) :
    rationalSearchFinalStatus env status overallIterations ≠ SolverStatus.TerminatedEarly := by
  unfold rationalSearchFinalStatus
  split_ifs
  · simp
  · exact h

theorem returned_iff_converged (status : SolverStatus) (x : List ℚ) (c : Bool)
    (hte : status ≠ SolverStatus.TerminatedEarly)
    (h : (match reportStatus status with
      | some e => ({ outcome := Outcome.raised e, rationalX := x } : RationalSearchResult)
      | none =>
        { outcome := Outcome.returned
            (status = SolverStatus.Converged || status = SolverStatus.TerminatedEarly)
          rationalX := x }).outcome = Outcome.returned c) :
    (c = true ↔ status = SolverStatus.Converged) := by
  cases status <;> simp [reportStatus] at h hte ⊢ <;> simp [← h]

/-- C13, amended: value iteration and policy iteration always end with a status other than
`InProgress` and return `true` exactly when the final status is `Converged` or
`TerminatedEarly`, so a run that the custom termination condition ended returns `true` and a run
that exceeded the budget returns `false`; sound value iteration, when it returns, returns `true`
exactly when the final status is `Converged`; the core rational search never ends with the
status `TerminatedEarly` and, when it returns, returns `true` exactly when the final status is
`Converged`. -/
theorem returned_boolean_meaning (S : Solver) (env : Environment) (dir : OptimizationDirection)
    (x b : List ℚ) :
    (∀ status, valueIterationStatus S env dir x b = some status →
      status ≠ SolverStatus.InProgress ∧
      (solveEquationsValueIteration S env dir x b).outcome =
        Outcome.returned
          (decide (status = SolverStatus.Converged ∨ status = SolverStatus.TerminatedEarly))) ∧
    ((policyIterationRun S env dir x b).status ≠ SolverStatus.InProgress ∧
      (solveEquationsPolicyIteration S env dir x b).outcome =
        Outcome.returned
          (decide ((policyIterationRun S env dir x b).status = SolverStatus.Converged ∨
            (policyIterationRun S env dir x b).status = SolverStatus.TerminatedEarly))) ∧
    (∀ status c, soundValueIterationStatus S env dir x b = some status →
      (solveEquationsSoundValueIteration S env dir x b).outcome = Outcome.returned c →
      (c = true ↔ status = SolverStatus.Converged)) ∧
    (∀ kmSharpen auxiliaryRowGroupVector status c,
      rationalSearchExactStatus S kmSharpen env dir x b auxiliaryRowGroupVector = some status →
      status ≠ SolverStatus.TerminatedEarly ∧
      ((solveEquationsRationalSearchHelperExact S kmSharpen env dir x b
          auxiliaryRowGroupVector).outcome = Outcome.returned c →
        (c = true ↔ status = SolverStatus.Converged))) ∧
    (∀ (I : Type) (impreciseIteration : ℚ → Nat → ImpreciseVectors I → ImpreciseVectors I × Nat)
      (kmSharpen : Nat → List I → Option (List ℚ)) (rationalA : SparseMatrix)
      (rationalX : List ℚ) (impreciseX tmpX : List I) (status : SolverStatus) (c : Bool),
      rationalSearchStatus impreciseIteration kmSharpen env dir rationalA rationalX b
        impreciseX tmpX = some status →
      status ≠ SolverStatus.TerminatedEarly ∧
      ((solveEquationsRationalSearchHelper impreciseIteration kmSharpen env dir rationalA
          rationalX b impreciseX tmpX).outcome = Outcome.returned c →
        (c = true ↔ status = SolverStatus.Converged))) := by
  refine ⟨?_, ?_, ?_, ?_, ?_⟩
  · intro status hstatus
    unfold valueIterationStatus at hstatus
    unfold solveEquationsValueIteration
    cases hstart : valueIterationStart S dir x b with
    | none => simp [hstart] at hstatus
    | some start =>
      obtain ⟨guarantee, x0⟩ := start
      simp only [hstart, Option.map_some', Option.some.injEq] at hstatus
      have hne := performValueIteration_status_ne_inProgress S env dir
        { x := x0, aux := List.replicate S.A.getRowGroupCount 0, aux2 := [] } Buf.x Buf.aux b
        env.precision env.relativeTerminationCriterion guarantee 0
        env.maximalNumberOfIterations env.multiplicationStyle
      simp only []
      rw [hstatus] at hne ⊢
      exact ⟨hne, returned_of_status status _ _ hne⟩
  · have hne := policyIterationRun_status_ne_inProgress S env dir x b
    refine ⟨hne, ?_⟩
    unfold solveEquationsPolicyIteration
    exact returned_of_status _ _ _ hne
  · intro status c hstatus hret
    unfold soundValueIterationStatus at hstatus
    unfold solveEquationsSoundValueIteration at hret
    cases hl : createBoundsVector S.lowerBound x.length with
    | none => simp [hl] at hstatus
    | some lower =>
      cases hu : createBoundsVector S.upperBound S.A.getRowGroupCount with
      | none => simp [hl, hu] at hstatus
      | some upper =>
        simp only [hl, hu, Option.some.injEq] at hstatus
        by_cases hup : S.hasUpperBound = true
        · simp only [hup, Bool.not_true, hl, hu] at hret
          rw [hstatus] at hret
          cases status <;> simp [reportStatus] at hret ⊢ <;> simp [← hret]
        · simp [hup] at hret
  · intro kmSharpen auxiliaryRowGroupVector status c hstatus
    unfold rationalSearchExactStatus at hstatus
    unfold solveEquationsRationalSearchHelperExact
    cases hloop : exactSearchLoop S kmSharpen env dir b env.maximalNumberOfIterations
        { bufs := { x := x, aux := auxiliaryRowGroupVector, aux2 := [] }
          currentX := Buf.aux
          newX := Buf.x
          precision := env.precision
          overallIterations := 0
          status := SolverStatus.InProgress } with
    | none => simp [hloop] at hstatus
    | some st =>
      simp only [hloop, Option.map_some', Option.some.injEq] at hstatus
      have hte := (exactSearchLoop_spec S kmSharpen env dir b _ _ st
        ⟨rfl, rfl, fun h => by simp at h, by simp⟩ hloop).2
      have hfinal := rationalSearchFinalStatus_ne_terminatedEarly env st.status
        st.overallIterations hte
      rw [hstatus] at hfinal
      refine ⟨hfinal, ?_⟩
      simp only []
      rw [hstatus]
      exact returned_iff_converged status _ c hfinal
  · intro I impreciseIteration kmSharpen rationalA rationalX impreciseX tmpX status c hstatus
    unfold rationalSearchStatus at hstatus
    unfold solveEquationsRationalSearchHelper
    cases hloop : rationalSearchLoop impreciseIteration kmSharpen env dir rationalA b
        env.maximalNumberOfIterations
        { vectors := { x := impreciseX, tmpX := tmpX, currentIsX := true }
          rationalX := rationalX
          precision := env.precision
          overallIterations := 0
          status := SolverStatus.InProgress } with
    | none => simp [hloop] at hstatus
    | some st =>
      simp only [hloop, Option.map_some', Option.some.injEq] at hstatus
      have hte := (rationalSearchLoop_spec impreciseIteration kmSharpen env dir
        rationalA b _ _ st ⟨fun h => by simp at h, by simp⟩ hloop).2
      have hfinal := rationalSearchFinalStatus_ne_terminatedEarly env st.status
        st.overallIterations hte
      rw [hstatus] at hfinal
      refine ⟨hfinal, ?_⟩
      simp only []
      rw [hstatus]
      exact returned_iff_converged status _ c hfinal

/-! ## The long-run average helper -/

/-- C19, evaluation: for the reward model with state rewards `1` and `0` only, the state getter
that `computeLongRunAverageRewards` builds returns `0` at the first state, whose state reward is
`1`, the action getter is left empty, and on the two-state system with the two looping states the
computation ends in the call of the empty getter for both directions instead of
returning `[1, 0]`. -/
theorem computeLongRunAverageRewards_state_rewards_only :
    stateRewardsOnly.getStateReward 0 = 1 ∧
    (rewardGetters (selfLoopHelper OptimizationDirection.Maximize) stateRewardsOnly).1.map
      (fun getter => getter 0) = some 0 ∧
    (rewardGetters (selfLoopHelper OptimizationDirection.Maximize) stateRewardsOnly).2.isNone =
      true ∧
    computeLongRunAverageRewards (selfLoopHelper OptimizationDirection.Maximize)
      plainLraEnvironment stateRewardsOnly none = Except.error HelperFailure.BadFunctionCall ∧
    computeLongRunAverageRewards (selfLoopHelper OptimizationDirection.Minimize)
      plainLraEnvironment stateRewardsOnly none = Except.error HelperFailure.BadFunctionCall := by
  refine ⟨?_, ?_, ?_, ?_, ?_⟩ <;> decide!

/-- C20: for a singleton end component `{s}` of a continuous-time model, `computeLraForMec`
raises the invalid-operation error for Zeno behaviour exactly when `s` is not Markovian; when `s`
is Markovian with the single allowed choice `c`, it returns
`stateReward(s) + exitRate(s) * actionReward(c)` and, when a scheduler is requested, records the
local choice `0` at `s`. -/
theorem computeLraForMec_continuous_singleton
    (H : SparseNondeterministicInfiniteHorizonHelper) (env : LraEnvironment)
    (stateRewardsGetter actionRewardsGetter : Option (Nat → ℚ)) (state : Nat)
    (mecChoices : List Nat) (choices : Option (List Nat)) (markovianStates : List Bool)
    (exitRates : List ℚ)
    (htime : H.markovianStatesAndExitRates = some (markovianStates, exitRates)) :
    (computeLraForMec H env stateRewardsGetter actionRewardsGetter [(state, mecChoices)] choices =
        Except.error HelperFailure.InvalidOperationException ↔
      markovianStates.getD state false = false) ∧
    (markovianStates.getD state false = true →
      ∀ (choice : Nat) (stateReward actionReward : Nat → ℚ) (produced : List Nat),
        mecChoices = [choice] → stateRewardsGetter = some stateReward →
        actionRewardsGetter = some actionReward →
        (H.produceScheduler = true → choices = some produced) →
        computeLraForMec H env stateRewardsGetter actionRewardsGetter [(state, mecChoices)]
            choices =
          Except.ok (stateReward state + exitRates.getD state 0 * actionReward choice,
            if H.produceScheduler then some (produced.set state 0) else choices)) := by
  refine ⟨?_, ?_⟩
  · unfold computeLraForMec
    simp only [htime]
    cases hm : markovianStates.getD state false
    · simp
    · simp only [Bool.not_true, Bool.false_eq_true, if_false]
      by_cases hl : mecChoices.length ≠ 1
      · simp [hl]
      · rw [if_neg hl]
        cases H.produceScheduler <;> cases choices <;> cases stateRewardsGetter <;>
          cases actionRewardsGetter <;> simp [setProducedChoice, callGetter]
  · intro hm choice stateReward actionReward produced hc hs ha hp
    subst hc hs ha
    unfold computeLraForMec
    simp only [htime, hm]
    cases hproduce : H.produceScheduler
    · simp [callGetter]
    · rw [hp hproduce]
      simp [setProducedChoice, callGetter]

/-- Witness of C20: on the continuous-time two-state system the Markovian first state yields
`1 + 2 * 3` with local choice `0` recorded, and the second state, which is not Markovian,
yields the error. -/
theorem computeLraForMec_continuous_singleton_witness :
    computeLraForMec markovHelper plainLraEnvironment (some (fun _ => 1)) (some (fun _ => 3))
        [(0, [0])] (some [5, 5]) = Except.ok (1 + 2 * 3, some [0, 5]) ∧
    computeLraForMec markovHelper plainLraEnvironment (some (fun _ => 1)) (some (fun _ => 3))
        [(1, [1])] (some [5, 5]) = Except.error HelperFailure.InvalidOperationException :=
  ⟨(computeLraForMec_continuous_singleton markovHelper plainLraEnvironment (some (fun _ => 1))
      (some (fun _ => 3)) 0 [0] (some [5, 5]) [true, false] [2, 0] rfl).2 rfl 0 (fun _ => 1)
      (fun _ => 3) [5, 5] rfl rfl rfl (fun _ => rfl),
   (computeLraForMec_continuous_singleton markovHelper plainLraEnvironment (some (fun _ => 1))
      (some (fun _ => 3)) 1 [1] (some [5, 5]) [true, false] [2, 0] rfl).1.2 rfl⟩

theorem bestChoice_fst (dir : OptimizationDirection) (actionRewards : Nat → ℚ) (first : Nat)
    (others : List Nat) :
    (bestChoice dir actionRewards first others).1 =
      reduceGroup dir ((first :: others).map actionRewards) := by
  unfold bestChoice reduceGroup
  simp only [List.map_cons]
  have h : ∀ (acc : ℚ × Nat) (v : ℚ), acc.1 = v →
      (others.foldl (fun (best : ℚ × Nat) choice =>
        if (dir = OptimizationDirection.Minimize ∧ actionRewards choice < best.1) ∨
            (dir = OptimizationDirection.Maximize ∧ actionRewards choice > best.1) then
          (actionRewards choice, choice)
        else best) acc).1 =
      (others.map actionRewards).foldl
        (fun best w => if valueImproved dir best w then w else best) v := by
    induction others with
    | nil => intro acc v h; simpa using h
    | cons c cs ih =>
      intro acc v h
      simp only [List.foldl_cons, List.map_cons]
      apply ih
      subst h
      by_cases hc : (dir = OptimizationDirection.Minimize ∧ actionRewards c < acc.1) ∨
          (dir = OptimizationDirection.Maximize ∧ actionRewards c > acc.1)
      · rw [if_pos hc, if_pos ((valueImproved_iff dir acc.1 (actionRewards c)).2 hc)]
      · rw [if_neg hc]
        have : ¬ valueImproved dir acc.1 (actionRewards c) = true :=
          fun h' => hc ((valueImproved_iff dir acc.1 (actionRewards c)).1 h')
        rw [if_neg this]
  exact h (actionRewards first, first) (actionRewards first) rfl

theorem groupRows_ne_nil (A : SparseMatrix) (hgroups : A.GroupsNonEmpty) (s : Nat)
    (hs : s < A.getRowGroupCount) : A.groupRows s ≠ [] := by
  unfold SparseMatrix.groupRows
  have := hgroups s hs
  intro h
  have hlen := congrArg List.length h
  simp only [List.length_range', List.length_nil] at hlen
  omega

theorem computeLraForMec_discrete_singleton (H : SparseNondeterministicInfiniteHorizonHelper)
    (env : LraEnvironment) (stateReward actionReward : Nat → ℚ) (s : Nat)
    (choices : Option (List Nat))
    (hdiscrete : H.markovianStatesAndExitRates = none)
    (hrows : H.transitionMatrix.groupRows s ≠ [])
    (hproduced : H.produceScheduler = true → choices.isSome = true) :
    ∃ choices', computeLraForMec H env (some stateReward) (some actionReward)
        (singletonMec H.transitionMatrix s) choices =
        Except.ok (reduceGroup H.optimizationDirection
          ((H.transitionMatrix.groupRows s).map actionReward) + stateReward s, choices') ∧
      (H.produceScheduler = true → choices'.isSome = true) := by
  unfold singletonMec computeLraForMec
  simp only [hdiscrete]
  cases hr : H.transitionMatrix.groupRows s with
  | nil => exact absurd hr hrows
  | cons first others =>
    simp only []
    rw [bestChoice_fst]
    cases hp : H.produceScheduler
    · simp [callGetter, hp]
    · have hsome := hproduced hp
      cases choices with
      | none => simp at hsome
      | some cs => simp [callGetter, setProducedChoice]

theorem computeMecLraValues_singletons (H : SparseNondeterministicInfiniteHorizonHelper)
    (env : LraEnvironment) (stateReward actionReward : Nat → ℚ)
    (hdiscrete : H.markovianStatesAndExitRates = none)
    (hgroups : H.transitionMatrix.GroupsNonEmpty) (order : List Nat)
    (horder : ∀ s ∈ order, s < H.transitionMatrix.getRowGroupCount) (values : List ℚ)
    (choices : Option (List Nat))
    (hproduced : H.produceScheduler = true → choices.isSome = true) :
    ∃ choices', computeMecLraValues H env (some stateReward) (some actionReward)
        (order.map (singletonMec H.transitionMatrix)) values choices =
        Except.ok (values ++ order.map (fun s =>
          reduceGroup H.optimizationDirection
            ((H.transitionMatrix.groupRows s).map actionReward) + stateReward s), choices') ∧
      (H.produceScheduler = true → choices'.isSome = true) := by
  induction order generalizing values choices with
  | nil => exact ⟨choices, by simp [computeMecLraValues], hproduced⟩
  | cons s rest ih =>
    obtain ⟨choices1, h1, hp1⟩ := computeLraForMec_discrete_singleton H env stateReward
      actionReward s choices hdiscrete
      (groupRows_ne_nil _ hgroups s (horder s (List.mem_cons_self _ _))) hproduced
    obtain ⟨choices2, h2, hp2⟩ := ih (fun t ht => horder t (List.mem_cons_of_mem _ ht))
      (values ++ [reduceGroup H.optimizationDirection
        ((H.transitionMatrix.groupRows s).map actionReward) + stateReward s]) choices1 hp1
    refine ⟨choices2, ?_, hp2⟩
    simp only [List.map_cons, computeMecLraValues, h1, h2]
    simp

theorem getD_set_any {α : Type} (y : List α) (g s : Nat) (v d : α) :
    (y.set g v).getD s d = if s = g ∧ g < y.length then v else y.getD s d := by
  simp only [List.getD_eq_getElem?_getD, List.getElem?_set]
  by_cases h : g = s
  · subst h
    by_cases h2 : g < y.length
    · simp [h2]
    · simp [h2]
      rw [List.getElem?_eq_none (by omega)]
      rfl
  · have : ¬ (s = g) := fun h' => h h'.symm
    simp [h, this]

theorem getD_map_singletonMec (A : SparseMatrix) (order : List Nat) (i : Nat)
    (hi : i < order.length) :
    (order.map (singletonMec A)).getD i [] = singletonMec A (order.getD i 0) := by
  rw [List.getD_eq_getElem _ _ (by simpa using hi), List.getD_eq_getElem _ _ hi]
  simp

theorem gatherMecStates_prefix (A : SparseMatrix) (n : Nat) (order : List Nat)
    (hnodup : order.Nodup) (hlt : ∀ s ∈ order, s < n) (j : Nat) (hj : j ≤ order.length) :
    ((List.range j).foldl
        (fun acc currentMecIndex =>
          ((order.map (singletonMec A)).getD currentMecIndex []).foldl
            (fun (acc : List Bool × List Nat) stateChoicesPair =>
              (acc.1.set stateChoicesPair.1 true, acc.2.set stateChoicesPair.1 currentMecIndex))
            acc)
        (List.replicate n false, List.replicate n uint64Max)).1.length = n ∧
    ((List.range j).foldl
        (fun acc currentMecIndex =>
          ((order.map (singletonMec A)).getD currentMecIndex []).foldl
            (fun (acc : List Bool × List Nat) stateChoicesPair =>
              (acc.1.set stateChoicesPair.1 true, acc.2.set stateChoicesPair.1 currentMecIndex))
            acc)
        (List.replicate n false, List.replicate n uint64Max)).2.length = n ∧
    ∀ i, i < j →
      ((List.range j).foldl
          (fun acc currentMecIndex =>
            ((order.map (singletonMec A)).getD currentMecIndex []).foldl
              (fun (acc : List Bool × List Nat) stateChoicesPair =>
                (acc.1.set stateChoicesPair.1 true,
                 acc.2.set stateChoicesPair.1 currentMecIndex))
              acc)
          (List.replicate n false, List.replicate n uint64Max)).1.getD (order.getD i 0) false =
        true ∧
      ((List.range j).foldl
          (fun acc currentMecIndex =>
            ((order.map (singletonMec A)).getD currentMecIndex []).foldl
              (fun (acc : List Bool × List Nat) stateChoicesPair =>
                (acc.1.set stateChoicesPair.1 true,
                 acc.2.set stateChoicesPair.1 currentMecIndex))
              acc)
          (List.replicate n false, List.replicate n uint64Max)).2.getD (order.getD i 0) 0 =
        i := by
  induction j with
  | zero => simp
  | succ j ih =>
    obtain ⟨h1, h2, h3⟩ := ih (by omega)
    have hjlt : j < order.length := by omega
    rw [List.range_succ, List.foldl_append]
    simp only [List.foldl_cons, List.foldl_nil]
    rw [getD_map_singletonMec A order j hjlt]
    simp only [singletonMec, List.foldl_cons, List.foldl_nil]
    generalize (List.range j).foldl
        (fun acc currentMecIndex =>
          ((order.map (singletonMec A)).getD currentMecIndex []).foldl
            (fun (acc : List Bool × List Nat) stateChoicesPair =>
              (acc.1.set stateChoicesPair.1 true, acc.2.set stateChoicesPair.1 currentMecIndex))
            acc)
        (List.replicate n false, List.replicate n uint64Max) = acc at h1 h2 h3
    have hsj : order.getD j 0 < n := by
      apply hlt
      rw [List.getD_eq_getElem _ _ hjlt]
      exact List.getElem_mem _
    refine ⟨by simpa using h1, by simpa using h2, ?_⟩
    intro i hi
    rw [getD_set_any, getD_set_nat]
    by_cases hij : i = j
    · subst hij
      rw [if_pos ⟨rfl, by rw [h1]; exact hsj⟩, if_pos ⟨rfl, by rw [h2]; exact hsj⟩]
      exact ⟨rfl, rfl⟩
    · have hilt : i < j := by omega
      have hne : ¬ (order.getD i 0 = order.getD j 0) := by
        rw [List.getD_eq_getElem _ _ (by omega), List.getD_eq_getElem _ _ hjlt]
        intro heq
        exact hij ((hnodup.getElem_inj_iff).1 heq)
      simp only [hne, false_and, if_false]
      exact h3 i hilt

theorem set_getD_self (l : List Nat) (s : Nat) : l.set s (l.getD s 0) = l := by
  apply list_eq_of_getD
  · simp
  · intro g _
    rw [getD_set_nat]
    split_ifs with h
    · rw [h.1]
    · rfl

theorem gatherMecStates_singletons (A : SparseMatrix) (n : Nat) (order : List Nat)
    (hnodup : order.Nodup) (hlt : ∀ s ∈ order, s < n) :
    (gatherMecStates (order.map (singletonMec A)) n).1.length = n ∧
    (gatherMecStates (order.map (singletonMec A)) n).2.length = n ∧
    ∀ i, i < order.length →
      (gatherMecStates (order.map (singletonMec A)) n).1.getD (order.getD i 0) false = true ∧
      (gatherMecStates (order.map (singletonMec A)) n).2.getD (order.getD i 0) 0 = i := by
  have h := gatherMecStates_prefix A n order hnodup hlt order.length (le_refl _)
  unfold gatherMecStates
  rw [List.length_map]
  exact h

theorem inputToSspStateMap_singletons (A : SparseMatrix) (n : Nat) (order : List Nat)
    (hnodup : order.Nodup) (hcover : ∀ s, s ∈ order ↔ s < n) :
    inputToSspStateMap (order.map (singletonMec A)) n =
      ((gatherMecStates (order.map (singletonMec A)) n).2, 0) ∧
    statesNotContainedInAnyMec (gatherMecStates (order.map (singletonMec A)) n).1 = [] := by
  obtain ⟨h1, h2, h3⟩ := gatherMecStates_singletons A n order hnodup
    (fun s hs => (hcover s).1 hs)
  have hall : ∀ s, s < n →
      (gatherMecStates (order.map (singletonMec A)) n).1.getD s false = true := by
    intro s hs
    obtain ⟨i, hi, hget⟩ := List.getElem_of_mem ((hcover s).2 hs)
    have := (h3 i hi).1
    rw [List.getD_eq_getElem _ _ hi, hget] at this
    exact this
  have hnone : statesNotContainedInAnyMec (gatherMecStates (order.map (singletonMec A)) n).1 =
      [] := by
    unfold statesNotContainedInAnyMec
    rw [List.filter_eq_nil_iff]
    intro s hs
    rw [List.mem_range, h1] at hs
    rw [hall s hs]
    simp
  refine ⟨?_, hnone⟩
  unfold inputToSspStateMap
  simp only [hnone, List.foldl_nil, add_zero]
  congr 1
  generalize statesContainedInMecs (gatherMecStates (order.map (singletonMec A)) n).1 = l
  generalize (gatherMecStates (order.map (singletonMec A)) n).2 = m
  induction l generalizing m with
  | nil => rfl
  | cons s rest ih =>
    simp only [List.foldl_cons]
    rw [set_getD_self]
    exact ih m

theorem foldl_skip_contained (l allowed : List Nat) (hsub : ∀ c ∈ l, c ∈ allowed)
    (f : SspBuilder → Nat → SspBuilder) (builder : SspBuilder) :
    l.foldl (fun builder choice => if !allowed.contains choice then f builder choice else builder)
      builder = builder := by
  induction l generalizing builder with
  | nil => rfl
  | cons c cs ih =>
    simp only [List.foldl_cons]
    have hc : allowed.contains c = true := by
      simpa using hsub c (List.mem_cons_self _ _)
    simp only [hc, Bool.not_true, Bool.false_eq_true, if_false]
    exact ih (fun d hd => hsub d (List.mem_cons_of_mem _ hd)) builder

theorem addMecState_singleton (H : SparseNondeterministicInfiniteHorizonHelper)
    (stateMap : List Nat) (numberOfStatesNotInMecs : Nat) (mecLraValues : List ℚ)
    (builder : SspBuilder) (order : List Nat) (j : Nat) (hj : j < order.length)
    (hmecs : H.mecDecomposition = order.map (singletonMec H.transitionMatrix)) :
    (addMecState H stateMap numberOfStatesNotInMecs mecLraValues builder j).rows =
      builder.rows ++ [[]] ∧
    (addMecState H stateMap numberOfStatesNotInMecs mecLraValues builder j).rowGroupStarts =
      builder.rowGroupStarts ++ [builder.rows.length] ∧
    (addMecState H stateMap numberOfStatesNotInMecs mecLraValues builder j).rhs =
      builder.rhs ++ [mecLraValues.getD j 0] := by
  unfold addMecState
  simp only [hmecs]
  rw [getD_map_singletonMec _ order j hj]
  simp only [singletonMec, List.foldl_cons, List.foldl_nil]
  rw [foldl_skip_contained _ _ (fun c hc => hc)]
  exact ⟨rfl, rfl, rfl⟩

theorem buildSsp_prefix (H : SparseNondeterministicInfiniteHorizonHelper)
    (stateMap : List Nat) (numberOfStatesNotInMecs : Nat) (mecLraValues : List ℚ)
    (order : List Nat)
    (hmecs : H.mecDecomposition = order.map (singletonMec H.transitionMatrix)) (j : Nat)
    (hj : j ≤ order.length) :
    ((List.range j).foldl (addMecState H stateMap numberOfStatesNotInMecs mecLraValues)
        { rows := [], rowGroupStarts := [], rhs := [],
          sspMecExitChoicesToOriginalMap := [] }).rows = List.replicate j [] ∧
    ((List.range j).foldl (addMecState H stateMap numberOfStatesNotInMecs mecLraValues)
        { rows := [], rowGroupStarts := [], rhs := [],
          sspMecExitChoicesToOriginalMap := [] }).rowGroupStarts = List.range j ∧
    ((List.range j).foldl (addMecState H stateMap numberOfStatesNotInMecs mecLraValues)
        { rows := [], rowGroupStarts := [], rhs := [],
          sspMecExitChoicesToOriginalMap := [] }).rhs =
      (List.range j).map (fun i => mecLraValues.getD i 0) := by
  induction j with
  | zero => exact ⟨rfl, rfl, rfl⟩
  | succ j ih =>
    obtain ⟨h1, h2, h3⟩ := ih (by omega)
    rw [List.range_succ, List.foldl_append]
    simp only [List.foldl_cons, List.foldl_nil]
    obtain ⟨g1, g2, g3⟩ := addMecState_singleton H stateMap numberOfStatesNotInMecs mecLraValues
      ((List.range j).foldl (addMecState H stateMap numberOfStatesNotInMecs mecLraValues)
        { rows := [], rowGroupStarts := [], rhs := [], sspMecExitChoicesToOriginalMap := [] })
      order j (by omega) hmecs
    rw [g1, g2, g3, h1, h2, h3]
    refine ⟨?_, ?_, ?_⟩
    · rw [List.replicate_succ']
    · simp
    · simp

theorem buildSsp_singletons (H : SparseNondeterministicInfiniteHorizonHelper)
    (stateMap : List Nat) (statesInMecs : List Bool) (numberOfStatesNotInMecs : Nat)
    (mecLraValues : List ℚ) (order : List Nat)
    (hmecs : H.mecDecomposition = order.map (singletonMec H.transitionMatrix))
    (hnone : statesNotContainedInAnyMec statesInMecs = []) :
    (buildSsp H stateMap statesInMecs numberOfStatesNotInMecs mecLraValues).build =
      { rows := List.replicate order.length [],
        rowGroupIndices := List.range order.length ++ [order.length] } ∧
    (buildSsp H stateMap statesInMecs numberOfStatesNotInMecs mecLraValues).rhs =
      (List.range order.length).map (fun i => mecLraValues.getD i 0) := by
  have hlen : H.mecDecomposition.length = order.length := by rw [hmecs, List.length_map]
  obtain ⟨h1, h2, h3⟩ := buildSsp_prefix H stateMap numberOfStatesNotInMecs mecLraValues order
    hmecs order.length (le_refl _)
  unfold buildSsp SspBuilder.build
  rw [hnone, hlen]
  simp only [List.foldl_nil]
  rw [h1, h2, h3]
  simp

theorem getD_range (m g : Nat) (hg : g ≤ m) : (List.range m ++ [m]).getD g 0 = g := by
  rw [← List.range_succ, List.getD_eq_getElem _ _ (by simp; omega)]
  simp

theorem fixpoint_of_empty_rows (dir : OptimizationDirection) (m : Nat) (x rhs : List ℚ)
    (h : BellmanFixpoint dir
      { rows := List.replicate m [], rowGroupIndices := List.range m ++ [m] } x rhs)
    (g : Nat) (hg : g < m) : x.getD g 0 = rhs.getD g 0 := by
  have hcount : ({ rows := List.replicate m [], rowGroupIndices := List.range m ++ [m] } :
      SparseMatrix).getRowGroupCount = m := by
    simp [SparseMatrix.getRowGroupCount]
  have hopt := h g (by rw [hcount]; exact hg)
  have hvalues : ({ rows := List.replicate m [], rowGroupIndices := List.range m ++ [m] } :
      SparseMatrix).groupValues x rhs g = [rhs.getD g 0] := by
    simp only [SparseMatrix.groupValues, SparseMatrix.groupRows, SparseMatrix.rowGroupIndex,
      getD_range m g (le_of_lt hg), getD_range m (g + 1) hg, Nat.add_sub_cancel_left]
    simp only [List.range', List.map_cons, List.map_nil, SparseMatrix.rowValue,
      SparseMatrix.multiplyRowWithVector, SparseMatrix.getRow]
    rw [List.getD_eq_getElem _ _ (by simpa using hg)]
    simp
  rw [hvalues] at hopt
  simpa using hopt.1

theorem buildAndSolveSsp_singletons (H : SparseNondeterministicInfiniteHorizonHelper)
    (env : LraEnvironment) (order : List Nat) (mecLraValues : List ℚ)
    (choices : Option (List Nat)) (hnodup : order.Nodup)
    (hcover : ∀ s, s ∈ order ↔ s < H.transitionMatrix.getRowGroupCount)
    (hmecs : H.mecDecomposition = order.map (singletonMec H.transitionMatrix))
    (hreq : H.sspRequirementsCritical env = false)
    (hexact : SspSolvedExactly H env mecLraValues) (hne : mecLraValues ≠ [])
    (hproduced : H.produceScheduler = true → choices.isSome = true) :
    ∃ values choices', buildAndSolveSsp H env mecLraValues choices =
        Except.ok (values, choices') ∧
      values.length = H.transitionMatrix.getRowGroupCount ∧
      ∀ i, i < order.length → values.getD (order.getD i 0) 0 = mecLraValues.getD i 0 := by
  obtain ⟨hmap, hnone⟩ := inputToSspStateMap_singletons H.transitionMatrix
    H.transitionMatrix.getRowGroupCount order hnodup hcover
  obtain ⟨g1, g2, g3⟩ := gatherMecStates_singletons H.transitionMatrix
    H.transitionMatrix.getRowGroupCount order hnodup (fun s hs => (hcover s).1 hs)
  obtain ⟨hbuild, hrhs⟩ := buildSsp_singletons H
    (gatherMecStates (order.map (singletonMec H.transitionMatrix))
      H.transitionMatrix.getRowGroupCount).2
    (gatherMecStates (order.map (singletonMec H.transitionMatrix))
      H.transitionMatrix.getRowGroupCount).1 0 mecLraValues order hmecs hnone
  obtain ⟨lower, hlower⟩ : ∃ lower, mecLraValues.min? = some lower := by
    cases hmin : mecLraValues.min? with
    | none => exact absurd (List.min?_eq_none_iff.1 hmin) hne
    | some lower => exact ⟨lower, rfl⟩
  obtain ⟨upper, hupper⟩ : ∃ upper, mecLraValues.max? = some upper := by
    cases hmax : mecLraValues.max? with
    | none => exact absurd (List.max?_eq_none_iff.1 hmax) hne
    | some upper => exact ⟨upper, rfl⟩
  have hx := hexact lower upper
  unfold buildAndSolveSsp
  simp only [hreq, hlower, hupper, Bool.false_eq_true, if_false]
  rw [hmecs] at hx ⊢
  rw [hmap] at hx ⊢
  simp only [] at hx ⊢
  rw [hbuild, hrhs] at hx ⊢
  generalize H.minMaxSolve env H.optimizationDirection
    { rows := List.replicate order.length [],
      rowGroupIndices := List.range order.length ++ [order.length] }
    (List.replicate (0 + (order.map (singletonMec H.transitionMatrix)).length) 0)
    ((List.range order.length).map (fun i => mecLraValues.getD i 0)) lower upper
    H.produceScheduler = solved at hx ⊢
  have hvalue : ∀ i, i < order.length →
      (List.map (fun sspState => solved.1.getD sspState 0)
        (gatherMecStates (order.map (singletonMec H.transitionMatrix))
          H.transitionMatrix.getRowGroupCount).2).getD (order.getD i 0) 0 =
        mecLraValues.getD i 0 := by
    intro i hi
    have hlt : order.getD i 0 < H.transitionMatrix.getRowGroupCount := by
      apply (hcover _).1
      rw [List.getD_eq_getElem _ _ hi]
      exact List.getElem_mem _
    rw [List.getD_eq_getElem _ _ (by rw [List.length_map, g2]; exact hlt), List.getElem_map,
      ← List.getD_eq_getElem _ 0 (by rw [g2]; exact hlt), (g3 i hi).2,
      fixpoint_of_empty_rows _ _ _ _ hx i hi,
      List.getD_eq_getElem _ _ (by simpa using hi)]
    simp
  have hlen : (List.map (fun sspState => solved.1.getD sspState 0)
      (gatherMecStates (order.map (singletonMec H.transitionMatrix))
        H.transitionMatrix.getRowGroupCount).2).length =
      H.transitionMatrix.getRowGroupCount := by
    rw [List.length_map, g2]
  cases hp : H.produceScheduler with
  | false => exact ⟨_, _, rfl, hlen, hvalue⟩
  | true =>
    simp only [if_true]
    cases hsched : solved.2 with
    | none => exact ⟨_, _, rfl, hlen, hvalue⟩
    | some sspChoices =>
      have hsome := hproduced hp
      cases choices with
      | none => simp at hsome
      | some produced => exact ⟨_, _, rfl, hlen, hvalue⟩

/-- C18: in discrete time, when the end components are exactly the single states, each with all
of its choices (listed in any order), and the min/max solver solves the reduced system exactly,
`computeLongRunAverageValues` returns a vector with one entry per state whose entry at every
state `s` is `stateReward(s)` plus the optimum, in the optimization direction, of
`actionReward(c)` over the choices `c` of `s`. -/
theorem computeLongRunAverageValues_absorbing
    (H : SparseNondeterministicInfiniteHorizonHelper) (env : LraEnvironment)
    (stateReward actionReward : Nat → ℚ) (order : List Nat)
    (producedOptimalChoices : Option (List Nat))
    (hdiscrete : H.markovianStatesAndExitRates = none)
    (hgroups : H.transitionMatrix.GroupsNonEmpty) (hnodup : order.Nodup)
    (hcover : ∀ s, s ∈ order ↔ s < H.transitionMatrix.getRowGroupCount)
    (hmecs : H.mecDecomposition = order.map (singletonMec H.transitionMatrix))
    (hreq : H.sspRequirementsCritical (underlyingSolverEnvironment env) = false)
    (hexact : ∀ mecLraValues, SspSolvedExactly H (underlyingSolverEnvironment env) mecLraValues)
    (s : Nat) (hs : s < H.transitionMatrix.getRowGroupCount) :
    ∃ values choices best,
      computeLongRunAverageValues H env (some stateReward) (some actionReward)
        producedOptimalChoices = Except.ok (values, choices) ∧
      values.length = H.transitionMatrix.getRowGroupCount ∧
      IsOptimum H.optimizationDirection ((H.transitionMatrix.groupRows s).map actionReward)
        best ∧
      values.getD s 0 = stateReward s + best := by
  unfold computeLongRunAverageValues
  simp only []
  obtain ⟨choices1, h1, hp1⟩ := computeMecLraValues_singletons H
    (underlyingSolverEnvironment env) stateReward actionReward hdiscrete hgroups order
    (fun t ht => (hcover t).1 ht) []
    (if H.produceScheduler then
      some (((producedOptimalChoices.getD []).take H.transitionMatrix.getRowGroupCount) ++
        List.replicate
          (H.transitionMatrix.getRowGroupCount - (producedOptimalChoices.getD []).length) 0)
    else producedOptimalChoices)
    (fun hp => by simp [hp])
  rw [hmecs, h1]
  simp only [List.nil_append]
  obtain ⟨i, hi, hget⟩ := List.getElem_of_mem ((hcover s).2 hs)
  have hne : order.map (fun s =>
      reduceGroup H.optimizationDirection
        ((H.transitionMatrix.groupRows s).map actionReward) + stateReward s) ≠ [] := by
    intro h
    have := congrArg List.length h
    simp only [List.length_map, List.length_nil] at this
    omega
  obtain ⟨values, choices2, h2, hlen, hvalues⟩ := buildAndSolveSsp_singletons H
    (underlyingSolverEnvironment env) order _ choices1 hnodup hcover hmecs hreq (hexact _) hne
    hp1
  refine ⟨values, choices2, reduceGroup H.optimizationDirection
    ((H.transitionMatrix.groupRows s).map actionReward), h2, hlen, ?_, ?_⟩
  · apply reduceGroup_isOptimum
    intro h
    exact groupRows_ne_nil _ hgroups s hs (List.map_eq_nil_iff.1 h)
  · have := hvalues i hi
    rw [List.getD_eq_getElem order 0 hi, hget] at this
    rw [this, List.getD_eq_getElem _ _ (by simpa using hi)]
    simp only [List.getElem_map, hget]
    ring

theorem selfLoopHelper_exact (dir : OptimizationDirection) (env : LraEnvironment)
    (mecLraValues : List ℚ) : SspSolvedExactly (selfLoopHelper dir) env mecLraValues := by
  intro lower upper
  have hbuild : (buildSsp (selfLoopHelper dir)
      (inputToSspStateMap (selfLoopHelper dir).mecDecomposition
        (selfLoopHelper dir).transitionMatrix.getRowGroupCount).1
      (gatherMecStates (selfLoopHelper dir).mecDecomposition
        (selfLoopHelper dir).transitionMatrix.getRowGroupCount).1
      (inputToSspStateMap (selfLoopHelper dir).mecDecomposition
        (selfLoopHelper dir).transitionMatrix.getRowGroupCount).2 mecLraValues) =
      { rows := [[], []], rowGroupStarts := [0, 1],
        rhs := [mecLraValues.getD 0 0, mecLraValues.getD 1 0],
        sspMecExitChoicesToOriginalMap := [] } := rfl
  rw [hbuild]
  intro g hg
  have hg2 : g < 2 := hg
  have hcases : g = 0 ∨ g = 1 := by omega
  rcases hcases with h | h <;> subst h <;>
    simp [selfLoopHelper, SspBuilder.build, multiplyAndReduce, SparseMatrix.groupValues,
      SparseMatrix.groupRows, SparseMatrix.rowGroupIndex, SparseMatrix.rowValue,
      SparseMatrix.multiplyRowWithVector, SparseMatrix.getRow, SparseMatrix.getRowGroupCount,
      reduceGroup, IsOptimum, List.range']

/-- Witness of C18: the two-state system with one looping choice per state and the rewards `1`
and `0`, maximizing, at the first state; the values are `[1, 0]` for both directions. -/
theorem computeLongRunAverageValues_absorbing_witness :
    (∃ values choices best,
      computeLongRunAverageValues (selfLoopHelper OptimizationDirection.Maximize)
        plainLraEnvironment (some (fun s => [1, 0].getD s 0)) (some (fun _ => 0)) none =
        Except.ok (values, choices) ∧
      values.length =
        (selfLoopHelper OptimizationDirection.Maximize).transitionMatrix.getRowGroupCount ∧
      IsOptimum (selfLoopHelper OptimizationDirection.Maximize).optimizationDirection
        (((selfLoopHelper OptimizationDirection.Maximize).transitionMatrix.groupRows 0).map
          (fun _ => (0 : ℚ))) best ∧
      values.getD 0 0 = (fun s => [1, 0].getD s 0) 0 + best) ∧
    computeLongRunAverageValues (selfLoopHelper OptimizationDirection.Maximize)
      plainLraEnvironment (some (fun s => [1, 0].getD s 0)) (some (fun _ => 0)) none =
      Except.ok ([1, 0], none) ∧
    computeLongRunAverageValues (selfLoopHelper OptimizationDirection.Minimize)
      plainLraEnvironment (some (fun s => [1, 0].getD s 0)) (some (fun _ => 0)) none =
      Except.ok ([1, 0], none) :=
  ⟨computeLongRunAverageValues_absorbing (selfLoopHelper OptimizationDirection.Maximize)
    plainLraEnvironment (fun s => [1, 0].getD s 0) (fun _ => 0) [0, 1] none rfl
    (by
      intro g hg
      have hg2 : g < 2 := hg
      have hcases : g = 0 ∨ g = 1 := by omega
      rcases hcases with h | h <;> subst h <;> decide)
    (by decide)
    (by
      intro s
      have hcount : (selfLoopHelper OptimizationDirection.Maximize).transitionMatrix.getRowGroupCount
          = 2 := rfl
      rw [hcount]
      simp only [List.mem_cons, List.mem_singleton, List.not_mem_nil, or_false]
      omega)
    rfl rfl (fun mecLraValues => selfLoopHelper_exact _ _ mecLraValues) 0 (by decide),
   by decide!, by decide!⟩

/-! ## Convergence test and step selection of the sound iteration -/

/-- C27, evaluation: for the old values `[0, 5]`, the new values `[1, 5]` and the relevant
positions `0` and `1`, the overload of `computeMaxAbsDiff` that reads the preserved old values
returns `5`, while the overload on the two full vectors returns the greatest difference `1`. -/
theorem computeMaxAbsDiff_preserved_differs :
    preserveOldRelevantValues [0, 5] [0, 1] = [0, 5] ∧
    computeMaxAbsDiff [1, 5] [0, 1] (preserveOldRelevantValues [0, 5] [0, 1]) = 5 ∧
    computeMaxAbsDiffVectors [0, 5] [1, 5] [0, 1] = 1 := by
  refine ⟨?_, ?_, ?_⟩ <;> decide!

theorem soundLowerStep_status (S : Solver) (dir : OptimizationDirection) (b : List ℚ)
    (useGaussSeidel useDiffs : Bool) (st : SoundState) :
    (soundLowerStep S dir b useGaussSeidel useDiffs st).status = st.status ∧
    (soundLowerStep S dir b useGaussSeidel useDiffs st).doConvergenceCheck =
      st.doConvergenceCheck ∧
    (soundLowerStep S dir b useGaussSeidel useDiffs st).iterations = st.iterations ∧
    (soundLowerStep S dir b useGaussSeidel useDiffs st).maxUpperDiff = st.maxUpperDiff ∧
    (useDiffs = false →
      (soundLowerStep S dir b useGaussSeidel useDiffs st).maxLowerDiff = st.maxLowerDiff) := by
  unfold soundLowerStep
  cases useGaussSeidel
  · cases st.tmp <;> simp
    intro h
    simp [h]
  · simp
    intro h
    simp [h]

theorem soundUpperStep_status (S : Solver) (dir : OptimizationDirection) (b : List ℚ)
    (useGaussSeidel useDiffs : Bool) (st : SoundState) :
    (soundUpperStep S dir b useGaussSeidel useDiffs st).status = st.status ∧
    (soundUpperStep S dir b useGaussSeidel useDiffs st).doConvergenceCheck =
      st.doConvergenceCheck ∧
    (soundUpperStep S dir b useGaussSeidel useDiffs st).iterations = st.iterations ∧
    (soundUpperStep S dir b useGaussSeidel useDiffs st).maxLowerDiff = st.maxLowerDiff ∧
    (useDiffs = false →
      (soundUpperStep S dir b useGaussSeidel useDiffs st).maxUpperDiff = st.maxUpperDiff) := by
  unfold soundUpperStep
  cases useGaussSeidel
  · cases st.tmp <;> simp
    intro h
    simp [h]
  · simp
    intro h
    simp [h]

theorem soundBoundsStep_status (S : Solver) (dir : OptimizationDirection) (b : List ℚ)
    (useGaussSeidel useDiffs : Bool) (st : SoundState) :
    (soundBoundsStep S dir b useGaussSeidel useDiffs st).1.status = st.status ∧
    (useDiffs = false →
      (soundBoundsStep S dir b useGaussSeidel useDiffs st).1.maxLowerDiff = st.maxLowerDiff ∧
      (soundBoundsStep S dir b useGaussSeidel useDiffs st).1.maxUpperDiff = st.maxUpperDiff) := by
  unfold soundBoundsStep
  have hl := soundLowerStep_status S dir b useGaussSeidel useDiffs st
  have hu := soundUpperStep_status S dir b useGaussSeidel useDiffs st
  have hul := soundUpperStep_status S dir b useGaussSeidel useDiffs
    (soundLowerStep S dir b useGaussSeidel useDiffs st)
  split_ifs
  · refine ⟨by rw [hul.1, hl.1], fun h => ⟨?_, ?_⟩⟩
    · rw [hul.2.2.2.1, hl.2.2.2.2 h]
    · rw [hul.2.2.2.2 h, hl.2.2.2.1]
  · exact ⟨hl.1, fun h => ⟨hl.2.2.2.2 h, hl.2.2.2.1⟩⟩
  · exact ⟨hu.1, fun h => ⟨hu.2.2.2.1, hu.2.2.2.2 h⟩⟩

theorem soundStep_converged (S : Solver) (env : Environment) (dir : OptimizationDirection)
    (b : List ℚ) (precision : ℚ) (relative useGaussSeidel useDiffs : Bool) (st : SoundState)
    (hprogress : st.status = SolverStatus.InProgress)
    (hconv : (soundStep S env dir b precision relative useGaussSeidel useDiffs st).status =
      SolverStatus.Converged) :
    SoundTestHolds S env precision relative
      (soundStep S env dir b precision relative useGaussSeidel useDiffs st) := by
  have hst := (soundBoundsStep_status S dir b useGaussSeidel useDiffs st).1
  rw [hprogress] at hst
  unfold soundStep at hconv ⊢
  simp only [] at hconv ⊢
  generalize soundBoundsStep S dir b useGaussSeidel useDiffs st = r at hst hconv ⊢
  unfold SoundTestHolds
  simp only []
  have hinner : (if r.1.doConvergenceCheck = true then
      match S.relevantValues with
      | some relevant =>
        if equalModuloPrecisionAt env (r.1.bufs.get r.1.lowerX) (r.1.bufs.get r.1.upperX)
            relevant precision relative = true then SolverStatus.Converged
        else r.1.status
      | none =>
        if equalModuloPrecision env (r.1.bufs.get r.1.lowerX) (r.1.bufs.get r.1.upperX)
            precision relative = true then SolverStatus.Converged
        else r.1.status
      else r.1.status) = SolverStatus.Converged := by
    revert hconv
    cases r.2.1 <;> cases r.2.2 <;>
      simp only [if_true, Bool.false_eq_true, if_false,
        updateStatusIfNotConverged_converged_iff] <;> exact fun h => h
  rw [hst] at hinner
  cases hrel : S.relevantValues with
  | none =>
    rw [hrel] at hinner
    simp only [] at hinner ⊢
    by_contra hne
    simp [hne] at hinner
  | some relevant =>
    rw [hrel] at hinner
    simp only [] at hinner ⊢
    by_contra hne
    simp [hne] at hinner

theorem soundLoop_converged (S : Solver) (env : Environment) (dir : OptimizationDirection)
    (b : List ℚ) (precision : ℚ) (relative useGaussSeidel useDiffs : Bool) (fuel : Nat)
    (st : SoundState)
    (hinv : st.status = SolverStatus.Converged → SoundTestHolds S env precision relative st)
    (hconv : (soundLoop S env dir b precision relative useGaussSeidel useDiffs fuel st).status =
      SolverStatus.Converged) :
    SoundTestHolds S env precision relative
      (soundLoop S env dir b precision relative useGaussSeidel useDiffs fuel st) := by
  induction fuel generalizing st with
  | zero => exact hinv hconv
  | succ fuel ih =>
    unfold soundLoop at hconv ⊢
    by_cases hc : st.status = SolverStatus.InProgress ∧
        st.iterations < env.maximalNumberOfIterations
    · rw [if_pos hc] at hconv ⊢
      exact ih _ (soundStep_converged S env dir b precision relative useGaussSeidel useDiffs st
        hc.1) hconv
    · rw [if_neg hc] at hconv ⊢
      exact hinv hconv

theorem equalModuloPrecisionAt_absolute (env : Environment) (a c : List ℚ) (positions : List Nat)
    (precision : ℚ) (h : equalModuloPrecisionAt env a c positions precision false = true)
    (s : Nat) (hs : s ∈ positions) : |a.getD s 0 - c.getD s 0| ≤ precision := by
  unfold equalModuloPrecisionAt at h
  rw [List.all_eq_true] at h
  simpa [equalModuloPrecisionValue] using h s hs

/-- Counterexample to C26: on the one-state system with the bounds `0` and `4` and the precision
`1` under the absolute criterion, the sound iteration ends with the status `Converged` while the
final bounds are `0` and `2`, which differ by more than the precision. -/
theorem soundValueIteration_converged_wide :
    unitEnvironment.relativeTerminationCriterion = false ∧
    soundValueIterationStatus halfSolver unitEnvironment OptimizationDirection.Maximize [0] [0] =
      some SolverStatus.Converged ∧
    (soundValueIterationRun halfSolver unitEnvironment OptimizationDirection.Maximize [0] [0]
      [4]).status = SolverStatus.Converged ∧
    ¬ ((soundValueIterationRun halfSolver unitEnvironment OptimizationDirection.Maximize [0] [0]
          [4]).bufs.get
        (soundValueIterationRun halfSolver unitEnvironment OptimizationDirection.Maximize [0] [0]
          [4]).upperX).getD 0 0 -
      ((soundValueIterationRun halfSolver unitEnvironment OptimizationDirection.Maximize [0] [0]
          [4]).bufs.get
        (soundValueIterationRun halfSolver unitEnvironment OptimizationDirection.Maximize [0] [0]
          [4]).lowerX).getD 0 0 ≤ unitEnvironment.precision := by
  refine ⟨rfl, ?_, ?_, ?_⟩ <;> decide!

/-- C26, amended: under the absolute termination criterion, whenever the loop of
`solveEquationsSoundValueIteration` ends with the status `Converged`, the final bounds differ by
at most twice the configured precision at every relevant position, and at every position of the
two vectors when no relevant values are set. -/
theorem soundValueIteration_converged_gap (S : Solver) (env : Environment)
    (dir : OptimizationDirection) (b lower upper : List ℚ)
    (habs : env.relativeTerminationCriterion = false)
    (hconv : (soundValueIterationRun S env dir b lower upper).status =
      SolverStatus.Converged) :
    (∀ relevant, S.relevantValues = some relevant → ∀ s ∈ relevant,
      |((soundValueIterationRun S env dir b lower upper).bufs.get
          (soundValueIterationRun S env dir b lower upper).upperX).getD s 0 -
        ((soundValueIterationRun S env dir b lower upper).bufs.get
          (soundValueIterationRun S env dir b lower upper).lowerX).getD s 0| ≤
        2 * env.precision) ∧
    (S.relevantValues = none → ∀ s,
      s < ((soundValueIterationRun S env dir b lower upper).bufs.get
        (soundValueIterationRun S env dir b lower upper).lowerX).length →
      s < ((soundValueIterationRun S env dir b lower upper).bufs.get
        (soundValueIterationRun S env dir b lower upper).upperX).length →
      |((soundValueIterationRun S env dir b lower upper).bufs.get
          (soundValueIterationRun S env dir b lower upper).upperX).getD s 0 -
        ((soundValueIterationRun S env dir b lower upper).bufs.get
          (soundValueIterationRun S env dir b lower upper).lowerX).getD s 0| ≤
        2 * env.precision) := by
  have htest : SoundTestHolds S env (soundPrecision env) env.relativeTerminationCriterion
      (soundValueIterationRun S env dir b lower upper) := by
    unfold soundValueIterationRun at hconv ⊢
    exact soundLoop_converged S env dir b _ _ _ _ _ _
      (fun h => by simp [soundInitialState] at h) hconv
  have hprec : soundPrecision env = 2 * env.precision := by
    unfold soundPrecision
    rw [habs]
    simp only [Bool.not_false, if_true]
    ring
  rw [hprec, habs] at htest
  unfold SoundTestHolds at htest
  generalize soundValueIterationRun S env dir b lower upper = st at htest ⊢
  refine ⟨?_, ?_⟩
  · intro relevant hrel s hs
    rw [hrel] at htest
    rw [abs_sub_comm]
    exact equalModuloPrecisionAt_absolute env _ _ relevant _ htest s hs
  · intro hrel s hs1 hs2
    rw [hrel] at htest
    rw [abs_sub_comm]
    exact equalModuloPrecision_absolute env _ _ _ htest s hs1 hs2

/-- Witness of the amended C26 on the one-state system with the bounds `0` and `4` and the
precision `1`: the final bounds `0` and `2` differ by twice the precision. -/
theorem soundValueIteration_converged_gap_witness :
    |((soundValueIterationRun halfSolver unitEnvironment OptimizationDirection.Maximize [0] [0]
          [4]).bufs.get
        (soundValueIterationRun halfSolver unitEnvironment OptimizationDirection.Maximize [0] [0]
          [4]).upperX).getD 0 0 -
      ((soundValueIterationRun halfSolver unitEnvironment OptimizationDirection.Maximize [0] [0]
          [4]).bufs.get
        (soundValueIterationRun halfSolver unitEnvironment OptimizationDirection.Maximize [0] [0]
          [4]).lowerX).getD 0 0| ≤ 2 * unitEnvironment.precision :=
  (soundValueIteration_converged_gap halfSolver unitEnvironment OptimizationDirection.Maximize
    [0] [0] [4] rfl (by decide!)).2 rfl 0 (by decide!) (by decide!)

theorem soundStep_diffs (S : Solver) (env : Environment) (dir : OptimizationDirection)
    (b : List ℚ) (precision : ℚ) (relative useGaussSeidel : Bool) (st : SoundState) :
    (soundStep S env dir b precision relative useGaussSeidel false st).maxLowerDiff =
      st.maxLowerDiff ∧
    (soundStep S env dir b precision relative useGaussSeidel false st).maxUpperDiff =
      st.maxUpperDiff := by
  have h := (soundBoundsStep_status S dir b useGaussSeidel false st).2 rfl
  unfold soundStep
  exact h

theorem soundStateAt_diffs (S : Solver) (env : Environment) (dir : OptimizationDirection)
    (b lower upper : List ℚ) (hrel : S.relevantValues = none) (k : Nat) :
    (soundStateAt S env dir b lower upper k).maxLowerDiff = 0 ∧
    (soundStateAt S env dir b lower upper k).maxUpperDiff = 0 := by
  induction k with
  | zero => exact ⟨rfl, rfl⟩
  | succ k ih =>
    unfold soundStateAt at ih ⊢
    rw [Function.iterate_succ_apply']
    rw [hrel] at ih ⊢
    have h := soundStep_diffs S env dir b (soundPrecision env) env.relativeTerminationCriterion
      (soundUsesGaussSeidel S env)
      (Nat.iterate (soundStep S env dir b (soundPrecision env) env.relativeTerminationCriterion
        (soundUsesGaussSeidel S env) (none : Option (List Nat)).isSome) k
        (soundInitialState S env lower upper))
    exact ⟨h.1.trans ih.1, h.2.trans ih.2⟩

theorem soundLoop_eq_iterate (S : Solver) (env : Environment) (dir : OptimizationDirection)
    (b : List ℚ) (precision : ℚ) (relative useGaussSeidel useDiffs : Bool) (fuel : Nat)
    (st : SoundState) :
    ∃ k, k ≤ fuel ∧
      soundLoop S env dir b precision relative useGaussSeidel useDiffs fuel st =
        Nat.iterate (soundStep S env dir b precision relative useGaussSeidel useDiffs) k st := by
  induction fuel generalizing st with
  | zero => exact ⟨0, le_refl _, rfl⟩
  | succ fuel ih =>
    unfold soundLoop
    split_ifs with hc
    · obtain ⟨k, hk, h⟩ := ih
        (soundStep S env dir b precision relative useGaussSeidel useDiffs st)
      exact ⟨k + 1, by omega, by rw [h, Function.iterate_succ_apply]⟩
    · exact ⟨0, by omega, rfl⟩

/-- C28: in a pass of the loop of `solveEquationsSoundValueIteration` that starts with the
counter `i` and the last improvements `dL` and `dU`, both bounds are updated (lower first) if
`i` is a multiple of 1000 or `dL = dU`; otherwise only the lower bound is updated when `dL > dU`
and only the upper bound when `dU > dL`.  When no relevant values are set, the two improvements
are zero in the state after any number of passes, so that every pass updates both bounds; the
state in which the loop ends is the state after some number of passes within the budget. -/
theorem soundValueIteration_step_selection (S : Solver) (env : Environment)
    (dir : OptimizationDirection) (b lower upper : List ℚ) (useGaussSeidel useDiffs : Bool)
    (st : SoundState) :
    (st.iterations % 1000 = 0 ∨ st.maxLowerDiff = st.maxUpperDiff →
      soundBoundsStep S dir b useGaussSeidel useDiffs st =
        (soundUpperStep S dir b useGaussSeidel useDiffs
          (soundLowerStep S dir b useGaussSeidel useDiffs st), true, true)) ∧
    (¬ (st.iterations % 1000 = 0 ∨ st.maxLowerDiff = st.maxUpperDiff) →
      st.maxLowerDiff > st.maxUpperDiff →
      soundBoundsStep S dir b useGaussSeidel useDiffs st =
        (soundLowerStep S dir b useGaussSeidel useDiffs st, true, false)) ∧
    (¬ (st.iterations % 1000 = 0 ∨ st.maxLowerDiff = st.maxUpperDiff) →
      st.maxUpperDiff > st.maxLowerDiff →
      soundBoundsStep S dir b useGaussSeidel useDiffs st =
        (soundUpperStep S dir b useGaussSeidel useDiffs st, false, true)) ∧
    (S.relevantValues = none →
      (∀ k,
        (soundStateAt S env dir b lower upper k).maxLowerDiff =
          (soundStateAt S env dir b lower upper k).maxUpperDiff ∧
        soundBoundsStep S dir b (soundUsesGaussSeidel S env) S.relevantValues.isSome
            (soundStateAt S env dir b lower upper k) =
          (soundUpperStep S dir b (soundUsesGaussSeidel S env) S.relevantValues.isSome
            (soundLowerStep S dir b (soundUsesGaussSeidel S env) S.relevantValues.isSome
              (soundStateAt S env dir b lower upper k)), true, true)) ∧
      ∃ k, k ≤ env.maximalNumberOfIterations ∧
        soundValueIterationRun S env dir b lower upper =
          soundStateAt S env dir b lower upper k) := by
  refine ⟨?_, ?_, ?_, ?_⟩
  · intro h
    unfold soundBoundsStep
    rw [if_pos h]
  · intro h hgt
    unfold soundBoundsStep
    rw [if_neg h, if_pos (le_of_lt hgt)]
  · intro h hgt
    unfold soundBoundsStep
    rw [if_neg h, if_neg (not_le_of_lt hgt)]
  · intro hrel
    refine ⟨fun k => ?_, ?_⟩
    · have hd := soundStateAt_diffs S env dir b lower upper hrel k
      have heq : (soundStateAt S env dir b lower upper k).maxLowerDiff =
          (soundStateAt S env dir b lower upper k).maxUpperDiff := by rw [hd.1, hd.2]
      refine ⟨heq, ?_⟩
      unfold soundBoundsStep
      rw [if_pos (Or.inr heq)]
    · unfold soundValueIterationRun soundStateAt
      exact soundLoop_eq_iterate S env dir b _ _ _ _ _ _

/-- Evaluation for C28 on the one-state system without relevant values: the first pass starts
with the counter `0` and updates both bounds, from `0` and `4` to `0` and `2`. -/
theorem soundValueIteration_step_selection_example :
    halfSolver.relevantValues = none ∧
    (soundBoundsStep halfSolver OptimizationDirection.Maximize [0]
      (soundUsesGaussSeidel halfSolver unitEnvironment) halfSolver.relevantValues.isSome
      (soundStateAt halfSolver unitEnvironment OptimizationDirection.Maximize [0] [0] [4] 0)).2 =
        (true, true) ∧
    (soundStateAt halfSolver unitEnvironment OptimizationDirection.Maximize [0] [0] [4]
      1).iterations = 1 := by
  refine ⟨rfl, ?_, ?_⟩ <;> decide!

/-- Counterexample to C29: with forced soundness and value iteration configured without an
explicit choice of the caller, `internalSolveEquations` in exact arithmetic runs
`solveEquationsPolicyIteration`, not `solveEquationsSoundValueIteration`. -/
theorem internalSolveEquations_exact_runs_policyIteration :
    defaultSoundEnvironment.forceSoundness = true ∧
    defaultSoundEnvironment.methodSetFromDefault = true ∧
    internalSolveEquationsRoutine defaultSoundEnvironment true =
      Except.ok SolutionRoutine.solveEquationsPolicyIteration ∧
    internalSolveEquationsRoutine defaultSoundEnvironment true ≠
      Except.ok SolutionRoutine.solveEquationsSoundValueIteration ∧
    (∀ S env search dir x b,
      internalSolveEquations S env defaultSoundEnvironment true search dir x b =
        solveEquationsPolicyIteration S env dir x b) := by
  refine ⟨rfl, rfl, by decide, by decide, ?_⟩
  intro S env search dir x b
  rfl

/-- C29, amended: with forced soundness and value iteration configured without an explicit choice
of the caller, `internalSolveEquations` runs `solveEquationsSoundValueIteration` when the
arithmetic is not exact and `solveEquationsPolicyIteration` when it is exact.  In general, with
forced soundness the sound iteration is run exactly when value iteration is configured and the
arithmetic is not exact or the method was chosen explicitly; an explicitly chosen policy
iteration or rational search is run as chosen. -/
theorem internalSolveEquations_forced_soundness (S : Solver) (env : Environment)
    (methodEnv : MethodEnvironment) (isExact : Bool)
    (search : Environment → OptimizationDirection → List ℚ → List ℚ → SolveResult)
    (dir : OptimizationDirection) (x b : List ℚ)
    (hforce : methodEnv.forceSoundness = true) :
    (methodEnv.method = MinMaxMethod.ValueIteration → methodEnv.methodSetFromDefault = true →
      (isExact = false →
        internalSolveEquationsRoutine methodEnv isExact =
          Except.ok SolutionRoutine.solveEquationsSoundValueIteration ∧
        internalSolveEquations S env methodEnv isExact search dir x b =
          solveEquationsSoundValueIteration S env dir x b) ∧
      (isExact = true →
        internalSolveEquationsRoutine methodEnv isExact =
          Except.ok SolutionRoutine.solveEquationsPolicyIteration ∧
        internalSolveEquations S env methodEnv isExact search dir x b =
          solveEquationsPolicyIteration S env dir x b)) ∧
    (internalSolveEquationsRoutine methodEnv isExact =
        Except.ok SolutionRoutine.solveEquationsSoundValueIteration ↔
      methodEnv.method = MinMaxMethod.ValueIteration ∧
        (isExact = false ∨ methodEnv.methodSetFromDefault = false)) ∧
    (methodEnv.methodSetFromDefault = false →
      (methodEnv.method = MinMaxMethod.PolicyIteration →
        internalSolveEquations S env methodEnv isExact search dir x b =
          solveEquationsPolicyIteration S env dir x b) ∧
      (methodEnv.method = MinMaxMethod.RationalSearch →
        internalSolveEquations S env methodEnv isExact search dir x b =
          search env dir x b)) := by
  obtain ⟨method, fromDefault, force⟩ := methodEnv
  simp only at hforce
  subst hforce
  refine ⟨?_, ?_, ?_⟩
  · intro hm hd
    simp only at hm hd
    subst hm
    subst hd
    refine ⟨?_, ?_⟩
    · intro he
      subst he
      exact ⟨rfl, rfl⟩
    · intro he
      subst he
      exact ⟨rfl, rfl⟩
  · cases method <;> cases isExact <;> cases fromDefault <;> decide
  · intro hd
    simp only at hd
    subst hd
    refine ⟨?_, ?_⟩
    · intro hm
      simp only at hm
      subst hm
      cases isExact <;> rfl
    · intro hm
      simp only at hm
      subst hm
      cases isExact <;> rfl

/-- Witness of the amended C29 on the two-state system: with forced soundness and value iteration
configured by default, inexact arithmetic runs the sound iteration. -/
theorem internalSolveEquations_forced_soundness_witness :
    defaultSoundEnvironment.forceSoundness = true ∧
    internalSolveEquationsRoutine defaultSoundEnvironment false =
      Except.ok SolutionRoutine.solveEquationsSoundValueIteration :=
  ⟨rfl, ((internalSolveEquations_forced_soundness twoStateSolver regularEnvironment
    defaultSoundEnvironment false (solveEquationsPolicyIteration twoStateSolver)
    OptimizationDirection.Maximize [0, 0] twoStateB rfl).1 rfl rfl).1 rfl |>.1⟩

theorem improveChoice_other (S : Solver) (dir : OptimizationDirection) (b : List ℚ)
    (group currentChoice : Nat) (st : PolicyScan) (choice s : Nat) (hs : s ≠ group) :
    (improveChoice S dir b group currentChoice st choice).x.getD s 0 = st.x.getD s 0 ∧
    (improveChoice S dir b group currentChoice st choice).scheduler.getD s 0 =
      st.scheduler.getD s 0 := by
  rw [improveChoice_eq]
  split_ifs
  · exact ⟨rfl, rfl⟩
  · simp only [getD_set_any]
    exact ⟨by rw [if_neg (fun h => hs h.1)], by rw [if_neg (fun h => hs h.1)]⟩
  · exact ⟨rfl, rfl⟩

theorem improveChoice_step_noBetter (S : Solver) (dir : OptimizationDirection) (b : List ℚ)
    (group currentChoice : Nat) (st : PolicyScan) (choice s : Nat) :
    NoBetter dir (st.x.getD s 0)
      ((improveChoice S dir b group currentChoice st choice).x.getD s 0) := by
  rw [improveChoice_eq]
  split_ifs with h1 h2
  · exact noBetter_refl dir _
  · simp only [getD_set_any]
    split_ifs with h3
    · rw [h3.1]
      exact (valueImproved_noBetter dir _ _ h2).1
    · exact noBetter_refl dir _
  · exact noBetter_refl dir _

theorem improveRows_other (S : Solver) (dir : OptimizationDirection) (b : List ℚ)
    (group currentChoice : Nat) (rows : List Nat) (st : PolicyScan) (s : Nat) (hs : s ≠ group) :
    (rows.foldl (improveChoice S dir b group currentChoice) st).x.getD s 0 = st.x.getD s 0 ∧
    (rows.foldl (improveChoice S dir b group currentChoice) st).scheduler.getD s 0 =
      st.scheduler.getD s 0 := by
  induction rows generalizing st with
  | nil => exact ⟨rfl, rfl⟩
  | cons c rows ih =>
    simp only [List.foldl_cons]
    have h := improveChoice_other S dir b group currentChoice st c s hs
    exact ⟨(ih _).1.trans h.1, (ih _).2.trans h.2⟩

theorem improveRows_step_noBetter (S : Solver) (dir : OptimizationDirection) (b : List ℚ)
    (group currentChoice : Nat) (rows : List Nat) (st : PolicyScan) (s : Nat) :
    NoBetter dir (st.x.getD s 0)
      ((rows.foldl (improveChoice S dir b group currentChoice) st).x.getD s 0) := by
  induction rows generalizing st with
  | nil => exact noBetter_refl dir _
  | cons c rows ih =>
    simp only [List.foldl_cons]
    exact noBetter_trans dir _ _ _
      (improveChoice_step_noBetter S dir b group currentChoice st c s) (ih _)

theorem improveRows_unchanged (S : Solver) (dir : OptimizationDirection) (b : List ℚ)
    (group currentChoice : Nat) (rows : List Nat) (st : PolicyScan)
    (h : ∀ choice ∈ rows, choice - S.A.rowGroupIndex group ≠ currentChoice →
      valueImproved dir (st.x.getD group 0) (S.A.rowValue st.x b choice) = false) :
    rows.foldl (improveChoice S dir b group currentChoice) st = st := by
  induction rows with
  | nil => rfl
  | cons c rows ih =>
    simp only [List.foldl_cons]
    have hc : improveChoice S dir b group currentChoice st c = st := by
      rw [improveChoice_eq]
      split_ifs with h1 h2
      · rfl
      · rw [h c (List.mem_cons_self _ _) h1] at h2
        exact absurd h2 (by simp)
      · rfl
    rw [hc]
    exact ih (fun choice hmem => h choice (List.mem_cons_of_mem _ hmem))

theorem improveGroups_other (S : Solver) (dir : OptimizationDirection) (b : List ℚ)
    (groups : List Nat) (st : PolicyScan) (s : Nat) (hs : s ∉ groups) :
    (groups.foldl (improveGroup S dir b) st).x.getD s 0 = st.x.getD s 0 ∧
    (groups.foldl (improveGroup S dir b) st).scheduler.getD s 0 = st.scheduler.getD s 0 := by
  induction groups generalizing st with
  | nil => exact ⟨rfl, rfl⟩
  | cons g groups ih =>
    simp only [List.foldl_cons]
    have hne : s ≠ g := fun h => hs (by rw [h]; exact List.mem_cons_self _ _)
    have hrest : s ∉ groups := fun h => hs (List.mem_cons_of_mem _ h)
    have h := improveRows_other S dir b g (st.scheduler.getD g 0) (S.A.groupRows g) st s hne
    exact ⟨(ih _ hrest).1.trans h.1, (ih _ hrest).2.trans h.2⟩

theorem improveGroups_step_noBetter (S : Solver) (dir : OptimizationDirection) (b : List ℚ)
    (groups : List Nat) (st : PolicyScan) (s : Nat) :
    NoBetter dir (st.x.getD s 0) ((groups.foldl (improveGroup S dir b) st).x.getD s 0) := by
  induction groups generalizing st with
  | nil => exact noBetter_refl dir _
  | cons g groups ih =>
    simp only [List.foldl_cons]
    exact noBetter_trans dir _ _ _
      (improveRows_step_noBetter S dir b g (st.scheduler.getD g 0) (S.A.groupRows g) st s)
      (ih _)

theorem range_split (n g : Nat) (hg : g < n) :
    List.range n = List.range g ++ g :: List.range' (g + 1) (n - g - 1) := by
  apply List.ext_getElem
  · simp
    omega
  · intro i h1 h2
    simp only [List.getElem_range, List.getElem_append, List.length_range, List.getElem_cons,
      List.getElem_range']
    split_ifs with h3 h4
    · rfl
    · omega
    · omega

/-- C30: `valueImproved(dir, v1, v2)` holds exactly when `v2 < v1` in a minimisation and when
`v2 > v1` in a maximisation, and never for `v1 = v2`.  In a round of
`solveEquationsPolicyIteration`, when the scan reaches row group `g` the entry `x[g]` is still
the value solved for `g` and the choice of `g` is the one of the scheduler of the round; the
choice of `g` changes in the round only if a row of `g` other than the current choice has a
one-step value, under the vector at hand, that is strictly better than that `x[g]`; and at the
end of the scan `x[g]` is at least as good as the value solved for `g`. -/
theorem policyIteration_strict_improvement (S : Solver) (env : Environment)
    (dir : OptimizationDirection) (b : List ℚ) (st : PolicyState) (g : Nat)
    (hg : g < S.A.getRowGroupCount) :
    (∀ v w : ℚ, valueImproved dir v w = true ↔
      ((dir = OptimizationDirection.Minimize ∧ w < v) ∨
        (dir = OptimizationDirection.Maximize ∧ w > v))) ∧
    (∀ v : ℚ, valueImproved dir v v = false) ∧
    (policyScanBefore S dir b st.scheduler (solveInducedEquationSystem S st.scheduler st.x b).2
        g).x.getD g 0 = (solveInducedEquationSystem S st.scheduler st.x b).2.getD g 0 ∧
    (policyScanBefore S dir b st.scheduler (solveInducedEquationSystem S st.scheduler st.x b).2
        g).scheduler.getD g 0 = st.scheduler.getD g 0 ∧
    ((policyIterationRound S env dir b st).scheduler.getD g 0 ≠ st.scheduler.getD g 0 →
      ∃ choice ∈ S.A.groupRows g,
        choice - S.A.rowGroupIndex g ≠ st.scheduler.getD g 0 ∧
        valueImproved dir ((solveInducedEquationSystem S st.scheduler st.x b).2.getD g 0)
          (S.A.rowValue
            (policyScanBefore S dir b st.scheduler
              (solveInducedEquationSystem S st.scheduler st.x b).2 g).x b choice) = true) ∧
    NoBetter dir ((solveInducedEquationSystem S st.scheduler st.x b).2.getD g 0)
      ((policyIterationRound S env dir b st).x.getD g 0) := by
  generalize hsolved : (solveInducedEquationSystem S st.scheduler st.x b).2 = solved
  have hround : (policyIterationRound S env dir b st).scheduler =
        (improveScheduler S dir b st.scheduler solved).scheduler ∧
      (policyIterationRound S env dir b st).x =
        (improveScheduler S dir b st.scheduler solved).x := by
    rw [← hsolved]
    exact ⟨rfl, rfl⟩
  have hbefore := improveGroups_other S dir b (List.range g)
    { scheduler := st.scheduler, x := solved, schedulerImproved := false } g (by simp)
  simp only at hbefore
  refine ⟨valueImproved_iff dir, ?_, hbefore.1, hbefore.2, ?_, ?_⟩
  · intro v
    cases dir <;> simp [valueImproved]
  · rw [hround.1]
    unfold improveScheduler
    rw [range_split _ g hg, List.foldl_append, List.foldl_cons]
    have hnot : g ∉ List.range' (g + 1) (S.A.getRowGroupCount - g - 1) := by
      simp only [List.mem_range', not_exists, not_and]
      intro i _
      omega
    rw [(improveGroups_other S dir b _ _ g hnot).2]
    intro hchange
    by_contra hnone
    push_neg at hnone
    have hsame : improveGroup S dir b (policyScanBefore S dir b st.scheduler solved g) g =
        policyScanBefore S dir b st.scheduler solved g := by
      unfold improveGroup
      apply improveRows_unchanged
      intro choice hmem hne
      have hx : (policyScanBefore S dir b st.scheduler solved g).x.getD g 0 =
          solved.getD g 0 := hbefore.1
      have hs : (policyScanBefore S dir b st.scheduler solved g).scheduler.getD g 0 =
          st.scheduler.getD g 0 := hbefore.2
      rw [hx]
      rw [hs] at hne
      have := hnone choice hmem hne
      simpa using this
    change (improveGroup S dir b (policyScanBefore S dir b st.scheduler solved g)
      g).scheduler.getD g 0 ≠ _ at hchange
    rw [hsame] at hchange
    exact hchange hbefore.2
  · rw [hround.2]
    exact improveGroups_step_noBetter S dir b _ _ g

/-- Witness of C30 on the two-state system started from the scheduler that loops in the first
state: the round replaces the loop by the move to the second state, whose one-step value `1` is
strictly better than the solved value one half. -/
theorem policyIteration_strict_improvement_witness :
    (0 < twoStatePolicySolver.A.getRowGroupCount) ∧
    (policyIterationRound twoStatePolicySolver regularEnvironment
      OptimizationDirection.Maximize twoStateB
      { scheduler := [1, 0], x := [0, 0], iterations := 0,
        status := SolverStatus.InProgress }).scheduler = [0, 0] ∧
    NoBetter OptimizationDirection.Maximize
      ((solveInducedEquationSystem twoStatePolicySolver [1, 0] [0, 0] twoStateB).2.getD 0 0)
      ((policyIterationRound twoStatePolicySolver regularEnvironment
        OptimizationDirection.Maximize twoStateB
        { scheduler := [1, 0], x := [0, 0], iterations := 0,
          status := SolverStatus.InProgress }).x.getD 0 0) :=
  ⟨by decide, by decide!,
    (policyIteration_strict_improvement twoStatePolicySolver regularEnvironment
      OptimizationDirection.Maximize twoStateB
      { scheduler := [1, 0], x := [0, 0], iterations := 0, status := SolverStatus.InProgress }
      0 (by decide)).2.2.2.2.2⟩

theorem bestChoice_snd (dir : OptimizationDirection) (actionRewards : Nat → ℚ) (first : Nat)
    (others : List Nat) :
    (bestChoice dir actionRewards first others).2 ∈ first :: others ∧
    actionRewards (bestChoice dir actionRewards first others).2 =
      (bestChoice dir actionRewards first others).1 := by
  unfold bestChoice
  have h : ∀ (rest : List Nat) (acc : ℚ × Nat) (seen : List Nat), acc.2 ∈ seen →
      actionRewards acc.2 = acc.1 →
      (rest.foldl (fun (best : ℚ × Nat) choice =>
        if (dir = OptimizationDirection.Minimize ∧ actionRewards choice < best.1) ∨
            (dir = OptimizationDirection.Maximize ∧ actionRewards choice > best.1) then
          (actionRewards choice, choice)
        else best) acc).2 ∈ seen ++ rest ∧
      actionRewards (rest.foldl (fun (best : ℚ × Nat) choice =>
        if (dir = OptimizationDirection.Minimize ∧ actionRewards choice < best.1) ∨
            (dir = OptimizationDirection.Maximize ∧ actionRewards choice > best.1) then
          (actionRewards choice, choice)
        else best) acc).2 =
      (rest.foldl (fun (best : ℚ × Nat) choice =>
        if (dir = OptimizationDirection.Minimize ∧ actionRewards choice < best.1) ∨
            (dir = OptimizationDirection.Maximize ∧ actionRewards choice > best.1) then
          (actionRewards choice, choice)
        else best) acc).1 := by
    intro rest
    induction rest with
    | nil =>
      intro acc seen h1 h2
      simpa using ⟨h1, h2⟩
    | cons c cs ih =>
      intro acc seen h1 h2
      simp only [List.foldl_cons]
      have hsplit : seen ++ c :: cs = (seen ++ [c]) ++ cs := by simp
      rw [hsplit]
      apply ih
      · split_ifs
        · simp
        · exact List.mem_append_left _ h1
      · split_ifs
        · rfl
        · exact h2
  simpa using h others (actionRewards first, first) [first] (List.mem_singleton_self _) rfl

theorem mem_groupRows_local (A : SparseMatrix) (s c : Nat) (hc : c ∈ A.groupRows s) :
    c - A.rowGroupIndex s < (A.groupRows s).length := by
  unfold SparseMatrix.groupRows at hc ⊢
  rw [List.mem_range'_1] at hc
  rw [List.length_range']
  omega

/-- C21: for a singleton end component with the state `s` and the non-empty list of allowed
choices `first :: others`, in discrete time `computeLraForMec` yields the state reward of `s`
plus the optimum of the action rewards of the allowed choices, attained at an allowed choice
`c`; without a requested scheduler the produced choices are left as they are, with a requested
scheduler the entry of `s` is set to `c` minus the first row of `s`, which is smaller than the
number of choices of `s` when the allowed choices are rows of `s`. -/
theorem computeLraForMec_singleton_discrete (H : SparseNondeterministicInfiniteHorizonHelper)
    (env : LraEnvironment) (stateReward actionReward : Nat → ℚ) (s first : Nat)
    (others : List Nat) (hdiscrete : H.markovianStatesAndExitRates = none) :
    ∃ c ∈ first :: others,
      IsOptimum H.optimizationDirection ((first :: others).map actionReward) (actionReward c) ∧
      (H.produceScheduler = false → ∀ choices,
        computeLraForMec H env (some stateReward) (some actionReward) [(s, first :: others)]
          choices = Except.ok (stateReward s + actionReward c, choices)) ∧
      (H.produceScheduler = true → ∀ produced : List Nat, s < produced.length →
        computeLraForMec H env (some stateReward) (some actionReward) [(s, first :: others)]
            (some produced) =
          Except.ok (stateReward s + actionReward c,
            some (produced.set s (c - H.transitionMatrix.rowGroupIndex s))) ∧
        (produced.set s (c - H.transitionMatrix.rowGroupIndex s)).getD s 0 =
          c - H.transitionMatrix.rowGroupIndex s ∧
        ((∀ choice ∈ first :: others, choice ∈ H.transitionMatrix.groupRows s) →
          c - H.transitionMatrix.rowGroupIndex s <
            (H.transitionMatrix.groupRows s).length)) := by
  have hsnd := bestChoice_snd H.optimizationDirection actionReward first others
  have hfst := bestChoice_fst H.optimizationDirection actionReward first others
  have hopt := reduceGroup_isOptimum H.optimizationDirection ((first :: others).map actionReward)
    (by simp)
  rw [← hfst, ← hsnd.2] at hopt
  refine ⟨(bestChoice H.optimizationDirection actionReward first others).2, hsnd.1, hopt, ?_, ?_⟩
  · intro hp choices
    unfold computeLraForMec
    simp only [hdiscrete, hp, callGetter]
    rw [hsnd.2, add_comm]
    rfl
  · intro hp produced hs
    refine ⟨?_, ?_, ?_⟩
    · unfold computeLraForMec
      simp only [hdiscrete, hp, callGetter, setProducedChoice]
      rw [hsnd.2, add_comm]
      rfl
    · rw [getD_set_any]
      simp [hs]
    · intro hrows
      exact mem_groupRows_local _ _ _ (hrows _ hsnd.1)

/-- Evaluation for C21 on a state with three choices of which the last two are allowed, with the
action rewards `5`, `1` and `3` and the state reward `10`: maximising yields `13` and records the
local index `2`, minimising yields `11` and records the local index `1`. -/
theorem computeLraForMec_singleton_discrete_example :
    computeLraForMec (threeChoiceHelper OptimizationDirection.Maximize) plainLraEnvironment
      (some (fun _ => 10)) (some (fun c => [5, 1, 3].getD c 0)) [(0, [1, 2])] (some [7]) =
      Except.ok (13, some [2]) ∧
    computeLraForMec (threeChoiceHelper OptimizationDirection.Minimize) plainLraEnvironment
      (some (fun _ => 10)) (some (fun c => [5, 1, 3].getD c 0)) [(0, [1, 2])] (some [7]) =
      Except.ok (11, some [1]) := by
  refine ⟨?_, ?_⟩ <;> decide!

/-- Witness of C21 on the state with three choices of which the last two are allowed: an allowed
choice attains the optimum of the action rewards. -/
theorem computeLraForMec_singleton_discrete_witness :
    (threeChoiceHelper OptimizationDirection.Maximize).markovianStatesAndExitRates = none ∧
    ∃ c ∈ [1, 2],
      IsOptimum OptimizationDirection.Maximize ([1, 2].map (fun c => [5, 1, 3].getD c (0 : ℚ)))
        ([5, 1, 3].getD c (0 : ℚ)) :=
  ⟨rfl,
    let ⟨c, hc, hopt, _⟩ :=
      computeLraForMec_singleton_discrete (threeChoiceHelper OptimizationDirection.Maximize)
        plainLraEnvironment (fun _ => 10) (fun c => [5, 1, 3].getD c 0) 0 1 [2] rfl
    ⟨c, hc, hopt⟩⟩

theorem computeLraForMec_dispatch (H : SparseNondeterministicInfiniteHorizonHelper)
    (env : LraEnvironment) (stateRewardsGetter actionRewardsGetter : Option (Nat → ℚ))
    (mec : MaximalEndComponent) (choices : Option (List Nat)) (hsize : mec.length ≠ 1) :
    computeLraForMec H env stateRewardsGetter actionRewardsGetter mec choices =
      if selectedLraMethod H env = LraMethod.LinearProgramming then
        (computeLraForMecLp H stateRewardsGetter actionRewardsGetter mec).map
          (fun value => (value, choices))
      else if selectedLraMethod H env = LraMethod.ValueIteration then
        computeLraForMecVi H env stateRewardsGetter actionRewardsGetter mec choices
      else Except.error HelperFailure.InvalidSettingsException := by
  match mec, hsize with
  | [], _ => rfl
  | [_], h => exact absurd rfl h
  | _ :: _ :: _, _ => rfl

theorem mapM_except_ok {α β : Type} (f : α → Except HelperFailure β) (l : List α)
    (h : ∀ a ∈ l, ∃ v, f a = Except.ok v) : ∃ vs, l.mapM f = Except.ok vs := by
  induction l with
  | nil => exact ⟨[], rfl⟩
  | cons a l ih =>
    obtain ⟨v, hv⟩ := h a (List.mem_cons_self _ _)
    obtain ⟨vs, hvs⟩ := ih (fun c hc => h c (List.mem_cons_of_mem _ hc))
    refine ⟨v :: vs, ?_⟩
    rw [List.mapM_cons, hv, hvs]
    rfl

theorem lpConstraint_ok (H : SparseNondeterministicInfiniteHorizonHelper)
    (stateReward actionReward : Nat → ℚ) (mec : MaximalEndComponent) (state choice : Nat)
    (hclosed : ∀ element ∈ H.transitionMatrix.getRow choice,
      containsState mec element.1 = true) :
    ∃ constraint, lpConstraint H (some stateReward) (some actionReward) mec state choice =
      Except.ok constraint := by
  unfold lpConstraint
  have hall : (H.transitionMatrix.getRow choice).all
      (fun element => containsState mec element.1) = true := by
    rw [List.all_eq_true]
    exact hclosed
  simp only [hall, if_true, callGetter]
  split_ifs <;> exact ⟨_, rfl⟩

/-- C24: for an end component with more than one state whose allowed choices lead only to states
of the end component, with callable reward getters, when linear programming is the selected
method and a scheduler is requested, `computeLraForMec` ends with `NotImplementedException`
and yields no value. -/
theorem computeLraForMec_lp_scheduler (H : SparseNondeterministicInfiniteHorizonHelper)
    (env : LraEnvironment) (stateReward actionReward : Nat → ℚ) (mec : MaximalEndComponent)
    (choices : Option (List Nat)) (hsize : 1 < mec.length)
    (hmethod : selectedLraMethod H env = LraMethod.LinearProgramming)
    (hscheduler : H.produceScheduler = true)
    (hclosed : ∀ stateChoicesPair ∈ mec, ∀ choice ∈ stateChoicesPair.2,
      ∀ element ∈ H.transitionMatrix.getRow choice, containsState mec element.1 = true) :
    computeLraForMec H env (some stateReward) (some actionReward) mec choices =
      Except.error HelperFailure.NotImplementedException := by
  rw [computeLraForMec_dispatch H env _ _ mec choices (by omega), if_pos hmethod]
  obtain ⟨constraints, hc⟩ := mapM_except_ok
    (fun (stateChoicesPair : Nat × List Nat) =>
      stateChoicesPair.2.mapM (fun choice =>
        lpConstraint H (some stateReward) (some actionReward) mec stateChoicesPair.1 choice))
    mec (fun p hp => mapM_except_ok _ _ (fun c hc =>
      lpConstraint_ok H stateReward actionReward mec p.1 c (hclosed p hp c hc)))
  unfold computeLraForMecLp
  rw [hc]
  simp only [hscheduler, if_true]
  rfl

/-- Witness of C24 on the two states that move to each other, which form one end component:
with linear programming chosen and a scheduler requested there is no value. -/
theorem computeLraForMec_lp_scheduler_witness :
    computeLraForMec swapHelper lpLraEnvironment (some (fun _ => 1)) (some (fun _ => 0))
      [(0, [0]), (1, [1])] (some [0, 0]) =
      Except.error HelperFailure.NotImplementedException :=
  computeLraForMec_lp_scheduler swapHelper lpLraEnvironment (fun _ => 1) (fun _ => 0)
    [(0, [0]), (1, [1])] (some [0, 0]) (by decide) (by decide) rfl (by decide)

theorem gatherInner_spec (i : Nat) (mec : MaximalEndComponent) (acc : List Bool × List Nat) :
    (mec.foldl (fun (acc : List Bool × List Nat) stateChoicesPair =>
        (acc.1.set stateChoicesPair.1 true, acc.2.set stateChoicesPair.1 i)) acc).1.length =
      acc.1.length ∧
    (mec.foldl (fun (acc : List Bool × List Nat) stateChoicesPair =>
        (acc.1.set stateChoicesPair.1 true, acc.2.set stateChoicesPair.1 i)) acc).2.length =
      acc.2.length ∧
    (∀ s, (mec.foldl (fun (acc : List Bool × List Nat) stateChoicesPair =>
        (acc.1.set stateChoicesPair.1 true, acc.2.set stateChoicesPair.1 i)) acc).1.getD s false =
      if s < acc.1.length ∧ containsState mec s = true then true else acc.1.getD s false) ∧
    (∀ s, (mec.foldl (fun (acc : List Bool × List Nat) stateChoicesPair =>
        (acc.1.set stateChoicesPair.1 true, acc.2.set stateChoicesPair.1 i)) acc).2.getD s 0 =
      if s < acc.2.length ∧ containsState mec s = true then i else acc.2.getD s 0) := by
  induction mec generalizing acc with
  | nil => simp [containsState]
  | cons p mec ih =>
    simp only [List.foldl_cons]
    obtain ⟨h1, h2, h3, h4⟩ := ih (acc.1.set p.1 true, acc.2.set p.1 i)
    refine ⟨by rw [h1]; simp, by rw [h2]; simp, ?_, ?_⟩
    · intro s
      rw [h3 s]
      simp only [List.length_set, getD_set_any, containsState, List.any_cons, Bool.or_eq_true,
        decide_eq_true_eq]
      by_cases hs : s < acc.1.length
      · by_cases hp : p.1 = s
        · subst hp
          simp [hs]
        · have hp' : ¬ s = p.1 := fun h => hp h.symm
          simp only [hp, hp', false_or, false_and, if_false]
      · simp [hs]
        intro h1 h2
        omega
    · intro s
      rw [h4 s]
      simp only [List.length_set, getD_set_any, containsState, List.any_cons, Bool.or_eq_true,
        decide_eq_true_eq]
      by_cases hs : s < acc.2.length
      · by_cases hp : p.1 = s
        · subst hp
          simp [hs]
        · have hp' : ¬ s = p.1 := fun h => hp h.symm
          simp only [hp, hp', false_or, false_and, if_false]
      · simp [hs]
        intro h1 h2
        omega

theorem gatherMecStates_prefix_spec (mecs : List MaximalEndComponent) (n j : Nat)
    (hj : j ≤ mecs.length) :
    ((List.range j).foldl
        (fun acc currentMecIndex =>
          (mecs.getD currentMecIndex []).foldl
            (fun (acc : List Bool × List Nat) stateChoicesPair =>
              (acc.1.set stateChoicesPair.1 true, acc.2.set stateChoicesPair.1 currentMecIndex))
            acc)
        (List.replicate n false, List.replicate n uint64Max)).1.length = n ∧
    ((List.range j).foldl
        (fun acc currentMecIndex =>
          (mecs.getD currentMecIndex []).foldl
            (fun (acc : List Bool × List Nat) stateChoicesPair =>
              (acc.1.set stateChoicesPair.1 true, acc.2.set stateChoicesPair.1 currentMecIndex))
            acc)
        (List.replicate n false, List.replicate n uint64Max)).2.length = n ∧
    (∀ s, ((List.range j).foldl
        (fun acc currentMecIndex =>
          (mecs.getD currentMecIndex []).foldl
            (fun (acc : List Bool × List Nat) stateChoicesPair =>
              (acc.1.set stateChoicesPair.1 true, acc.2.set stateChoicesPair.1 currentMecIndex))
            acc)
        (List.replicate n false, List.replicate n uint64Max)).1.getD s false =
      (decide (s < n) && inSomeMec (mecs.take j) s)) ∧
    (∀ s i, s < n → i < j → containsState (mecs.getD i []) s = true →
      (∀ i', i < i' → i' < j → containsState (mecs.getD i' []) s = false) →
      ((List.range j).foldl
        (fun acc currentMecIndex =>
          (mecs.getD currentMecIndex []).foldl
            (fun (acc : List Bool × List Nat) stateChoicesPair =>
              (acc.1.set stateChoicesPair.1 true, acc.2.set stateChoicesPair.1 currentMecIndex))
            acc)
        (List.replicate n false, List.replicate n uint64Max)).2.getD s 0 = i) := by
  induction j with
  | zero => simp [inSomeMec]
  | succ j ih =>
    obtain ⟨h1, h2, h3, h4⟩ := ih (by omega)
    have hjlt : j < mecs.length := by omega
    rw [List.range_succ, List.foldl_append]
    simp only [List.foldl_cons, List.foldl_nil]
    generalize (List.range j).foldl
        (fun acc currentMecIndex =>
          (mecs.getD currentMecIndex []).foldl
            (fun (acc : List Bool × List Nat) stateChoicesPair =>
              (acc.1.set stateChoicesPair.1 true, acc.2.set stateChoicesPair.1 currentMecIndex))
            acc)
        (List.replicate n false, List.replicate n uint64Max) = acc at h1 h2 h3 h4
    obtain ⟨g1, g2, g3, g4⟩ := gatherInner_spec j (mecs.getD j []) acc
    refine ⟨by rw [g1, h1], by rw [g2, h2], ?_, ?_⟩
    · intro s
      rw [g3 s, h3 s, h1]
      have htake : mecs.take (j + 1) = mecs.take j ++ [mecs.getD j []] := by
        rw [List.take_succ, List.getD_eq_getElem?_getD]
        cases hget : mecs[j]? with
        | none =>
          rw [List.getElem?_eq_none_iff] at hget
          omega
        | some m => simp
      rw [htake]
      simp only [inSomeMec, List.any_append, List.any_cons, List.any_nil, Bool.or_false]
      by_cases hs : s < n <;> cases containsState (mecs.getD j []) s <;> simp [hs]
    · intro s i hs hi hc hlast
      rw [g4 s, h2]
      by_cases hij : i = j
      · subst hij
        rw [if_pos ⟨hs, hc⟩]
      · have hcj := hlast j (by omega) (by omega)
        rw [hcj]
        simp only [Bool.false_eq_true, and_false, if_false]
        exact h4 s i hs (by omega) hc (fun i' h1' h2' => hlast i' h1' (by omega))

theorem gatherMecStates_spec (mecs : List MaximalEndComponent) (n : Nat) :
    (gatherMecStates mecs n).1.length = n ∧ (gatherMecStates mecs n).2.length = n ∧
    (∀ s, (gatherMecStates mecs n).1.getD s false = (decide (s < n) && inSomeMec mecs s)) ∧
    (∀ s i, s < n → i < mecs.length → containsState (mecs.getD i []) s = true →
      MecsDisjoint mecs → (gatherMecStates mecs n).2.getD s 0 = i) := by
  obtain ⟨h1, h2, h3, h4⟩ := gatherMecStates_prefix_spec mecs n mecs.length (le_refl _)
  unfold gatherMecStates
  refine ⟨h1, h2, ?_, ?_⟩
  · intro s
    rw [h3 s, List.take_length]
  · intro s i hs hi hc hdis
    apply h4 s i hs hi hc
    intro i' hlt hi'
    by_contra hne
    have := hdis i i' s hi hi' hc (by simpa using hne)
    omega

theorem statesNotContainedInAnyMec_eq (mecs : List MaximalEndComponent) (n : Nat) :
    statesNotContainedInAnyMec (gatherMecStates mecs n).1 = nonMecStates mecs n := by
  obtain ⟨h1, _, h3, _⟩ := gatherMecStates_spec mecs n
  unfold statesNotContainedInAnyMec nonMecStates
  rw [h1]
  apply List.filter_congr
  intro s hs
  rw [h3 s]
  simp [List.mem_range.1 hs]

theorem statesContainedInMecs_eq (mecs : List MaximalEndComponent) (n : Nat) :
    statesContainedInMecs (gatherMecStates mecs n).1 =
      (List.range n).filter (fun s => inSomeMec mecs s) := by
  obtain ⟨h1, _, h3, _⟩ := gatherMecStates_spec mecs n
  unfold statesContainedInMecs
  rw [h1]
  apply List.filter_congr
  intro s hs
  rw [h3 s]
  simp [List.mem_range.1 hs]

theorem numberFold_spec (L : List Nat) (m0 : List Nat) (c : Nat) (hnodup : L.Nodup)
    (hlt : ∀ s ∈ L, s < m0.length) :
    (L.foldl (fun (acc : List Nat × Nat) nonMecState =>
        (acc.1.set nonMecState acc.2, acc.2 + 1)) (m0, c)).2 = c + L.length ∧
    (L.foldl (fun (acc : List Nat × Nat) nonMecState =>
        (acc.1.set nonMecState acc.2, acc.2 + 1)) (m0, c)).1.length = m0.length ∧
    (∀ j, j < L.length →
      (L.foldl (fun (acc : List Nat × Nat) nonMecState =>
        (acc.1.set nonMecState acc.2, acc.2 + 1)) (m0, c)).1.getD (L.getD j 0) 0 = c + j) ∧
    (∀ s, s ∉ L →
      (L.foldl (fun (acc : List Nat × Nat) nonMecState =>
        (acc.1.set nonMecState acc.2, acc.2 + 1)) (m0, c)).1.getD s 0 = m0.getD s 0) := by
  induction L generalizing m0 c with
  | nil => simp
  | cons a L ih =>
    simp only [List.foldl_cons]
    have hnd := List.nodup_cons.1 hnodup
    obtain ⟨h1, h2, h3, h4⟩ := ih (m0.set a c) (c + 1) hnd.2
      (fun s hs => by rw [List.length_set]; exact hlt s (List.mem_cons_of_mem _ hs))
    refine ⟨by rw [h1]; simp; omega, by rw [h2]; simp, ?_, ?_⟩
    · intro j hj
      cases j with
      | zero =>
        simp only [List.getD_cons_zero]
        rw [h4 a hnd.1, getD_set_any]
        simp [hlt a (List.mem_cons_self _ _)]
      | succ j =>
        simp only [List.getD_cons_succ]
        rw [h3 j (by simpa using hj)]
        omega
    · intro s hs
      have hsa : s ≠ a := fun h => hs (by rw [h]; exact List.mem_cons_self _ _)
      rw [h4 s (fun h => hs (List.mem_cons_of_mem _ h)), getD_set_any]
      simp [hsa]

theorem shiftFold_spec (L : List Nat) (m : List Nat) (k : Nat) (hnodup : L.Nodup)
    (hlt : ∀ s ∈ L, s < m.length) :
    (L.foldl (fun map mecState => map.set mecState (map.getD mecState 0 + k)) m).length =
      m.length ∧
    (∀ s, (L.foldl (fun map mecState => map.set mecState (map.getD mecState 0 + k)) m).getD s 0 =
      if s ∈ L then m.getD s 0 + k else m.getD s 0) := by
  induction L generalizing m with
  | nil => simp
  | cons a L ih =>
    simp only [List.foldl_cons]
    have hnd := List.nodup_cons.1 hnodup
    obtain ⟨h1, h2⟩ := ih (m.set a (m.getD a 0 + k)) hnd.2
      (fun s hs => by rw [List.length_set]; exact hlt s (List.mem_cons_of_mem _ hs))
    refine ⟨by rw [h1]; simp, ?_⟩
    intro s
    rw [h2 s]
    simp only [getD_set_any, List.mem_cons]
    by_cases hsa : s = a
    · subst hsa
      simp [hnd.1, hlt s (List.mem_cons_self _ _)]
    · simp [hsa]

theorem inputToSspStateMap_spec (mecs : List MaximalEndComponent) (n : Nat) :
    (inputToSspStateMap mecs n).2 = (nonMecStates mecs n).length ∧
    (inputToSspStateMap mecs n).1.length = n ∧
    (∀ j, j < (nonMecStates mecs n).length →
      (inputToSspStateMap mecs n).1.getD ((nonMecStates mecs n).getD j 0) 0 = j) ∧
    (∀ s i, s < n → i < mecs.length → containsState (mecs.getD i []) s = true →
      MecsDisjoint mecs →
      (inputToSspStateMap mecs n).1.getD s 0 = (nonMecStates mecs n).length + i) := by
  obtain ⟨g1, g2, g3, g4⟩ := gatherMecStates_spec mecs n
  have hnodupN : (nonMecStates mecs n).Nodup := (List.nodup_range n).filter _
  have hltN : ∀ s ∈ nonMecStates mecs n, s < (gatherMecStates mecs n).2.length := by
    intro s hs
    rw [g2]
    exact List.mem_range.1 (List.mem_filter.1 hs).1
  obtain ⟨n1, n2, n3, n4⟩ := numberFold_spec (nonMecStates mecs n) (gatherMecStates mecs n).2 0
    hnodupN hltN
  have hnodupM : ((List.range n).filter (fun s => inSomeMec mecs s)).Nodup :=
    (List.nodup_range n).filter _
  have hltM : ∀ s ∈ (List.range n).filter (fun s => inSomeMec mecs s),
      s < ((nonMecStates mecs n).foldl (fun (acc : List Nat × Nat) nonMecState =>
        (acc.1.set nonMecState acc.2, acc.2 + 1)) ((gatherMecStates mecs n).2, 0)).1.length := by
    intro s hs
    rw [n2, g2]
    exact List.mem_range.1 (List.mem_filter.1 hs).1
  obtain ⟨s1, s2⟩ := shiftFold_spec ((List.range n).filter (fun s => inSomeMec mecs s))
    ((nonMecStates mecs n).foldl (fun (acc : List Nat × Nat) nonMecState =>
      (acc.1.set nonMecState acc.2, acc.2 + 1)) ((gatherMecStates mecs n).2, 0)).1
    ((nonMecStates mecs n).foldl (fun (acc : List Nat × Nat) nonMecState =>
      (acc.1.set nonMecState acc.2, acc.2 + 1)) ((gatherMecStates mecs n).2, 0)).2
    hnodupM hltM
  unfold inputToSspStateMap
  simp only [statesNotContainedInAnyMec_eq, statesContainedInMecs_eq]
  refine ⟨by rw [n1]; simp, by rw [s1, n2, g2], ?_, ?_⟩
  · intro j hj
    rw [s2]
    have hmem : (nonMecStates mecs n).getD j 0 ∈ nonMecStates mecs n := by
      rw [List.getD_eq_getElem _ _ hj]
      exact List.getElem_mem _
    have hnot : (nonMecStates mecs n).getD j 0 ∉
        (List.range n).filter (fun s => inSomeMec mecs s) := by
      intro h
      have h1 := (List.mem_filter.1 h).2
      have h2 := (List.mem_filter.1 hmem).2
      simp only [] at h1 h2
      rw [h1] at h2
      exact absurd h2 (by decide)
    rw [if_neg hnot, n3 j hj]
    simp
  · intro s i hs hi hc hdis
    rw [s2]
    have hin : inSomeMec mecs s = true := by
      unfold inSomeMec
      rw [List.any_eq_true]
      refine ⟨mecs.getD i [], ?_, hc⟩
      rw [List.getD_eq_getElem _ _ hi]
      exact List.getElem_mem _
    have hmem : s ∈ (List.range n).filter (fun s => inSomeMec mecs s) :=
      List.mem_filter.2 ⟨List.mem_range.2 hs, hin⟩
    have hnot : s ∉ nonMecStates mecs n := by
      intro h
      have h2 := (List.mem_filter.1 h).2
      simp only [] at h2
      rw [hin] at h2
      exact absurd h2 (by decide)
    rw [if_pos hmem, n4 s hnot, g4 s i hs hi hc hdis, n1]
    omega

theorem buildAndSolveSsp_ok (H : SparseNondeterministicInfiniteHorizonHelper)
    (env : LraEnvironment) (mecLraValues : List ℚ) (choices : Option (List Nat))
    (r : List ℚ × Option (List Nat))
    (h : buildAndSolveSsp H env mecLraValues choices = Except.ok r) :
    ∃ lower upper, mecLraValues.min? = some lower ∧ mecLraValues.max? = some upper ∧
      r.1 = (inputToSspStateMap H.mecDecomposition H.transitionMatrix.getRowGroupCount).1.map
        (fun sspState =>
          (H.minMaxSolve env H.optimizationDirection
            (buildSsp H
              (inputToSspStateMap H.mecDecomposition H.transitionMatrix.getRowGroupCount).1
              (gatherMecStates H.mecDecomposition H.transitionMatrix.getRowGroupCount).1
              (inputToSspStateMap H.mecDecomposition H.transitionMatrix.getRowGroupCount).2
              mecLraValues).build
            (List.replicate
              ((inputToSspStateMap H.mecDecomposition H.transitionMatrix.getRowGroupCount).2 +
                H.mecDecomposition.length) 0)
            (buildSsp H
              (inputToSspStateMap H.mecDecomposition H.transitionMatrix.getRowGroupCount).1
              (gatherMecStates H.mecDecomposition H.transitionMatrix.getRowGroupCount).1
              (inputToSspStateMap H.mecDecomposition H.transitionMatrix.getRowGroupCount).2
              mecLraValues).rhs
            lower upper H.produceScheduler).1.getD sspState 0) := by
  unfold buildAndSolveSsp at h
  simp only [] at h
  by_cases hreq : H.sspRequirementsCritical env = true
  · rw [if_pos hreq] at h
    cases h
  · rw [if_neg hreq] at h
    cases hmin : mecLraValues.min? with
    | none => rw [hmin] at h; cases h
    | some lower =>
      cases hmax : mecLraValues.max? with
      | none => rw [hmin, hmax] at h; cases h
      | some upper =>
        rw [hmin, hmax] at h
        simp only [] at h
        refine ⟨lower, upper, rfl, rfl, ?_⟩
        by_cases hp : H.produceScheduler = true
        · rw [if_pos hp] at h
          split at h
          · split at h
            · cases h
            · cases h
              rfl
          · cases h
            rfl
        · rw [if_neg hp] at h
          cases h
          rfl

/-- C23: the state map of `buildAndSolveSsp` has one entry per state; the states that are in no
end component, taken in ascending order, are mapped to `0, 1, ..., k - 1`, where `k` is their
number, and for a state-disjoint decomposition every state of the end component with index `i`
is mapped to `k + i`.  Every vector that `buildAndSolveSsp` returns has one entry per state, its
entry at a state is the entry of the solution of the min/max solver at the image of the state,
and two states of the same end component have the same entry.  The routine returns a vector
when the requirements of the solver are met, there is a value of an end component and the
produced choices are allocated if a scheduler is requested. -/
theorem buildAndSolveSsp_maps_solution (H : SparseNondeterministicInfiniteHorizonHelper)
    (env : LraEnvironment) (mecLraValues : List ℚ) (choices : Option (List Nat)) :
    (inputToSspStateMap H.mecDecomposition H.transitionMatrix.getRowGroupCount).1.length =
      H.transitionMatrix.getRowGroupCount ∧
    (inputToSspStateMap H.mecDecomposition H.transitionMatrix.getRowGroupCount).2 =
      (nonMecStates H.mecDecomposition H.transitionMatrix.getRowGroupCount).length ∧
    List.Pairwise (fun s t => s < t)
      (nonMecStates H.mecDecomposition H.transitionMatrix.getRowGroupCount) ∧
    (∀ j, j < (nonMecStates H.mecDecomposition H.transitionMatrix.getRowGroupCount).length →
      (inputToSspStateMap H.mecDecomposition H.transitionMatrix.getRowGroupCount).1.getD
        ((nonMecStates H.mecDecomposition H.transitionMatrix.getRowGroupCount).getD j 0) 0 =
        j) ∧
    (MecsDisjoint H.mecDecomposition → ∀ i s, i < H.mecDecomposition.length →
      s < H.transitionMatrix.getRowGroupCount →
      containsState (H.mecDecomposition.getD i []) s = true →
      (inputToSspStateMap H.mecDecomposition H.transitionMatrix.getRowGroupCount).1.getD s 0 =
        (inputToSspStateMap H.mecDecomposition H.transitionMatrix.getRowGroupCount).2 + i) ∧
    (∀ result produced, buildAndSolveSsp H env mecLraValues choices =
        Except.ok (result, produced) →
      result.length = H.transitionMatrix.getRowGroupCount ∧
      (∃ lower upper, mecLraValues.min? = some lower ∧ mecLraValues.max? = some upper ∧
        ∀ s, s < H.transitionMatrix.getRowGroupCount →
          result.getD s 0 =
            (H.minMaxSolve env H.optimizationDirection
              (buildSsp H
                (inputToSspStateMap H.mecDecomposition H.transitionMatrix.getRowGroupCount).1
                (gatherMecStates H.mecDecomposition H.transitionMatrix.getRowGroupCount).1
                (inputToSspStateMap H.mecDecomposition H.transitionMatrix.getRowGroupCount).2
                mecLraValues).build
              (List.replicate
                ((inputToSspStateMap H.mecDecomposition H.transitionMatrix.getRowGroupCount).2 +
                  H.mecDecomposition.length) 0)
              (buildSsp H
                (inputToSspStateMap H.mecDecomposition H.transitionMatrix.getRowGroupCount).1
                (gatherMecStates H.mecDecomposition H.transitionMatrix.getRowGroupCount).1
                (inputToSspStateMap H.mecDecomposition H.transitionMatrix.getRowGroupCount).2
                mecLraValues).rhs
              lower upper H.produceScheduler).1.getD
              ((inputToSspStateMap H.mecDecomposition
                H.transitionMatrix.getRowGroupCount).1.getD s 0) 0) ∧
      (MecsDisjoint H.mecDecomposition → ∀ i s t, i < H.mecDecomposition.length →
        s < H.transitionMatrix.getRowGroupCount → t < H.transitionMatrix.getRowGroupCount →
        containsState (H.mecDecomposition.getD i []) s = true →
        containsState (H.mecDecomposition.getD i []) t = true →
        result.getD s 0 = result.getD t 0)) ∧
    (H.sspRequirementsCritical env = false → mecLraValues ≠ [] →
      (H.produceScheduler = true → choices.isSome = true) →
      ∃ result produced, buildAndSolveSsp H env mecLraValues choices =
        Except.ok (result, produced)) := by
  obtain ⟨m1, m2, m3, m4⟩ := inputToSspStateMap_spec H.mecDecomposition
    H.transitionMatrix.getRowGroupCount
  have hmec : MecsDisjoint H.mecDecomposition → ∀ i s, i < H.mecDecomposition.length →
      s < H.transitionMatrix.getRowGroupCount →
      containsState (H.mecDecomposition.getD i []) s = true →
      (inputToSspStateMap H.mecDecomposition H.transitionMatrix.getRowGroupCount).1.getD s 0 =
        (inputToSspStateMap H.mecDecomposition H.transitionMatrix.getRowGroupCount).2 + i := by
    intro hdis i s hi hs hc
    rw [m4 s i hs hi hc hdis, m1]
  refine ⟨m2, m1, ?_, m3, hmec, ?_, ?_⟩
  · unfold nonMecStates
    exact List.Pairwise.filter _ (List.pairwise_lt_range _)
  · intro result produced hok
    obtain ⟨lower, upper, hmin, hmax, hres⟩ := buildAndSolveSsp_ok H env mecLraValues choices _ hok
    simp only [] at hres
    have hentry : ∀ s, s < H.transitionMatrix.getRowGroupCount →
        result.getD s 0 =
          (H.minMaxSolve env H.optimizationDirection
            (buildSsp H
              (inputToSspStateMap H.mecDecomposition H.transitionMatrix.getRowGroupCount).1
              (gatherMecStates H.mecDecomposition H.transitionMatrix.getRowGroupCount).1
              (inputToSspStateMap H.mecDecomposition H.transitionMatrix.getRowGroupCount).2
              mecLraValues).build
            (List.replicate
              ((inputToSspStateMap H.mecDecomposition H.transitionMatrix.getRowGroupCount).2 +
                H.mecDecomposition.length) 0)
            (buildSsp H
              (inputToSspStateMap H.mecDecomposition H.transitionMatrix.getRowGroupCount).1
              (gatherMecStates H.mecDecomposition H.transitionMatrix.getRowGroupCount).1
              (inputToSspStateMap H.mecDecomposition H.transitionMatrix.getRowGroupCount).2
              mecLraValues).rhs
            lower upper H.produceScheduler).1.getD
            ((inputToSspStateMap H.mecDecomposition
              H.transitionMatrix.getRowGroupCount).1.getD s 0) 0 := by
      intro s hs
      have hs' : s < (inputToSspStateMap H.mecDecomposition
          H.transitionMatrix.getRowGroupCount).1.length := by rw [m2]; exact hs
      rw [hres, List.getD_eq_getElem _ _ (by rw [List.length_map]; exact hs'),
        List.getElem_map, List.getD_eq_getElem _ _ hs']
    refine ⟨by rw [hres, List.length_map, m2], ⟨lower, upper, hmin, hmax, hentry⟩, ?_⟩
    intro hdis i s t hi hs ht hcs hct
    rw [hentry s hs, hentry t ht, hmec hdis i s hi hs hcs, hmec hdis i t hi ht hct]
  · intro hreq hne hprod
    unfold buildAndSolveSsp
    simp only [hreq, Bool.false_eq_true, if_false]
    cases hmin : mecLraValues.min? with
    | none => exact absurd (List.min?_eq_none_iff.1 hmin) hne
    | some lower =>
      cases hmax : mecLraValues.max? with
      | none => exact absurd (List.max?_eq_none_iff.1 hmax) hne
      | some upper =>
        simp only []
        split_ifs with hp
        · split
          · cases hc : choices with
            | none =>
              have := hprod hp
              rw [hc] at this
              cases this
            | some produced => exact ⟨_, _, rfl⟩
          · exact ⟨_, _, rfl⟩
        · exact ⟨_, _, rfl⟩

theorem exitInner_spec (H : SparseNondeterministicInfiniteHorizonHelper) (stateMap : List Nat)
    (k : Nat) (state : Nat) (allowed : List Nat) (L : List Nat) (b : SspBuilder) :
    (L.foldl
      (fun (builder : SspBuilder) choice =>
        if !allowed.contains choice then
          { builder with
            rows := builder.rows ++ [addSspMatrixChoice choice H.transitionMatrix stateMap k]
            rhs := builder.rhs ++ [0]
            sspMecExitChoicesToOriginalMap :=
              if H.produceScheduler then
                builder.sspMecExitChoicesToOriginalMap ++
                  [(state, choice - H.transitionMatrix.rowGroupIndex state)]
              else builder.sspMecExitChoicesToOriginalMap }
        else builder) b).rows =
      b.rows ++ (L.filter (fun c => !allowed.contains c)).map
        (fun c => addSspMatrixChoice c H.transitionMatrix stateMap k) ∧
    (L.foldl
      (fun (builder : SspBuilder) choice =>
        if !allowed.contains choice then
          { builder with
            rows := builder.rows ++ [addSspMatrixChoice choice H.transitionMatrix stateMap k]
            rhs := builder.rhs ++ [0]
            sspMecExitChoicesToOriginalMap :=
              if H.produceScheduler then
                builder.sspMecExitChoicesToOriginalMap ++
                  [(state, choice - H.transitionMatrix.rowGroupIndex state)]
              else builder.sspMecExitChoicesToOriginalMap }
        else builder) b).rowGroupStarts = b.rowGroupStarts ∧
    (L.foldl
      (fun (builder : SspBuilder) choice =>
        if !allowed.contains choice then
          { builder with
            rows := builder.rows ++ [addSspMatrixChoice choice H.transitionMatrix stateMap k]
            rhs := builder.rhs ++ [0]
            sspMecExitChoicesToOriginalMap :=
              if H.produceScheduler then
                builder.sspMecExitChoicesToOriginalMap ++
                  [(state, choice - H.transitionMatrix.rowGroupIndex state)]
              else builder.sspMecExitChoicesToOriginalMap }
        else builder) b).rhs =
      b.rhs ++ List.replicate (L.filter (fun c => !allowed.contains c)).length 0 ∧
    (L.foldl
      (fun (builder : SspBuilder) choice =>
        if !allowed.contains choice then
          { builder with
            rows := builder.rows ++ [addSspMatrixChoice choice H.transitionMatrix stateMap k]
            rhs := builder.rhs ++ [0]
            sspMecExitChoicesToOriginalMap :=
              if H.produceScheduler then
                builder.sspMecExitChoicesToOriginalMap ++
                  [(state, choice - H.transitionMatrix.rowGroupIndex state)]
              else builder.sspMecExitChoicesToOriginalMap }
        else builder) b).sspMecExitChoicesToOriginalMap =
      if H.produceScheduler then
        b.sspMecExitChoicesToOriginalMap ++ (L.filter (fun c => !allowed.contains c)).map
          (fun c => (state, c - H.transitionMatrix.rowGroupIndex state))
      else b.sspMecExitChoicesToOriginalMap := by
  induction L generalizing b with
  | nil => cases H.produceScheduler <;> simp
  | cons c L ih =>
    simp only [List.foldl_cons]
    by_cases hc : allowed.contains c = true
    · simp only [hc, Bool.not_true, Bool.false_eq_true, if_false, List.filter_cons_of_neg,
        not_false_eq_true]
      exact ih b
    · have hc' : (!allowed.contains c) = true := by simpa using hc
      simp only [hc', if_true, List.filter_cons_of_pos]
      obtain ⟨h1, h2, h3, h4⟩ := ih
        { b with
          rows := b.rows ++ [addSspMatrixChoice c H.transitionMatrix stateMap k]
          rhs := b.rhs ++ [0]
          sspMecExitChoicesToOriginalMap :=
            if H.produceScheduler then
              b.sspMecExitChoicesToOriginalMap ++
                [(state, c - H.transitionMatrix.rowGroupIndex state)]
            else b.sspMecExitChoicesToOriginalMap }
      refine ⟨by rw [h1]; simp, by rw [h2], by rw [h3]; simp [List.replicate_succ], ?_⟩
      rw [h4]
      cases H.produceScheduler <;> simp

theorem exitOuter_spec (H : SparseNondeterministicInfiniteHorizonHelper) (stateMap : List Nat)
    (k : Nat) (mec : MaximalEndComponent) (b : SspBuilder) :
    (mec.foldl
      (fun (builder : SspBuilder) (stateChoicesPair : Nat × List Nat) =>
        (H.transitionMatrix.groupRows stateChoicesPair.1).foldl
          (fun (builder : SspBuilder) choice =>
            if !stateChoicesPair.2.contains choice then
              { builder with
                rows := builder.rows ++
                  [addSspMatrixChoice choice H.transitionMatrix stateMap k]
                rhs := builder.rhs ++ [0]
                sspMecExitChoicesToOriginalMap :=
                  if H.produceScheduler then
                    builder.sspMecExitChoicesToOriginalMap ++
                      [(stateChoicesPair.1,
                        choice - H.transitionMatrix.rowGroupIndex stateChoicesPair.1)]
                  else builder.sspMecExitChoicesToOriginalMap }
            else builder)
          builder) b).rows =
      b.rows ++ (mecExitChoices H.transitionMatrix mec).map
        (fun sc => addSspMatrixChoice sc.2 H.transitionMatrix stateMap k) ∧
    (mec.foldl
      (fun (builder : SspBuilder) (stateChoicesPair : Nat × List Nat) =>
        (H.transitionMatrix.groupRows stateChoicesPair.1).foldl
          (fun (builder : SspBuilder) choice =>
            if !stateChoicesPair.2.contains choice then
              { builder with
                rows := builder.rows ++
                  [addSspMatrixChoice choice H.transitionMatrix stateMap k]
                rhs := builder.rhs ++ [0]
                sspMecExitChoicesToOriginalMap :=
                  if H.produceScheduler then
                    builder.sspMecExitChoicesToOriginalMap ++
                      [(stateChoicesPair.1,
                        choice - H.transitionMatrix.rowGroupIndex stateChoicesPair.1)]
                  else builder.sspMecExitChoicesToOriginalMap }
            else builder)
          builder) b).rowGroupStarts = b.rowGroupStarts ∧
    (mec.foldl
      (fun (builder : SspBuilder) (stateChoicesPair : Nat × List Nat) =>
        (H.transitionMatrix.groupRows stateChoicesPair.1).foldl
          (fun (builder : SspBuilder) choice =>
            if !stateChoicesPair.2.contains choice then
              { builder with
                rows := builder.rows ++
                  [addSspMatrixChoice choice H.transitionMatrix stateMap k]
                rhs := builder.rhs ++ [0]
                sspMecExitChoicesToOriginalMap :=
                  if H.produceScheduler then
                    builder.sspMecExitChoicesToOriginalMap ++
                      [(stateChoicesPair.1,
                        choice - H.transitionMatrix.rowGroupIndex stateChoicesPair.1)]
                  else builder.sspMecExitChoicesToOriginalMap }
            else builder)
          builder) b).rhs =
      b.rhs ++ List.replicate (mecExitChoices H.transitionMatrix mec).length 0 ∧
    (mec.foldl
      (fun (builder : SspBuilder) (stateChoicesPair : Nat × List Nat) =>
        (H.transitionMatrix.groupRows stateChoicesPair.1).foldl
          (fun (builder : SspBuilder) choice =>
            if !stateChoicesPair.2.contains choice then
              { builder with
                rows := builder.rows ++
                  [addSspMatrixChoice choice H.transitionMatrix stateMap k]
                rhs := builder.rhs ++ [0]
                sspMecExitChoicesToOriginalMap :=
                  if H.produceScheduler then
                    builder.sspMecExitChoicesToOriginalMap ++
                      [(stateChoicesPair.1,
                        choice - H.transitionMatrix.rowGroupIndex stateChoicesPair.1)]
                  else builder.sspMecExitChoicesToOriginalMap }
            else builder)
          builder) b).sspMecExitChoicesToOriginalMap =
      if H.produceScheduler then
        b.sspMecExitChoicesToOriginalMap ++ (mecExitChoices H.transitionMatrix mec).map
          (fun sc => (sc.1, sc.2 - H.transitionMatrix.rowGroupIndex sc.1))
      else b.sspMecExitChoicesToOriginalMap := by
  induction mec generalizing b with
  | nil => cases H.produceScheduler <;> simp [mecExitChoices]
  | cons p mec ih =>
    simp only [List.foldl_cons]
    obtain ⟨i1, i2, i3, i4⟩ := exitInner_spec H stateMap k p.1 p.2
      (H.transitionMatrix.groupRows p.1) b
    obtain ⟨h1, h2, h3, h4⟩ := ih
      ((H.transitionMatrix.groupRows p.1).foldl
        (fun (builder : SspBuilder) choice =>
          if !p.2.contains choice then
            { builder with
              rows := builder.rows ++ [addSspMatrixChoice choice H.transitionMatrix stateMap k]
              rhs := builder.rhs ++ [0]
              sspMecExitChoicesToOriginalMap :=
                if H.produceScheduler then
                  builder.sspMecExitChoicesToOriginalMap ++
                    [(p.1, choice - H.transitionMatrix.rowGroupIndex p.1)]
                else builder.sspMecExitChoicesToOriginalMap }
          else builder) b)
    have hsplit : mecExitChoices H.transitionMatrix (p :: mec) =
        ((H.transitionMatrix.groupRows p.1).filter (fun choice => !p.2.contains choice)).map
          (fun choice => (p.1, choice)) ++ mecExitChoices H.transitionMatrix mec := by
      simp [mecExitChoices]
    refine ⟨?_, ?_, ?_, ?_⟩
    · rw [h1, i1, hsplit]
      simp [List.map_append, Function.comp_def]
    · rw [h2, i2]
    · rw [h3, i3, hsplit, List.length_append, List.length_map, List.append_assoc]
      congr 1
      apply List.ext_getElem
      · simp
      · intro j h1 h2
        simp [List.getElem_append]
    · rw [h4, i4, hsplit]
      cases H.produceScheduler <;> simp [List.map_append, Function.comp_def]

theorem addMecState_spec (H : SparseNondeterministicInfiniteHorizonHelper)
    (stateMap : List Nat) (k : Nat) (mecLraValues : List ℚ) (b : SspBuilder) (i : Nat) :
    (addMecState H stateMap k mecLraValues b i).rows =
      b.rows ++ ((mecExitChoices H.transitionMatrix (H.mecDecomposition.getD i [])).map
        (fun sc => addSspMatrixChoice sc.2 H.transitionMatrix stateMap k) ++ [[]]) ∧
    (addMecState H stateMap k mecLraValues b i).rowGroupStarts =
      b.rowGroupStarts ++ [b.rows.length] ∧
    (addMecState H stateMap k mecLraValues b i).rhs =
      b.rhs ++ (List.replicate
        (mecExitChoices H.transitionMatrix (H.mecDecomposition.getD i [])).length 0 ++
        [mecLraValues.getD i 0]) ∧
    (addMecState H stateMap k mecLraValues b i).sspMecExitChoicesToOriginalMap =
      if H.produceScheduler then
        b.sspMecExitChoicesToOriginalMap ++
          mecExitEntries H.transitionMatrix (H.mecDecomposition.getD i [])
      else b.sspMecExitChoicesToOriginalMap := by
  obtain ⟨h1, h2, h3, h4⟩ := exitOuter_spec H stateMap k (H.mecDecomposition.getD i [])
    { b with rowGroupStarts := b.rowGroupStarts ++ [b.rows.length] }
  unfold addMecState
  simp only []
  refine ⟨by rw [h1]; simp, by rw [h2], by rw [h3]; simp, ?_⟩
  rw [h4]
  cases H.produceScheduler <;> simp [mecExitEntries]

theorem addNonMecState_spec (H : SparseNondeterministicInfiniteHorizonHelper)
    (stateMap : List Nat) (k : Nat) (b : SspBuilder) (state : Nat) :
    (addNonMecState H stateMap k b state).rows =
      b.rows ++ (H.transitionMatrix.groupRows state).map
        (fun c => addSspMatrixChoice c H.transitionMatrix stateMap k) ∧
    (addNonMecState H stateMap k b state).rowGroupStarts =
      b.rowGroupStarts ++ [b.rows.length] ∧
    (addNonMecState H stateMap k b state).rhs =
      b.rhs ++ List.replicate (H.transitionMatrix.groupRows state).length 0 ∧
    (addNonMecState H stateMap k b state).sspMecExitChoicesToOriginalMap =
      b.sspMecExitChoicesToOriginalMap := by
  unfold addNonMecState
  generalize H.transitionMatrix.groupRows state = L
  have h : ∀ (b' : SspBuilder),
      (L.foldl (fun (builder : SspBuilder) choice =>
        { builder with
          rows := builder.rows ++ [addSspMatrixChoice choice H.transitionMatrix stateMap k]
          rhs := builder.rhs ++ [0] }) b').rows =
        b'.rows ++ L.map (fun c => addSspMatrixChoice c H.transitionMatrix stateMap k) ∧
      (L.foldl (fun (builder : SspBuilder) choice =>
        { builder with
          rows := builder.rows ++ [addSspMatrixChoice choice H.transitionMatrix stateMap k]
          rhs := builder.rhs ++ [0] }) b').rowGroupStarts = b'.rowGroupStarts ∧
      (L.foldl (fun (builder : SspBuilder) choice =>
        { builder with
          rows := builder.rows ++ [addSspMatrixChoice choice H.transitionMatrix stateMap k]
          rhs := builder.rhs ++ [0] }) b').rhs = b'.rhs ++ List.replicate L.length 0 ∧
      (L.foldl (fun (builder : SspBuilder) choice =>
        { builder with
          rows := builder.rows ++ [addSspMatrixChoice choice H.transitionMatrix stateMap k]
          rhs := builder.rhs ++ [0] }) b').sspMecExitChoicesToOriginalMap =
        b'.sspMecExitChoicesToOriginalMap := by
    induction L with
    | nil => intro b'; simp
    | cons c L ih =>
      intro b'
      simp only [List.foldl_cons]
      obtain ⟨h1, h2, h3, h4⟩ := ih
        { b' with
          rows := b'.rows ++ [addSspMatrixChoice c H.transitionMatrix stateMap k]
          rhs := b'.rhs ++ [0] }
      exact ⟨by rw [h1]; simp, by rw [h2], by rw [h3]; simp [List.replicate_succ], by rw [h4]⟩
  obtain ⟨h1, h2, h3, h4⟩ := h { b with rowGroupStarts := b.rowGroupStarts ++ [b.rows.length] }
  exact ⟨h1, h2, h3, h4⟩

theorem starts_step (b b' : SspBuilder) (sizes : List Nat) (t : Nat)
    (hstarts : b.rowGroupStarts = (List.range sizes.length).map (fun g => (sizes.take g).sum))
    (hrows : b.rows.length = sizes.sum)
    (hstarts' : b'.rowGroupStarts = b.rowGroupStarts ++ [b.rows.length])
    (hrows' : b'.rows.length = b.rows.length + t) :
    b'.rowGroupStarts =
      (List.range (sizes ++ [t]).length).map (fun g => ((sizes ++ [t]).take g).sum) ∧
    b'.rows.length = (sizes ++ [t]).sum := by
  refine ⟨?_, by rw [hrows', hrows]; simp⟩
  rw [hstarts', hstarts, hrows, List.length_append, List.length_singleton, List.range_succ,
    List.map_append]
  congr 1
  · apply List.map_congr_left
    intro g hg
    have hg' : g ≤ sizes.length := le_of_lt (List.mem_range.1 hg)
    rw [List.take_append_of_le_length hg']
  · simp

theorem nonMecFold_structure (H : SparseNondeterministicInfiniteHorizonHelper)
    (stateMap : List Nat) (k : Nat) (L : List Nat) (b : SspBuilder) (sizes : List Nat)
    (hstarts : b.rowGroupStarts = (List.range sizes.length).map (fun g => (sizes.take g).sum))
    (hrows : b.rows.length = sizes.sum) :
    (L.foldl (addNonMecState H stateMap k) b).rowGroupStarts =
      (List.range (sizes ++ L.map (fun s => (H.transitionMatrix.groupRows s).length)).length).map
        (fun g => ((sizes ++ L.map
          (fun s => (H.transitionMatrix.groupRows s).length)).take g).sum) ∧
    (L.foldl (addNonMecState H stateMap k) b).rows.length =
      (sizes ++ L.map (fun s => (H.transitionMatrix.groupRows s).length)).sum ∧
    (L.foldl (addNonMecState H stateMap k) b).sspMecExitChoicesToOriginalMap =
      b.sspMecExitChoicesToOriginalMap := by
  induction L generalizing b sizes with
  | nil => simpa using ⟨hstarts, hrows⟩
  | cons s L ih =>
    simp only [List.foldl_cons, List.map_cons]
    obtain ⟨a1, a2, _, a4⟩ := addNonMecState_spec H stateMap k b s
    obtain ⟨s1, s2⟩ := starts_step b (addNonMecState H stateMap k b s) sizes
      (H.transitionMatrix.groupRows s).length hstarts hrows a2 (by rw [a1]; simp)
    obtain ⟨h1, h2, h3⟩ := ih (addNonMecState H stateMap k b s)
      (sizes ++ [(H.transitionMatrix.groupRows s).length]) s1 s2
    simp only [List.append_assoc, List.singleton_append] at h1 h2
    exact ⟨h1, h2, by rw [h3, a4]⟩

theorem mecFold_structure (H : SparseNondeterministicInfiniteHorizonHelper)
    (stateMap : List Nat) (k : Nat) (mecLraValues : List ℚ) (L : List Nat) (b : SspBuilder)
    (sizes : List Nat)
    (hstarts : b.rowGroupStarts = (List.range sizes.length).map (fun g => (sizes.take g).sum))
    (hrows : b.rows.length = sizes.sum) :
    (L.foldl (addMecState H stateMap k mecLraValues) b).rowGroupStarts =
      (List.range (sizes ++ L.map (fun i =>
        (mecExitChoices H.transitionMatrix (H.mecDecomposition.getD i [])).length + 1)).length).map
        (fun g => ((sizes ++ L.map (fun i =>
          (mecExitChoices H.transitionMatrix
            (H.mecDecomposition.getD i [])).length + 1)).take g).sum) ∧
    (L.foldl (addMecState H stateMap k mecLraValues) b).rows.length =
      (sizes ++ L.map (fun i =>
        (mecExitChoices H.transitionMatrix (H.mecDecomposition.getD i [])).length + 1)).sum ∧
    (L.foldl (addMecState H stateMap k mecLraValues) b).sspMecExitChoicesToOriginalMap =
      if H.produceScheduler then
        b.sspMecExitChoicesToOriginalMap ++
          (L.map (fun i =>
            mecExitEntries H.transitionMatrix (H.mecDecomposition.getD i []))).flatten
      else b.sspMecExitChoicesToOriginalMap := by
  induction L generalizing b sizes with
  | nil =>
    refine ⟨by simpa using hstarts, by simpa using hrows, ?_⟩
    cases H.produceScheduler <;> simp
  | cons i L ih =>
    simp only [List.foldl_cons, List.map_cons]
    obtain ⟨a1, a2, _, a4⟩ := addMecState_spec H stateMap k mecLraValues b i
    obtain ⟨s1, s2⟩ := starts_step b (addMecState H stateMap k mecLraValues b i) sizes
      ((mecExitChoices H.transitionMatrix (H.mecDecomposition.getD i [])).length + 1)
      hstarts hrows a2 (by rw [a1]; simp)
    obtain ⟨h1, h2, h3⟩ := ih (addMecState H stateMap k mecLraValues b i)
      (sizes ++ [(mecExitChoices H.transitionMatrix (H.mecDecomposition.getD i [])).length + 1])
      s1 s2
    simp only [List.append_assoc, List.singleton_append] at h1 h2
    refine ⟨h1, h2, ?_⟩
    rw [h3, a4]
    cases H.produceScheduler <;> simp

theorem map_range_getD {α β : Type} (l : List α) (d : α) (f : α → β) :
    (List.range l.length).map (fun i => f (l.getD i d)) = l.map f := by
  apply List.ext_getElem
  · simp
  · intro i h1 h2
    simp only [List.getElem_map, List.getElem_range]
    rw [List.getD_eq_getElem _ _ (by simpa using h2)]

theorem buildSsp_structure (H : SparseNondeterministicInfiniteHorizonHelper)
    (stateMap : List Nat) (k : Nat) (mecLraValues : List ℚ) :
    (buildSsp H stateMap
      (gatherMecStates H.mecDecomposition H.transitionMatrix.getRowGroupCount).1 k
      mecLraValues).build.rowGroupIndices =
      (List.range ((sspGroupSizes H.transitionMatrix H.mecDecomposition
        H.transitionMatrix.getRowGroupCount).length + 1)).map
        (fun g => ((sspGroupSizes H.transitionMatrix H.mecDecomposition
          H.transitionMatrix.getRowGroupCount).take g).sum) ∧
    (buildSsp H stateMap
      (gatherMecStates H.mecDecomposition H.transitionMatrix.getRowGroupCount).1 k
      mecLraValues).sspMecExitChoicesToOriginalMap =
      if H.produceScheduler then
        (H.mecDecomposition.map (mecExitEntries H.transitionMatrix)).flatten
      else [] := by
  unfold buildSsp
  rw [statesNotContainedInAnyMec_eq]
  obtain ⟨n1, n2, n3⟩ := nonMecFold_structure H stateMap k
    (nonMecStates H.mecDecomposition H.transitionMatrix.getRowGroupCount)
    { rows := [], rowGroupStarts := [], rhs := [], sspMecExitChoicesToOriginalMap := [] } []
    rfl rfl
  obtain ⟨m1, m2, m3⟩ := mecFold_structure H stateMap k mecLraValues
    (List.range H.mecDecomposition.length) _ _ n1 n2
  have hsizes : ([] ++ (nonMecStates H.mecDecomposition
      H.transitionMatrix.getRowGroupCount).map
        (fun s => (H.transitionMatrix.groupRows s).length)) ++
      (List.range H.mecDecomposition.length).map (fun i =>
        (mecExitChoices H.transitionMatrix (H.mecDecomposition.getD i [])).length + 1) =
      sspGroupSizes H.transitionMatrix H.mecDecomposition
        H.transitionMatrix.getRowGroupCount := by
    unfold sspGroupSizes
    rw [map_range_getD H.mecDecomposition []
      (fun mec => (mecExitChoices H.transitionMatrix mec).length + 1)]
    simp
  rw [hsizes] at m1 m2
  refine ⟨?_, ?_⟩
  · unfold SspBuilder.build
    simp only []
    rw [m1, m2, List.range_succ, List.map_append]
    simp
  · rw [m3, n3, map_range_getD H.mecDecomposition [] (mecExitEntries H.transitionMatrix)]
    simp

theorem sum_take_succ (sizes : List Nat) (g : Nat) :
    (sizes.take (g + 1)).sum = (sizes.take g).sum + sizes.getD g 0 := by
  induction sizes generalizing g with
  | nil => simp
  | cons a sizes ih =>
    cases g with
    | zero => simp
    | succ g =>
      simp only [List.take_succ_cons, List.sum_cons, List.getD_cons_succ]
      rw [ih g]
      omega

theorem groupRows_of_sizes (M : SparseMatrix) (sizes : List Nat)
    (hM : M.rowGroupIndices =
      (List.range (sizes.length + 1)).map (fun g => (sizes.take g).sum))
    (g : Nat) (hg : g < sizes.length) :
    M.rowGroupIndex g = (sizes.take g).sum ∧
    M.groupRows g = List.range' (sizes.take g).sum (sizes.getD g 0) := by
  have hidx : ∀ j, j ≤ sizes.length → M.rowGroupIndex j = (sizes.take j).sum := by
    intro j hj
    unfold SparseMatrix.rowGroupIndex
    rw [hM, List.getD_eq_getElem _ _ (by simp; omega)]
    simp
  refine ⟨hidx g (le_of_lt hg), ?_⟩
  unfold SparseMatrix.groupRows
  rw [hidx g (le_of_lt hg), hidx (g + 1) hg, sum_take_succ]
  congr 1
  omega

theorem flatten_getD {α : Type} (bs : List (List α)) (i c : Nat) (d : α)
    (hi : i < bs.length) (hc : c < (bs.getD i []).length) :
    bs.flatten.getD (((bs.take i).map List.length).sum + c) d = (bs.getD i []).getD c d := by
  induction bs generalizing i with
  | nil => simp at hi
  | cons b bs ih =>
    cases i with
    | zero =>
      simp only [List.getD_cons_zero] at hc
      simp only [List.take_zero, List.map_nil, List.sum_nil, Nat.zero_add, List.flatten_cons,
        List.getD_cons_zero]
      rw [List.getD_eq_getElem?_getD, List.getD_eq_getElem?_getD, List.getElem?_append_left hc]
    | succ i =>
      simp only [List.getD_cons_succ] at hc
      simp only [List.take_succ_cons, List.map_cons, List.sum_cons, List.flatten_cons,
        List.getD_cons_succ]
      rw [List.getD_eq_getElem?_getD, List.getElem?_append_right (by omega)]
      have : b.length + ((bs.take i).map List.length).sum + c - b.length =
          ((bs.take i).map List.length).sum + c := by omega
      rw [this, ← List.getD_eq_getElem?_getD]
      exact ih i (by simpa using hi) hc

theorem containsState_iff (mec : MaximalEndComponent) (s : Nat) :
    containsState mec s = true ↔ ∃ p ∈ mec, p.1 = s := by
  unfold containsState
  rw [List.any_eq_true]
  constructor
  · rintro ⟨p, hp, h⟩
    exact ⟨p, hp, by simpa using h⟩
  · rintro ⟨p, hp, h⟩
    exact ⟨p, hp, by simpa using h⟩

theorem getChoicesForState_mem (mec : MaximalEndComponent) (s c : Nat)
    (h : c ∈ getChoicesForState mec s) : ∃ p ∈ mec, p.1 = s ∧ c ∈ p.2 := by
  unfold getChoicesForState at h
  cases hf : mec.find? (fun stateChoicesPair => stateChoicesPair.1 = s) with
  | none => rw [hf] at h; cases h
  | some p =>
    rw [hf] at h
    exact ⟨p, List.mem_of_find?_eq_some hf, by simpa using List.find?_some hf, h⟩

theorem findPredChoice_some (H : SparseNondeterministicInfiniteHorizonHelper)
    (mec : MaximalEndComponent) (p c pc : Nat) (h : findPredChoice H mec p c = some pc) :
    pc ∈ getChoicesForState mec p ∧
    ∃ t ∈ H.transitionMatrix.getRow pc, t.1 = c ∧ t.2 ≠ 0 := by
  unfold findPredChoice at h
  refine ⟨List.mem_of_find?_eq_some h, ?_⟩
  have := List.find?_some h
  rw [List.any_eq_true] at this
  obtain ⟨t, ht, hcond⟩ := this
  exact ⟨t, ht, by simpa using hcond⟩

theorem countP_lt_of_flip (L : List Nat) (q q' : Nat → Bool) (a : Nat) (ha : a ∈ L)
    (hqa : q a = true) (hq'a : q' a = false) (himp : ∀ b, q' b = true → q b = true) :
    L.countP q' + 1 ≤ L.countP q := by
  induction L with
  | nil => cases ha
  | cons b L ih =>
    have hle : L.countP q' ≤ L.countP q := by
      apply List.countP_mono_left
      intro x _ hx
      exact himp x hx
    rcases List.mem_cons.1 ha with hab | hmem
    · subst hab
      rw [List.countP_cons_of_pos _ _ hqa, List.countP_cons_of_neg _ _ (by simp [hq'a])]
      omega
    · have := ih hmem
      by_cases hb' : q' b = true
      · rw [List.countP_cons_of_pos _ _ hb', List.countP_cons_of_pos _ _ (himp b hb')]
        omega
      · rw [List.countP_cons_of_neg _ _ hb']
        by_cases hb : q b = true
        · rw [List.countP_cons_of_pos _ _ hb]
          omega
        · rw [List.countP_cons_of_neg _ _ hb]
          omega

theorem searchProgress_refl (A : SparseMatrix) (mec : MaximalEndComponent)
    (ch st : List Nat) : SearchProgress A mec ch st ch st :=
  ⟨rfl, fun _ _ => rfl, fun _ _ => rfl, fun _ h => absurd rfl h, fun _ h => h,
    fun _ h => Or.inl h, fun _ h1 h2 => absurd h1 h2, le_refl _⟩

theorem searchProgress_trans (A : SparseMatrix) (mec : MaximalEndComponent)
    (ch st ch' st' ch'' st'' : List Nat) (h1 : SearchProgress A mec ch st ch' st')
    (h2 : SearchProgress A mec ch' st' ch'' st'') : SearchProgress A mec ch st ch'' st'' := by
  obtain ⟨a1, a2, a3, a4, a5, a6, a7, a8⟩ := h1
  obtain ⟨b1, b2, b3, b4, b5, b6, b7, b8⟩ := h2
  refine ⟨by rw [b1, a1], ?_, ?_, ?_, fun s hs => b5 s (a5 s hs), ?_, ?_, by omega⟩
  · intro s hs
    rw [b2 s (by rw [a2 s hs]; exact hs), a2 s hs]
  · intro s hs
    rw [b3 s hs, a3 s hs]
  · intro s hs
    by_cases hc : ch''.getD s 0 = ch'.getD s 0
    · rw [hc]
      exact a4 s (by rw [← hc]; exact hs)
    · exact b4 s hc
  · intro s hs
    rcases b6 s hs with h | h
    · rcases a6 s h with h' | h'
      · exact Or.inl h'
      · exact Or.inr (by rw [b2 s h']; exact h')
    · exact Or.inr h
  · intro s hs hs''
    by_cases hc : ch'.getD s 0 = uint64Max
    · exact b7 s hc hs''
    · exact b5 s (a7 s hs hc)

theorem visitPredecessor_progress (H : SparseNondeterministicInfiniteHorizonHelper)
    (mec : MaximalEndComponent) (cur : Nat) (ch st : List Nat) (t : Nat × ℚ)
    (hrange : ∀ p ∈ mec, p.1 < ch.length)
    (hrows : ∀ p ∈ mec, ∀ c ∈ p.2, c ∈ H.transitionMatrix.groupRows p.1)
    (hbound : ∀ p ∈ mec, (H.transitionMatrix.groupRows p.1).length ≤ uint64Max) :
    SearchProgress H.transitionMatrix mec ch st
      (visitPredecessor H mec cur (ch, st) t).1 (visitPredecessor H mec cur (ch, st) t).2 ∧
    (containsState mec t.1 = true → HasMecEdge H mec t.1 cur →
      (visitPredecessor H mec cur (ch, st) t).1.getD t.1 0 ≠ uint64Max) := by
  unfold visitPredecessor
  simp only []
  by_cases hM : containsState mec t.1 = true
  · rw [if_pos hM]
    by_cases hu : ch.getD t.1 0 = uint64Max
    · rw [if_pos hu]
      cases hf : findPredChoice H mec t.1 cur with
      | none =>
        simp only []
        refine ⟨searchProgress_refl _ _ _ _, ?_⟩
        intro _ hedge
        unfold HasMecEdge at hedge
        rw [hf] at hedge
        cases hedge
      | some pc =>
        simp only []
        obtain ⟨hpc, _⟩ := findPredChoice_some H mec t.1 cur pc hf
        obtain ⟨p, hp, hp1, hp2⟩ := getChoicesForState_mem mec t.1 pc hpc
        have hlt : t.1 < ch.length := by rw [← hp1]; exact hrange p hp
        have hrow : pc ∈ H.transitionMatrix.groupRows t.1 := by
          rw [← hp1]; exact hrows p hp pc hp2
        have hvalid : pc - H.transitionMatrix.rowGroupIndex t.1 <
            (H.transitionMatrix.groupRows t.1).length := mem_groupRows_local _ _ _ hrow
        have hle : (H.transitionMatrix.groupRows t.1).length ≤ uint64Max := by
          rw [← hp1]; exact hbound p hp
        have hne : pc - H.transitionMatrix.rowGroupIndex t.1 ≠ uint64Max := by omega
        have hget : ∀ s, (ch.set t.1 (pc - H.transitionMatrix.rowGroupIndex t.1)).getD s 0 =
            if s = t.1 then pc - H.transitionMatrix.rowGroupIndex t.1 else ch.getD s 0 := by
          intro s
          rw [getD_set_any]
          by_cases hs : s = t.1
          · rw [if_pos ⟨hs, hlt⟩, if_pos hs]
          · rw [if_neg (fun h => hs h.1), if_neg hs]
        refine ⟨⟨by simp, ?_, ?_, ?_, ?_, ?_, ?_, ?_⟩, ?_⟩
        · intro s hs
          rw [hget s, if_neg (fun h => hs (by rw [h]; exact hu))]
        · intro s hs
          rw [hget s, if_neg (fun h => by rw [h, hM] at hs; cases hs)]
        · intro s hs
          rw [hget s] at hs ⊢
          by_cases hst : s = t.1
          · rw [if_pos hst, hst]
            exact hvalid
          · rw [if_neg hst] at hs
            exact absurd rfl hs
        · intro s hs
          exact List.mem_cons_of_mem _ hs
        · intro s hs
          rcases List.mem_cons.1 hs with h | h
          · right
            rw [hget s, if_pos h]
            exact hne
          · exact Or.inl h
        · intro s hs hs'
          rw [hget s] at hs'
          by_cases hst : s = t.1
          · rw [hst]
            exact List.mem_cons_self _ _
          · rw [if_neg hst] at hs'
            exact absurd hs hs'
        · unfold unresolvedCount
          have hmem : t.1 ∈ mec.map Prod.fst := by
            rw [List.mem_map]
            exact ⟨p, hp, hp1⟩
          have := countP_lt_of_flip (mec.map Prod.fst)
            (fun state => decide (ch.getD state 0 = uint64Max))
            (fun state => decide ((ch.set t.1
              (pc - H.transitionMatrix.rowGroupIndex t.1)).getD state 0 = uint64Max))
            t.1 hmem (by simpa using hu) (by
              simp only [hget, if_true, decide_eq_false_iff_not]
              exact hne)
            (by
              intro b hb
              simp only [hget, decide_eq_true_eq] at hb ⊢
              by_cases hbt : b = t.1
              · rw [hbt]; exact hu
              · rw [if_neg hbt] at hb
                exact hb)
          simp only [List.length_cons]
          omega
        · intro _ _
          rw [hget, if_pos rfl]
          exact hne
    · rw [if_neg hu]
      exact ⟨searchProgress_refl _ _ _ _, fun _ _ => hu⟩
  · rw [if_neg hM]
    exact ⟨searchProgress_refl _ _ _ _, fun h _ => absurd h hM⟩

theorem visitFold_progress (H : SparseNondeterministicInfiniteHorizonHelper)
    (mec : MaximalEndComponent) (cur : Nat) (T : List (Nat × ℚ)) (ch st : List Nat)
    (hrange : ∀ p ∈ mec, p.1 < ch.length)
    (hrows : ∀ p ∈ mec, ∀ c ∈ p.2, c ∈ H.transitionMatrix.groupRows p.1)
    (hbound : ∀ p ∈ mec, (H.transitionMatrix.groupRows p.1).length ≤ uint64Max) :
    SearchProgress H.transitionMatrix mec ch st
      (T.foldl (visitPredecessor H mec cur) (ch, st)).1
      (T.foldl (visitPredecessor H mec cur) (ch, st)).2 ∧
    (∀ t ∈ T, containsState mec t.1 = true → HasMecEdge H mec t.1 cur →
      (T.foldl (visitPredecessor H mec cur) (ch, st)).1.getD t.1 0 ≠ uint64Max) := by
  induction T generalizing ch st with
  | nil => exact ⟨searchProgress_refl _ _ _ _, fun t ht => absurd ht (List.not_mem_nil _)⟩
  | cons t T ih =>
    simp only [List.foldl_cons]
    obtain ⟨hstep, hres⟩ := visitPredecessor_progress H mec cur ch st t hrange hrows hbound
    obtain ⟨hrest, hall⟩ := ih (visitPredecessor H mec cur (ch, st) t).1
      (visitPredecessor H mec cur (ch, st) t).2
      (fun p hp => by rw [hstep.1]; exact hrange p hp)
    refine ⟨searchProgress_trans _ _ _ _ _ _ _ _ hstep hrest, ?_⟩
    intro t' ht' hM hedge
    rcases List.mem_cons.1 ht' with h | h
    · subst h
      have h1 := hres hM hedge
      rw [hrest.2.1 _ h1]
      exact h1
    · exact hall t' h hM hedge

theorem backwardSearch_closed (H : SparseNondeterministicInfiniteHorizonHelper)
    (backward : SparseMatrix) (mec : MaximalEndComponent)
    (hback : BackwardComplete H.transitionMatrix backward)
    (hstates : ∀ p ∈ mec, p.1 < H.transitionMatrix.getRowGroupCount)
    (hrows : ∀ p ∈ mec, ∀ c ∈ p.2, c ∈ H.transitionMatrix.groupRows p.1)
    (hbound : ∀ p ∈ mec, (H.transitionMatrix.groupRows p.1).length ≤ uint64Max)
    (fuel : Nat) (stack ch : List Nat)
    (hrange : ∀ p ∈ mec, p.1 < ch.length)
    (hstack : ∀ s ∈ stack, ch.getD s 0 ≠ uint64Max)
    (hclosed : ∀ c, containsState mec c = true → ch.getD c 0 ≠ uint64Max → c ∉ stack →
      ∀ p, containsState mec p = true → HasMecEdge H mec p c → ch.getD p 0 ≠ uint64Max)
    (hfuel : stack.length + unresolvedCount mec ch ≤ fuel) :
    (backwardSearch H backward mec fuel stack ch).length = ch.length ∧
    (∀ s, ch.getD s 0 ≠ uint64Max →
      (backwardSearch H backward mec fuel stack ch).getD s 0 = ch.getD s 0) ∧
    (∀ s, containsState mec s = false →
      (backwardSearch H backward mec fuel stack ch).getD s 0 = ch.getD s 0) ∧
    (∀ s, (backwardSearch H backward mec fuel stack ch).getD s 0 ≠ ch.getD s 0 →
      (backwardSearch H backward mec fuel stack ch).getD s 0 <
        (H.transitionMatrix.groupRows s).length) ∧
    (∀ c, containsState mec c = true →
      (backwardSearch H backward mec fuel stack ch).getD c 0 ≠ uint64Max →
      ∀ p, containsState mec p = true → HasMecEdge H mec p c →
        (backwardSearch H backward mec fuel stack ch).getD p 0 ≠ uint64Max) := by
  induction fuel generalizing stack ch with
  | zero =>
    have hnil : stack = [] := List.length_eq_zero.1 (by omega)
    subst hnil
    unfold backwardSearch
    exact ⟨rfl, fun _ _ => rfl, fun _ _ => rfl, fun _ h => absurd rfl h,
      fun c hc hr => hclosed c hc hr (List.not_mem_nil _)⟩
  | succ fuel ih =>
    cases stack with
    | nil =>
      unfold backwardSearch
      exact ⟨rfl, fun _ _ => rfl, fun _ _ => rfl, fun _ h => absurd rfl h,
        fun c hc hr => hclosed c hc hr (List.not_mem_nil _)⟩
    | cons cur rest =>
      unfold backwardSearch
      simp only []
      obtain ⟨hsp, hall⟩ := visitFold_progress H mec cur (getRowGroup backward cur) ch rest
        hrange hrows hbound
      generalize (getRowGroup backward cur).foldl (visitPredecessor H mec cur) (ch, rest) = F
        at hsp hall
      obtain ⟨a1, a2, a3, a4, a5, a6, a7, a8⟩ := hsp
      have hstack' : ∀ s ∈ F.2, F.1.getD s 0 ≠ uint64Max := by
        intro s hs
        rcases a6 s hs with h | h
        · have := hstack s (List.mem_cons_of_mem _ h)
          rw [a2 s this]
          exact this
        · exact h
      have hclosed' : ∀ c, containsState mec c = true → F.1.getD c 0 ≠ uint64Max → c ∉ F.2 →
          ∀ p, containsState mec p = true → HasMecEdge H mec p c →
            F.1.getD p 0 ≠ uint64Max := by
        intro c hc hr hnot p hp hedge
        by_cases hcu : ch.getD c 0 = uint64Max
        · exact absurd (a7 c hcu hr) hnot
        · by_cases hcc : c = cur
          · subst hcc
            unfold HasMecEdge at hedge
            cases hf : findPredChoice H mec p c with
            | none => rw [hf] at hedge; cases hedge
            | some pc =>
              obtain ⟨hpc, htrans⟩ := findPredChoice_some H mec p c pc hf
              obtain ⟨pair, hpair, hp1, hp2⟩ := getChoicesForState_mem mec p pc hpc
              obtain ⟨cp, hcp, hcp1⟩ := (containsState_iff mec c).1 hc
              have hplt : p < H.transitionMatrix.getRowGroupCount := by
                rw [← hp1]; exact hstates pair hpair
              have hclt : c < H.transitionMatrix.getRowGroupCount := by
                rw [← hcp1]; exact hstates cp hcp
              have hrow : pc ∈ H.transitionMatrix.groupRows p := by
                rw [← hp1]; exact hrows pair hpair pc hp2
              obtain ⟨b, hb, hb1⟩ := hback p c hplt hclt pc hrow htrans
              have := hall b hb (by rw [hb1]; exact hp)
                (by rw [hb1]; unfold HasMecEdge; rw [hf]; rfl)
              rw [hb1] at this
              exact this
          · have hnotstack : c ∉ cur :: rest := by
              intro hmem
              rcases List.mem_cons.1 hmem with h | h
              · exact hcc h
              · exact hnot (a5 c h)
            have := hclosed c hc hcu hnotstack p hp hedge
            rw [a2 p this]
            exact this
      have hfuel' : F.2.length + unresolvedCount mec F.1 ≤ fuel := by
        simp only [List.length_cons] at hfuel
        omega
      obtain ⟨b1, b2, b3, b4, b5⟩ := ih F.2 F.1 (fun p hp => by rw [a1]; exact hrange p hp)
        hstack' hclosed' hfuel'
      refine ⟨by rw [b1, a1], ?_, ?_, ?_, b5⟩
      · intro s hs
        rw [b2 s (by rw [a2 s hs]; exact hs), a2 s hs]
      · intro s hs
        rw [b3 s hs, a3 s hs]
      · intro s hs
        by_cases hc : (backwardSearch H backward mec fuel F.2 F.1).getD s 0 = F.1.getD s 0
        · rw [hc]
          exact a4 s (by rw [← hc]; exact hs)
        · exact b4 s hc

theorem markFold_spec (mec : MaximalEndComponent) (e : Nat) (ch : List Nat)
    (hrange : ∀ p ∈ mec, p.1 < ch.length) :
    (mec.foldl (fun (choices : List Nat) (stateActions : Nat × List Nat) =>
      if stateActions.1 ≠ e then choices.set stateActions.1 uint64Max else choices) ch).length =
      ch.length ∧
    ∀ s, (mec.foldl (fun (choices : List Nat) (stateActions : Nat × List Nat) =>
      if stateActions.1 ≠ e then choices.set stateActions.1 uint64Max else choices) ch).getD s 0 =
      if containsState mec s = true ∧ s ≠ e then uint64Max else ch.getD s 0 := by
  induction mec generalizing ch with
  | nil => simp [containsState]
  | cons p mec ih =>
    simp only [List.foldl_cons]
    have hp : p.1 < ch.length := hrange p (List.mem_cons_self _ _)
    by_cases hpe : p.1 ≠ e
    · rw [if_pos hpe]
      obtain ⟨h1, h2⟩ := ih (ch.set p.1 uint64Max)
        (fun q hq => by rw [List.length_set]; exact hrange q (List.mem_cons_of_mem _ hq))
      refine ⟨by rw [h1]; simp, ?_⟩
      intro s
      rw [h2 s, getD_set_any]
      simp only [containsState, List.any_cons, Bool.or_eq_true, decide_eq_true_eq]
      by_cases hs : p.1 = s
      · subst hs
        simp [hpe, hp]
      · have hs' : ¬ s = p.1 := fun h => hs h.symm
        simp only [hs, hs', false_or, false_and, if_false]
    · rw [if_neg hpe]
      obtain ⟨h1, h2⟩ := ih ch (fun q hq => hrange q (List.mem_cons_of_mem _ hq))
      refine ⟨h1, ?_⟩
      intro s
      rw [h2 s]
      simp only [containsState, List.any_cons, Bool.or_eq_true, decide_eq_true_eq]
      have hpe' : p.1 = e := by simpa using hpe
      by_cases hs : p.1 = s
      · have hse : s = e := by rw [← hs, hpe']
        simp [hse]
      · simp only [hs, false_or]

theorem mecReaches_resolved (H : SparseNondeterministicInfiniteHorizonHelper)
    (mec : MaximalEndComponent) (out : List Nat)
    (hclosed : ∀ c, containsState mec c = true → out.getD c 0 ≠ uint64Max →
      ∀ p, containsState mec p = true → HasMecEdge H mec p c → out.getD p 0 ≠ uint64Max)
    (s t : Nat) (hreach : MecReaches H mec s t) (hs : containsState mec s = true)
    (ht : out.getD t 0 ≠ uint64Max) : out.getD s 0 ≠ uint64Max := by
  induction hreach with
  | refl state => exact ht
  | step predecessor state target hstate hedge _ ih =>
    exact hclosed state hstate (ih hstate ht) predecessor hs hedge

theorem stitchMec_spec (H : SparseNondeterministicInfiniteHorizonHelper) (stateMap : List Nat)
    (k : Nat) (sspMatrix : SparseMatrix) (exitMap : List (Nat × Nat)) (sspChoices ch : List Nat)
    (mec : MaximalEndComponent)
    (hback : BackwardComplete H.transitionMatrix
      (match H.backwardTransitions with
        | some backwardTransitions => backwardTransitions
        | none => transposeJoinGroups H.transitionMatrix))
    (hstates : ∀ p ∈ mec, p.1 < H.transitionMatrix.getRowGroupCount)
    (hrows : ∀ p ∈ mec, ∀ c ∈ p.2, c ∈ H.transitionMatrix.groupRows p.1)
    (hbound : ∀ p ∈ mec, (H.transitionMatrix.groupRows p.1).length ≤ uint64Max)
    (hconn : ∀ s t, containsState mec s = true → containsState mec t = true →
      MecReaches H mec s t)
    (hrange : ∀ p ∈ mec, p.1 < ch.length)
    (hvalid : ∀ s, containsState mec s = true →
      ch.getD s 0 < (H.transitionMatrix.groupRows s).length)
    (hentry :
      (exitMap.getD
        (sspMatrix.rowGroupIndex (stateMap.getD (mec.headD (0, [])).1 0) +
          sspChoices.getD (stateMap.getD (mec.headD (0, [])).1 0) 0 -
          sspMatrix.rowGroupIndex k) (uint64Max, uint64Max)).1 = uint64Max ∨
      (containsState mec (exitMap.getD
        (sspMatrix.rowGroupIndex (stateMap.getD (mec.headD (0, [])).1 0) +
          sspChoices.getD (stateMap.getD (mec.headD (0, [])).1 0) 0 -
          sspMatrix.rowGroupIndex k) (uint64Max, uint64Max)).1 = true ∧
        (exitMap.getD
          (sspMatrix.rowGroupIndex (stateMap.getD (mec.headD (0, [])).1 0) +
            sspChoices.getD (stateMap.getD (mec.headD (0, [])).1 0) 0 -
            sspMatrix.rowGroupIndex k) (uint64Max, uint64Max)).2 <
          (H.transitionMatrix.groupRows (exitMap.getD
            (sspMatrix.rowGroupIndex (stateMap.getD (mec.headD (0, [])).1 0) +
              sspChoices.getD (stateMap.getD (mec.headD (0, [])).1 0) 0 -
              sspMatrix.rowGroupIndex k) (uint64Max, uint64Max)).1).length)) :
    (stitchMec H stateMap k sspMatrix exitMap sspChoices ch mec).length = ch.length ∧
    (∀ s, containsState mec s = false →
      (stitchMec H stateMap k sspMatrix exitMap sspChoices ch mec).getD s 0 = ch.getD s 0) ∧
    (∀ s, containsState mec s = true →
      (stitchMec H stateMap k sspMatrix exitMap sspChoices ch mec).getD s 0 <
        (H.transitionMatrix.groupRows s).length) := by
  unfold stitchMec
  simp only []
  generalize exitMap.getD
    (sspMatrix.rowGroupIndex (stateMap.getD (mec.headD (0, [])).1 0) +
      sspChoices.getD (stateMap.getD (mec.headD (0, [])).1 0) 0 -
      sspMatrix.rowGroupIndex k) (uint64Max, uint64Max) = osc at hentry ⊢
  by_cases hstay : osc.1 = uint64Max
  · rw [if_pos hstay]
    exact ⟨rfl, fun _ _ => rfl, hvalid⟩
  · rw [if_neg hstay]
    rcases hentry with h | ⟨hMe, hosc⟩
    · exact absurd h hstay
    · obtain ⟨pe, hpe, hpe1⟩ := (containsState_iff mec osc.1).1 hMe
      have helt : osc.1 < ch.length := by rw [← hpe1]; exact hrange pe hpe
      have hebound : (H.transitionMatrix.groupRows osc.1).length ≤ uint64Max := by
        rw [← hpe1]; exact hbound pe hpe
      obtain ⟨m1, m2⟩ := markFold_spec mec osc.1 (ch.set osc.1 osc.2)
        (fun p hp => by rw [List.length_set]; exact hrange p hp)
      generalize mec.foldl (fun (choices : List Nat) (stateActions : Nat × List Nat) =>
        if stateActions.1 ≠ osc.1 then choices.set stateActions.1 uint64Max else choices)
        (ch.set osc.1 osc.2) = ch2 at m1 m2
      rw [List.length_set] at m1
      have hch2e : ch2.getD osc.1 0 = osc.2 := by
        rw [m2, if_neg (fun h => h.2 rfl), getD_set_any, if_pos ⟨rfl, helt⟩]
      have hch2M : ∀ s, containsState mec s = true → s ≠ osc.1 → ch2.getD s 0 = uint64Max := by
        intro s hs hne
        rw [m2, if_pos ⟨hs, hne⟩]
      have hch2N : ∀ s, containsState mec s = false → ch2.getD s 0 = ch.getD s 0 := by
        intro s hs
        rw [m2, if_neg (fun h => by rw [hs] at h; cases h.1), getD_set_any,
          if_neg (fun h => by rw [h.1, hMe] at hs; cases hs)]
      have hfuel : [osc.1].length + unresolvedCount mec ch2 ≤ mec.length := by
        unfold unresolvedCount
        have hmem : osc.1 ∈ mec.map Prod.fst := List.mem_map.2 ⟨pe, hpe, hpe1⟩
        have := countP_lt_of_flip (mec.map Prod.fst) (fun _ => true)
          (fun state => decide (ch2.getD state 0 = uint64Max)) osc.1 hmem rfl
          (by
            simp only [decide_eq_false_iff_not]
            rw [hch2e]
            omega)
          (fun _ _ => rfl)
        have hall : (mec.map Prod.fst).countP (fun _ => true) = mec.length := by
          rw [List.countP_true, List.length_map]
        simp only [List.length_singleton]
        omega
      obtain ⟨b1, b2, b3, b4, b5⟩ := backwardSearch_closed H _ mec hback hstates hrows hbound
        mec.length [osc.1] ch2 (fun p hp => by rw [m1]; exact hrange p hp)
        (by
          intro s hs
          rw [List.mem_singleton.1 hs, hch2e]
          omega)
        (by
          intro c hc hr hnot
          have : c = osc.1 := by
            by_contra hne
            exact hr (hch2M c hc hne)
          exact absurd (List.mem_singleton.2 this) hnot)
        hfuel
      refine ⟨by rw [b1, m1], ?_, ?_⟩
      · intro s hs
        rw [b3 s hs, hch2N s hs]
      · intro s hs
        have hres : (backwardSearch H
            (match H.backwardTransitions with
              | some backwardTransitions => backwardTransitions
              | none => transposeJoinGroups H.transitionMatrix)
            mec mec.length [osc.1] ch2).getD s 0 ≠ uint64Max := by
          apply mecReaches_resolved H mec _ b5 s osc.1 (hconn s osc.1 hs hMe) hs
          rw [b2 osc.1 (by rw [hch2e]; omega), hch2e]
          omega
        by_cases hc : (backwardSearch H
            (match H.backwardTransitions with
              | some backwardTransitions => backwardTransitions
              | none => transposeJoinGroups H.transitionMatrix)
            mec mec.length [osc.1] ch2).getD s 0 = ch2.getD s 0
        · by_cases hse : s = osc.1
          · rw [hc, hse, hch2e]
            exact hosc
          · rw [hc, hch2M s hs hse] at hres
            exact absurd rfl hres
        · exact b4 s hc

theorem setVectorFold_spec (L : List Nat) (v values : List Nat) (c : Nat) (hnodup : L.Nodup)
    (hlt : ∀ s ∈ L, s < v.length) :
    (L.foldl (fun (acc : List Nat × Nat) position =>
        (acc.1.set position (values.getD acc.2 0), acc.2 + 1)) (v, c)).1.length = v.length ∧
    (∀ j, j < L.length →
      (L.foldl (fun (acc : List Nat × Nat) position =>
        (acc.1.set position (values.getD acc.2 0), acc.2 + 1)) (v, c)).1.getD (L.getD j 0) 0 =
        values.getD (c + j) 0) ∧
    (∀ s, s ∉ L →
      (L.foldl (fun (acc : List Nat × Nat) position =>
        (acc.1.set position (values.getD acc.2 0), acc.2 + 1)) (v, c)).1.getD s 0 =
        v.getD s 0) := by
  induction L generalizing v c with
  | nil => simp
  | cons a L ih =>
    simp only [List.foldl_cons]
    have hnd := List.nodup_cons.1 hnodup
    obtain ⟨h2, h3, h4⟩ := ih (v.set a (values.getD c 0)) (c + 1) hnd.2
      (fun s hs => by rw [List.length_set]; exact hlt s (List.mem_cons_of_mem _ hs))
    refine ⟨by rw [h2]; simp, ?_, ?_⟩
    · intro j hj
      cases j with
      | zero =>
        simp only [List.getD_cons_zero]
        rw [h4 a hnd.1, getD_set_any, if_pos ⟨rfl, hlt a (List.mem_cons_self _ _)⟩]
        rfl
      | succ j =>
        simp only [List.getD_cons_succ]
        rw [h3 j (by simpa using hj)]
        congr 1
        omega
    · intro s hs
      have hsa : s ≠ a := fun h => hs (by rw [h]; exact List.mem_cons_self _ _)
      rw [h4 s (fun h => hs (List.mem_cons_of_mem _ h)), getD_set_any,
        if_neg (fun h => hsa h.1)]

theorem setVectorValues_spec (L : List Nat) (v values : List Nat) (hnodup : L.Nodup)
    (hlt : ∀ s ∈ L, s < v.length) :
    (setVectorValues v L values).length = v.length ∧
    (∀ j, j < L.length → (setVectorValues v L values).getD (L.getD j 0) 0 = values.getD j 0) ∧
    (∀ s, s ∉ L → (setVectorValues v L values).getD s 0 = v.getD s 0) := by
  obtain ⟨h1, h2, h3⟩ := setVectorFold_spec L v values 0 hnodup hlt
  unfold setVectorValues
  refine ⟨h1, ?_, h3⟩
  intro j hj
  rw [h2 j hj, Nat.zero_add]

theorem transposeJoinGroups_backwardComplete (A : SparseMatrix) :
    BackwardComplete A (transposeJoinGroups A) := by
  intro p c hp hc choice hchoice htrans
  obtain ⟨t, ht, ht1, ht2⟩ := htrans
  have hidx : ∀ j, j ≤ A.getRowGroupCount → (transposeJoinGroups A).rowGroupIndex j = j := by
    intro j hj
    unfold SparseMatrix.rowGroupIndex transposeJoinGroups
    simp only []
    rw [List.getD_eq_getElem _ _ (by simp; omega)]
    simp
  have hrows : (transposeJoinGroups A).groupRows c = [c] := by
    unfold SparseMatrix.groupRows
    rw [hidx c (le_of_lt hc), hidx (c + 1) hc]
    simp [List.range']
  refine ⟨(p, t.2), ?_, rfl⟩
  unfold getRowGroup
  rw [hrows]
  simp only [List.map_cons, List.map_nil, List.flatten_cons, List.flatten_nil,
    List.append_nil]
  unfold SparseMatrix.getRow transposeJoinGroups
  simp only []
  rw [List.getD_eq_getElem _ _ (by simp; exact hc)]
  simp only [List.getElem_map, List.getElem_range, List.mem_flatten, List.mem_map,
    List.mem_range]
  refine ⟨_, ⟨p, hp, rfl⟩, ?_⟩
  simp only [List.mem_flatten, List.mem_map]
  refine ⟨_, ⟨choice, hchoice, rfl⟩, ?_⟩
  rw [List.mem_filterMap]
  refine ⟨t, ht, ?_⟩
  unfold SparseMatrix.getRow at ht
  rw [if_pos ⟨ht1, ht2⟩]

theorem mecExitEntries_getD (A : SparseMatrix) (mec : MaximalEndComponent) (c : Nat) :
    ((mecExitEntries A mec).getD c (uint64Max, uint64Max)).1 = uint64Max ∨
    (containsState mec ((mecExitEntries A mec).getD c (uint64Max, uint64Max)).1 = true ∧
      ((mecExitEntries A mec).getD c (uint64Max, uint64Max)).2 <
        (A.groupRows ((mecExitEntries A mec).getD c (uint64Max, uint64Max)).1).length) := by
  by_cases hc : c < (mecExitEntries A mec).length
  · have hmem : (mecExitEntries A mec).getD c (uint64Max, uint64Max) ∈ mecExitEntries A mec := by
      rw [List.getD_eq_getElem _ _ hc]
      exact List.getElem_mem _
    generalize (mecExitEntries A mec).getD c (uint64Max, uint64Max) = entry at hmem ⊢
    unfold mecExitEntries at hmem
    rcases List.mem_append.1 hmem with h | h
    · right
      obtain ⟨sc, hsc, hentry⟩ := List.mem_map.1 h
      unfold mecExitChoices at hsc
      obtain ⟨block, hblock, hin⟩ := List.mem_flatten.1 hsc
      obtain ⟨p, hp, hpblock⟩ := List.mem_map.1 hblock
      rw [← hpblock] at hin
      obtain ⟨choice, hchoice, hpair⟩ := List.mem_map.1 hin
      have hrow : choice ∈ A.groupRows p.1 := (List.mem_filter.1 hchoice).1
      rw [← hentry, ← hpair]
      simp only []
      exact ⟨(containsState_iff mec p.1).2 ⟨p, hp, rfl⟩, mem_groupRows_local A p.1 choice hrow⟩
    · left
      rw [List.mem_singleton.1 h]
  · left
    rw [List.getD_eq_default _ _ (by omega)]

theorem exitEntry_aligned (A : SparseMatrix) (mecs : List MaximalEndComponent) (n : Nat)
    (M : SparseMatrix)
    (hM : M.rowGroupIndices =
      (List.range ((sspGroupSizes A mecs n).length + 1)).map
        (fun g => ((sspGroupSizes A mecs n).take g).sum))
    (k : Nat) (hk : k = (nonMecStates mecs n).length)
    (i c : Nat) (hi : i < mecs.length)
    (hc : c < (M.groupRows (k + i)).length) :
    M.rowGroupIndex (k + i) + c - M.rowGroupIndex k =
      (((mecs.map (mecExitEntries A)).take i).map List.length).sum + c ∧
    c < ((mecs.map (mecExitEntries A)).getD i []).length := by
  subst hk
  have hlen : (sspGroupSizes A mecs n).length = (nonMecStates mecs n).length + mecs.length := by
    simp [sspGroupSizes]
  obtain ⟨g1, g2⟩ := groupRows_of_sizes M (sspGroupSizes A mecs n) hM
    ((nonMecStates mecs n).length + i) (by rw [hlen]; omega)
  obtain ⟨k1, _⟩ := groupRows_of_sizes M (sspGroupSizes A mecs n) hM
    (nonMecStates mecs n).length (by rw [hlen]; omega)
  have htakek : (sspGroupSizes A mecs n).take (nonMecStates mecs n).length =
      (nonMecStates mecs n).map (fun state => (A.groupRows state).length) := by
    unfold sspGroupSizes
    rw [List.take_append_of_le_length (by simp), List.take_of_length_le (by simp)]
  have htake : (sspGroupSizes A mecs n).take ((nonMecStates mecs n).length + i) =
      (nonMecStates mecs n).map (fun state => (A.groupRows state).length) ++
        (mecs.map (fun mec => (mecExitChoices A mec).length + 1)).take i := by
    unfold sspGroupSizes
    have := @List.take_append _
      ((nonMecStates mecs n).map (fun state => (A.groupRows state).length))
      (mecs.map (fun mec => (mecExitChoices A mec).length + 1)) i
    rw [List.length_map] at this
    exact this
  have hgetD : (sspGroupSizes A mecs n).getD ((nonMecStates mecs n).length + i) 0 =
      ((mecs.map (mecExitEntries A)).getD i []).length := by
    unfold sspGroupSizes
    rw [List.getD_eq_getElem?_getD, List.getElem?_append_right (by simp), List.length_map,
      Nat.add_sub_cancel_left, List.getD_eq_getElem _ _ (by simpa using hi),
      List.getElem?_eq_getElem (by simpa using hi)]
    simp [mecExitEntries]
  rw [g2, List.length_range', hgetD] at hc
  refine ⟨?_, hc⟩
  have hsz : ((mecs.map (mecExitEntries A)).take i).map List.length =
      (mecs.take i).map (fun mec => (mecExitChoices A mec).length + 1) := by
    rw [← List.map_take, List.map_map]
    apply List.map_congr_left
    intro mec _
    simp [mecExitEntries]
  rw [g1, k1, htake, htakek, List.sum_append, ← List.map_take, hsz]
  omega

theorem stitchFold_valid (H : SparseNondeterministicInfiniteHorizonHelper) (stateMap : List Nat)
    (k : Nat) (sspMatrix : SparseMatrix) (exitMap : List (Nat × Nat)) (sspChoices : List Nat)
    (hcontract : MecContract H)
    (hback : BackwardComplete H.transitionMatrix
      (match H.backwardTransitions with
        | some backwardTransitions => backwardTransitions
        | none => transposeJoinGroups H.transitionMatrix))
    (hbound : ∀ s, s < H.transitionMatrix.getRowGroupCount →
      (H.transitionMatrix.groupRows s).length ≤ uint64Max)
    (hentry : ∀ mec ∈ H.mecDecomposition,
      (exitMap.getD
        (sspMatrix.rowGroupIndex (stateMap.getD (mec.headD (0, [])).1 0) +
          sspChoices.getD (stateMap.getD (mec.headD (0, [])).1 0) 0 -
          sspMatrix.rowGroupIndex k) (uint64Max, uint64Max)).1 = uint64Max ∨
      (containsState mec (exitMap.getD
        (sspMatrix.rowGroupIndex (stateMap.getD (mec.headD (0, [])).1 0) +
          sspChoices.getD (stateMap.getD (mec.headD (0, [])).1 0) 0 -
          sspMatrix.rowGroupIndex k) (uint64Max, uint64Max)).1 = true ∧
        (exitMap.getD
          (sspMatrix.rowGroupIndex (stateMap.getD (mec.headD (0, [])).1 0) +
            sspChoices.getD (stateMap.getD (mec.headD (0, [])).1 0) 0 -
            sspMatrix.rowGroupIndex k) (uint64Max, uint64Max)).2 <
          (H.transitionMatrix.groupRows (exitMap.getD
            (sspMatrix.rowGroupIndex (stateMap.getD (mec.headD (0, [])).1 0) +
              sspChoices.getD (stateMap.getD (mec.headD (0, [])).1 0) 0 -
              sspMatrix.rowGroupIndex k) (uint64Max, uint64Max)).1).length))
    (L : List MaximalEndComponent) (hL : ∀ mec ∈ L, mec ∈ H.mecDecomposition) (ch : List Nat)
    (hlen : ch.length = H.transitionMatrix.getRowGroupCount)
    (hvalid : ∀ s, s < H.transitionMatrix.getRowGroupCount →
      ch.getD s 0 < (H.transitionMatrix.groupRows s).length) :
    (L.foldl (stitchMec H stateMap k sspMatrix exitMap sspChoices) ch).length =
      H.transitionMatrix.getRowGroupCount ∧
    ∀ s, s < H.transitionMatrix.getRowGroupCount →
      (L.foldl (stitchMec H stateMap k sspMatrix exitMap sspChoices) ch).getD s 0 <
        (H.transitionMatrix.groupRows s).length := by
  induction L generalizing ch with
  | nil => exact ⟨hlen, hvalid⟩
  | cons mec L ih =>
    simp only [List.foldl_cons]
    have hmec : mec ∈ H.mecDecomposition := hL mec (List.mem_cons_self _ _)
    have hstates : ∀ p ∈ mec, p.1 < H.transitionMatrix.getRowGroupCount :=
      fun p hp => hcontract.inRange mec hmec p hp
    obtain ⟨s1, s2, s3⟩ := stitchMec_spec H stateMap k sspMatrix exitMap sspChoices ch mec hback
      hstates (hcontract.choicesOfState mec hmec)
      (fun p hp => hbound p.1 (hstates p hp))
      (hcontract.connected mec hmec)
      (fun p hp => by rw [hlen]; exact hstates p hp)
      (fun s hs => by
        obtain ⟨p, hp, hp1⟩ := (containsState_iff mec s).1 hs
        exact hvalid s (by rw [← hp1]; exact hstates p hp))
      (hentry mec hmec)
    apply ih (fun m hm => hL m (List.mem_cons_of_mem _ hm)) _ (by rw [s1, hlen])
    intro s hs
    cases hc : containsState mec s with
    | true => exact s3 s hc
    | false =>
      rw [s2 s hc]
      exact hvalid s hs

/-- C22: for a decomposition that satisfies the contract of end components, backward
transitions that hold every transition of the matrix, row groups of at most `2^64 - 1` rows and
produced choices with one entry per state in which every state of an end component has a choice
of that state, when a scheduler is requested, the requirements of the solver are met, there is
a value of an end component and the min/max solver returns a scheduler of the reduced system,
`buildAndSolveSsp` returns produced choices with one entry per state in which the entry of
every state is smaller than the number of choices of the state and differs from the
sentinel. -/
theorem buildAndSolveSsp_scheduler_resolved (H : SparseNondeterministicInfiniteHorizonHelper)
    (env : LraEnvironment) (mecLraValues : List ℚ) (produced : List Nat)
    (hscheduler : H.produceScheduler = true)
    (hrequirements : H.sspRequirementsCritical env = false)
    (hvalues : mecLraValues ≠ [])
    (hcontract : MecContract H)
    (hback : BackwardComplete H.transitionMatrix
      (match H.backwardTransitions with
        | some backwardTransitions => backwardTransitions
        | none => transposeJoinGroups H.transitionMatrix))
    (hbound : ∀ s, s < H.transitionMatrix.getRowGroupCount →
      (H.transitionMatrix.groupRows s).length ≤ uint64Max)
    (hlength : produced.length = H.transitionMatrix.getRowGroupCount)
    (hstep2 : ∀ s, s < H.transitionMatrix.getRowGroupCount →
      inSomeMec H.mecDecomposition s = true →
      produced.getD s 0 < (H.transitionMatrix.groupRows s).length)
    (hsolver : SspSchedulerValid H env mecLraValues) :
    ∃ result choices,
      buildAndSolveSsp H env mecLraValues (some produced) = Except.ok (result, some choices) ∧
      choices.length = H.transitionMatrix.getRowGroupCount ∧
      ∀ s, s < H.transitionMatrix.getRowGroupCount →
        choices.getD s 0 < (H.transitionMatrix.groupRows s).length ∧
        choices.getD s 0 ≠ uint64Max := by
  obtain ⟨m1, m2, m3, m4⟩ := inputToSspStateMap_spec H.mecDecomposition
    H.transitionMatrix.getRowGroupCount
  obtain ⟨bs1, bs2⟩ := buildSsp_structure H
    (inputToSspStateMap H.mecDecomposition H.transitionMatrix.getRowGroupCount).1
    (inputToSspStateMap H.mecDecomposition H.transitionMatrix.getRowGroupCount).2 mecLraValues
  rw [hscheduler, if_pos rfl] at bs2
  cases hmin : mecLraValues.min? with
  | none => exact absurd (List.min?_eq_none_iff.1 hmin) hvalues
  | some lower =>
    cases hmax : mecLraValues.max? with
    | none => exact absurd (List.max?_eq_none_iff.1 hmax) hvalues
    | some upper =>
      obtain ⟨sspChoices, hsol, hssp⟩ := hsolver lower upper hmin hmax
      have hsizes : (sspGroupSizes H.transitionMatrix H.mecDecomposition
          H.transitionMatrix.getRowGroupCount).length =
          (nonMecStates H.mecDecomposition H.transitionMatrix.getRowGroupCount).length +
            H.mecDecomposition.length := by
        simp [sspGroupSizes]
      have hnodup : (nonMecStates H.mecDecomposition
          H.transitionMatrix.getRowGroupCount).Nodup := (List.nodup_range _).filter _
      obtain ⟨v1, v2, v3⟩ := setVectorValues_spec
        (nonMecStates H.mecDecomposition H.transitionMatrix.getRowGroupCount) produced
        sspChoices hnodup (fun s hs => by
          rw [hlength]
          exact List.mem_range.1 (List.mem_filter.1 hs).1)
      have hstart : ∀ s, s < H.transitionMatrix.getRowGroupCount →
          (setVectorValues produced
            (nonMecStates H.mecDecomposition H.transitionMatrix.getRowGroupCount)
            sspChoices).getD s 0 < (H.transitionMatrix.groupRows s).length := by
        intro s hs
        cases hin : inSomeMec H.mecDecomposition s with
        | true =>
          have hnot : s ∉ nonMecStates H.mecDecomposition
              H.transitionMatrix.getRowGroupCount := by
            intro h
            have h2 := (List.mem_filter.1 h).2
            simp only [] at h2
            rw [hin] at h2
            exact absurd h2 (by decide)
          rw [v3 s hnot]
          exact hstep2 s hs hin
        | false =>
          have hmem : s ∈ nonMecStates H.mecDecomposition
              H.transitionMatrix.getRowGroupCount :=
            List.mem_filter.2 ⟨List.mem_range.2 hs, by simp [hin]⟩
          obtain ⟨j, hj, hjs⟩ := List.mem_iff_getElem.1 hmem
          have hjD : (nonMecStates H.mecDecomposition
              H.transitionMatrix.getRowGroupCount).getD j 0 = s := by
            rw [List.getD_eq_getElem _ _ hj]
            exact hjs
          have hv := v2 j hj
          rw [hjD] at hv
          rw [hv]
          have hg := hssp j (by rw [m1]; omega)
          obtain ⟨_, g2⟩ := groupRows_of_sizes _ _ bs1 j (by rw [hsizes]; omega)
          rw [g2, List.length_range'] at hg
          have hsz : (sspGroupSizes H.transitionMatrix H.mecDecomposition
              H.transitionMatrix.getRowGroupCount).getD j 0 =
              (H.transitionMatrix.groupRows s).length := by
            unfold sspGroupSizes
            rw [List.getD_eq_getElem?_getD, List.getElem?_append_left (by simpa using hj),
              List.getElem?_map, List.getElem?_eq_getElem hj, hjs]
            rfl
          rw [hsz] at hg
          exact hg
      have hentry : ∀ mec ∈ H.mecDecomposition,
          (((H.mecDecomposition.map (mecExitEntries H.transitionMatrix)).flatten).getD
            ((buildSsp H
              (inputToSspStateMap H.mecDecomposition H.transitionMatrix.getRowGroupCount).1
              (gatherMecStates H.mecDecomposition H.transitionMatrix.getRowGroupCount).1
              (inputToSspStateMap H.mecDecomposition H.transitionMatrix.getRowGroupCount).2
              mecLraValues).build.rowGroupIndex
                ((inputToSspStateMap H.mecDecomposition
                  H.transitionMatrix.getRowGroupCount).1.getD (mec.headD (0, [])).1 0) +
              sspChoices.getD ((inputToSspStateMap H.mecDecomposition
                H.transitionMatrix.getRowGroupCount).1.getD (mec.headD (0, [])).1 0) 0 -
              (buildSsp H
                (inputToSspStateMap H.mecDecomposition H.transitionMatrix.getRowGroupCount).1
                (gatherMecStates H.mecDecomposition H.transitionMatrix.getRowGroupCount).1
                (inputToSspStateMap H.mecDecomposition H.transitionMatrix.getRowGroupCount).2
                mecLraValues).build.rowGroupIndex
                  (inputToSspStateMap H.mecDecomposition
                    H.transitionMatrix.getRowGroupCount).2)
            (uint64Max, uint64Max)).1 = uint64Max ∨
          (containsState mec
            (((H.mecDecomposition.map (mecExitEntries H.transitionMatrix)).flatten).getD
            ((buildSsp H
              (inputToSspStateMap H.mecDecomposition H.transitionMatrix.getRowGroupCount).1
              (gatherMecStates H.mecDecomposition H.transitionMatrix.getRowGroupCount).1
              (inputToSspStateMap H.mecDecomposition H.transitionMatrix.getRowGroupCount).2
              mecLraValues).build.rowGroupIndex
                ((inputToSspStateMap H.mecDecomposition
                  H.transitionMatrix.getRowGroupCount).1.getD (mec.headD (0, [])).1 0) +
              sspChoices.getD ((inputToSspStateMap H.mecDecomposition
                H.transitionMatrix.getRowGroupCount).1.getD (mec.headD (0, [])).1 0) 0 -
              (buildSsp H
                (inputToSspStateMap H.mecDecomposition H.transitionMatrix.getRowGroupCount).1
                (gatherMecStates H.mecDecomposition H.transitionMatrix.getRowGroupCount).1
                (inputToSspStateMap H.mecDecomposition H.transitionMatrix.getRowGroupCount).2
                mecLraValues).build.rowGroupIndex
                  (inputToSspStateMap H.mecDecomposition
                    H.transitionMatrix.getRowGroupCount).2)
            (uint64Max, uint64Max)).1 = true ∧
          (((H.mecDecomposition.map (mecExitEntries H.transitionMatrix)).flatten).getD
            ((buildSsp H
              (inputToSspStateMap H.mecDecomposition H.transitionMatrix.getRowGroupCount).1
              (gatherMecStates H.mecDecomposition H.transitionMatrix.getRowGroupCount).1
              (inputToSspStateMap H.mecDecomposition H.transitionMatrix.getRowGroupCount).2
              mecLraValues).build.rowGroupIndex
                ((inputToSspStateMap H.mecDecomposition
                  H.transitionMatrix.getRowGroupCount).1.getD (mec.headD (0, [])).1 0) +
              sspChoices.getD ((inputToSspStateMap H.mecDecomposition
                H.transitionMatrix.getRowGroupCount).1.getD (mec.headD (0, [])).1 0) 0 -
              (buildSsp H
                (inputToSspStateMap H.mecDecomposition H.transitionMatrix.getRowGroupCount).1
                (gatherMecStates H.mecDecomposition H.transitionMatrix.getRowGroupCount).1
                (inputToSspStateMap H.mecDecomposition H.transitionMatrix.getRowGroupCount).2
                mecLraValues).build.rowGroupIndex
                  (inputToSspStateMap H.mecDecomposition
                    H.transitionMatrix.getRowGroupCount).2)
            (uint64Max, uint64Max)).2 <
          (H.transitionMatrix.groupRows
            (((H.mecDecomposition.map (mecExitEntries H.transitionMatrix)).flatten).getD
            ((buildSsp H
              (inputToSspStateMap H.mecDecomposition H.transitionMatrix.getRowGroupCount).1
              (gatherMecStates H.mecDecomposition H.transitionMatrix.getRowGroupCount).1
              (inputToSspStateMap H.mecDecomposition H.transitionMatrix.getRowGroupCount).2
              mecLraValues).build.rowGroupIndex
                ((inputToSspStateMap H.mecDecomposition
                  H.transitionMatrix.getRowGroupCount).1.getD (mec.headD (0, [])).1 0) +
              sspChoices.getD ((inputToSspStateMap H.mecDecomposition
                H.transitionMatrix.getRowGroupCount).1.getD (mec.headD (0, [])).1 0) 0 -
              (buildSsp H
                (inputToSspStateMap H.mecDecomposition H.transitionMatrix.getRowGroupCount).1
                (gatherMecStates H.mecDecomposition H.transitionMatrix.getRowGroupCount).1
                (inputToSspStateMap H.mecDecomposition H.transitionMatrix.getRowGroupCount).2
                mecLraValues).build.rowGroupIndex
                  (inputToSspStateMap H.mecDecomposition
                    H.transitionMatrix.getRowGroupCount).2)
            (uint64Max, uint64Max)).1).length) := by
        intro mec hmec
        obtain ⟨i, hi, him⟩ := List.mem_iff_getElem.1 hmec
        have hiD : H.mecDecomposition.getD i [] = mec := by
          rw [List.getD_eq_getElem _ _ hi]
          exact him
        obtain ⟨p0, rest, hm⟩ := List.exists_cons_of_ne_nil (hcontract.nonEmpty mec hmec)
        have hhead : (mec.headD (0, [])).1 = p0.1 := by rw [hm]; rfl
        have hp0 : p0 ∈ mec := by rw [hm]; exact List.mem_cons_self _ _
        have hc0 : containsState (H.mecDecomposition.getD i []) p0.1 = true := by
          rw [hiD]
          exact (containsState_iff mec p0.1).2 ⟨p0, hp0, rfl⟩
        have hmap := m4 p0.1 i (hcontract.inRange mec hmec p0 hp0) hi hc0 hcontract.disjoint
        rw [← m1] at hmap
        rw [hhead, hmap]
        have hg := hssp ((inputToSspStateMap H.mecDecomposition
          H.transitionMatrix.getRowGroupCount).2 + i) (by omega)
        obtain ⟨e1, e2⟩ := exitEntry_aligned H.transitionMatrix H.mecDecomposition
          H.transitionMatrix.getRowGroupCount _ bs1 _ m1 i _ hi hg
        have hblock : (H.mecDecomposition.map (mecExitEntries H.transitionMatrix)).getD i [] =
            mecExitEntries H.transitionMatrix mec := by
          rw [List.getD_eq_getElem _ _ (by simpa using hi), List.getElem_map, him]
        rw [e1, flatten_getD _ i _ _ (by simpa using hi) e2, hblock]
        exact mecExitEntries_getD H.transitionMatrix mec _
      rw [← bs2] at hentry
      obtain ⟨f1, f2⟩ := stitchFold_valid H _ _ _ _ sspChoices hcontract hback hbound hentry
        H.mecDecomposition (fun _ h => h) _ (by rw [v1, hlength]) hstart
      refine ⟨?result, ?choices, ?eq, ?len, ?val⟩
      case eq =>
        unfold buildAndSolveSsp
        rw [hscheduler] at hsol
        simp only [hrequirements, Bool.false_eq_true, if_false, hmin, hmax, hscheduler, if_true,
          hsol, statesNotContainedInAnyMec_eq]
        exact rfl
      case len => exact f1
      case val =>
        intro s hs
        have h1 := f2 s hs
        have h2 := hbound s hs
        exact ⟨h1, by omega⟩

theorem exitHelper_contract : MecContract exitHelper := by
  refine ⟨by decide, ?_, ?_, by decide, by decide, ?_⟩
  · unfold MecStatesInRange
    decide
  · intro i j s hi hj h1 h2
    have hi' : i < 2 := hi
    have hj' : j < 2 := hj
    interval_cases i <;> interval_cases j <;>
      simp [exitHelper, containsState] at h1 h2 <;> omega
  · intro mec hmec s t hs ht
    have hmecs : mec = [(0, [0]), (1, [1])] ∨ mec = [(2, [3])] := by
      simpa [exitHelper] using hmec
    have h01 : HasMecEdge exitHelper [(0, [0]), (1, [1])] 0 1 := by
      unfold HasMecEdge
      decide!
    have h10 : HasMecEdge exitHelper [(0, [0]), (1, [1])] 1 0 := by
      unfold HasMecEdge
      decide!
    rcases hmecs with h | h
    · subst h
      have hs' : s = 0 ∨ s = 1 := by
        simp [containsState] at hs
        omega
      have ht' : t = 0 ∨ t = 1 := by
        simp [containsState] at ht
        omega
      rcases hs' with h1 | h1 <;> rcases ht' with h2 | h2 <;> subst h1 <;> subst h2
      · exact MecReaches.refl 0
      · exact MecReaches.step 0 1 1 (by decide) h01 (MecReaches.refl 1)
      · exact MecReaches.step 1 0 0 (by decide) h10 (MecReaches.refl 0)
      · exact MecReaches.refl 1
    · subst h
      have hs' : s = 2 := by
        simp [containsState] at hs
        omega
      have ht' : t = 2 := by
        simp [containsState] at ht
        omega
      subst hs'
      subst ht'
      exact MecReaches.refl 2

theorem exitHelper_solver : SspSchedulerValid exitHelper plainLraEnvironment [1, 2] := by
  intro lower upper _ _
  refine ⟨[0, 0, 0], rfl, ?_⟩
  intro g hg
  have hk : (inputToSspStateMap exitHelper.mecDecomposition
      exitHelper.transitionMatrix.getRowGroupCount).2 + exitHelper.mecDecomposition.length =
      3 := by decide
  rw [hk] at hg
  interval_cases g <;> decide!

/-- Witness of C22 on the system with four states, where the scheduler of the reduced system
leaves the end component of the first two states through the second state: the routine returns
the produced choices `[0, 1, 0, 0]`, in which the first state moves to the second one and the
second state takes its second choice. -/
theorem buildAndSolveSsp_scheduler_resolved_witness :
    buildAndSolveSsp exitHelper plainLraEnvironment [1, 2] (some [0, 0, 0, 0]) =
      Except.ok ([2, 2, 2, 2], some [0, 1, 0, 0]) ∧
    ∃ result choices,
      buildAndSolveSsp exitHelper plainLraEnvironment [1, 2] (some [0, 0, 0, 0]) =
        Except.ok (result, some choices) ∧
      choices.length = exitHelper.transitionMatrix.getRowGroupCount ∧
      ∀ s, s < exitHelper.transitionMatrix.getRowGroupCount →
        choices.getD s 0 < (exitHelper.transitionMatrix.groupRows s).length ∧
        choices.getD s 0 ≠ uint64Max :=
  ⟨by decide!,
    buildAndSolveSsp_scheduler_resolved exitHelper plainLraEnvironment [1, 2] [0, 0, 0, 0] rfl
      rfl (List.cons_ne_nil _ _) exitHelper_contract
      (transposeJoinGroups_backwardComplete exitMatrix)
      (fun s hs => by
        have hs' : s < 4 := hs
        interval_cases s <;> decide)
      rfl
      (fun s hs _ => by
        have hs' : s < 4 := hs
        interval_cases s <;> decide)
      exitHelper_solver⟩

/-! ## Requirements, single row groups, method of an end component, game scheduler -/

/-- C32: when `getMethod` yields rational search, `getRequirements` returns the requirements of
the linear-equation solver with "lower bounds" added for every direction, and with "no end
components" added exactly when the solution is not marked unique and the direction is unknown or
Minimize or scheduler tracking is on; when `getMethod` yields policy iteration, it adds "valid
initial scheduler" exactly when the solution is not marked unique, and nothing else.  For a
linear-equation solver without requirements the added requirements are the reported ones. -/
theorem getRequirements_rationalSearch_policyIteration (S : Solver) (env : MethodEnvironment)
    (isExact : Bool) (linear : MinMaxLinearEquationSolverRequirements)
    (direction : Option OptimizationDirection) :
    (getMethod env isExact = Except.ok MinMaxMethod.RationalSearch →
      getRequirements S env isExact linear direction =
        Except.ok
          { linear with
            lowerBounds := true
            noEndComponents := linear.noEndComponents ||
              (!S.uniqueSolution && decide (direction = none ∨
                direction = some OptimizationDirection.Minimize ∨ S.trackScheduler = true)) }) ∧
    (getMethod env isExact = Except.ok MinMaxMethod.PolicyIteration →
      getRequirements S env isExact linear direction =
        Except.ok
          { linear with
            validInitialScheduler := linear.validInitialScheduler || !S.uniqueSolution }) ∧
    (getMethod env isExact = Except.ok MinMaxMethod.RationalSearch →
      ∃ r, getRequirements S env isExact noRequirements direction = Except.ok r ∧
        r.lowerBounds = true ∧ r.upperBounds = false ∧ r.validInitialScheduler = false ∧
        (r.noEndComponents = true ↔
          S.uniqueSolution = false ∧ (direction = none ∨
            direction = some OptimizationDirection.Minimize ∨ S.trackScheduler = true))) ∧
    (getMethod env isExact = Except.ok MinMaxMethod.PolicyIteration →
      ∃ r, getRequirements S env isExact noRequirements direction = Except.ok r ∧
        r.lowerBounds = false ∧ r.upperBounds = false ∧ r.noEndComponents = false ∧
        (r.validInitialScheduler = true ↔ S.uniqueSolution = false)) := by
  obtain ⟨nec, vis, lb, ub⟩ := linear
  refine ⟨?_, ?_, ?_, ?_⟩
  · intro hmethod
    cases hu : S.uniqueSolution <;> cases ht : S.trackScheduler <;>
      rcases direction with _ | (_ | _) <;>
      simp [getRequirements, hmethod, hu, ht,
        MinMaxLinearEquationSolverRequirements.requireLowerBounds,
        MinMaxLinearEquationSolverRequirements.requireNoEndComponents]
  · intro hmethod
    cases hu : S.uniqueSolution <;>
      simp [getRequirements, hmethod, hu,
        MinMaxLinearEquationSolverRequirements.requireValidInitialScheduler]
  · intro hmethod
    cases hu : S.uniqueSolution <;> cases ht : S.trackScheduler <;>
      rcases direction with _ | (_ | _) <;>
      simp [getRequirements, hmethod, hu, ht, noRequirements,
        MinMaxLinearEquationSolverRequirements.requireLowerBounds,
        MinMaxLinearEquationSolverRequirements.requireNoEndComponents]
  · intro hmethod
    cases hu : S.uniqueSolution <;>
      simp [getRequirements, hmethod, hu, noRequirements,
        MinMaxLinearEquationSolverRequirements.requireValidInitialScheduler]

/-- Evaluation for C32 on the solver without the mark of a unique solution: rational search
chosen explicitly requires a lower bound and the absence of end components also for Maximize
with scheduler tracking off only the lower bound, and policy iteration requires a valid initial
scheduler. -/
theorem getRequirements_rationalSearch_example :
    getRequirements unboundedSolver explicitRationalSearch false noRequirements
      (some OptimizationDirection.Minimize) =
      Except.ok { noRequirements with lowerBounds := true, noEndComponents := true } ∧
    getRequirements unboundedSolver explicitRationalSearch false noRequirements
      (some OptimizationDirection.Maximize) =
      Except.ok { noRequirements with lowerBounds := true } ∧
    getRequirements unboundedSolver explicitPolicyIteration false noRequirements
      (some OptimizationDirection.Maximize) =
      Except.ok { noRequirements with validInitialScheduler := true } := by
  decide

/-- C33, evaluation: on the state with the rows `b = 1` without successors and
`1/2 * x[0] + 3/4`, maximising from `x = [0]`, the one-step values under the vector on entry are
`1` and `3/4`, whose optimum `1` is attained by the first row, but
`computeOptimalValueForRowGroup` evaluates the second row with `x[0]` already replaced by `1`,
sets `x[0]` to `5/4` and reports the local index `1`. -/
theorem computeOptimalValueForRowGroup_self_loop :
    loopChoiceMatrix.groupValues [0] [1, 3 / 4] 0 = [1, 3 / 4] ∧
    reduceGroup OptimizationDirection.Maximize (loopChoiceMatrix.groupValues [0] [1, 3 / 4] 0) =
      1 ∧
    computeOptimalValueForRowGroup loopChoiceMatrix 0 OptimizationDirection.Maximize [0]
      [1, 3 / 4] = some ([5 / 4], 1) ∧
    (multiplyAndReduce OptimizationDirection.Maximize loopChoiceMatrix [0] [1, 3 / 4]) = [1] := by
  refine ⟨?_, ?_, ?_, ?_⟩ <;> decide!

/-- C38, evaluation: with the exact value type, forced soundness and linear programming as the
method set from the default, the first test of `computeLraForMec` does not fire because the
method already is linear programming, the second one then replaces it by value iteration: for
the end component of the two states that move to each other `computeLraForMec` runs
`computeLraForMecVi` and returns its value, where `computeLraForMecLp` would have refused the
requested scheduler. -/
theorem computeLraForMec_exact_sound_runs_vi :
    swapHelper.isExact = true ∧ exactSoundLraEnvironment.nondetLraMethodSetFromDefault = true ∧
    exactSoundLraEnvironment.nondetLraMethod = LraMethod.LinearProgramming ∧
    selectedLraMethod swapHelper exactSoundLraEnvironment = LraMethod.ValueIteration ∧
    computeLraForMec swapHelper exactSoundLraEnvironment (some (fun _ => 1)) (some (fun _ => 0))
      [(0, [0]), (1, [1])] (some [0, 0]) =
      computeLraForMecVi swapHelper exactSoundLraEnvironment (some (fun _ => 1))
        (some (fun _ => 0)) [(0, [0]), (1, [1])] (some [0, 0]) ∧
    computeLraForMec swapHelper exactSoundLraEnvironment (some (fun _ => 1)) (some (fun _ => 0))
      [(0, [0]), (1, [1])] (some [0, 0]) = Except.ok (0, some [0, 0]) ∧
    (computeLraForMecLp swapHelper (some (fun _ => 1)) (some (fun _ => 0))
      [(0, [0]), (1, [1])]) = Except.error HelperFailure.NotImplementedException := by
  refine ⟨rfl, rfl, rfl, ?_, ?_, ?_, ?_⟩ <;> decide!

/-- C40, evaluation: for a game with two states of which the first is in `psiStates`, and the
scheduler `[5, 7]` of the value-iteration helper on the whole transition matrix,
`computeNextProbabilities` returns the scheduler `[0, 5]`: the second state, which is not in
`psiStates`, gets the choice `5` that the helper selected for the first state instead of its own
choice `7`.  For `computeUntilProbabilities`, where the scheduler of the helper has one entry per
state of `phiStates & ~psiStates`, the same expansion gives the second state the first choice
of the helper. -/
theorem computeNextProbabilities_scheduler_shifted :
    (computeNextProbabilities 2 [true, false] true [1, 0] [5, 7]).2 = some [0, 5] ∧
    ((computeNextProbabilities 2 [true, false] true [1, 0] [5, 7]).2.getD []).getD 1 0 ≠
      ([5, 7] : List Nat).getD 1 0 ∧
    (computeUntilProbabilities [true, true] [true, false] true [1, 0] [7]).2 = some [0, 7] := by
  refine ⟨?_, ?_, ?_⟩ <;> decide

/-! ## Constraints of the linear program -/

theorem mapM_except_eq_map {α β : Type} (f : α → Except HelperFailure β) (g : α → β)
    (l : List α) (h : ∀ a ∈ l, f a = Except.ok (g a)) : l.mapM f = Except.ok (l.map g) := by
  induction l with
  | nil => rfl
  | cons a l ih =>
    rw [List.mapM_cons, h a (List.mem_cons_self _ _),
      ih (fun c hc => h c (List.mem_cons_of_mem _ hc))]
    rfl

theorem lpConstraint_eq_spec (H : SparseNondeterministicInfiniteHorizonHelper)
    (stateReward actionReward : Nat → ℚ) (mec : MaximalEndComponent) (state choice : Nat)
    (hclosed : ∀ element ∈ H.transitionMatrix.getRow choice,
      containsState mec element.1 = true) :
    lpConstraint H (some stateReward) (some actionReward) mec state choice =
      Except.ok (specLpConstraint
        (decide (H.optimizationDirection = OptimizationDirection.Minimize))
        (stateIsMarkovian H state) (isContinuousTime H) (exitRateOf H state)
        (stateReward state) (actionReward choice) (H.transitionMatrix.getRow choice)
        state choice) := by
  unfold lpConstraint
  have hall : (H.transitionMatrix.getRow choice).all
      (fun element => containsState mec element.1) = true := by
    rw [List.all_eq_true]
    exact hclosed
  simp only [hall, if_true, callGetter]
  unfold specLpConstraint stateIsMarkovian exitRateOf isContinuousTime
  rcases hme : H.markovianStatesAndExitRates with _ | ⟨m, e⟩
  · simp [Except.bind, Except.map, bind, Functor.map]
  · by_cases hm : m[state]?.getD false = true
    · simp [hm, Except.bind, Except.map, bind, Functor.map, neg_div]
    · simp [hm, Except.bind, Except.map, bind, Functor.map]

/-- C39: for an end component whose allowed choices lead only to its states, with callable
reward getters, `computeLraForMecLp` hands to the LP solver the direction opposite to that of the
helper, one variable per state of the end component (next to `k`), and exactly the constraints of
the specification, one per state and allowed choice: `x_s ≤ R` when minimizing and `x_s ≥ R`
when maximizing, with `R = T + Σ P * x + V` where `T = -k / exitRate` and
`V = stateReward / exitRate + actionReward` for a Markovian state, `T = -k` and
`V = stateReward + actionReward` in discrete time, and no `T` and `V = actionReward` for the
other states of a continuous-time model.  The value of `k` is returned unless a scheduler is
requested. -/
theorem computeLraForMecLp_constraints (H : SparseNondeterministicInfiniteHorizonHelper)
    (stateReward actionReward : Nat → ℚ) (mec : MaximalEndComponent)
    (hclosed : ∀ stateChoicesPair ∈ mec, ∀ choice ∈ stateChoicesPair.2,
      ∀ element ∈ H.transitionMatrix.getRow choice, containsState mec element.1 = true) :
    computeLraForMecLp H (some stateReward) (some actionReward) mec =
      (if H.produceScheduler = true then Except.error HelperFailure.NotImplementedException
       else Except.ok (H.lpOptimize (invert H.optimizationDirection)
        (mec.map (fun stateChoicesPair => stateChoicesPair.1))
        (specLpConstraints H stateReward actionReward mec))) ∧
    invert H.optimizationDirection ≠ H.optimizationDirection ∧
    (specLpConstraints H stateReward actionReward mec).length =
      (mec.map (fun stateChoicesPair => stateChoicesPair.2.length)).sum := by
  refine ⟨?_, ?_, ?_⟩
  · unfold computeLraForMecLp
    rw [mapM_except_eq_map _
      (fun (stateChoicesPair : Nat × List Nat) =>
        stateChoicesPair.2.map (fun choice =>
          specLpConstraint (decide (H.optimizationDirection = OptimizationDirection.Minimize))
            (stateIsMarkovian H stateChoicesPair.1) (isContinuousTime H)
            (exitRateOf H stateChoicesPair.1) (stateReward stateChoicesPair.1)
            (actionReward choice) (H.transitionMatrix.getRow choice) stateChoicesPair.1 choice))
      mec (fun p hp => mapM_except_eq_map _ _ _ (fun c hc =>
        lpConstraint_eq_spec H stateReward actionReward mec p.1 c (hclosed p hp c hc)))]
    rfl
  · cases H.optimizationDirection <;> simp [invert]
  · unfold specLpConstraints
    rw [List.length_flatten, List.map_map]
    congr 1
    apply List.map_congr_left
    intro p _
    simp

/-- Witness of C39 on the two states that move to each other in continuous time, with state
reward `3`, action reward `1` and minimization: the constraint of the Markovian state with exit
rate two is `x_0 ≤ -k / 2 + x_1 + 5 / 2`, that of the other state is `x_1 ≤ x_0 + 1`. -/
theorem computeLraForMecLp_constraints_witness :
    (∀ stateChoicesPair ∈ [(0, [0]), (1, [1])], ∀ choice ∈ stateChoicesPair.2,
      ∀ element ∈ markovSwapHelper.transitionMatrix.getRow choice,
        containsState [(0, [0]), (1, [1])] element.1 = true) ∧
    specLpConstraints markovSwapHelper (fun _ => 3) (fun _ => 1) [(0, [0]), (1, [1])] =
      [{ state := 0, choice := 0, kCoefficient := -1 / 2, successors := [(1, 1)],
          constant := 5 / 2, lessOrEqual := true },
        { state := 1, choice := 1, kCoefficient := 0, successors := [(0, 1)],
          constant := 1, lessOrEqual := true }] ∧
    computeLraForMecLp markovSwapHelper (some (fun _ => 3)) (some (fun _ => 1))
      [(0, [0]), (1, [1])] = Except.ok (7 / 2) :=
  ⟨by decide, by decide!,
    (computeLraForMecLp_constraints markovSwapHelper (fun _ => 3) (fun _ => 1)
      [(0, [0]), (1, [1])] (by decide)).1.trans (by decide!)⟩

/-! ## Precision tightening in rational search -/

theorem sharpenFrom_tried {I : Type} (kmSharpen : Nat → List I → Option (List ℚ))
    (dir : OptimizationDirection) (A : SparseMatrix) (x : List I) (b : List ℚ) :
    ∀ (n p : Nat) (tmp : List ℚ) (found : Bool) (tmp' : List ℚ),
      sharpenFrom kmSharpen dir A x b n p tmp = some (found, tmp') →
      (found = true → ∃ q, p ≤ q ∧ q < p + n ∧ kmSharpen q x = some tmp' ∧
        isSolution dir A tmp' b = true) ∧
      (found = false → ∀ q, p ≤ q → q < p + n →
        ∃ v, kmSharpen q x = some v ∧ isSolution dir A v b = false) := by
  intro n
  induction n with
  | zero =>
    intro p tmp found tmp' h
    simp only [sharpenFrom, Option.some.injEq, Prod.mk.injEq] at h
    refine ⟨fun hf => ?_, fun _ q h1 h2 => by omega⟩
    rw [← h.1] at hf
    exact absurd hf (by decide)
  | succ n ih =>
    intro p tmp found tmp' h
    unfold sharpenFrom at h
    cases hk : kmSharpen p x with
    | none => simp [hk] at h
    | some v =>
      simp only [hk] at h
      by_cases hs : isSolution dir A v b = true
      · rw [if_pos hs] at h
        simp only [Option.some.injEq, Prod.mk.injEq] at h
        refine ⟨fun _ => ⟨p, le_refl _, by omega, ?_, ?_⟩, fun hf => ?_⟩
        · rw [hk, h.2]
        · rw [← h.2]; exact hs
        · rw [← h.1] at hf
          exact absurd hf (by decide)
      · rw [if_neg hs] at h
        obtain ⟨h1, h2⟩ := ih (p + 1) v found tmp' h
        refine ⟨fun hf => ?_, fun hf q hq1 hq2 => ?_⟩
        · obtain ⟨q, hq1, hq2, hq3⟩ := h1 hf
          exact ⟨q, by omega, by omega, hq3⟩
        · by_cases hqp : q = p
          · subst hqp
            exact ⟨v, hk, by simpa using hs⟩
          · exact h2 hf q (by omega) (by omega)

theorem valueIterationLoop_iterations (S : Solver) (env : Environment)
    (dir : OptimizationDirection) (b : List ℚ) (precision : ℚ) (relative : Bool)
    (guarantee : SolverGuarantee) (maximalNumberOfIterations : Nat)
    (useGaussSeidelMultiplication : Bool) (fuel : Nat) (st : ValueIterationState) :
    st.iterations ≤ (valueIterationLoop S env dir b precision relative guarantee
        maximalNumberOfIterations useGaussSeidelMultiplication fuel st).iterations ∧
    (valueIterationLoop S env dir b precision relative guarantee maximalNumberOfIterations
      useGaussSeidelMultiplication fuel st).iterations ≤ st.iterations + fuel ∧
    (st.status = SolverStatus.InProgress → 1 ≤ fuel →
      st.iterations + 1 ≤ (valueIterationLoop S env dir b precision relative guarantee
        maximalNumberOfIterations useGaussSeidelMultiplication fuel st).iterations) := by
  induction fuel generalizing st with
  | zero => exact ⟨le_refl _, le_refl _, fun _ h => by omega⟩
  | succ fuel ih =>
    unfold valueIterationLoop
    by_cases hs : st.status = SolverStatus.InProgress
    · rw [if_pos hs]
      have hit : (valueIterationStep S env dir b precision relative guarantee
          maximalNumberOfIterations useGaussSeidelMultiplication st).iterations =
          st.iterations + 1 := rfl
      obtain ⟨h1, h2, _⟩ := ih (valueIterationStep S env dir b precision relative guarantee
          maximalNumberOfIterations useGaussSeidelMultiplication st)
      rw [hit] at h1 h2
      exact ⟨by omega, by omega, fun _ _ => h1⟩
    · rw [if_neg hs]
      exact ⟨le_refl _, by omega, fun h => absurd h hs⟩

theorem performValueIteration_iterations (S : Solver) (env : Environment)
    (dir : OptimizationDirection) (bufs : Buffers) (currentX newX : Buf) (b : List ℚ)
    (precision : ℚ) (relative : Bool) (guarantee : SolverGuarantee)
    (currentIterations maximalNumberOfIterations : Nat) (style : MultiplicationStyle)
    (hlt : currentIterations < maximalNumberOfIterations) :
    currentIterations + 1 ≤ (performValueIteration S env dir bufs currentX newX b precision
      relative guarantee currentIterations maximalNumberOfIterations style).iterations ∧
    (performValueIteration S env dir bufs currentX newX b precision relative guarantee
      currentIterations maximalNumberOfIterations style).iterations ≤
        maximalNumberOfIterations := by
  unfold performValueIteration
  simp only []
  have hfuel : max 1 (maximalNumberOfIterations - currentIterations) =
      maximalNumberOfIterations - currentIterations := max_eq_right (by omega)
  rw [hfuel]
  obtain ⟨_, h2, h3⟩ := valueIterationLoop_iterations S env dir b precision relative guarantee
    maximalNumberOfIterations
    (S.supportsGaussSeidelMultiplication && decide (style = MultiplicationStyle.GaussSeidel))
    (maximalNumberOfIterations - currentIterations)
    { bufs := bufs, currentX := currentX, newX := newX, iterations := currentIterations,
      status := SolverStatus.InProgress }
  have h3' := h3 rfl (by omega)
  simp only [] at h2 h3'
  split_ifs
  · exact ⟨h3', by simp only []; omega⟩
  · exact ⟨h3', by omega⟩

theorem exactSearchLoop_succ (S : Solver) (kmSharpen : Nat → List ℚ → Option (List ℚ))
    (env : Environment) (dir : OptimizationDirection) (b : List ℚ) (fuel : Nat)
    (st : ExactSearchState) :
    exactSearchLoop S kmSharpen env dir b (fuel + 1) st =
      if st.status = SolverStatus.InProgress ∧
          st.overallIterations < env.maximalNumberOfIterations then
        (exactSearchRound S kmSharpen env dir b st).bind
          (exactSearchLoop S kmSharpen env dir b fuel)
      else some st := by
  rw [exactSearchLoop]
  unfold exactSearchRound exactSearchIteration
  by_cases hc : st.status = SolverStatus.InProgress ∧
      st.overallIterations < env.maximalNumberOfIterations
  · rw [if_pos hc, if_pos hc]
    simp only []
    split <;> rfl
  · rw [if_neg hc, if_neg hc]

theorem exactSearchLoop_succ_right (S : Solver) (kmSharpen : Nat → List ℚ → Option (List ℚ))
    (env : Environment) (dir : OptimizationDirection) (b : List ℚ) (fuel : Nat)
    (st : ExactSearchState) :
    exactSearchLoop S kmSharpen env dir b (fuel + 1) st =
      (exactSearchLoop S kmSharpen env dir b fuel st).bind (fun s =>
        if s.status = SolverStatus.InProgress ∧
            s.overallIterations < env.maximalNumberOfIterations then
          exactSearchRound S kmSharpen env dir b s
        else some s) := by
  induction fuel generalizing st with
  | zero =>
    rw [exactSearchLoop_succ]
    simp only [exactSearchLoop, Option.some_bind]
    split_ifs
    · exact Option.bind_some _
    · rfl
  | succ fuel ih =>
    rw [exactSearchLoop_succ]
    by_cases hc : st.status = SolverStatus.InProgress ∧
        st.overallIterations < env.maximalNumberOfIterations
    · rw [if_pos hc]
      conv_rhs => rw [exactSearchLoop_succ, if_pos hc]
      rw [Option.bind_assoc]
      congr 1
      funext s
      exact ih s
    · rw [if_neg hc]
      conv_rhs => rw [exactSearchLoop_succ, if_neg hc]
      rw [Option.some_bind, if_neg hc]

theorem exactSearchRound_spec (S : Solver) (kmSharpen : Nat → List ℚ → Option (List ℚ))
    (env : Environment) (dir : OptimizationDirection) (b : List ℚ) (st st' : ExactSearchState)
    (hptr : st.currentX = Buf.aux ∧ st.newX = Buf.x)
    (hcont : st.status = SolverStatus.InProgress ∧
      st.overallIterations < env.maximalNumberOfIterations)
    (h : exactSearchRound S kmSharpen env dir b st = some st') :
    (st'.currentX = Buf.aux ∧ st'.newX = Buf.x) ∧
    st'.overallIterations = (exactSearchIteration S env dir b st).iterations ∧
    st.overallIterations + 1 ≤ st'.overallIterations ∧
    st'.overallIterations ≤ env.maximalNumberOfIterations ∧
    ((st'.status = SolverStatus.Converged ∧ st'.precision = st.precision ∧
        ∃ p, p ≤ sharpenDigits st.precision ∧ ∃ v,
          kmSharpen p ((exactSearchIteration S env dir b st).bufs.get
            (exactSearchIteration S env dir b st).currentX) = some v ∧
          isSolution dir S.A v b = true) ∨
      (st'.status = SolverStatus.InProgress ∧ st'.precision = st.precision / 10 ∧
        st'.bufs.get st'.currentX = (exactSearchIteration S env dir b st).bufs.get
          (exactSearchIteration S env dir b st).currentX ∧
        ∀ p, p ≤ sharpenDigits st.precision → ∃ v,
          kmSharpen p ((exactSearchIteration S env dir b st).bufs.get
            (exactSearchIteration S env dir b st).currentX) = some v ∧
          isSolution dir S.A v b = false)) := by
  have hptr' := performValueIteration_pointers S env dir st.bufs st.currentX st.newX b
    st.precision env.relativeTerminationCriterion SolverGuarantee.LessOrEqual
    st.overallIterations env.maximalNumberOfIterations env.multiplicationStyle
    (by rw [hptr.1, hptr.2]; decide)
  have hit := performValueIteration_iterations S env dir st.bufs st.currentX st.newX b
    st.precision env.relativeTerminationCriterion SolverGuarantee.LessOrEqual
    st.overallIterations env.maximalNumberOfIterations env.multiplicationStyle hcont.2
  unfold exactSearchRound at h
  change (performValueIteration S env dir st.bufs st.currentX st.newX b
    st.precision env.relativeTerminationCriterion SolverGuarantee.LessOrEqual
    st.overallIterations env.maximalNumberOfIterations env.multiplicationStyle).currentX = _ ∧ _
    at hptr'
  change st.overallIterations + 1 ≤ (exactSearchIteration S env dir b st).iterations ∧
    (exactSearchIteration S env dir b st).iterations ≤ _ at hit
  change (exactSearchIteration S env dir b st).currentX = _ ∧
    (exactSearchIteration S env dir b st).newX = _ at hptr'
  generalize exactSearchIteration S env dir b st = result at h hptr' hit ⊢
  rw [hptr.1, hptr.2] at hptr'
  obtain ⟨hrc, hrn⟩ := hptr'
  simp only [] at h
  cases hsh : sharpen kmSharpen dir (sharpenDigits st.precision) S.A
      (result.bufs.get result.currentX) b (result.bufs.get result.newX) with
  | none => simp [hsh] at h
  | some r =>
    obtain ⟨found, tmp⟩ := r
    simp only [hsh, Option.some.injEq] at h
    have htried := sharpenFrom_tried kmSharpen dir S.A (result.bufs.get result.currentX) b
      (sharpenDigits st.precision + 1) 0 (result.bufs.get result.newX) found tmp hsh
    rw [← h]
    refine ⟨⟨hrc, hrn⟩, by simp only []; omega, by simp only []; omega,
      by simp only []; omega, ?_⟩
    cases found
    · right
      refine ⟨by simpa using hcont.1, by simp, ?_, ?_⟩
      · simp only [Bool.false_eq_true, if_false]
        rw [hrc, hrn]
        cases result.bufs
        rfl
      · intro p hp
        exact htried.2 rfl p (Nat.zero_le _) (by omega)
    · left
      refine ⟨by simp, by simp, ?_⟩
      obtain ⟨q, _, hq, hkm, hsol⟩ := htried.1 rfl
      exact ⟨q, by omega, tmp, hkm, hsol⟩

theorem exactSearchLoop_invariant (S : Solver) (kmSharpen : Nat → List ℚ → Option (List ℚ))
    (env : Environment) (dir : OptimizationDirection) (x b aux : List ℚ) (k : Nat) :
    ∀ st, exactSearchLoop S kmSharpen env dir b k (exactSearchStart env x aux) = some st →
      (st.currentX = Buf.aux ∧ st.newX = Buf.x) ∧
      st.overallIterations ≤ env.maximalNumberOfIterations ∧
      (st.status = SolverStatus.InProgress ∧
          st.overallIterations < env.maximalNumberOfIterations →
        k ≤ st.overallIterations ∧ st.precision = env.precision / 10 ^ k) := by
  induction k with
  | zero =>
    intro st h
    simp only [exactSearchLoop, Option.some.injEq] at h
    rw [← h]
    exact ⟨⟨rfl, rfl⟩, Nat.zero_le _, fun _ => ⟨Nat.zero_le _, by simp [exactSearchStart]⟩⟩
  | succ k ih =>
    intro st' h
    rw [exactSearchLoop_succ_right] at h
    cases hk : exactSearchLoop S kmSharpen env dir b k (exactSearchStart env x aux) with
    | none => simp [hk] at h
    | some st =>
      rw [hk, Option.some_bind] at h
      obtain ⟨hptr, hle, hprec⟩ := ih st hk
      by_cases hc : st.status = SolverStatus.InProgress ∧
          st.overallIterations < env.maximalNumberOfIterations
      · rw [if_pos hc] at h
        obtain ⟨hp', _, hlo, hhi, hcase⟩ :=
          exactSearchRound_spec S kmSharpen env dir b st st' hptr hc h
        obtain ⟨hk1, hk2⟩ := hprec hc
        refine ⟨hp', hhi, fun hc' => ⟨by omega, ?_⟩⟩
        rcases hcase with ⟨hconv, _⟩ | ⟨_, hp, _⟩
        · rw [hconv] at hc'
          exact absurd hc'.1 (by decide)
        · rw [hp, hk2, pow_succ, div_div]
      · rw [if_neg hc, Option.some.injEq] at h
        rw [← h]
        exact ⟨hptr, hle, fun hc' => absurd hc' hc⟩

theorem rationalSearchLoop_succ {I : Type}
    (impreciseIteration : ℚ → Nat → ImpreciseVectors I → ImpreciseVectors I × Nat)
    (kmSharpen : Nat → List I → Option (List ℚ)) (env : Environment)
    (dir : OptimizationDirection) (rationalA : SparseMatrix) (rationalB : List ℚ) (fuel : Nat)
    (st : RationalSearchState I) :
    rationalSearchLoop impreciseIteration kmSharpen env dir rationalA rationalB (fuel + 1) st =
      if st.status = SolverStatus.InProgress ∧
          st.overallIterations < env.maximalNumberOfIterations then
        (rationalSearchRound impreciseIteration kmSharpen dir rationalA rationalB st).bind
          (rationalSearchLoop impreciseIteration kmSharpen env dir rationalA rationalB fuel)
      else some st := by
  rw [rationalSearchLoop]
  unfold rationalSearchRound
  by_cases hc : st.status = SolverStatus.InProgress ∧
      st.overallIterations < env.maximalNumberOfIterations
  · rw [if_pos hc, if_pos hc]
    simp only []
    split <;> rfl
  · rw [if_neg hc, if_neg hc]

theorem rationalSearchLoop_succ_right {I : Type}
    (impreciseIteration : ℚ → Nat → ImpreciseVectors I → ImpreciseVectors I × Nat)
    (kmSharpen : Nat → List I → Option (List ℚ)) (env : Environment)
    (dir : OptimizationDirection) (rationalA : SparseMatrix) (rationalB : List ℚ) (fuel : Nat)
    (st : RationalSearchState I) :
    rationalSearchLoop impreciseIteration kmSharpen env dir rationalA rationalB (fuel + 1) st =
      (rationalSearchLoop impreciseIteration kmSharpen env dir rationalA rationalB fuel st).bind
        (fun s =>
          if s.status = SolverStatus.InProgress ∧
              s.overallIterations < env.maximalNumberOfIterations then
            rationalSearchRound impreciseIteration kmSharpen dir rationalA rationalB s
          else some s) := by
  induction fuel generalizing st with
  | zero =>
    rw [rationalSearchLoop_succ]
    simp only [rationalSearchLoop, Option.some_bind]
    split_ifs
    · exact Option.bind_some _
    · rfl
  | succ fuel ih =>
    rw [rationalSearchLoop_succ]
    by_cases hc : st.status = SolverStatus.InProgress ∧
        st.overallIterations < env.maximalNumberOfIterations
    · rw [if_pos hc]
      conv_rhs => rw [rationalSearchLoop_succ, if_pos hc]
      rw [Option.bind_assoc]
      congr 1
      funext s
      exact ih s
    · rw [if_neg hc]
      conv_rhs => rw [rationalSearchLoop_succ, if_neg hc]
      rw [Option.some_bind, if_neg hc]

theorem rationalSearchRound_spec {I : Type}
    (impreciseIteration : ℚ → Nat → ImpreciseVectors I → ImpreciseVectors I × Nat)
    (kmSharpen : Nat → List I → Option (List ℚ)) (dir : OptimizationDirection)
    (rationalA : SparseMatrix) (rationalB : List ℚ) (st st' : RationalSearchState I)
    (hstatus : st.status = SolverStatus.InProgress)
    (h : rationalSearchRound impreciseIteration kmSharpen dir rationalA rationalB st =
      some st') :
    st'.vectors = (impreciseIteration st.precision st.overallIterations st.vectors).1 ∧
    st'.overallIterations = st.overallIterations +
      (impreciseIteration st.precision st.overallIterations st.vectors).2 ∧
    ((st'.status = SolverStatus.Converged ∧ st'.precision = st.precision ∧
        ∃ p, p ≤ sharpenDigits st.precision ∧ ∃ v,
          kmSharpen p
            (impreciseIteration st.precision st.overallIterations st.vectors).1.current =
              some v ∧
          isSolution dir rationalA v rationalB = true) ∨
      (st'.status = SolverStatus.InProgress ∧ st'.precision = st.precision / 10 ∧
        ∀ p, p ≤ sharpenDigits st.precision → ∃ v,
          kmSharpen p
            (impreciseIteration st.precision st.overallIterations st.vectors).1.current =
              some v ∧
          isSolution dir rationalA v rationalB = false)) := by
  unfold rationalSearchRound at h
  simp only [] at h
  generalize impreciseIteration st.precision st.overallIterations st.vectors = result at h ⊢
  cases hsh : sharpen kmSharpen dir (sharpenDigits st.precision) rationalA result.1.current
      rationalB st.rationalX with
  | none => simp [hsh] at h
  | some r =>
    obtain ⟨found, tmp⟩ := r
    simp only [hsh, Option.some.injEq] at h
    have htried := sharpenFrom_tried kmSharpen dir rationalA result.1.current rationalB
      (sharpenDigits st.precision + 1) 0 st.rationalX found tmp hsh
    rw [← h]
    refine ⟨rfl, rfl, ?_⟩
    cases found
    · right
      refine ⟨by simpa using hstatus, by simp, ?_⟩
      intro p hp
      exact htried.2 rfl p (Nat.zero_le _) (by omega)
    · left
      refine ⟨by simp, by simp, ?_⟩
      obtain ⟨q, _, hq, hkm, hsol⟩ := htried.1 rfl
      exact ⟨q, by omega, tmp, hkm, hsol⟩

theorem rationalSearchLoop_invariant {I : Type}
    (impreciseIteration : ℚ → Nat → ImpreciseVectors I → ImpreciseVectors I × Nat)
    (kmSharpen : Nat → List I → Option (List ℚ)) (env : Environment)
    (dir : OptimizationDirection) (rationalA : SparseMatrix) (rationalX rationalB : List ℚ)
    (x tmpX : List I) (k : Nat) :
    ∀ st, rationalSearchLoop impreciseIteration kmSharpen env dir rationalA rationalB k
        (rationalSearchStart env rationalX x tmpX) = some st →
      ((∀ precision count vectors, count < env.maximalNumberOfIterations →
          1 ≤ (impreciseIteration precision count vectors).2 ∧
          count + (impreciseIteration precision count vectors).2 ≤
            env.maximalNumberOfIterations) →
        st.overallIterations ≤ env.maximalNumberOfIterations ∧
        (st.status = SolverStatus.InProgress ∧
            st.overallIterations < env.maximalNumberOfIterations → k ≤ st.overallIterations)) ∧
      (st.status = SolverStatus.InProgress ∧
          st.overallIterations < env.maximalNumberOfIterations →
        st.precision = env.precision / 10 ^ k) := by
  induction k with
  | zero =>
    intro st h
    simp only [rationalSearchLoop, Option.some.injEq] at h
    rw [← h]
    exact ⟨fun _ => ⟨Nat.zero_le _, fun _ => Nat.zero_le _⟩,
      fun _ => by simp [rationalSearchStart]⟩
  | succ k ih =>
    intro st' h
    rw [rationalSearchLoop_succ_right] at h
    cases hk : rationalSearchLoop impreciseIteration kmSharpen env dir rationalA rationalB k
        (rationalSearchStart env rationalX x tmpX) with
    | none => simp [hk] at h
    | some st =>
      rw [hk, Option.some_bind] at h
      obtain ⟨hbound, hprec⟩ := ih st hk
      by_cases hc : st.status = SolverStatus.InProgress ∧
          st.overallIterations < env.maximalNumberOfIterations
      · rw [if_pos hc] at h
        obtain ⟨_, hov, hcase⟩ := rationalSearchRound_spec impreciseIteration kmSharpen dir
          rationalA rationalB st st' hc.1 h
        refine ⟨fun hbudget => ?_, fun hc' => ?_⟩
        · obtain ⟨_, hk1⟩ := hbound hbudget
          have hb := hbudget st.precision st.overallIterations st.vectors hc.2
          have := hk1 hc
          exact ⟨by omega, fun _ => by omega⟩
        · rcases hcase with ⟨hconv, _⟩ | ⟨_, hp, _⟩
          · rw [hconv] at hc'
            exact absurd hc'.1 (by decide)
          · rw [hp, hprec hc, pow_succ, div_div]
      · rw [if_neg hc, Option.some.injEq] at h
        rw [← h]
        exact ⟨fun hbudget => ⟨(hbound hbudget).1, fun hc' => absurd hc' hc⟩,
          fun hc' => absurd hc' hc⟩

/-- Rounds of the core loop of rational search, for the exact solver on itself (first part)
and for an imprecise type other than the rational one (second part).  Let `st` be the state
after at most `k` passes from the start of the routine.  The iterations counted so far never
exceed `max 1 maximalNumberOfIterations`.  If the loop continues at `st`, then `k` passes were
made and all of them failed, `k` is below the budget, the precision is the initial one divided by
`10 ^ k`, and the next pass calls value iteration with this precision on the vectors of `st`.
After the pass either the search has converged with a vector that sharpening produced at a digit
precision `p ≤ ceil(log10(1 / precision))`, or sharpening was tried and failed at every digit
precision `p = 0, ..., ceil(log10(1 / precision))`, the precision is one tenth of the previous
one, and `*currentX`, from which the next call of value iteration starts, holds the vector that
this call left there (which need not be the last vector that the call computed).  With the
budget as fuel the loop runs until it ends by itself.  For the
imprecise type the bounds on the iterations hold when each call of the imprecise value iteration
that is entered below the budget performs at least one iteration and stays within the budget,
as `performValueIteration` does. -/
theorem rationalSearch_precision_tightening (env : Environment) (dir : OptimizationDirection) :
    (∀ (S : Solver) (kmSharpen : Nat → List ℚ → Option (List ℚ)) (x b aux : List ℚ) (k : Nat)
        (st : ExactSearchState),
      exactSearchLoop S kmSharpen env dir b k (exactSearchStart env x aux) = some st →
      st.overallIterations ≤ max 1 env.maximalNumberOfIterations ∧
      (st.status = SolverStatus.InProgress ∧
          st.overallIterations < env.maximalNumberOfIterations →
        k < env.maximalNumberOfIterations ∧
        st.precision = env.precision / 10 ^ k ∧
        exactSearchLoop S kmSharpen env dir b (k + 1) (exactSearchStart env x aux) =
          exactSearchRound S kmSharpen env dir b st ∧
        exactSearchIteration S env dir b st =
          performValueIteration S env dir st.bufs st.currentX st.newX b
            (env.precision / 10 ^ k) env.relativeTerminationCriterion
            SolverGuarantee.LessOrEqual st.overallIterations env.maximalNumberOfIterations
            env.multiplicationStyle ∧
        ∀ st', exactSearchRound S kmSharpen env dir b st = some st' →
          st'.overallIterations = (exactSearchIteration S env dir b st).iterations ∧
          st.overallIterations < st'.overallIterations ∧
          st'.overallIterations ≤ max 1 env.maximalNumberOfIterations ∧
          ((st'.status = SolverStatus.Converged ∧
              ∃ p, p ≤ sharpenDigits st.precision ∧ ∃ v,
                kmSharpen p ((exactSearchIteration S env dir b st).bufs.get
                  (exactSearchIteration S env dir b st).currentX) = some v ∧
                isSolution dir S.A v b = true) ∨
            (st'.status = SolverStatus.InProgress ∧
              (∀ p, p ≤ sharpenDigits st.precision → ∃ v,
                kmSharpen p ((exactSearchIteration S env dir b st).bufs.get
                  (exactSearchIteration S env dir b st).currentX) = some v ∧
                isSolution dir S.A v b = false) ∧
              st'.precision = st.precision / 10 ∧
              st'.bufs.get st'.currentX = (exactSearchIteration S env dir b st).bufs.get
                (exactSearchIteration S env dir b st).currentX)))) ∧
    (∀ (S : Solver) (kmSharpen : Nat → List ℚ → Option (List ℚ)) (x b aux : List ℚ)
        (st : ExactSearchState),
      exactSearchLoop S kmSharpen env dir b env.maximalNumberOfIterations
          (exactSearchStart env x aux) = some st →
      ¬ (st.status = SolverStatus.InProgress ∧
        st.overallIterations < env.maximalNumberOfIterations)) ∧
    (∀ (I : Type)
        (impreciseIteration : ℚ → Nat → ImpreciseVectors I → ImpreciseVectors I × Nat)
        (kmSharpen : Nat → List I → Option (List ℚ)) (rationalA : SparseMatrix)
        (rationalX rationalB : List ℚ) (x tmpX : List I) (k : Nat) (st : RationalSearchState I),
      rationalSearchLoop impreciseIteration kmSharpen env dir rationalA rationalB k
          (rationalSearchStart env rationalX x tmpX) = some st →
      ((∀ precision count vectors, count < env.maximalNumberOfIterations →
          1 ≤ (impreciseIteration precision count vectors).2 ∧
          count + (impreciseIteration precision count vectors).2 ≤
            env.maximalNumberOfIterations) →
        st.overallIterations ≤ max 1 env.maximalNumberOfIterations ∧
        (st.status = SolverStatus.InProgress ∧
            st.overallIterations < env.maximalNumberOfIterations →
          k < env.maximalNumberOfIterations)) ∧
      (st.status = SolverStatus.InProgress ∧
          st.overallIterations < env.maximalNumberOfIterations →
        st.precision = env.precision / 10 ^ k ∧
        rationalSearchLoop impreciseIteration kmSharpen env dir rationalA rationalB (k + 1)
            (rationalSearchStart env rationalX x tmpX) =
          rationalSearchRound impreciseIteration kmSharpen dir rationalA rationalB st ∧
        ∀ st', rationalSearchRound impreciseIteration kmSharpen dir rationalA rationalB st =
            some st' →
          st'.overallIterations = st.overallIterations +
            (impreciseIteration (env.precision / 10 ^ k) st.overallIterations st.vectors).2 ∧
          st'.vectors =
            (impreciseIteration (env.precision / 10 ^ k) st.overallIterations st.vectors).1 ∧
          ((st'.status = SolverStatus.Converged ∧
              ∃ p, p ≤ sharpenDigits st.precision ∧ ∃ v,
                kmSharpen p st'.vectors.current = some v ∧
                isSolution dir rationalA v rationalB = true) ∨
            (st'.status = SolverStatus.InProgress ∧
              (∀ p, p ≤ sharpenDigits st.precision → ∃ v,
                kmSharpen p st'.vectors.current = some v ∧
                isSolution dir rationalA v rationalB = false) ∧
              st'.precision = st.precision / 10)))) := by
  refine ⟨?_, ?_, ?_⟩
  · intro S kmSharpen x b aux k st hk
    obtain ⟨hptr, hle, hcont⟩ := exactSearchLoop_invariant S kmSharpen env dir x b aux k st hk
    refine ⟨le_trans hle (le_max_right _ _), fun hc => ?_⟩
    obtain ⟨hk1, hk2⟩ := hcont hc
    refine ⟨by omega, hk2, ?_, ?_, ?_⟩
    · rw [exactSearchLoop_succ_right, hk, Option.some_bind, if_pos hc]
    · rw [← hk2]
      rfl
    · intro st' hr
      obtain ⟨_, h1, h2, h3, hcase⟩ :=
        exactSearchRound_spec S kmSharpen env dir b st st' hptr hc hr
      refine ⟨h1, by omega, le_trans h3 (le_max_right _ _), ?_⟩
      rcases hcase with ⟨c1, _, c3⟩ | ⟨c1, c2, c3, c4⟩
      · exact Or.inl ⟨c1, c3⟩
      · exact Or.inr ⟨c1, c4, c2, c3⟩
  · intro S kmSharpen x b aux st hk hc
    obtain ⟨_, _, hcont⟩ := exactSearchLoop_invariant S kmSharpen env dir x b aux
      env.maximalNumberOfIterations st hk
    have := (hcont hc).1
    omega
  · intro I impreciseIteration kmSharpen rationalA rationalX rationalB x tmpX k st hk
    obtain ⟨hbound, hprec⟩ := rationalSearchLoop_invariant impreciseIteration kmSharpen env dir
      rationalA rationalX rationalB x tmpX k st hk
    refine ⟨fun hbudget => ?_, fun hc => ?_⟩
    · obtain ⟨h1, h2⟩ := hbound hbudget
      exact ⟨le_trans h1 (le_max_right _ _), fun hc => by have := h2 hc; omega⟩
    · have hp := hprec hc
      refine ⟨hp, ?_, ?_⟩
      · rw [rationalSearchLoop_succ_right, hk, Option.some_bind, if_pos hc]
      · intro st' hr
        obtain ⟨h1, h2, hcase⟩ := rationalSearchRound_spec impreciseIteration kmSharpen dir
          rationalA rationalB st st' hc.1 hr
        rw [← h1] at hcase
        rw [hp] at h1 h2
        refine ⟨h2, h1, ?_⟩
        rcases hcase with ⟨c1, _, c3⟩ | ⟨c1, c2, c3⟩
        · exact Or.inl ⟨c1, c3⟩
        · exact Or.inr ⟨c1, c3, c2⟩

/-- The core loop on the one-state system that loops with probability one half, with the
sharpening routine that hands back its argument: the first pass ends after four iterations with
`[1 / 16]`, which is no solution, so the second pass runs with precision `1 / 100` from
`[1 / 16]`; it fails at the digit precisions `0, 1, 2` and leaves the precision `1 / 1000`. -/
theorem rationalSearch_precision_tightening_witness :
    exactSearchLoop halfSolver keepSharpen regularEnvironment OptimizationDirection.Maximize [0] 1
      (exactSearchStart regularEnvironment [0] [1]) = some halfSearchAfterOne ∧
    exactSearchLoop halfSolver keepSharpen regularEnvironment OptimizationDirection.Maximize [0] 2
      (exactSearchStart regularEnvironment [0] [1]) = some halfSearchAfterTwo ∧
    halfSearchAfterOne.precision = regularEnvironment.precision / 10 ^ 1 ∧
    halfSearchAfterTwo.precision = halfSearchAfterOne.precision / 10 ∧
    sharpenDigits halfSearchAfterOne.precision = 2 ∧
    halfSearchAfterTwo.bufs.get halfSearchAfterTwo.currentX =
      (exactSearchIteration halfSolver regularEnvironment OptimizationDirection.Maximize [0]
        halfSearchAfterOne).bufs.get
      (exactSearchIteration halfSolver regularEnvironment OptimizationDirection.Maximize [0]
        halfSearchAfterOne).currentX ∧
    halfSearchAfterTwo.overallIterations ≤ max 1 regularEnvironment.maximalNumberOfIterations := by
  obtain ⟨_, hrest⟩ := (rationalSearch_precision_tightening regularEnvironment
    OptimizationDirection.Maximize).1 halfSolver keepSharpen [0] [0] [1] 1 halfSearchAfterOne
    (by decide!)
  obtain ⟨_, hp, hloop, _, hround⟩ := hrest ⟨rfl, by decide⟩
  obtain ⟨_, _, hbudget, hcase⟩ := hround halfSearchAfterTwo (by decide!)
  rcases hcase with ⟨hc, _⟩ | ⟨_, _, hp', hcur⟩
  · exact absurd hc (by decide)
  · exact ⟨by decide!, hloop.trans (by decide!), hp, hp', by decide!, hcur, hbudget⟩

/-! ## Redirection and summation in the rows of the reduced system -/

theorem accumulateProbability_keys (acc : List (Nat × ℚ)) (target : Nat) (value : ℚ) (t : Nat) :
    t ∈ (accumulateProbability acc target value).map Prod.fst ↔
      t ∈ acc.map Prod.fst ∨ t = target := by
  induction acc with
  | nil => simp [accumulateProbability]
  | cons p rest ih =>
    obtain ⟨key, sum⟩ := p
    unfold accumulateProbability
    by_cases h1 : target = key
    · rw [if_pos h1]
      simp only [List.map_cons, List.mem_cons]
      constructor
      · intro h; exact Or.inl h
      · rintro (h | h)
        · exact h
        · exact Or.inl (h.trans h1)
    · rw [if_neg h1]
      by_cases h2 : target < key
      · rw [if_pos h2]
        simp only [List.map_cons, List.mem_cons]
        tauto
      · rw [if_neg h2]
        simp only [List.map_cons, List.mem_cons, ih]
        tauto

theorem accumulateProbability_sorted (acc : List (Nat × ℚ)) (target : Nat) (value : ℚ)
    (h : (acc.map Prod.fst).Pairwise (fun a b => a < b)) :
    ((accumulateProbability acc target value).map Prod.fst).Pairwise (fun a b => a < b) := by
  induction acc with
  | nil => simp [accumulateProbability]
  | cons p rest ih =>
    obtain ⟨key, sum⟩ := p
    simp only [List.map_cons, List.pairwise_cons] at h
    unfold accumulateProbability
    by_cases h1 : target = key
    · rw [if_pos h1]
      simp only [List.map_cons, List.pairwise_cons]
      exact h
    · rw [if_neg h1]
      by_cases h2 : target < key
      · rw [if_pos h2]
        simp only [List.map_cons, List.pairwise_cons, List.mem_cons]
        refine ⟨?_, h⟩
        rintro a (ha | ha)
        · rw [ha]; exact h2
        · exact lt_trans h2 (h.1 a ha)
      · rw [if_neg h2]
        simp only [List.map_cons, List.pairwise_cons]
        refine ⟨?_, ih h.2⟩
        intro a ha
        rcases (accumulateProbability_keys rest target value a).1 ha with ha | ha
        · exact h.1 a ha
        · rw [ha]; omega

theorem accumulateProbability_sum_at (acc : List (Nat × ℚ)) (target : Nat) (value : ℚ)
    (t : Nat) :
    (((accumulateProbability acc target value).filter (fun e => decide (e.1 = t))).map
        Prod.snd).sum =
      ((acc.filter (fun e => decide (e.1 = t))).map Prod.snd).sum +
        (if target = t then value else 0) := by
  induction acc with
  | nil =>
    by_cases h : target = t <;> simp [accumulateProbability, h]
  | cons p rest ih =>
    obtain ⟨key, sum⟩ := p
    unfold accumulateProbability
    by_cases h1 : target = key
    · rw [if_pos h1]
      by_cases hk : key = t
      · have ht : target = t := h1.trans hk
        simp [List.filter_cons, hk, ht]
        ring
      · have ht : ¬ target = t := fun h => hk (h1.symm.trans h)
        simp [List.filter_cons, hk, ht]
    · rw [if_neg h1]
      by_cases h2 : target < key
      · rw [if_pos h2]
        by_cases ht : target = t
        · by_cases hk : key = t
          · exact absurd (ht.trans hk.symm) h1
          · simp [List.filter_cons, hk, ht]
            ring
        · simp [List.filter_cons, ht]
      · rw [if_neg h2]
        by_cases hk : key = t
        · simp only [List.filter_cons, hk, decide_True, if_true, List.map_cons, List.sum_cons, ih]
          ring
        · simp only [List.filter_cons, hk, decide_False, Bool.false_eq_true, if_false, ih]

theorem accumulateProbability_total (acc : List (Nat × ℚ)) (target : Nat) (value : ℚ) :
    ((accumulateProbability acc target value).map Prod.snd).sum =
      (acc.map Prod.snd).sum + value := by
  induction acc with
  | nil => simp [accumulateProbability]
  | cons p rest ih =>
    obtain ⟨key, sum⟩ := p
    unfold accumulateProbability
    by_cases h1 : target = key
    · rw [if_pos h1]
      simp only [List.map_cons, List.sum_cons]
      ring
    · rw [if_neg h1]
      by_cases h2 : target < key
      · rw [if_pos h2]
        simp only [List.map_cons, List.sum_cons]
        ring
      · rw [if_neg h2]
        simp only [List.map_cons, List.sum_cons, ih]
        ring

theorem accumulateFold_spec (l : List (Nat × ℚ)) :
    ∀ acc : List (Nat × ℚ),
      ((acc.map Prod.fst).Pairwise (fun a b => a < b) →
        ((l.foldl (fun a e => accumulateProbability a e.1 e.2) acc).map Prod.fst).Pairwise
          (fun a b => a < b)) ∧
      (∀ t, t ∈ (l.foldl (fun a e => accumulateProbability a e.1 e.2) acc).map Prod.fst ↔
        t ∈ acc.map Prod.fst ∨ t ∈ l.map Prod.fst) ∧
      (∀ t, (((l.foldl (fun a e => accumulateProbability a e.1 e.2) acc).filter
          (fun e => decide (e.1 = t))).map Prod.snd).sum =
        ((acc.filter (fun e => decide (e.1 = t))).map Prod.snd).sum +
          ((l.filter (fun e => decide (e.1 = t))).map Prod.snd).sum) ∧
      ((l.foldl (fun a e => accumulateProbability a e.1 e.2) acc).map Prod.snd).sum =
        (acc.map Prod.snd).sum + (l.map Prod.snd).sum := by
  induction l with
  | nil => intro acc; simp
  | cons e l ih =>
    intro acc
    obtain ⟨i1, i2, i3, i4⟩ := ih (accumulateProbability acc e.1 e.2)
    simp only [List.foldl_cons]
    refine ⟨fun h => i1 (accumulateProbability_sorted acc e.1 e.2 h), ?_, ?_, ?_⟩
    · intro t
      rw [i2 t, accumulateProbability_keys]
      simp only [List.map_cons, List.mem_cons]
      tauto
    · intro t
      rw [i3 t, accumulateProbability_sum_at]
      by_cases h : e.1 = t
      · simp only [List.filter_cons, h, decide_True, if_true, List.map_cons, List.sum_cons]
        ring
      · simp only [List.filter_cons, h, decide_False, Bool.false_eq_true, if_false, add_zero]
    · rw [i4, accumulateProbability_total]
      simp only [List.map_cons, List.sum_cons]
      ring

theorem sorted_sum_at (l : List (Nat × ℚ)) (t : Nat) (v : ℚ)
    (hs : (l.map Prod.fst).Pairwise (fun a b => a < b)) (hm : (t, v) ∈ l) :
    ((l.filter (fun e => decide (e.1 = t))).map Prod.snd).sum = v := by
  induction l with
  | nil => simp at hm
  | cons x xs ih =>
    simp only [List.map_cons, List.pairwise_cons] at hs
    rcases List.mem_cons.1 hm with hx | hx
    · have hnone : xs.filter (fun e => decide (e.1 = t)) = [] := by
        rw [List.filter_eq_nil_iff]
        intro y hy
        have := hs.1 y.1 (List.mem_map_of_mem _ hy)
        rw [← hx] at this
        simp only [decide_eq_true_eq]
        intro h
        rw [h] at this
        exact absurd this (lt_irrefl _)
      rw [← hx]
      simp [List.filter_cons, hnone]
    · have hlt := hs.1 t (List.mem_map_of_mem Prod.fst hx)
      have hne : ¬ x.1 = t := by omega
      simp only [List.filter_cons, hne, decide_False, Bool.false_eq_true, if_false]
      exact ih hs.2 hx

theorem addSspMatrixChoice_fold (row : List (Nat × ℚ)) (m : Nat → Nat)
    (numberOfStatesNotInMecs : Nat) :
    ∀ acc : List (Nat × ℚ) × List (Nat × ℚ),
      row.foldl
        (fun (acc : List (Nat × ℚ) × List (Nat × ℚ)) transition =>
          if transition.2 ≠ 0 then
            if m transition.1 < numberOfStatesNotInMecs then
              (acc.1 ++ [(m transition.1, transition.2)], acc.2)
            else (acc.1, accumulateProbability acc.2 (m transition.1) transition.2)
          else acc) acc =
      (acc.1 ++ (row.filter (fun e => decide (e.2 ≠ 0) &&
            decide (m e.1 < numberOfStatesNotInMecs))).map (fun e => (m e.1, e.2)),
        ((row.filter (fun e => decide (e.2 ≠ 0) &&
            !decide (m e.1 < numberOfStatesNotInMecs))).map (fun e => (m e.1, e.2))).foldl
          (fun a e => accumulateProbability a e.1 e.2) acc.2) := by
  induction row with
  | nil => intro acc; simp
  | cons e row ih =>
    intro acc
    rw [List.foldl_cons, ih]
    by_cases h0 : e.2 ≠ 0
    · by_cases hk : m e.1 < numberOfStatesNotInMecs
      · simp [List.filter_cons, h0, hk]
      · simp [List.filter_cons, h0, hk]
    · simp [List.filter_cons, h0]

theorem addSspMatrixChoice_eq (inputMatrixChoice : Nat) (M : SparseMatrix)
    (inputToSspStateMap : List Nat) (numberOfStatesNotInMecs : Nat) :
    addSspMatrixChoice inputMatrixChoice M inputToSspStateMap numberOfStatesNotInMecs =
      ((M.getRow inputMatrixChoice).filter (fun e => decide (e.2 ≠ 0) &&
            decide (inputToSspStateMap.getD e.1 0 < numberOfStatesNotInMecs))).map
          (fun e => (inputToSspStateMap.getD e.1 0, e.2)) ++
        (((M.getRow inputMatrixChoice).filter (fun e => decide (e.2 ≠ 0) &&
            !decide (inputToSspStateMap.getD e.1 0 < numberOfStatesNotInMecs))).map
          (fun e => (inputToSspStateMap.getD e.1 0, e.2))).foldl
          (fun a e => accumulateProbability a e.1 e.2) [] := by
  unfold addSspMatrixChoice
  have h := addSspMatrixChoice_fold (M.getRow inputMatrixChoice)
    (fun s => inputToSspStateMap.getD s 0) numberOfStatesNotInMecs ([], [])
  simp only [List.nil_append] at h
  simp only []
  rw [h]

theorem pairwise_filter_unique (row : List (Nat × ℚ)) (p : Nat × ℚ → Bool) (c : Nat)
    (hs : row.Pairwise (fun a b => a.1 < b.1))
    (hc : ∀ x ∈ row, p x = true → x.1 = c) :
    ∀ e ∈ row, p e = true → row.filter p = [e] := by
  induction row with
  | nil => intro e he; simp at he
  | cons x xs ih =>
    rw [List.pairwise_cons] at hs
    intro e he hpe
    by_cases hpx : p x = true
    · have hnone : xs.filter p = [] := by
        rw [List.filter_eq_nil_iff]
        intro y hy hpy
        have h1 := hc x (List.mem_cons_self _ _) hpx
        have h2 := hc y (List.mem_cons_of_mem _ hy) hpy
        have := hs.1 y hy
        omega
      rcases List.mem_cons.1 he with hx | hx
      · rw [hx, List.filter_cons, if_pos (hx ▸ hpe), hnone]
      · have := List.mem_filter.2 ⟨hx, hpe⟩
        rw [hnone] at this
        simp at this
    · rcases List.mem_cons.1 he with hx | hx
      · rw [hx] at hpe
        exact absurd hpe hpx
      · rw [List.filter_cons, if_neg hpx]
        exact ih hs.2 (fun y hy => hc y (List.mem_cons_of_mem _ hy)) e hx hpe

theorem redirected_mass (row : List (Nat × ℚ)) (m : Nat → Nat) (k : Nat) :
    (((row.filter (fun e => decide (e.2 ≠ 0) && decide (m e.1 < k))).map
        (fun e => (m e.1, e.2))).map Prod.snd).sum +
      (((row.filter (fun e => decide (e.2 ≠ 0) && !decide (m e.1 < k))).map
        (fun e => (m e.1, e.2))).map Prod.snd).sum = (row.map Prod.snd).sum := by
  induction row with
  | nil => simp
  | cons e row ih =>
    by_cases h0 : e.2 = 0
    · simp only [List.filter_cons, h0, ne_eq, not_true_eq_false, decide_False, Bool.false_and,
        Bool.false_eq_true, if_false, List.map_cons, List.sum_cons, zero_add]
      simpa using ih
    · by_cases hk : m e.1 < k
      · simp only [List.filter_cons, h0, hk, ne_eq, not_false_eq_true, decide_True,
          Bool.and_self, if_true, List.map_cons, List.sum_cons, Bool.not_true, Bool.and_false,
          Bool.false_eq_true, if_false]
        rw [add_assoc]
        congr 1
      · simp only [List.filter_cons, h0, hk, ne_eq, not_false_eq_true, decide_True,
          decide_False, Bool.and_false, Bool.false_eq_true, if_false, Bool.not_false,
          Bool.and_self, if_true, List.map_cons, List.sum_cons]
        rw [← add_assoc, add_comm _ e.2, add_assoc]
        congr 1

theorem mecTargets_sum_at (row : List (Nat × ℚ)) (m : Nat → Nat) (k t : Nat) (ht : ¬ t < k) :
    ((((row.filter (fun e => decide (e.2 ≠ 0) && !decide (m e.1 < k))).map
        (fun e => (m e.1, e.2))).filter (fun e => decide (e.1 = t))).map Prod.snd).sum =
      ((row.filter (fun e => decide (e.2 ≠ 0) && decide (m e.1 = t))).map Prod.snd).sum := by
  induction row with
  | nil => simp
  | cons e row ih =>
    by_cases h0 : e.2 = 0
    · simpa [List.filter_cons, h0] using ih
    · by_cases hm : m e.1 = t
      · have hk : k ≤ t := by omega
        simpa [List.filter_cons, h0, hk, hm] using ih
      · by_cases hk : m e.1 < k
        · simpa [List.filter_cons, h0, hk, hm] using ih
        · simpa [List.filter_cons, h0, hk, hm] using ih

/-- C34, amended: for a state map that is strictly increasing on the states it sends below
`numberOfStatesNotInMecs` and a row of the transition matrix whose columns are strictly
increasing, the row that `addSspMatrixChoice` emits has an entry `(t, v)` exactly when some
successor with non-zero probability is mapped to `t`, and then `v` is the sum of the
probabilities of these successors; the total mass of the emitted row is that of the original
row, and the entries are added in strictly increasing column order. -/
theorem addSspMatrixChoice_redirects (M : SparseMatrix) (inputToSspStateMap : List Nat)
    (numberOfStatesNotInMecs inputMatrixChoice : Nat)
    (hsorted : ((M.getRow inputMatrixChoice).map Prod.fst).Pairwise (fun a b => a < b))
    (hrange : ∀ e ∈ M.getRow inputMatrixChoice, e.1 < inputToSspStateMap.length)
    (hmono : ∀ s2, s2 < inputToSspStateMap.length → ∀ s1, s1 < s2 →
      inputToSspStateMap.getD s1 0 < numberOfStatesNotInMecs →
      inputToSspStateMap.getD s2 0 < numberOfStatesNotInMecs →
      inputToSspStateMap.getD s1 0 < inputToSspStateMap.getD s2 0) :
    (∀ t v, (t, v) ∈ addSspMatrixChoice inputMatrixChoice M inputToSspStateMap
        numberOfStatesNotInMecs ↔
      successorsMappedTo (M.getRow inputMatrixChoice) inputToSspStateMap t ≠ [] ∧
      v = ((successorsMappedTo (M.getRow inputMatrixChoice) inputToSspStateMap t).map
        Prod.snd).sum) ∧
    ((addSspMatrixChoice inputMatrixChoice M inputToSspStateMap numberOfStatesNotInMecs).map
      Prod.snd).sum = ((M.getRow inputMatrixChoice).map Prod.snd).sum ∧
    ((addSspMatrixChoice inputMatrixChoice M inputToSspStateMap numberOfStatesNotInMecs).map
      Prod.fst).Pairwise (fun a b => a < b) := by
  rw [addSspMatrixChoice_eq]
  generalize hrow : M.getRow inputMatrixChoice = row at hsorted hrange ⊢
  generalize hmdef : (fun s => inputToSspStateMap.getD s 0) = m
  have hm : ∀ s, inputToSspStateMap.getD s 0 = m s := fun s => by rw [← hmdef]
  simp only [successorsMappedTo, hm] at hmono ⊢
  have hfold := accumulateFold_spec
    ((row.filter (fun e => decide (e.2 ≠ 0) && !decide (m e.1 < numberOfStatesNotInMecs))).map
      (fun e => (m e.1, e.2))) []
  have hpw : row.Pairwise (fun a b => a.1 < b.1) := List.pairwise_map.1 hsorted
  generalize hres : ((row.filter (fun e => decide (e.2 ≠ 0) &&
      !decide (m e.1 < numberOfStatesNotInMecs))).map (fun e => (m e.1, e.2))).foldl
      (fun a e => accumulateProbability a e.1 e.2) [] = res at hfold ⊢
  obtain ⟨f1, f2, f3, f4⟩ := hfold
  have hsort := f1 List.Pairwise.nil
  have hkeys : ∀ t, t ∈ res.map Prod.fst ↔
      ∃ e ∈ row, e.2 ≠ 0 ∧ ¬ m e.1 < numberOfStatesNotInMecs ∧ m e.1 = t := by
    intro t
    rw [f2 t]
    simp only [List.map_nil, List.not_mem_nil, false_or, List.map_map, List.mem_map,
      List.mem_filter, Bool.and_eq_true, decide_eq_true_eq, Bool.not_eq_true',
      decide_eq_false_iff_not, Function.comp]
    constructor
    · rintro ⟨e, ⟨he, h0, hk⟩, ht⟩
      exact ⟨e, he, h0, hk, ht⟩
    · rintro ⟨e, he, h0, hk, ht⟩
      exact ⟨e, ⟨he, h0, hk⟩, ht⟩
  have hval : ∀ t v, (t, v) ∈ res →
      v = ((row.filter (fun e => decide (e.2 ≠ 0) && decide (m e.1 = t))).map Prod.snd).sum := by
    intro t v hmem
    have hge : ¬ t < numberOfStatesNotInMecs := by
      obtain ⟨e, _, _, hk, ht⟩ := (hkeys t).1 (List.mem_map_of_mem Prod.fst hmem)
      rw [← ht]
      exact hk
    rw [← sorted_sum_at res t v hsort hmem, f3 t, mecTargets_sum_at row m _ t hge]
    simp
  have hunique : ∀ t, t < numberOfStatesNotInMecs → ∀ e ∈ row, e.2 ≠ 0 → m e.1 = t →
      row.filter (fun e => decide (e.2 ≠ 0) && decide (m e.1 = t)) = [e] := by
    intro t ht e he h0 hme
    apply pairwise_filter_unique row _ e.1 hpw _ e he (by simp [h0, hme])
    intro x hxrow hx
    simp only [Bool.and_eq_true, decide_eq_true_eq] at hx
    rcases Nat.lt_trichotomy x.1 e.1 with h | h | h
    · have := hmono e.1 (hrange e he) x.1 h (by rw [hx.2]; exact ht) (by rw [hme]; exact ht)
      omega
    · exact h
    · have := hmono x.1 (hrange x hxrow) e.1 h (by rw [hme]; exact ht) (by rw [hx.2]; exact ht)
      omega
  refine ⟨?_, ?_, ?_⟩
  · intro t v
    rw [List.mem_append]
    constructor
    · rintro (hmem | hmem)
      · simp only [List.mem_map, List.mem_filter, Bool.and_eq_true, decide_eq_true_eq,
          Prod.mk.injEq] at hmem
        obtain ⟨e, ⟨he, h0, hk⟩, hmt, hv⟩ := hmem
        rw [hunique t (by rw [← hmt]; exact hk) e he h0 hmt]
        exact ⟨by simp, by simp [hv]⟩
      · refine ⟨?_, hval t v hmem⟩
        obtain ⟨e, he, h0, _, ht⟩ := (hkeys t).1 (List.mem_map_of_mem Prod.fst hmem)
        intro hnil
        have : e ∈ row.filter (fun e => decide (e.2 ≠ 0) && decide (m e.1 = t)) :=
          List.mem_filter.2 ⟨he, by simp [h0, ht]⟩
        rw [hnil] at this
        simp at this
    · rintro ⟨hne, hv⟩
      obtain ⟨e, hmem⟩ := List.exists_mem_of_ne_nil _ hne
      obtain ⟨he, hp⟩ := List.mem_filter.1 hmem
      simp only [Bool.and_eq_true, decide_eq_true_eq] at hp
      by_cases ht : t < numberOfStatesNotInMecs
      · left
        rw [hunique t ht e he hp.1 hp.2] at hv
        simp only [List.mem_map, List.mem_filter, Bool.and_eq_true, decide_eq_true_eq,
          Prod.mk.injEq]
        exact ⟨e, ⟨he, hp.1, by rw [hp.2]; exact ht⟩, hp.2, by simp [hv]⟩
      · right
        have hk : t ∈ res.map Prod.fst := (hkeys t).2 ⟨e, he, hp.1, by rw [hp.2]; exact ht, hp.2⟩
        obtain ⟨⟨t', v'⟩, hmem', ht'⟩ := List.mem_map.1 hk
        simp only [] at ht'
        subst ht'
        rw [hv, ← hval t' v' hmem']
        exact hmem'
  · rw [List.map_append, List.sum_append, f4]
    simp only [List.map_nil, List.sum_nil, zero_add]
    exact redirected_mass row m numberOfStatesNotInMecs
  · rw [List.map_append, List.pairwise_append]
    refine ⟨?_, hsort, ?_⟩
    · rw [List.map_map, List.pairwise_map]
      refine List.Pairwise.imp_of_mem ?_ (hpw.filter _)
      intro a b ha hb hab
      simp only [List.mem_filter, Bool.and_eq_true, decide_eq_true_eq] at ha hb
      exact hmono b.1 (hrange b hb.1) a.1 hab ha.2.2 hb.2.2
    · intro a ha b hb
      simp only [List.map_map, List.mem_map, List.mem_filter, Bool.and_eq_true,
        decide_eq_true_eq, Function.comp] at ha
      obtain ⟨e, ⟨_, _, hk⟩, hma⟩ := ha
      obtain ⟨e', _, _, hk', hmb⟩ := (hkeys b).1 hb
      omega

/-- Witness of C34 (amended) on the state map that `inputToSspStateMap` builds when the first
two states form an end component and the third state another one: they are sent to `1` and `2`,
and the last state, the only one in no end component, to `0`; the row with probability one quarter to each state of the end component and
one half to the last state becomes `[(0, 1 / 2), (1, 1 / 2)]`. -/
theorem addSspMatrixChoice_redirects_witness :
    inputToSspStateMap [[(0, [0]), (1, [1])], [(2, [2])]] 4 = ([1, 1, 2, 0], 1) ∧
    addSspMatrixChoice 0 redirectMatrix [1, 1, 2, 0] 1 = [(0, 1 / 2), (1, 1 / 2)] ∧
    ((1, (1 / 2 : ℚ)) ∈ addSspMatrixChoice 0 redirectMatrix [1, 1, 2, 0] 1 ↔
      successorsMappedTo (redirectMatrix.getRow 0) [1, 1, 2, 0] 1 ≠ [] ∧
      (1 / 2 : ℚ) = ((successorsMappedTo (redirectMatrix.getRow 0) [1, 1, 2, 0] 1).map
        Prod.snd).sum) ∧
    ((addSspMatrixChoice 0 redirectMatrix [1, 1, 2, 0] 1).map Prod.snd).sum =
      ((redirectMatrix.getRow 0).map Prod.snd).sum ∧
    ((addSspMatrixChoice 0 redirectMatrix [1, 1, 2, 0] 1).map Prod.fst).Pairwise
      (fun a b => a < b) :=
  have h := addSspMatrixChoice_redirects redirectMatrix [1, 1, 2, 0] 1 0 (by decide)
    (by decide) (by decide)
  ⟨by decide, by decide!, h.1 1 (1 / 2), h.2.1, h.2.2⟩

/-- C34, counterexample: the state map `[1, 0]` sends the two states, which are in no end
component, injectively below `2`, and the columns of the row of the first state increase, but
`addSspMatrixChoice` adds the entry of column `1` before that of column `0`. -/
theorem addSspMatrixChoice_injective_unordered :
    (∀ s1, s1 < 2 → ∀ s2, s2 < 2 → [1, 0].getD s1 0 = [1, 0].getD s2 0 → s1 = s2) ∧
    (∀ s, s < 2 → [1, 0].getD s 0 < 2) ∧
    ((coinMatrix.getRow 0).map Prod.fst).Pairwise (fun a b => a < b) ∧
    addSspMatrixChoice 0 coinMatrix [1, 0] 2 = [(1, 1 / 2), (0, 1 / 2)] ∧
    ¬ ((addSspMatrixChoice 0 coinMatrix [1, 0] 2).map Prod.fst).Pairwise (fun a b => a < b) := by
  refine ⟨by decide, by decide, by decide, by decide!, ?_⟩
  have h : (addSspMatrixChoice 0 coinMatrix [1, 0] 2).map Prod.fst = [1, 0] := by decide!
  rw [h]
  decide

/-! ## Rows and right-hand side of the reduced system -/

theorem nonMecFold_content (H : SparseNondeterministicInfiniteHorizonHelper)
    (stateMap : List Nat) (k : Nat) (L : List Nat) :
    ∀ b : SspBuilder,
      (L.foldl (addNonMecState H stateMap k) b).rows =
        b.rows ++ (L.map (fun state => (H.transitionMatrix.groupRows state).map
          (fun choice => addSspMatrixChoice choice H.transitionMatrix stateMap k))).flatten ∧
      (L.foldl (addNonMecState H stateMap k) b).rhs =
        b.rhs ++ (L.map (fun state =>
          List.replicate (H.transitionMatrix.groupRows state).length (0 : ℚ))).flatten := by
  induction L with
  | nil => intro b; simp
  | cons s L ih =>
    intro b
    obtain ⟨a1, _, a3, _⟩ := addNonMecState_spec H stateMap k b s
    obtain ⟨i1, i2⟩ := ih (addNonMecState H stateMap k b s)
    rw [List.foldl_cons, i1, i2, a1, a3]
    simp [List.append_assoc]

theorem mecFold_content (H : SparseNondeterministicInfiniteHorizonHelper)
    (stateMap : List Nat) (k : Nat) (mecLraValues : List ℚ) (L : List Nat) :
    ∀ b : SspBuilder,
      (L.foldl (addMecState H stateMap k mecLraValues) b).rows =
        b.rows ++ (L.map (fun i =>
          (mecExitChoices H.transitionMatrix (H.mecDecomposition.getD i [])).map
            (fun stateChoice =>
              addSspMatrixChoice stateChoice.2 H.transitionMatrix stateMap k) ++
            [[]])).flatten ∧
      (L.foldl (addMecState H stateMap k mecLraValues) b).rhs =
        b.rhs ++ (L.map (fun i =>
          List.replicate
            (mecExitChoices H.transitionMatrix (H.mecDecomposition.getD i [])).length (0 : ℚ) ++
            [mecLraValues.getD i 0])).flatten := by
  induction L with
  | nil => intro b; simp
  | cons s L ih =>
    intro b
    obtain ⟨a1, _, a3, _⟩ := addMecState_spec H stateMap k mecLraValues b s
    obtain ⟨i1, i2⟩ := ih (addMecState H stateMap k mecLraValues b s)
    rw [List.foldl_cons, i1, i2, a1, a3]
    simp [List.append_assoc]

theorem buildSsp_content (H : SparseNondeterministicInfiniteHorizonHelper)
    (stateMap : List Nat) (k : Nat) (mecLraValues : List ℚ) :
    (buildSsp H stateMap
      (gatherMecStates H.mecDecomposition H.transitionMatrix.getRowGroupCount).1 k
      mecLraValues).rows = (sspRowBlocks H stateMap k).flatten ∧
    (buildSsp H stateMap
      (gatherMecStates H.mecDecomposition H.transitionMatrix.getRowGroupCount).1 k
      mecLraValues).rhs = (sspRhsBlocks H mecLraValues).flatten := by
  unfold buildSsp
  rw [statesNotContainedInAnyMec_eq]
  obtain ⟨n1, n2⟩ := nonMecFold_content H stateMap k
    (nonMecStates H.mecDecomposition H.transitionMatrix.getRowGroupCount)
    { rows := [], rowGroupStarts := [], rhs := [], sspMecExitChoicesToOriginalMap := [] }
  obtain ⟨m1, m2⟩ := mecFold_content H stateMap k mecLraValues
    (List.range H.mecDecomposition.length)
    ((nonMecStates H.mecDecomposition H.transitionMatrix.getRowGroupCount).foldl
      (addNonMecState H stateMap k)
      { rows := [], rowGroupStarts := [], rhs := [], sspMecExitChoicesToOriginalMap := [] })
  rw [m1, m2, n1, n2]
  simp [sspRowBlocks, sspRhsBlocks]

theorem flatten_getElem_some {α : Type} (bs : List (List α)) (i c : Nat)
    (hi : i < bs.length) (hc : c < (bs.getD i []).length) :
    bs.flatten[((bs.take i).map List.length).sum + c]? = (bs.getD i [])[c]? := by
  have h := flatten_getD (bs.map (fun b => b.map some)) i c none (by simpa using hi)
    (by
      rw [List.getD_eq_getElem?_getD, List.getElem?_map]
      rw [List.getD_eq_getElem?_getD] at hc
      cases hb : bs[i]? with
      | none => simp [hb] at hc
      | some b => simpa [hb] using hc)
  have hflat : (bs.map (fun b => b.map some)).flatten = bs.flatten.map some := by
    induction bs with
    | nil => rfl
    | cons b bs ih => simp [List.map_append]
  have hlen : ((bs.map (fun b => b.map some)).take i).map List.length =
      (bs.take i).map List.length := by
    rw [← List.map_take, List.map_map]
    apply List.map_congr_left
    intro b _
    simp
  rw [hflat, hlen] at h
  have hget : ∀ (l : List α) (j : Nat), (l.map some).getD j none = l[j]? := by
    intro l j
    rw [List.getD_eq_getElem?_getD, List.getElem?_map]
    cases l[j]? <;> rfl
  rw [hget] at h
  rw [h]
  have hi' : (bs.map (fun b => b.map some)).getD i [] = (bs.getD i []).map some := by
    rw [List.getD_eq_getElem?_getD, List.getD_eq_getElem?_getD, List.getElem?_map]
    cases bs[i]? <;> rfl
  rw [hi', hget]

theorem flatten_at_group {α : Type} (bs : List (List α)) (sizes : List Nat)
    (hlen : bs.map List.length = sizes) (g c : Nat) (hg : g < sizes.length)
    (hc : c < (bs.getD g []).length) :
    bs.flatten[(sizes.take g).sum + c]? = (bs.getD g [])[c]? := by
  have h := flatten_getElem_some bs g c (by rw [← hlen] at hg; simpa using hg) hc
  rw [List.map_take, hlen] at h
  exact h

theorem sspBlocks_lengths (H : SparseNondeterministicInfiniteHorizonHelper)
    (stateMap : List Nat) (k : Nat) (mecLraValues : List ℚ) :
    (sspRowBlocks H stateMap k).map List.length =
      sspGroupSizes H.transitionMatrix H.mecDecomposition H.transitionMatrix.getRowGroupCount ∧
    (sspRhsBlocks H mecLraValues).map List.length =
      sspGroupSizes H.transitionMatrix H.mecDecomposition H.transitionMatrix.getRowGroupCount := by
  unfold sspRowBlocks sspRhsBlocks sspGroupSizes
  rw [← map_range_getD H.mecDecomposition []
    (fun mec => (mecExitChoices H.transitionMatrix mec).length + 1)]
  constructor
  · rw [List.map_append, List.map_map, List.map_map]
    congr 1 <;> (apply List.map_congr_left; intro x _; simp)
  · rw [List.map_append, List.map_map, List.map_map]
    congr 1 <;> (apply List.map_congr_left; intro x _; simp)

theorem sspBlocks_mec (H : SparseNondeterministicInfiniteHorizonHelper)
    (stateMap : List Nat) (k : Nat) (mecLraValues : List ℚ) (i : Nat)
    (hi : i < H.mecDecomposition.length) :
    (sspRowBlocks H stateMap k).getD
        ((nonMecStates H.mecDecomposition H.transitionMatrix.getRowGroupCount).length + i) [] =
      (mecExitChoices H.transitionMatrix (H.mecDecomposition.getD i [])).map
        (fun stateChoice => addSspMatrixChoice stateChoice.2 H.transitionMatrix stateMap k) ++
        [[]] ∧
    (sspRhsBlocks H mecLraValues).getD
        ((nonMecStates H.mecDecomposition H.transitionMatrix.getRowGroupCount).length + i) [] =
      List.replicate
        (mecExitChoices H.transitionMatrix (H.mecDecomposition.getD i [])).length 0 ++
        [mecLraValues.getD i 0] := by
  unfold sspRowBlocks sspRhsBlocks
  constructor
  · rw [List.getD_eq_getElem?_getD, List.getElem?_append_right (by simp)]
    simp [hi]
  · rw [List.getD_eq_getElem?_getD, List.getElem?_append_right (by simp)]
    simp [hi]

theorem sspBlocks_nonMec (H : SparseNondeterministicInfiniteHorizonHelper)
    (mecLraValues : List ℚ) (j : Nat)
    (hj : j < (nonMecStates H.mecDecomposition H.transitionMatrix.getRowGroupCount).length) :
    (sspRhsBlocks H mecLraValues).getD j [] =
      List.replicate (H.transitionMatrix.groupRows
        ((nonMecStates H.mecDecomposition H.transitionMatrix.getRowGroupCount).getD j 0)).length
        0 := by
  unfold sspRhsBlocks
  rw [List.getD_eq_getElem?_getD, List.getElem?_append_left (by simpa using hj)]
  simp [hj, List.getD_eq_getElem?_getD]

/-- C35: in the reduced system that `buildAndSolveSsp` builds, the row group of the auxiliary
state `numberOfStatesNotInMecs + i` of the end component `i` has one row for every choice of a
state of the end component that is not allowed in it, in the order of the states of the end
component and in ascending order of the choices, and one last row.  The row of an exit choice is
the redirected row of that choice with right-hand side `0`, and when a scheduler is requested
the entry of `sspMecExitChoicesToOriginalMap` at the index of the row minus `exitChoiceOffset` is
the state with the local index of the choice.  The last row has no entries, its right-hand side
is `mecLraValues[i]`, and its entry of the map is the pair of sentinels.  Every row of a state
in no end component has right-hand side `0`, and the right-hand side has one entry per row. -/
theorem buildSsp_auxiliary_choices (H : SparseNondeterministicInfiniteHorizonHelper)
    (mecLraValues : List ℚ) (i : Nat) (hi : i < H.mecDecomposition.length) :
    (sspBuilderOf H mecLraValues).build.groupRows (nonMecCountOf H + i) =
      List.range' ((sspBuilderOf H mecLraValues).build.rowGroupIndex (nonMecCountOf H + i))
        ((mecExitChoices H.transitionMatrix (H.mecDecomposition.getD i [])).length + 1) ∧
    (∀ c, c < (mecExitChoices H.transitionMatrix (H.mecDecomposition.getD i [])).length →
      (sspBuilderOf H mecLraValues).rows[
          (sspBuilderOf H mecLraValues).build.rowGroupIndex (nonMecCountOf H + i) + c]? =
        some (addSspMatrixChoice
          ((mecExitChoices H.transitionMatrix (H.mecDecomposition.getD i [])).getD c (0, 0)).2
          H.transitionMatrix (sspStateMapOf H) (nonMecCountOf H)) ∧
      (sspBuilderOf H mecLraValues).rhs[
          (sspBuilderOf H mecLraValues).build.rowGroupIndex (nonMecCountOf H + i) + c]? =
        some 0 ∧
      (H.produceScheduler = true →
        (sspBuilderOf H mecLraValues).sspMecExitChoicesToOriginalMap[
          (sspBuilderOf H mecLraValues).build.rowGroupIndex (nonMecCountOf H + i) + c -
            (sspBuilderOf H mecLraValues).build.rowGroupIndex (nonMecCountOf H)]? =
        some
          (((mecExitChoices H.transitionMatrix (H.mecDecomposition.getD i [])).getD c (0, 0)).1,
            ((mecExitChoices H.transitionMatrix (H.mecDecomposition.getD i [])).getD c
                (0, 0)).2 -
              H.transitionMatrix.rowGroupIndex
                ((mecExitChoices H.transitionMatrix (H.mecDecomposition.getD i [])).getD c
                  (0, 0)).1))) ∧
    ((sspBuilderOf H mecLraValues).rows[
        (sspBuilderOf H mecLraValues).build.rowGroupIndex (nonMecCountOf H + i) +
          (mecExitChoices H.transitionMatrix (H.mecDecomposition.getD i [])).length]? =
      some [] ∧
     (sspBuilderOf H mecLraValues).rhs[
        (sspBuilderOf H mecLraValues).build.rowGroupIndex (nonMecCountOf H + i) +
          (mecExitChoices H.transitionMatrix (H.mecDecomposition.getD i [])).length]? =
      some (mecLraValues.getD i 0) ∧
     (H.produceScheduler = true →
      (sspBuilderOf H mecLraValues).sspMecExitChoicesToOriginalMap[
        (sspBuilderOf H mecLraValues).build.rowGroupIndex (nonMecCountOf H + i) +
          (mecExitChoices H.transitionMatrix (H.mecDecomposition.getD i [])).length -
          (sspBuilderOf H mecLraValues).build.rowGroupIndex (nonMecCountOf H)]? =
      some (uint64Max, uint64Max))) ∧
    (∀ j, j < nonMecCountOf H → ∀ r ∈ (sspBuilderOf H mecLraValues).build.groupRows j,
      (sspBuilderOf H mecLraValues).rhs[r]? = some 0) ∧
    (sspBuilderOf H mecLraValues).rhs.length = (sspBuilderOf H mecLraValues).rows.length := by
  obtain ⟨m1, _, _, _⟩ := inputToSspStateMap_spec H.mecDecomposition
    H.transitionMatrix.getRowGroupCount
  obtain ⟨bs1, bs2⟩ := buildSsp_structure H (sspStateMapOf H) (nonMecCountOf H) mecLraValues
  obtain ⟨c1, c2⟩ := buildSsp_content H (sspStateMapOf H) (nonMecCountOf H) mecLraValues
  obtain ⟨l1, l2⟩ := sspBlocks_lengths H (sspStateMapOf H) (nonMecCountOf H) mecLraValues
  obtain ⟨k1, k2⟩ := sspBlocks_mec H (sspStateMapOf H) (nonMecCountOf H) mecLraValues i hi
  change nonMecCountOf H = _ at m1
  change (sspBuilderOf H mecLraValues).build.rowGroupIndices = _ at bs1
  change (sspBuilderOf H mecLraValues).sspMecExitChoicesToOriginalMap = _ at bs2
  change (sspBuilderOf H mecLraValues).rows = _ at c1
  change (sspBuilderOf H mecLraValues).rhs = _ at c2
  rw [← m1] at k1 k2
  have hsizes : (sspGroupSizes H.transitionMatrix H.mecDecomposition
      H.transitionMatrix.getRowGroupCount).length = nonMecCountOf H + H.mecDecomposition.length := by
    rw [m1]
    simp [sspGroupSizes]
  have hg : nonMecCountOf H + i < (sspGroupSizes H.transitionMatrix H.mecDecomposition
      H.transitionMatrix.getRowGroupCount).length := by rw [hsizes]; omega
  obtain ⟨g1, g2⟩ := groupRows_of_sizes _ _ bs1 (nonMecCountOf H + i) hg
  have hsz : (sspGroupSizes H.transitionMatrix H.mecDecomposition
      H.transitionMatrix.getRowGroupCount).getD (nonMecCountOf H + i) 0 =
      (mecExitChoices H.transitionMatrix (H.mecDecomposition.getD i [])).length + 1 := by
    rw [← l1, List.getD_eq_getElem?_getD, List.getElem?_map]
    rw [List.getD_eq_getElem?_getD] at k1
    cases hb : (sspRowBlocks H (sspStateMapOf H) (nonMecCountOf H))[nonMecCountOf H + i]? with
    | none =>
      rw [hb] at k1
      simp at k1
    | some b =>
      rw [hb] at k1
      simp only [Option.getD_some] at k1
      simp [k1]
  generalize hexits : mecExitChoices H.transitionMatrix (H.mecDecomposition.getD i []) = exits
    at k1 k2 hsz ⊢
  have hrow : ∀ c, c < exits.length + 1 →
      (sspBuilderOf H mecLraValues).rows[
        (sspBuilderOf H mecLraValues).build.rowGroupIndex (nonMecCountOf H + i) + c]? =
      (exits.map (fun stateChoice => addSspMatrixChoice stateChoice.2 H.transitionMatrix
        (sspStateMapOf H) (nonMecCountOf H)) ++ [[]])[c]? := by
    intro c hc
    rw [c1, g1, flatten_at_group _ _ l1 _ c hg (by rw [k1]; simpa using hc), k1]
  have hrhs : ∀ c, c < exits.length + 1 →
      (sspBuilderOf H mecLraValues).rhs[
        (sspBuilderOf H mecLraValues).build.rowGroupIndex (nonMecCountOf H + i) + c]? =
      (List.replicate exits.length (0 : ℚ) ++ [mecLraValues.getD i 0])[c]? := by
    intro c hc
    rw [c2, g1, flatten_at_group _ _ l2 _ c hg (by rw [k2]; simpa using hc), k2]
  have hmap : H.produceScheduler = true → ∀ c, c < exits.length + 1 →
      (sspBuilderOf H mecLraValues).sspMecExitChoicesToOriginalMap[
        (sspBuilderOf H mecLraValues).build.rowGroupIndex (nonMecCountOf H + i) + c -
          (sspBuilderOf H mecLraValues).build.rowGroupIndex (nonMecCountOf H)]? =
      (exits.map (fun stateChoice =>
        (stateChoice.1, stateChoice.2 - H.transitionMatrix.rowGroupIndex stateChoice.1)) ++
        [(uint64Max, uint64Max)])[c]? := by
    intro hp c hc
    obtain ⟨e1, e2⟩ := exitEntry_aligned H.transitionMatrix H.mecDecomposition
      H.transitionMatrix.getRowGroupCount _ bs1 (nonMecCountOf H) m1 i c hi
      (by rw [g2, hsz, List.length_range']; exact hc)
    rw [e1, bs2, if_pos hp, flatten_getElem_some _ i c (by simpa using hi) e2]
    congr 1
    rw [List.getD_eq_getElem?_getD, List.getElem?_map, List.getElem?_eq_getElem hi]
    simp only [Option.map_some', Option.getD_some]
    unfold mecExitEntries
    rw [← hexits, List.getD_eq_getElem?_getD, List.getElem?_eq_getElem hi]
    rfl
  refine ⟨?_, ?_, ?_, ?_, ?_⟩
  · rw [g2, hsz, g1]
  · intro c hc
    have hget : exits[c]? = some (exits.getD c (0, 0)) := by
      rw [List.getD_eq_getElem?_getD, List.getElem?_eq_getElem hc]
      rfl
    refine ⟨?_, ?_, fun hp => ?_⟩
    · rw [hrow c (by omega), List.getElem?_append_left (by simpa using hc), List.getElem?_map,
        hget]
      rfl
    · rw [hrhs c (by omega), List.getElem?_append_left (by simpa using hc)]
      simp [hc]
    · rw [hmap hp c (by omega), List.getElem?_append_left (by simpa using hc),
        List.getElem?_map, hget]
      rfl
  · refine ⟨?_, ?_, fun hp => ?_⟩
    · rw [hrow _ (by omega), List.getElem?_append_right (by simp)]
      simp
    · rw [hrhs _ (by omega), List.getElem?_append_right (by simp)]
      simp
    · rw [hmap hp _ (by omega), List.getElem?_append_right (by simp)]
      simp
  · intro j hj r hr
    have hgj : j < (sspGroupSizes H.transitionMatrix H.mecDecomposition
        H.transitionMatrix.getRowGroupCount).length := by rw [hsizes]; omega
    obtain ⟨gj1, gj2⟩ := groupRows_of_sizes _ _ bs1 j hgj
    rw [gj2, List.mem_range'_1] at hr
    have hbl := sspBlocks_nonMec H mecLraValues j (by rw [← m1]; exact hj)
    have hlenj : ((sspRhsBlocks H mecLraValues).getD j []).length =
        (sspGroupSizes H.transitionMatrix H.mecDecomposition
          H.transitionMatrix.getRowGroupCount).getD j 0 := by
      rw [← l2, List.getD_eq_getElem?_getD, List.getD_eq_getElem?_getD, List.getElem?_map]
      cases (sspRhsBlocks H mecLraValues)[j]? <;> rfl
    obtain ⟨c, hc⟩ : ∃ c, r = (List.take j (sspGroupSizes H.transitionMatrix
        H.mecDecomposition H.transitionMatrix.getRowGroupCount)).sum + c :=
      ⟨r - (List.take j (sspGroupSizes H.transitionMatrix
        H.mecDecomposition H.transitionMatrix.getRowGroupCount)).sum, by omega⟩
    rw [hc, c2, flatten_at_group _ _ l2 j c hgj (by rw [hlenj]; omega), hbl]
    rw [hbl, List.length_replicate] at hlenj
    rw [List.getElem?_replicate, if_pos (by omega)]
  · rw [c1, c2, List.length_flatten, List.length_flatten, l1, l2]

/-- Witness of C35 on the system with four states and the values `5` and `7` of its two end
components: the last state is the only one in no end component; the auxiliary state of the first
end component has the exit row of the second choice of the second state and the row that stays,
the auxiliary state of the second end component has only the row that stays. -/
theorem buildSsp_auxiliary_choices_witness :
    (sspBuilderOf exitHelper [5, 7]).rows = [[(1, 1)], [(2, 1)], [], []] ∧
    (sspBuilderOf exitHelper [5, 7]).build.rowGroupIndices = [0, 1, 3, 4] ∧
    (sspBuilderOf exitHelper [5, 7]).rhs = [0, 0, 5, 7] ∧
    (sspBuilderOf exitHelper [5, 7]).sspMecExitChoicesToOriginalMap =
      [(1, 1), (uint64Max, uint64Max), (uint64Max, uint64Max)] ∧
    mecExitChoices exitHelper.transitionMatrix (exitHelper.mecDecomposition.getD 0 []) =
      [(1, 2)] ∧
    (sspBuilderOf exitHelper [5, 7]).build.groupRows (nonMecCountOf exitHelper + 0) =
      List.range'
        ((sspBuilderOf exitHelper [5, 7]).build.rowGroupIndex (nonMecCountOf exitHelper + 0))
        ((mecExitChoices exitHelper.transitionMatrix
          (exitHelper.mecDecomposition.getD 0 [])).length + 1) :=
  ⟨by decide!, by decide!, by decide!, by decide!, by decide,
    (buildSsp_auxiliary_choices exitHelper [5, 7] 0 (by decide)).1⟩

/-! ## Stitching of the scheduler: what is kept -/

theorem buildAndSolveSsp_stitched (H : SparseNondeterministicInfiniteHorizonHelper)
    (env : LraEnvironment) (mecLraValues : List ℚ) (produced : List Nat) (lower upper : ℚ)
    (x : List ℚ) (sspChoices : List Nat)
    (hscheduler : H.produceScheduler = true)
    (hrequirements : H.sspRequirementsCritical env = false)
    (hmin : mecLraValues.min? = some lower) (hmax : mecLraValues.max? = some upper)
    (hsolve : H.minMaxSolve env H.optimizationDirection (sspBuilderOf H mecLraValues).build
      (List.replicate (nonMecCountOf H + H.mecDecomposition.length) 0)
      (sspBuilderOf H mecLraValues).rhs lower upper H.produceScheduler = (x, some sspChoices)) :
    buildAndSolveSsp H env mecLraValues (some produced) =
      Except.ok ((sspStateMapOf H).map (fun sspState => x.getD sspState 0),
        some (H.mecDecomposition.foldl
          (stitchMec H (sspStateMapOf H) (nonMecCountOf H) (sspBuilderOf H mecLraValues).build
            (sspBuilderOf H mecLraValues).sspMecExitChoicesToOriginalMap sspChoices)
          (setVectorValues produced
            (nonMecStates H.mecDecomposition H.transitionMatrix.getRowGroupCount)
            sspChoices))) := by
  unfold sspBuilderOf sspStateMapOf nonMecCountOf at hsolve
  rw [hscheduler] at hsolve
  unfold buildAndSolveSsp sspBuilderOf sspStateMapOf nonMecCountOf
  simp only [hrequirements, Bool.false_eq_true, if_false, hmin, hmax, hsolve, hscheduler, if_true,
    statesNotContainedInAnyMec_eq]

theorem auxGroup_rows (H : SparseNondeterministicInfiniteHorizonHelper)
    (mecLraValues : List ℚ) (g : Nat)
    (hg : g < nonMecCountOf H + H.mecDecomposition.length) :
    ((sspBuilderOf H mecLraValues).build.groupRows g).length =
      (sspGroupSizes H.transitionMatrix H.mecDecomposition
        H.transitionMatrix.getRowGroupCount).getD g 0 := by
  obtain ⟨m1, _, _, _⟩ := inputToSspStateMap_spec H.mecDecomposition
    H.transitionMatrix.getRowGroupCount
  obtain ⟨bs1, _⟩ := buildSsp_structure H (sspStateMapOf H) (nonMecCountOf H) mecLraValues
  change nonMecCountOf H = _ at m1
  change (sspBuilderOf H mecLraValues).build.rowGroupIndices = _ at bs1
  have hsizes : (sspGroupSizes H.transitionMatrix H.mecDecomposition
      H.transitionMatrix.getRowGroupCount).length =
      nonMecCountOf H + H.mecDecomposition.length := by
    rw [m1]
    simp [sspGroupSizes]
  obtain ⟨_, g2⟩ := groupRows_of_sizes _ _ bs1 g (by rw [hsizes]; exact hg)
  rw [g2, List.length_range']

theorem auxGroup_size (H : SparseNondeterministicInfiniteHorizonHelper)
    (mecLraValues : List ℚ) (j : Nat) (hj : j < H.mecDecomposition.length) :
    ((sspBuilderOf H mecLraValues).build.groupRows (nonMecCountOf H + j)).length =
      (mecExitChoices H.transitionMatrix (H.mecDecomposition.getD j [])).length + 1 := by
  obtain ⟨m1, _, _, _⟩ := inputToSspStateMap_spec H.mecDecomposition
    H.transitionMatrix.getRowGroupCount
  change nonMecCountOf H = _ at m1
  rw [auxGroup_rows H mecLraValues _ (by omega)]
  unfold sspGroupSizes
  rw [List.getD_eq_getElem?_getD, List.getElem?_append_right (by simp [m1]), List.getElem?_map]
  simp only [List.length_map]
  rw [m1, Nat.add_sub_cancel_left, List.getElem?_eq_getElem hj, List.getD_eq_getElem _ _ hj]
  rfl

theorem selectedEntry_eq (H : SparseNondeterministicInfiniteHorizonHelper)
    (mecLraValues : List ℚ) (sspChoices : List Nat)
    (hscheduler : H.produceScheduler = true)
    (hnonEmpty : ∀ mec ∈ H.mecDecomposition, mec ≠ [])
    (hrange : MecStatesInRange H.mecDecomposition H.transitionMatrix.getRowGroupCount)
    (hdisjoint : MecsDisjoint H.mecDecomposition)
    (j : Nat) (hj : j < H.mecDecomposition.length)
    (hc : sspChoices.getD (nonMecCountOf H + j) 0 <
      ((sspBuilderOf H mecLraValues).build.groupRows (nonMecCountOf H + j)).length) :
    (sspStateMapOf H).getD ((H.mecDecomposition.getD j []).headD (0, [])).1 0 =
      nonMecCountOf H + j ∧
    (sspBuilderOf H mecLraValues).sspMecExitChoicesToOriginalMap.getD
        ((sspBuilderOf H mecLraValues).build.rowGroupIndex
            ((sspStateMapOf H).getD ((H.mecDecomposition.getD j []).headD (0, [])).1 0) +
          sspChoices.getD
            ((sspStateMapOf H).getD ((H.mecDecomposition.getD j []).headD (0, [])).1 0) 0 -
          (sspBuilderOf H mecLraValues).build.rowGroupIndex (nonMecCountOf H))
        (uint64Max, uint64Max) =
      (mecExitEntries H.transitionMatrix (H.mecDecomposition.getD j [])).getD
        (sspChoices.getD (nonMecCountOf H + j) 0) (uint64Max, uint64Max) := by
  obtain ⟨m1, _, _, m4⟩ := inputToSspStateMap_spec H.mecDecomposition
    H.transitionMatrix.getRowGroupCount
  obtain ⟨bs1, bs2⟩ := buildSsp_structure H (sspStateMapOf H) (nonMecCountOf H) mecLraValues
  change nonMecCountOf H = _ at m1
  change (sspBuilderOf H mecLraValues).build.rowGroupIndices = _ at bs1
  change (sspBuilderOf H mecLraValues).sspMecExitChoicesToOriginalMap = _ at bs2
  rw [hscheduler, if_pos rfl] at bs2
  have hmem : H.mecDecomposition.getD j [] ∈ H.mecDecomposition := by
    rw [List.getD_eq_getElem _ _ hj]
    exact List.getElem_mem _
  obtain ⟨p0, rest, hm⟩ := List.exists_cons_of_ne_nil (hnonEmpty _ hmem)
  have hhead : ((H.mecDecomposition.getD j []).headD (0, [])).1 = p0.1 := by rw [hm]; rfl
  have hp0 : p0 ∈ H.mecDecomposition.getD j [] := by rw [hm]; exact List.mem_cons_self _ _
  have hc0 : containsState (H.mecDecomposition.getD j []) p0.1 = true :=
    (containsState_iff _ p0.1).2 ⟨p0, hp0, rfl⟩
  have hmap : (sspStateMapOf H).getD p0.1 0 = nonMecCountOf H + j := by
    have := m4 p0.1 j (hrange _ hmem p0 hp0) hj hc0 hdisjoint
    rw [← m1] at this
    exact this
  rw [hhead, hmap]
  refine ⟨rfl, ?_⟩
  obtain ⟨e1, e2⟩ := exitEntry_aligned H.transitionMatrix H.mecDecomposition
    H.transitionMatrix.getRowGroupCount _ bs1 _ m1 j _ hj hc
  have hblock : (H.mecDecomposition.map (mecExitEntries H.transitionMatrix)).getD j [] =
      mecExitEntries H.transitionMatrix (H.mecDecomposition.getD j []) := by
    rw [List.getD_eq_getElem _ _ (by simpa using hj), List.getElem_map,
      List.getD_eq_getElem _ _ hj]
  rw [e1, bs2, flatten_getD _ j _ _ (by simpa using hj) e2, hblock]

theorem markFold_frame (mec : MaximalEndComponent) (e : Nat) :
    ∀ (ch : List Nat) (s : Nat), containsState mec s = false →
      (mec.foldl (fun (choices : List Nat) (stateActions : Nat × List Nat) =>
        if stateActions.1 ≠ e then choices.set stateActions.1 uint64Max else choices)
        ch).getD s 0 = ch.getD s 0 := by
  induction mec with
  | nil => intro ch s _; rfl
  | cons p mec ih =>
    intro ch s hs
    have hs' : containsState mec s = false ∧ p.1 ≠ s := by
      unfold containsState at hs ⊢
      simp only [List.any_cons, Bool.or_eq_false_iff, decide_eq_false_iff_not] at hs
      exact ⟨hs.2, hs.1⟩
    rw [List.foldl_cons, ih _ s hs'.1]
    by_cases hp : p.1 ≠ e
    · rw [if_pos hp, getD_set_any, if_neg (fun h => hs'.2 h.1.symm)]
    · rw [if_neg hp]

theorem visitPredecessor_frame (H : SparseNondeterministicInfiniteHorizonHelper)
    (mec : MaximalEndComponent) (cur : Nat) (acc : List Nat × List Nat) (t : Nat × ℚ)
    (s : Nat) (hs : containsState mec s = false) :
    (visitPredecessor H mec cur acc t).1.getD s 0 = acc.1.getD s 0 := by
  unfold visitPredecessor
  simp only []
  by_cases hM : containsState mec t.1 = true
  · rw [if_pos hM]
    by_cases hu : acc.1.getD t.1 0 = uint64Max
    · rw [if_pos hu]
      cases findPredChoice H mec t.1 cur with
      | none => rfl
      | some pc =>
        simp only []
        rw [getD_set_any, if_neg]
        rintro ⟨h, _⟩
        rw [h, hM] at hs
        cases hs
    · rw [if_neg hu]
  · rw [if_neg hM]

theorem visitFold_frame (H : SparseNondeterministicInfiniteHorizonHelper)
    (mec : MaximalEndComponent) (cur : Nat) (T : List (Nat × ℚ)) (s : Nat)
    (hs : containsState mec s = false) :
    ∀ acc : List Nat × List Nat,
      (T.foldl (visitPredecessor H mec cur) acc).1.getD s 0 = acc.1.getD s 0 := by
  induction T with
  | nil => intro acc; rfl
  | cons t T ih =>
    intro acc
    rw [List.foldl_cons, ih, visitPredecessor_frame H mec cur acc t s hs]

theorem backwardSearch_frame (H : SparseNondeterministicInfiniteHorizonHelper)
    (backward : SparseMatrix) (mec : MaximalEndComponent) (s : Nat)
    (hs : containsState mec s = false) (fuel : Nat) :
    ∀ (stack ch : List Nat),
      (backwardSearch H backward mec fuel stack ch).getD s 0 = ch.getD s 0 := by
  induction fuel with
  | zero => intro stack ch; rfl
  | succ fuel ih =>
    intro stack ch
    unfold backwardSearch
    cases stack with
    | nil => rfl
    | cons cur stack =>
      simp only []
      rw [ih, visitFold_frame H mec cur _ s hs]

theorem stitchMec_frame (H : SparseNondeterministicInfiniteHorizonHelper) (stateMap : List Nat)
    (k : Nat) (sspMatrix : SparseMatrix) (exitMap : List (Nat × Nat)) (sspChoices ch : List Nat)
    (mec : MaximalEndComponent) (s : Nat) (hs : containsState mec s = false)
    (hentry :
      (exitMap.getD
        (sspMatrix.rowGroupIndex (stateMap.getD (mec.headD (0, [])).1 0) +
          sspChoices.getD (stateMap.getD (mec.headD (0, [])).1 0) 0 -
          sspMatrix.rowGroupIndex k) (uint64Max, uint64Max)).1 = uint64Max ∨
      containsState mec (exitMap.getD
        (sspMatrix.rowGroupIndex (stateMap.getD (mec.headD (0, [])).1 0) +
          sspChoices.getD (stateMap.getD (mec.headD (0, [])).1 0) 0 -
          sspMatrix.rowGroupIndex k) (uint64Max, uint64Max)).1 = true) :
    (stitchMec H stateMap k sspMatrix exitMap sspChoices ch mec).getD s 0 = ch.getD s 0 := by
  unfold stitchMec
  simp only []
  generalize exitMap.getD
    (sspMatrix.rowGroupIndex (stateMap.getD (mec.headD (0, [])).1 0) +
      sspChoices.getD (stateMap.getD (mec.headD (0, [])).1 0) 0 -
      sspMatrix.rowGroupIndex k) (uint64Max, uint64Max) = entry at hentry ⊢
  by_cases hstay : entry.1 = uint64Max
  · rw [if_pos hstay]
  · rw [if_neg hstay]
    have hin : containsState mec entry.1 = true := hentry.resolve_left hstay
    rw [backwardSearch_frame H _ mec s hs, markFold_frame mec entry.1 _ s hs, getD_set_any,
      if_neg]
    rintro ⟨h, _⟩
    rw [h, hin] at hs
    cases hs

theorem setVectorFold_frame (L : List Nat) (values : List Nat) (s : Nat) (hs : s ∉ L) :
    ∀ acc : List Nat × Nat,
      (L.foldl (fun (acc : List Nat × Nat) position =>
        (acc.1.set position (values.getD acc.2 0), acc.2 + 1)) acc).1.getD s 0 =
        acc.1.getD s 0 := by
  induction L with
  | nil => intro acc; rfl
  | cons p L ih =>
    intro acc
    rw [List.foldl_cons, ih (fun h => hs (List.mem_cons_of_mem _ h))]
    simp only []
    rw [getD_set_any, if_neg]
    rintro ⟨h, _⟩
    exact hs (by rw [h]; exact List.mem_cons_self _ _)

theorem foldl_keeps {α : Type} (f : List Nat → α → List Nat) (L : List α) (s : Nat)
    (h : ∀ a ∈ L, ∀ ch, (f ch a).getD s 0 = ch.getD s 0) :
    ∀ ch, (L.foldl f ch).getD s 0 = ch.getD s 0 := by
  induction L with
  | nil => intro ch; rfl
  | cons a L ih =>
    intro ch
    rw [List.foldl_cons, ih (fun b hb => h b (List.mem_cons_of_mem _ hb)),
      h a (List.mem_cons_self _ _)]

theorem mecExitEntries_last (A : SparseMatrix) (mec : MaximalEndComponent) :
    (mecExitEntries A mec).getD (mecExitChoices A mec).length (uint64Max, uint64Max) =
      (uint64Max, uint64Max) := by
  unfold mecExitEntries
  rw [List.getD_eq_getElem?_getD, List.getElem?_append_right (by simp)]
  simp

theorem selectedEntry_ok (H : SparseNondeterministicInfiniteHorizonHelper)
    (mecLraValues : List ℚ) (sspChoices : List Nat)
    (hscheduler : H.produceScheduler = true)
    (hnonEmpty : ∀ mec ∈ H.mecDecomposition, mec ≠ [])
    (hrange : MecStatesInRange H.mecDecomposition H.transitionMatrix.getRowGroupCount)
    (hdisjoint : MecsDisjoint H.mecDecomposition)
    (j : Nat) (hj : j < H.mecDecomposition.length)
    (hc : sspChoices.getD (nonMecCountOf H + j) 0 <
      ((sspBuilderOf H mecLraValues).build.groupRows (nonMecCountOf H + j)).length) :
    ((sspBuilderOf H mecLraValues).sspMecExitChoicesToOriginalMap.getD
        ((sspBuilderOf H mecLraValues).build.rowGroupIndex
            ((sspStateMapOf H).getD ((H.mecDecomposition.getD j []).headD (0, [])).1 0) +
          sspChoices.getD
            ((sspStateMapOf H).getD ((H.mecDecomposition.getD j []).headD (0, [])).1 0) 0 -
          (sspBuilderOf H mecLraValues).build.rowGroupIndex (nonMecCountOf H))
        (uint64Max, uint64Max)).1 = uint64Max ∨
    (containsState (H.mecDecomposition.getD j [])
        ((sspBuilderOf H mecLraValues).sspMecExitChoicesToOriginalMap.getD
          ((sspBuilderOf H mecLraValues).build.rowGroupIndex
              ((sspStateMapOf H).getD ((H.mecDecomposition.getD j []).headD (0, [])).1 0) +
            sspChoices.getD
              ((sspStateMapOf H).getD ((H.mecDecomposition.getD j []).headD (0, [])).1 0) 0 -
            (sspBuilderOf H mecLraValues).build.rowGroupIndex (nonMecCountOf H))
          (uint64Max, uint64Max)).1 = true ∧
      ((sspBuilderOf H mecLraValues).sspMecExitChoicesToOriginalMap.getD
          ((sspBuilderOf H mecLraValues).build.rowGroupIndex
              ((sspStateMapOf H).getD ((H.mecDecomposition.getD j []).headD (0, [])).1 0) +
            sspChoices.getD
              ((sspStateMapOf H).getD ((H.mecDecomposition.getD j []).headD (0, [])).1 0) 0 -
            (sspBuilderOf H mecLraValues).build.rowGroupIndex (nonMecCountOf H))
          (uint64Max, uint64Max)).2 <
        (H.transitionMatrix.groupRows
          ((sspBuilderOf H mecLraValues).sspMecExitChoicesToOriginalMap.getD
            ((sspBuilderOf H mecLraValues).build.rowGroupIndex
                ((sspStateMapOf H).getD ((H.mecDecomposition.getD j []).headD (0, [])).1 0) +
              sspChoices.getD
                ((sspStateMapOf H).getD ((H.mecDecomposition.getD j []).headD (0, [])).1 0) 0 -
              (sspBuilderOf H mecLraValues).build.rowGroupIndex (nonMecCountOf H))
            (uint64Max, uint64Max)).1).length) := by
  rw [(selectedEntry_eq H mecLraValues sspChoices hscheduler hnonEmpty hrange hdisjoint j hj
    hc).2]
  exact mecExitEntries_getD H.transitionMatrix _ _

/-- C37: when a scheduler is requested, the requirements of the solver are met, the end
components are not empty, state-disjoint and made of states of the system, and the min/max
solver returns a scheduler that selects a row of every row group of the reduced system, then
for an end component `i` at whose auxiliary state the scheduler selects the last row (the one
that stays), `buildAndSolveSsp` returns produced choices that agree with the ones it was given
at every state of that end component; the translation of the choice at any other end component
leaves the entries of these states as they are. -/
theorem buildAndSolveSsp_stay_keeps_choices (H : SparseNondeterministicInfiniteHorizonHelper)
    (env : LraEnvironment) (mecLraValues : List ℚ) (produced : List Nat) (lower upper : ℚ)
    (x : List ℚ) (sspChoices : List Nat) (i : Nat)
    (hscheduler : H.produceScheduler = true)
    (hrequirements : H.sspRequirementsCritical env = false)
    (hmin : mecLraValues.min? = some lower) (hmax : mecLraValues.max? = some upper)
    (hsolve : H.minMaxSolve env H.optimizationDirection (sspBuilderOf H mecLraValues).build
      (List.replicate (nonMecCountOf H + H.mecDecomposition.length) 0)
      (sspBuilderOf H mecLraValues).rhs lower upper H.produceScheduler = (x, some sspChoices))
    (hnonEmpty : ∀ mec ∈ H.mecDecomposition, mec ≠ [])
    (hrange : MecStatesInRange H.mecDecomposition H.transitionMatrix.getRowGroupCount)
    (hdisjoint : MecsDisjoint H.mecDecomposition)
    (hvalid : ∀ g, g < nonMecCountOf H + H.mecDecomposition.length →
      sspChoices.getD g 0 < ((sspBuilderOf H mecLraValues).build.groupRows g).length)
    (hi : i < H.mecDecomposition.length)
    (hstay : sspChoices.getD (nonMecCountOf H + i) 0 + 1 =
      ((sspBuilderOf H mecLraValues).build.groupRows (nonMecCountOf H + i)).length) :
    (∃ result choices,
      buildAndSolveSsp H env mecLraValues (some produced) = Except.ok (result, some choices) ∧
      ∀ s, containsState (H.mecDecomposition.getD i []) s = true →
        choices.getD s 0 = produced.getD s 0) ∧
    (∀ ch, stitchMec H (sspStateMapOf H) (nonMecCountOf H) (sspBuilderOf H mecLraValues).build
        (sspBuilderOf H mecLraValues).sspMecExitChoicesToOriginalMap sspChoices ch
        (H.mecDecomposition.getD i []) = ch) ∧
    (∀ j, j < H.mecDecomposition.length → j ≠ i → ∀ ch s,
      containsState (H.mecDecomposition.getD i []) s = true →
      (stitchMec H (sspStateMapOf H) (nonMecCountOf H) (sspBuilderOf H mecLraValues).build
        (sspBuilderOf H mecLraValues).sspMecExitChoicesToOriginalMap sspChoices ch
        (H.mecDecomposition.getD j [])).getD s 0 = ch.getD s 0) := by
  have hkeep : ∀ ch, stitchMec H (sspStateMapOf H) (nonMecCountOf H)
      (sspBuilderOf H mecLraValues).build
      (sspBuilderOf H mecLraValues).sspMecExitChoicesToOriginalMap sspChoices ch
      (H.mecDecomposition.getD i []) = ch := by
    intro ch
    have he := (selectedEntry_eq H mecLraValues sspChoices hscheduler hnonEmpty hrange
      hdisjoint i hi (hvalid _ (by omega))).2
    have hsize := auxGroup_size H mecLraValues i hi
    have hc : sspChoices.getD (nonMecCountOf H + i) 0 =
        (mecExitChoices H.transitionMatrix (H.mecDecomposition.getD i [])).length := by omega
    rw [hc, mecExitEntries_last] at he
    unfold stitchMec
    simp only []
    rw [if_pos (by rw [he])]
  have hother : ∀ j, j < H.mecDecomposition.length → j ≠ i → ∀ ch s,
      containsState (H.mecDecomposition.getD i []) s = true →
      (stitchMec H (sspStateMapOf H) (nonMecCountOf H) (sspBuilderOf H mecLraValues).build
        (sspBuilderOf H mecLraValues).sspMecExitChoicesToOriginalMap sspChoices ch
        (H.mecDecomposition.getD j [])).getD s 0 = ch.getD s 0 := by
    intro j hj hji ch s hs
    have hnot : containsState (H.mecDecomposition.getD j []) s = false := by
      cases hc : containsState (H.mecDecomposition.getD j []) s with
      | false => rfl
      | true => exact absurd (hdisjoint j i s hj hi hc hs) hji
    apply stitchMec_frame H _ _ _ _ _ _ _ s hnot
    rcases selectedEntry_ok H mecLraValues sspChoices hscheduler hnonEmpty hrange hdisjoint j hj
      (hvalid _ (by omega)) with h | h
    · exact Or.inl h
    · exact Or.inr h.1
  refine ⟨⟨_, _, buildAndSolveSsp_stitched H env mecLraValues produced lower upper x sspChoices
    hscheduler hrequirements hmin hmax hsolve, ?_⟩, hkeep, hother⟩
  intro s hs
  rw [foldl_keeps _ H.mecDecomposition s]
  · unfold setVectorValues
    apply setVectorFold_frame
    intro hmem
    have h2 := (List.mem_filter.1 hmem).2
    have hin : inSomeMec H.mecDecomposition s = true := by
      unfold inSomeMec
      rw [List.any_eq_true]
      exact ⟨_, by rw [List.getD_eq_getElem _ _ hi]; exact List.getElem_mem _, hs⟩
    rw [hin] at h2
    exact absurd h2 (by decide)
  · intro mec hmec ch
    obtain ⟨j, hj, hjm⟩ := List.mem_iff_getElem.1 hmec
    have hjD : H.mecDecomposition.getD j [] = mec := by
      rw [List.getD_eq_getElem _ _ hj]
      exact hjm
    rw [← hjD]
    by_cases hji : j = i
    · rw [hji, hkeep]
    · exact hother j hj hji ch s hs

theorem exitHelper_valid : ∀ g, g < nonMecCountOf exitHelper + exitHelper.mecDecomposition.length →
    [0, 0, 0].getD g 0 < ((sspBuilderOf exitHelper [1, 2]).build.groupRows g).length := by
  intro g hg
  have hk : nonMecCountOf exitHelper + exitHelper.mecDecomposition.length = 3 := by decide
  rw [hk] at hg
  interval_cases g <;> decide!

/-- Witness of C37 on the system with four states: the scheduler of the reduced system selects
the only row, the one that stays, at the auxiliary state of the second end component, which
consists of the third state; the produced choice of that state is the one that was passed in,
while the first end component is left through the second state. -/
theorem buildAndSolveSsp_stay_keeps_choices_witness :
    buildAndSolveSsp exitHelper plainLraEnvironment [1, 2] (some [0, 0, 0, 0]) =
      Except.ok ([2, 2, 2, 2], some [0, 1, 0, 0]) ∧
    exitHelper.mecDecomposition.getD 1 [] = [(2, [3])] ∧
    [0, 0, 0].getD (nonMecCountOf exitHelper + 1) 0 + 1 =
      ((sspBuilderOf exitHelper [1, 2]).build.groupRows (nonMecCountOf exitHelper + 1)).length ∧
    ∃ result choices,
      buildAndSolveSsp exitHelper plainLraEnvironment [1, 2] (some [0, 0, 0, 0]) =
        Except.ok (result, some choices) ∧
      ∀ s, containsState (exitHelper.mecDecomposition.getD 1 []) s = true →
        choices.getD s 0 = [0, 0, 0, 0].getD s 0 :=
  ⟨by decide!, by decide, by decide!,
    (buildAndSolveSsp_stay_keeps_choices exitHelper plainLraEnvironment [1, 2] [0, 0, 0, 0] 1 2
      [2, 2, 2] [0, 0, 0] 1 rfl rfl (by decide!) (by decide!) rfl exitHelper_contract.nonEmpty
      exitHelper_contract.inRange exitHelper_contract.disjoint exitHelper_valid (by decide)
      (by decide!)).1⟩

/-! ## Stitching of the scheduler: leaving an end component -/

theorem leadsToExit_contains (H : SparseNondeterministicInfiniteHorizonHelper)
    (mec : MaximalEndComponent) (e : Nat) (ch : List Nat) (he : containsState mec e = true)
    (s : Nat) (h : LeadsToExit H mec e ch s) : containsState mec s = true := by
  cases h with
  | exit => exact he
  | step _ _ _ hs => exact hs

theorem leadsToExit_mono (H : SparseNondeterministicInfiniteHorizonHelper)
    (mec : MaximalEndComponent) (e : Nat) (ch ch' : List Nat)
    (hkeep : ∀ s, containsState mec s = true → ch.getD s 0 ≠ uint64Max →
      ch'.getD s 0 = ch.getD s 0)
    (s : Nat) (h : LeadsToExit H mec e ch s) : LeadsToExit H mec e ch' s := by
  induction h with
  | exit => exact LeadsToExit.exit
  | step state next pc hs hne hpc hch hres htrans hnext _ ih =>
    have := hkeep state hs hres
    exact LeadsToExit.step state next pc hs hne hpc (by rw [this]; exact hch)
      (by rw [this]; exact hres) htrans hnext ih

theorem visitPredecessor_kept (H : SparseNondeterministicInfiniteHorizonHelper)
    (mec : MaximalEndComponent) (cur : Nat) (acc : List Nat × List Nat) (t : Nat × ℚ) :
    (visitPredecessor H mec cur acc t).1.length = acc.1.length ∧
    ∀ s, acc.1.getD s 0 ≠ uint64Max →
      (visitPredecessor H mec cur acc t).1.getD s 0 = acc.1.getD s 0 := by
  unfold visitPredecessor
  simp only []
  by_cases hM : containsState mec t.1 = true
  · rw [if_pos hM]
    by_cases hu : acc.1.getD t.1 0 = uint64Max
    · rw [if_pos hu]
      cases findPredChoice H mec t.1 cur with
      | none => exact ⟨rfl, fun _ _ => rfl⟩
      | some pc =>
        simp only []
        refine ⟨by simp, fun s hs => ?_⟩
        rw [getD_set_any, if_neg]
        rintro ⟨h, _⟩
        rw [h] at hs
        exact hs hu
    · rw [if_neg hu]
      exact ⟨rfl, fun _ _ => rfl⟩
  · rw [if_neg hM]
    exact ⟨rfl, fun _ _ => rfl⟩

theorem visitFold_kept (H : SparseNondeterministicInfiniteHorizonHelper)
    (mec : MaximalEndComponent) (cur : Nat) (T : List (Nat × ℚ)) :
    ∀ acc : List Nat × List Nat,
      (T.foldl (visitPredecessor H mec cur) acc).1.length = acc.1.length ∧
      ∀ s, acc.1.getD s 0 ≠ uint64Max →
        (T.foldl (visitPredecessor H mec cur) acc).1.getD s 0 = acc.1.getD s 0 := by
  induction T with
  | nil => intro acc; exact ⟨rfl, fun _ _ => rfl⟩
  | cons t T ih =>
    intro acc
    obtain ⟨v1, v2⟩ := visitPredecessor_kept H mec cur acc t
    obtain ⟨i1, i2⟩ := ih (visitPredecessor H mec cur acc t)
    rw [List.foldl_cons]
    refine ⟨by rw [i1, v1], fun s hs => ?_⟩
    rw [i2 s (by rw [v2 s hs]; exact hs), v2 s hs]

theorem backwardSearch_kept (H : SparseNondeterministicInfiniteHorizonHelper)
    (backward : SparseMatrix) (mec : MaximalEndComponent) (fuel : Nat) :
    ∀ (stack ch : List Nat),
      (backwardSearch H backward mec fuel stack ch).length = ch.length ∧
      ∀ s, ch.getD s 0 ≠ uint64Max →
        (backwardSearch H backward mec fuel stack ch).getD s 0 = ch.getD s 0 := by
  induction fuel with
  | zero => intro stack ch; exact ⟨rfl, fun _ _ => rfl⟩
  | succ fuel ih =>
    intro stack ch
    unfold backwardSearch
    cases stack with
    | nil => exact ⟨rfl, fun _ _ => rfl⟩
    | cons cur stack =>
      simp only []
      obtain ⟨v1, v2⟩ := visitFold_kept H mec cur (getRowGroup backward cur) (ch, stack)
      obtain ⟨i1, i2⟩ := ih
        ((getRowGroup backward cur).foldl (visitPredecessor H mec cur) (ch, stack)).2
        ((getRowGroup backward cur).foldl (visitPredecessor H mec cur) (ch, stack)).1
      refine ⟨by rw [i1, v1], fun s hs => ?_⟩
      rw [i2 s (by rw [v2 s hs]; exact hs), v2 s hs]

theorem visitPredecessor_leads (H : SparseNondeterministicInfiniteHorizonHelper)
    (mec : MaximalEndComponent) (e cur : Nat) (ch st : List Nat) (t : Nat × ℚ)
    (hrange : ∀ p ∈ mec, p.1 < ch.length)
    (hrows : ∀ p ∈ mec, ∀ c ∈ p.2, c ∈ H.transitionMatrix.groupRows p.1)
    (hbound : ∀ p ∈ mec, (H.transitionMatrix.groupRows p.1).length ≤ uint64Max)
    (he : containsState mec e = true) (hexit : ch.getD e 0 ≠ uint64Max)
    (hcur : LeadsToExit H mec e ch cur)
    (hst : ∀ s ∈ st, LeadsToExit H mec e ch s)
    (hall : ∀ s, containsState mec s = true → ch.getD s 0 ≠ uint64Max →
      LeadsToExit H mec e ch s) :
    LeadsToExit H mec e (visitPredecessor H mec cur (ch, st) t).1 cur ∧
    (∀ s ∈ (visitPredecessor H mec cur (ch, st) t).2,
      LeadsToExit H mec e (visitPredecessor H mec cur (ch, st) t).1 s) ∧
    (∀ s, containsState mec s = true →
      (visitPredecessor H mec cur (ch, st) t).1.getD s 0 ≠ uint64Max →
      LeadsToExit H mec e (visitPredecessor H mec cur (ch, st) t).1 s) := by
  unfold visitPredecessor
  simp only []
  by_cases hM : containsState mec t.1 = true
  · rw [if_pos hM]
    by_cases hu : ch.getD t.1 0 = uint64Max
    · rw [if_pos hu]
      cases hf : findPredChoice H mec t.1 cur with
      | none => exact ⟨hcur, hst, hall⟩
      | some pc =>
        simp only []
        obtain ⟨hpc, htrans⟩ := findPredChoice_some H mec t.1 cur pc hf
        obtain ⟨p, hp, hp1, hp2⟩ := getChoicesForState_mem mec t.1 pc hpc
        have hlt : t.1 < ch.length := by rw [← hp1]; exact hrange p hp
        have hrow : pc ∈ H.transitionMatrix.groupRows t.1 := by
          rw [← hp1]; exact hrows p hp pc hp2
        have hvalid : pc - H.transitionMatrix.rowGroupIndex t.1 <
            (H.transitionMatrix.groupRows t.1).length := mem_groupRows_local _ _ _ hrow
        have hle : (H.transitionMatrix.groupRows t.1).length ≤ uint64Max := by
          rw [← hp1]; exact hbound p hp
        have hne : pc - H.transitionMatrix.rowGroupIndex t.1 ≠ uint64Max := by omega
        have hget : ∀ s, (ch.set t.1 (pc - H.transitionMatrix.rowGroupIndex t.1)).getD s 0 =
            if s = t.1 then pc - H.transitionMatrix.rowGroupIndex t.1 else ch.getD s 0 := by
          intro s
          rw [getD_set_any]
          by_cases hs : s = t.1
          · rw [if_pos ⟨hs, hlt⟩, if_pos hs]
          · rw [if_neg (fun h => hs h.1), if_neg hs]
        have hmono : ∀ s, LeadsToExit H mec e ch s →
            LeadsToExit H mec e (ch.set t.1 (pc - H.transitionMatrix.rowGroupIndex t.1)) s := by
          intro s hs
          apply leadsToExit_mono H mec e ch _ _ s hs
          intro s' _ hres
          rw [hget, if_neg (fun h => hres (by rw [h]; exact hu))]
        have hte : t.1 ≠ e := fun h => hexit (by rw [← h]; exact hu)
        have hnew : LeadsToExit H mec e
            (ch.set t.1 (pc - H.transitionMatrix.rowGroupIndex t.1)) t.1 :=
          LeadsToExit.step t.1 cur pc hM hte hpc (by rw [hget, if_pos rfl])
            (by rw [hget, if_pos rfl]; exact hne) htrans
            (leadsToExit_contains H mec e ch he cur hcur) (hmono cur hcur)
        refine ⟨hmono cur hcur, ?_, ?_⟩
        · intro s hs
          rcases List.mem_cons.1 hs with h | h
          · rw [h]; exact hnew
          · exact hmono s (hst s h)
        · intro s hs hres
          by_cases hst' : s = t.1
          · rw [hst']; exact hnew
          · rw [hget, if_neg hst'] at hres
            exact hmono s (hall s hs hres)
    · rw [if_neg hu]
      exact ⟨hcur, hst, hall⟩
  · rw [if_neg hM]
    exact ⟨hcur, hst, hall⟩

theorem visitFold_leads (H : SparseNondeterministicInfiniteHorizonHelper)
    (mec : MaximalEndComponent) (e cur : Nat) (T : List (Nat × ℚ))
    (hrows : ∀ p ∈ mec, ∀ c ∈ p.2, c ∈ H.transitionMatrix.groupRows p.1)
    (hbound : ∀ p ∈ mec, (H.transitionMatrix.groupRows p.1).length ≤ uint64Max)
    (he : containsState mec e = true) :
    ∀ (ch st : List Nat), (∀ p ∈ mec, p.1 < ch.length) → ch.getD e 0 ≠ uint64Max →
      LeadsToExit H mec e ch cur → (∀ s ∈ st, LeadsToExit H mec e ch s) →
      (∀ s, containsState mec s = true → ch.getD s 0 ≠ uint64Max →
        LeadsToExit H mec e ch s) →
      (∀ s ∈ (T.foldl (visitPredecessor H mec cur) (ch, st)).2,
        LeadsToExit H mec e (T.foldl (visitPredecessor H mec cur) (ch, st)).1 s) ∧
      (∀ s, containsState mec s = true →
        (T.foldl (visitPredecessor H mec cur) (ch, st)).1.getD s 0 ≠ uint64Max →
        LeadsToExit H mec e (T.foldl (visitPredecessor H mec cur) (ch, st)).1 s) := by
  induction T with
  | nil =>
    intro ch st _ _ _ hst hall
    exact ⟨hst, hall⟩
  | cons t T ih =>
    intro ch st hrange hexit hcur hst hall
    obtain ⟨l1, l2, l3⟩ := visitPredecessor_leads H mec e cur ch st t hrange hrows hbound he
      hexit hcur hst hall
    obtain ⟨k1, k2⟩ := visitPredecessor_kept H mec cur (ch, st) t
    rw [List.foldl_cons]
    have hpair : visitPredecessor H mec cur (ch, st) t =
        ((visitPredecessor H mec cur (ch, st) t).1, (visitPredecessor H mec cur (ch, st) t).2) :=
      rfl
    rw [hpair]
    exact ih _ _ (fun p hp => by rw [k1]; exact hrange p hp)
      (by rw [k2 e hexit]; exact hexit) l1 l2 l3

theorem backwardSearch_leads (H : SparseNondeterministicInfiniteHorizonHelper)
    (backward : SparseMatrix) (mec : MaximalEndComponent) (e : Nat)
    (hrows : ∀ p ∈ mec, ∀ c ∈ p.2, c ∈ H.transitionMatrix.groupRows p.1)
    (hbound : ∀ p ∈ mec, (H.transitionMatrix.groupRows p.1).length ≤ uint64Max)
    (he : containsState mec e = true) (fuel : Nat) :
    ∀ (stack ch : List Nat), (∀ p ∈ mec, p.1 < ch.length) → ch.getD e 0 ≠ uint64Max →
      (∀ s ∈ stack, LeadsToExit H mec e ch s) →
      (∀ s, containsState mec s = true → ch.getD s 0 ≠ uint64Max →
        LeadsToExit H mec e ch s) →
      ∀ s, containsState mec s = true →
        (backwardSearch H backward mec fuel stack ch).getD s 0 ≠ uint64Max →
        LeadsToExit H mec e (backwardSearch H backward mec fuel stack ch) s := by
  induction fuel with
  | zero =>
    intro stack ch _ _ _ hall
    exact hall
  | succ fuel ih =>
    intro stack ch hrange hexit hst hall
    unfold backwardSearch
    cases stack with
    | nil => exact hall
    | cons cur stack =>
      simp only []
      obtain ⟨f1, f2⟩ := visitFold_leads H mec e cur (getRowGroup backward cur) hrows hbound he
        ch stack hrange hexit (hst cur (List.mem_cons_self _ _))
        (fun s hs => hst s (List.mem_cons_of_mem _ hs)) hall
      obtain ⟨k1, k2⟩ := visitFold_kept H mec cur (getRowGroup backward cur) (ch, stack)
      exact ih _ _ (fun p hp => by rw [k1]; exact hrange p hp)
        (by rw [k2 e hexit]; exact hexit) f1 f2

theorem markFold_length (mec : MaximalEndComponent) (e : Nat) :
    ∀ ch : List Nat,
      (mec.foldl (fun (choices : List Nat) (stateActions : Nat × List Nat) =>
        if stateActions.1 ≠ e then choices.set stateActions.1 uint64Max else choices)
        ch).length = ch.length := by
  induction mec with
  | nil => intro ch; rfl
  | cons p mec ih =>
    intro ch
    rw [List.foldl_cons, ih]
    split_ifs <;> simp

theorem stitchMec_length (H : SparseNondeterministicInfiniteHorizonHelper) (stateMap : List Nat)
    (k : Nat) (sspMatrix : SparseMatrix) (exitMap : List (Nat × Nat)) (sspChoices ch : List Nat)
    (mec : MaximalEndComponent) :
    (stitchMec H stateMap k sspMatrix exitMap sspChoices ch mec).length = ch.length := by
  unfold stitchMec
  simp only []
  split_ifs
  · rfl
  · rw [(backwardSearch_kept H _ mec mec.length _ _).1, markFold_length, List.length_set]

theorem foldl_length {α : Type} (f : List Nat → α → List Nat) (L : List α)
    (h : ∀ a ch, (f ch a).length = ch.length) :
    ∀ ch, (L.foldl f ch).length = ch.length := by
  induction L with
  | nil => intro ch; rfl
  | cons a L ih =>
    intro ch
    rw [List.foldl_cons, ih, h]

theorem setVectorFold_length (L : List Nat) (values : List Nat) :
    ∀ acc : List Nat × Nat,
      (L.foldl (fun (acc : List Nat × Nat) position =>
        (acc.1.set position (values.getD acc.2 0), acc.2 + 1)) acc).1.length =
        acc.1.length := by
  induction L with
  | nil => intro acc; rfl
  | cons p L ih =>
    intro acc
    rw [List.foldl_cons, ih]
    simp

theorem foldl_split {α β : Type} (f : β → α → β) (L : List α) (d : α) (i : Nat)
    (hi : i < L.length) (b : β) :
    L.foldl f b = (L.drop (i + 1)).foldl f (f ((L.take i).foldl f b) (L.getD i d)) := by
  have h : L = L.take i ++ (L.getD i d :: L.drop (i + 1)) := by
    rw [List.getD_eq_getElem _ _ hi, ← List.drop_eq_getElem_cons hi, List.take_append_drop]
  conv_lhs => rw [h]
  rw [List.foldl_append, List.foldl_cons]

theorem mecExitChoices_mem (A : SparseMatrix) (mec : MaximalEndComponent)
    (stateChoice : Nat × Nat) (h : stateChoice ∈ mecExitChoices A mec) :
    ∃ p ∈ mec, p.1 = stateChoice.1 ∧ stateChoice.2 ∈ A.groupRows p.1 ∧
      p.2.contains stateChoice.2 = false := by
  unfold mecExitChoices at h
  rw [List.mem_flatten] at h
  obtain ⟨block, hblock, hmem⟩ := h
  obtain ⟨p, hp, hpb⟩ := List.mem_map.1 hblock
  rw [← hpb] at hmem
  obtain ⟨c, hc, hcs⟩ := List.mem_map.1 hmem
  obtain ⟨hc1, hc2⟩ := List.mem_filter.1 hc
  rw [← hcs]
  exact ⟨p, hp, rfl, hc1, by simpa using hc2⟩

theorem mecExitEntries_exit (A : SparseMatrix) (mec : MaximalEndComponent) (c : Nat)
    (hc : c < (mecExitChoices A mec).length) :
    (mecExitEntries A mec).getD c (uint64Max, uint64Max) =
      (((mecExitChoices A mec).getD c (0, 0)).1,
        ((mecExitChoices A mec).getD c (0, 0)).2 -
          A.rowGroupIndex ((mecExitChoices A mec).getD c (0, 0)).1) := by
  unfold mecExitEntries
  rw [List.getD_eq_getElem?_getD, List.getElem?_append_left (by simpa using hc),
    List.getElem?_map, List.getElem?_eq_getElem hc, List.getD_eq_getElem _ _ hc]
  rfl

theorem stitchMec_exit (H : SparseNondeterministicInfiniteHorizonHelper) (stateMap : List Nat)
    (k : Nat) (sspMatrix : SparseMatrix) (exitMap : List (Nat × Nat)) (sspChoices ch : List Nat)
    (mec : MaximalEndComponent) (entry : Nat × Nat)
    (hback : BackwardComplete H.transitionMatrix
      (match H.backwardTransitions with
        | some backwardTransitions => backwardTransitions
        | none => transposeJoinGroups H.transitionMatrix))
    (hstates : ∀ p ∈ mec, p.1 < H.transitionMatrix.getRowGroupCount)
    (hrows : ∀ p ∈ mec, ∀ c ∈ p.2, c ∈ H.transitionMatrix.groupRows p.1)
    (hbound : ∀ p ∈ mec, (H.transitionMatrix.groupRows p.1).length ≤ uint64Max)
    (hconn : ∀ s t, containsState mec s = true → containsState mec t = true →
      MecReaches H mec s t)
    (hrange : ∀ p ∈ mec, p.1 < ch.length)
    (hentry : exitMap.getD
      (sspMatrix.rowGroupIndex (stateMap.getD (mec.headD (0, [])).1 0) +
        sspChoices.getD (stateMap.getD (mec.headD (0, [])).1 0) 0 -
        sspMatrix.rowGroupIndex k) (uint64Max, uint64Max) = entry)
    (hne : entry.1 ≠ uint64Max) (hin : containsState mec entry.1 = true)
    (hlocal : entry.2 < (H.transitionMatrix.groupRows entry.1).length) :
    (stitchMec H stateMap k sspMatrix exitMap sspChoices ch mec).getD entry.1 0 = entry.2 ∧
    ∀ s, containsState mec s = true →
      (stitchMec H stateMap k sspMatrix exitMap sspChoices ch mec).getD s 0 ≠ uint64Max ∧
      LeadsToExit H mec entry.1
        (stitchMec H stateMap k sspMatrix exitMap sspChoices ch mec) s := by
  unfold stitchMec
  simp only []
  rw [hentry, if_neg hne]
  obtain ⟨pe, hpe, hpe1⟩ := (containsState_iff mec entry.1).1 hin
  have helt : entry.1 < ch.length := by rw [← hpe1]; exact hrange pe hpe
  have hebound : (H.transitionMatrix.groupRows entry.1).length ≤ uint64Max := by
    rw [← hpe1]; exact hbound pe hpe
  obtain ⟨m1, m2⟩ := markFold_spec mec entry.1 (ch.set entry.1 entry.2)
    (fun p hp => by rw [List.length_set]; exact hrange p hp)
  generalize mec.foldl (fun (choices : List Nat) (stateActions : Nat × List Nat) =>
    if stateActions.1 ≠ entry.1 then choices.set stateActions.1 uint64Max else choices)
    (ch.set entry.1 entry.2) = ch2 at m1 m2
  rw [List.length_set] at m1
  have hch2e : ch2.getD entry.1 0 = entry.2 := by
    rw [m2, if_neg (fun h => h.2 rfl), getD_set_any, if_pos ⟨rfl, helt⟩]
  have hch2M : ∀ s, containsState mec s = true → s ≠ entry.1 → ch2.getD s 0 = uint64Max := by
    intro s hs hne'
    rw [m2, if_pos ⟨hs, hne'⟩]
  have hres2 : ch2.getD entry.1 0 ≠ uint64Max := by rw [hch2e]; omega
  have hfuel : [entry.1].length + unresolvedCount mec ch2 ≤ mec.length := by
    unfold unresolvedCount
    have hmem : entry.1 ∈ mec.map Prod.fst := List.mem_map.2 ⟨pe, hpe, hpe1⟩
    have := countP_lt_of_flip (mec.map Prod.fst) (fun _ => true)
      (fun state => decide (ch2.getD state 0 = uint64Max)) entry.1 hmem rfl
      (by
        simp only [decide_eq_false_iff_not]
        exact hres2)
      (fun _ _ => rfl)
    have hall : (mec.map Prod.fst).countP (fun _ => true) = mec.length := by
      rw [List.countP_true, List.length_map]
    simp only [List.length_singleton]
    omega
  obtain ⟨_, _, _, _, b5⟩ := backwardSearch_closed H _ mec hback hstates hrows hbound
    mec.length [entry.1] ch2 (fun p hp => by rw [m1]; exact hrange p hp)
    (by
      intro s hs
      rw [List.mem_singleton.1 hs]
      exact hres2)
    (by
      intro c hc hr hnot
      have : c = entry.1 := by
        by_contra hne'
        exact hr (hch2M c hc hne')
      exact absurd (List.mem_singleton.2 this) hnot)
    hfuel
  obtain ⟨_, k2⟩ := backwardSearch_kept H
    (match H.backwardTransitions with
      | some backwardTransitions => backwardTransitions
      | none => transposeJoinGroups H.transitionMatrix) mec mec.length [entry.1] ch2
  have hleads := backwardSearch_leads H
    (match H.backwardTransitions with
      | some backwardTransitions => backwardTransitions
      | none => transposeJoinGroups H.transitionMatrix) mec entry.1 hrows hbound hin mec.length
    [entry.1] ch2 (fun p hp => by rw [m1]; exact hrange p hp) hres2
    (by
      intro s hs
      rw [List.mem_singleton.1 hs]
      exact LeadsToExit.exit)
    (by
      intro s hs hr
      have : s = entry.1 := by
        by_contra hne'
        exact hr (hch2M s hs hne')
      rw [this]
      exact LeadsToExit.exit)
  refine ⟨by rw [k2 entry.1 hres2, hch2e], fun s hs => ?_⟩
  have hres : (backwardSearch H
      (match H.backwardTransitions with
        | some backwardTransitions => backwardTransitions
        | none => transposeJoinGroups H.transitionMatrix)
      mec mec.length [entry.1] ch2).getD s 0 ≠ uint64Max := by
    apply mecReaches_resolved H mec _ b5 s entry.1 (hconn s entry.1 hs hin) hs
    rw [k2 entry.1 hres2]
    exact hres2
  exact ⟨hres, hleads s hs hres⟩

/-- C36: for a decomposition that satisfies the contract of end components, backward
transitions that hold every transition of the matrix, at most `2^64 - 1` states and rows per row
group and produced choices with one entry per state, when a scheduler is requested, the
requirements of the solver are met and the min/max solver returns a scheduler that selects a row
of every row group of the reduced system: if at the auxiliary state of the end component `i`
the scheduler selects the exit row of the state `s_e` and its choice `c_e`, then `c_e` is a
choice of `s_e` that is not allowed in the end component, `buildAndSolveSsp` returns produced
choices that hold the local index of `c_e` at `s_e`, and from every state of the end component
the returned choices lead to `s_e`: every other state holds the local index of an allowed choice
with a transition of non-zero probability to a state of the end component from which the
choices lead to `s_e`. -/
theorem buildAndSolveSsp_exit_stitching (H : SparseNondeterministicInfiniteHorizonHelper)
    (env : LraEnvironment) (mecLraValues : List ℚ) (produced : List Nat) (lower upper : ℚ)
    (x : List ℚ) (sspChoices : List Nat) (i : Nat)
    (hscheduler : H.produceScheduler = true)
    (hrequirements : H.sspRequirementsCritical env = false)
    (hmin : mecLraValues.min? = some lower) (hmax : mecLraValues.max? = some upper)
    (hsolve : H.minMaxSolve env H.optimizationDirection (sspBuilderOf H mecLraValues).build
      (List.replicate (nonMecCountOf H + H.mecDecomposition.length) 0)
      (sspBuilderOf H mecLraValues).rhs lower upper H.produceScheduler = (x, some sspChoices))
    (hcontract : MecContract H)
    (hback : BackwardComplete H.transitionMatrix
      (match H.backwardTransitions with
        | some backwardTransitions => backwardTransitions
        | none => transposeJoinGroups H.transitionMatrix))
    (hbound : ∀ s, s < H.transitionMatrix.getRowGroupCount →
      (H.transitionMatrix.groupRows s).length ≤ uint64Max)
    (hstates : H.transitionMatrix.getRowGroupCount ≤ uint64Max)
    (hlength : produced.length = H.transitionMatrix.getRowGroupCount)
    (hvalid : ∀ g, g < nonMecCountOf H + H.mecDecomposition.length →
      sspChoices.getD g 0 < ((sspBuilderOf H mecLraValues).build.groupRows g).length)
    (hi : i < H.mecDecomposition.length)
    (hexit : sspChoices.getD (nonMecCountOf H + i) 0 <
      (mecExitChoices H.transitionMatrix (H.mecDecomposition.getD i [])).length) :
    (∃ p ∈ H.mecDecomposition.getD i [],
      p.1 = ((mecExitChoices H.transitionMatrix (H.mecDecomposition.getD i [])).getD
        (sspChoices.getD (nonMecCountOf H + i) 0) (0, 0)).1 ∧
      ((mecExitChoices H.transitionMatrix (H.mecDecomposition.getD i [])).getD
        (sspChoices.getD (nonMecCountOf H + i) 0) (0, 0)).2 ∈ H.transitionMatrix.groupRows p.1 ∧
      p.2.contains ((mecExitChoices H.transitionMatrix (H.mecDecomposition.getD i [])).getD
        (sspChoices.getD (nonMecCountOf H + i) 0) (0, 0)).2 = false) ∧
    ∃ result choices,
      buildAndSolveSsp H env mecLraValues (some produced) = Except.ok (result, some choices) ∧
      choices.getD
          ((mecExitChoices H.transitionMatrix (H.mecDecomposition.getD i [])).getD
            (sspChoices.getD (nonMecCountOf H + i) 0) (0, 0)).1 0 =
        ((mecExitChoices H.transitionMatrix (H.mecDecomposition.getD i [])).getD
            (sspChoices.getD (nonMecCountOf H + i) 0) (0, 0)).2 -
          H.transitionMatrix.rowGroupIndex
            ((mecExitChoices H.transitionMatrix (H.mecDecomposition.getD i [])).getD
              (sspChoices.getD (nonMecCountOf H + i) 0) (0, 0)).1 ∧
      (∀ s, containsState (H.mecDecomposition.getD i []) s = true →
        LeadsToExit H (H.mecDecomposition.getD i [])
          ((mecExitChoices H.transitionMatrix (H.mecDecomposition.getD i [])).getD
            (sspChoices.getD (nonMecCountOf H + i) 0) (0, 0)).1 choices s) ∧
      ∀ s, containsState (H.mecDecomposition.getD i []) s = true →
        s ≠ ((mecExitChoices H.transitionMatrix (H.mecDecomposition.getD i [])).getD
          (sspChoices.getD (nonMecCountOf H + i) 0) (0, 0)).1 →
        ∃ predChoice next, predChoice ∈ getChoicesForState (H.mecDecomposition.getD i []) s ∧
          choices.getD s 0 = predChoice - H.transitionMatrix.rowGroupIndex s ∧
          (∃ transition ∈ H.transitionMatrix.getRow predChoice,
            transition.1 = next ∧ transition.2 ≠ 0) ∧
          containsState (H.mecDecomposition.getD i []) next = true ∧
          LeadsToExit H (H.mecDecomposition.getD i [])
            ((mecExitChoices H.transitionMatrix (H.mecDecomposition.getD i [])).getD
              (sspChoices.getD (nonMecCountOf H + i) 0) (0, 0)).1 choices next := by
  have hmemi : H.mecDecomposition.getD i [] ∈ H.mecDecomposition := by
    rw [List.getD_eq_getElem _ _ hi]
    exact List.getElem_mem _
  generalize hmec : H.mecDecomposition.getD i [] = mec at hmemi hexit ⊢
  generalize hc : sspChoices.getD (nonMecCountOf H + i) 0 = c at hexit ⊢
  have hsc : (mecExitChoices H.transitionMatrix mec).getD c (0, 0) ∈
      mecExitChoices H.transitionMatrix mec := by
    rw [List.getD_eq_getElem _ _ hexit]
    exact List.getElem_mem _
  generalize hsce : (mecExitChoices H.transitionMatrix mec).getD c (0, 0) = sc at hsc ⊢
  obtain ⟨p, hp, hp1, hp2, hp3⟩ := mecExitChoices_mem H.transitionMatrix mec sc hsc
  refine ⟨⟨p, hp, hp1, hp2, hp3⟩, ?_⟩
  have hin : containsState mec sc.1 = true := (containsState_iff mec sc.1).2 ⟨p, hp, hp1⟩
  have hlt : sc.1 < H.transitionMatrix.getRowGroupCount := by
    rw [← hp1]; exact hcontract.inRange mec hmemi p hp
  have hsel := (selectedEntry_eq H mecLraValues sspChoices hscheduler hcontract.nonEmpty
    hcontract.inRange hcontract.disjoint i hi (hvalid _ (by omega))).2
  rw [hmec, hc, mecExitEntries_exit H.transitionMatrix mec c hexit, hsce] at hsel
  have hlenStitch : ∀ (a : MaximalEndComponent) (ch : List Nat),
      (stitchMec H (sspStateMapOf H) (nonMecCountOf H) (sspBuilderOf H mecLraValues).build
        (sspBuilderOf H mecLraValues).sspMecExitChoicesToOriginalMap sspChoices ch a).length =
        ch.length := fun a ch => stitchMec_length H _ _ _ _ _ ch a
  have hlen0 : (setVectorValues produced
      (nonMecStates H.mecDecomposition H.transitionMatrix.getRowGroupCount) sspChoices).length =
      H.transitionMatrix.getRowGroupCount := by
    unfold setVectorValues
    rw [setVectorFold_length, hlength]
  obtain ⟨e1, e2⟩ := stitchMec_exit H (sspStateMapOf H) (nonMecCountOf H)
    (sspBuilderOf H mecLraValues).build
    (sspBuilderOf H mecLraValues).sspMecExitChoicesToOriginalMap sspChoices
    ((H.mecDecomposition.take i).foldl
      (stitchMec H (sspStateMapOf H) (nonMecCountOf H) (sspBuilderOf H mecLraValues).build
        (sspBuilderOf H mecLraValues).sspMecExitChoicesToOriginalMap sspChoices)
      (setVectorValues produced
        (nonMecStates H.mecDecomposition H.transitionMatrix.getRowGroupCount) sspChoices))
    mec (sc.1, sc.2 - H.transitionMatrix.rowGroupIndex sc.1) hback
    (hcontract.inRange mec hmemi) (hcontract.choicesOfState mec hmemi)
    (fun q hq => hbound q.1 (hcontract.inRange mec hmemi q hq))
    (hcontract.connected mec hmemi)
    (fun q hq => by
      rw [foldl_length _ _ (fun a ch => hlenStitch a ch), hlen0]
      exact hcontract.inRange mec hmemi q hq)
    hsel (by simp only []; omega) hin
    (by
      simp only []
      rw [← hp1]
      exact mem_groupRows_local _ _ _ hp2)
  simp only [] at e1 e2
  have hfinal := buildAndSolveSsp_stitched H env mecLraValues produced lower upper x sspChoices
    hscheduler hrequirements hmin hmax hsolve
  rw [foldl_split _ H.mecDecomposition [] i hi, hmec] at hfinal
  have hkeep : ∀ s, containsState mec s = true →
      ((H.mecDecomposition.drop (i + 1)).foldl
        (stitchMec H (sspStateMapOf H) (nonMecCountOf H) (sspBuilderOf H mecLraValues).build
          (sspBuilderOf H mecLraValues).sspMecExitChoicesToOriginalMap sspChoices)
        (stitchMec H (sspStateMapOf H) (nonMecCountOf H) (sspBuilderOf H mecLraValues).build
          (sspBuilderOf H mecLraValues).sspMecExitChoicesToOriginalMap sspChoices
          ((H.mecDecomposition.take i).foldl
            (stitchMec H (sspStateMapOf H) (nonMecCountOf H)
              (sspBuilderOf H mecLraValues).build
              (sspBuilderOf H mecLraValues).sspMecExitChoicesToOriginalMap sspChoices)
            (setVectorValues produced
              (nonMecStates H.mecDecomposition H.transitionMatrix.getRowGroupCount)
              sspChoices)) mec)).getD s 0 =
      (stitchMec H (sspStateMapOf H) (nonMecCountOf H) (sspBuilderOf H mecLraValues).build
          (sspBuilderOf H mecLraValues).sspMecExitChoicesToOriginalMap sspChoices
          ((H.mecDecomposition.take i).foldl
            (stitchMec H (sspStateMapOf H) (nonMecCountOf H)
              (sspBuilderOf H mecLraValues).build
              (sspBuilderOf H mecLraValues).sspMecExitChoicesToOriginalMap sspChoices)
            (setVectorValues produced
              (nonMecStates H.mecDecomposition H.transitionMatrix.getRowGroupCount)
              sspChoices)) mec).getD s 0 := by
    intro s hs
    apply foldl_keeps
    intro a ha ch
    obtain ⟨j', hj', hja⟩ := List.mem_iff_getElem.1 ha
    rw [List.getElem_drop] at hja
    have hjlt : i + 1 + j' < H.mecDecomposition.length := by
      rw [List.length_drop] at hj'
      omega
    have hjD : H.mecDecomposition.getD (i + 1 + j') [] = a := by
      rw [List.getD_eq_getElem _ _ hjlt]
      exact hja
    have hnot : containsState a s = false := by
      cases hca : containsState a s with
      | false => rfl
      | true =>
        have := hcontract.disjoint (i + 1 + j') i s hjlt hi (by rw [hjD]; exact hca)
          (by rw [hmec]; exact hs)
        omega
    rw [← hjD] at hnot ⊢
    apply stitchMec_frame H _ _ _ _ _ _ _ s hnot
    rcases selectedEntry_ok H mecLraValues sspChoices hscheduler hcontract.nonEmpty
      hcontract.inRange hcontract.disjoint (i + 1 + j') hjlt (hvalid _ (by omega)) with h | h
    · exact Or.inl h
    · exact Or.inr h.1
  have hleads : ∀ s, containsState mec s = true →
      LeadsToExit H mec sc.1
        ((H.mecDecomposition.drop (i + 1)).foldl
          (stitchMec H (sspStateMapOf H) (nonMecCountOf H) (sspBuilderOf H mecLraValues).build
            (sspBuilderOf H mecLraValues).sspMecExitChoicesToOriginalMap sspChoices)
          (stitchMec H (sspStateMapOf H) (nonMecCountOf H) (sspBuilderOf H mecLraValues).build
            (sspBuilderOf H mecLraValues).sspMecExitChoicesToOriginalMap sspChoices
            ((H.mecDecomposition.take i).foldl
              (stitchMec H (sspStateMapOf H) (nonMecCountOf H)
                (sspBuilderOf H mecLraValues).build
                (sspBuilderOf H mecLraValues).sspMecExitChoicesToOriginalMap sspChoices)
              (setVectorValues produced
                (nonMecStates H.mecDecomposition H.transitionMatrix.getRowGroupCount)
                sspChoices)) mec)) s := by
    intro s hs
    apply leadsToExit_mono H mec sc.1 _ _ _ s (e2 s hs).2
    intro s' hs' _
    exact hkeep s' hs'
  refine ⟨_, _, hfinal, ?_, hleads, ?_⟩
  · rw [hkeep sc.1 hin]
    exact e1
  · intro s hs hne
    cases hleads s hs with
    | exit => exact absurd rfl hne
    | step _ next pc _ _ h3 h4 _ h6 h7 h8 => exact ⟨pc, next, h3, h4, h6, h7, h8⟩

/-- Witness of C36 on the system with four states: at the auxiliary state of the end component
of the first two states the scheduler of the reduced system selects the exit row of the second
choice of the second state; the returned choices `[0, 1, 0, 0]` hold that choice at the second
state, and the first state holds its choice that moves to the second state. -/
theorem buildAndSolveSsp_exit_stitching_witness :
    buildAndSolveSsp exitHelper plainLraEnvironment [1, 2] (some [0, 0, 0, 0]) =
      Except.ok ([2, 2, 2, 2], some [0, 1, 0, 0]) ∧
    (mecExitChoices exitHelper.transitionMatrix (exitHelper.mecDecomposition.getD 0 [])).getD
      ([0, 0, 0].getD (nonMecCountOf exitHelper + 0) 0) (0, 0) = (1, 2) ∧
    ∃ result choices,
      buildAndSolveSsp exitHelper plainLraEnvironment [1, 2] (some [0, 0, 0, 0]) =
        Except.ok (result, some choices) ∧
      choices.getD
          ((mecExitChoices exitHelper.transitionMatrix
            (exitHelper.mecDecomposition.getD 0 [])).getD
            ([0, 0, 0].getD (nonMecCountOf exitHelper + 0) 0) (0, 0)).1 0 =
        ((mecExitChoices exitHelper.transitionMatrix
            (exitHelper.mecDecomposition.getD 0 [])).getD
            ([0, 0, 0].getD (nonMecCountOf exitHelper + 0) 0) (0, 0)).2 -
          exitHelper.transitionMatrix.rowGroupIndex
            ((mecExitChoices exitHelper.transitionMatrix
              (exitHelper.mecDecomposition.getD 0 [])).getD
              ([0, 0, 0].getD (nonMecCountOf exitHelper + 0) 0) (0, 0)).1 ∧
      (∀ s, containsState (exitHelper.mecDecomposition.getD 0 []) s = true →
        LeadsToExit exitHelper (exitHelper.mecDecomposition.getD 0 [])
          ((mecExitChoices exitHelper.transitionMatrix
            (exitHelper.mecDecomposition.getD 0 [])).getD
            ([0, 0, 0].getD (nonMecCountOf exitHelper + 0) 0) (0, 0)).1 choices s) ∧
      ∀ s, containsState (exitHelper.mecDecomposition.getD 0 []) s = true →
        s ≠ ((mecExitChoices exitHelper.transitionMatrix
          (exitHelper.mecDecomposition.getD 0 [])).getD
          ([0, 0, 0].getD (nonMecCountOf exitHelper + 0) 0) (0, 0)).1 →
        ∃ predChoice next,
          predChoice ∈ getChoicesForState (exitHelper.mecDecomposition.getD 0 []) s ∧
          choices.getD s 0 = predChoice - exitHelper.transitionMatrix.rowGroupIndex s ∧
          (∃ transition ∈ exitHelper.transitionMatrix.getRow predChoice,
            transition.1 = next ∧ transition.2 ≠ 0) ∧
          containsState (exitHelper.mecDecomposition.getD 0 []) next = true ∧
          LeadsToExit exitHelper (exitHelper.mecDecomposition.getD 0 [])
            ((mecExitChoices exitHelper.transitionMatrix
              (exitHelper.mecDecomposition.getD 0 [])).getD
              ([0, 0, 0].getD (nonMecCountOf exitHelper + 0) 0) (0, 0)).1 choices next :=
  ⟨by decide!, by decide,
    (buildAndSolveSsp_exit_stitching exitHelper plainLraEnvironment [1, 2] [0, 0, 0, 0] 1 2
      [2, 2, 2] [0, 0, 0] 0 rfl rfl (by decide!) (by decide!) rfl exitHelper_contract
      (transposeJoinGroups_backwardComplete exitMatrix)
      (fun s hs => by
        have hs' : s < 4 := hs
        interval_cases s <;> decide)
      (by decide) rfl exitHelper_valid (by decide) (by decide)).2⟩

/-! ## Restart of value iteration in rational search -/

/-- C31, evaluation: the exact rational search on the one-state system that loops with
probability one half, with the right-hand side `[1 / 3]`, precision one tenth and the auxiliary
vector `[0]`.  The first call of value iteration performs three updates and ends with its last
iterate `[7 / 12]` in `*newX`, while `*currentX` holds the iterate before it, `[1 / 2]`, whose
update is `[7 / 12]`.  Whatever the sharpening routine is, when the round fails the next call
runs with precision `1 / 100` and starts from `[1 / 2]`, not from `[7 / 12]`; with the
sharpening routine that hands back its argument the round does fail. -/
theorem rationalSearch_restarts_before_last_iterate :
    ((exactSearchIteration halfSolver regularEnvironment OptimizationDirection.Maximize [1 / 3]
        (exactSearchStart regularEnvironment [0] [0])).iterations = 3 ∧
      (exactSearchIteration halfSolver regularEnvironment OptimizationDirection.Maximize [1 / 3]
        (exactSearchStart regularEnvironment [0] [0])).status = SolverStatus.Converged) ∧
    ((exactSearchIteration halfSolver regularEnvironment OptimizationDirection.Maximize [1 / 3]
        (exactSearchStart regularEnvironment [0] [0])).bufs.get
      (exactSearchIteration halfSolver regularEnvironment OptimizationDirection.Maximize [1 / 3]
        (exactSearchStart regularEnvironment [0] [0])).newX = [7 / 12] ∧
      (exactSearchIteration halfSolver regularEnvironment OptimizationDirection.Maximize [1 / 3]
        (exactSearchStart regularEnvironment [0] [0])).bufs.get
      (exactSearchIteration halfSolver regularEnvironment OptimizationDirection.Maximize [1 / 3]
        (exactSearchStart regularEnvironment [0] [0])).currentX = [1 / 2]) ∧
    multiplyAndReduce OptimizationDirection.Maximize halfMatrix [1 / 2] [1 / 3] = [7 / 12] ∧
    (∀ (kmSharpen : Nat → List ℚ → Option (List ℚ)) (st' : ExactSearchState),
      exactSearchRound halfSolver kmSharpen regularEnvironment OptimizationDirection.Maximize
        [1 / 3] (exactSearchStart regularEnvironment [0] [0]) = some st' →
      st'.status = SolverStatus.InProgress →
      st'.precision = 1 / 100 ∧ st'.bufs.get st'.currentX = [1 / 2] ∧
      st'.bufs.get st'.currentX ≠ [7 / 12] ∧
      exactSearchIteration halfSolver regularEnvironment OptimizationDirection.Maximize [1 / 3]
          st' =
        performValueIteration halfSolver regularEnvironment OptimizationDirection.Maximize
          st'.bufs st'.currentX st'.newX [1 / 3] (1 / 100)
          regularEnvironment.relativeTerminationCriterion SolverGuarantee.LessOrEqual 3
          regularEnvironment.maximalNumberOfIterations regularEnvironment.multiplicationStyle) ∧
    exactSearchLoop halfSolver keepSharpen regularEnvironment OptimizationDirection.Maximize
        [1 / 3] 1 (exactSearchStart regularEnvironment [0] [0]) = some thirdSearchAfterOne ∧
    thirdSearchAfterOne.bufs.get thirdSearchAfterOne.currentX = [1 / 2] := by
  have hcur : (exactSearchIteration halfSolver regularEnvironment OptimizationDirection.Maximize
        [1 / 3] (exactSearchStart regularEnvironment [0] [0])).bufs.get
      (exactSearchIteration halfSolver regularEnvironment OptimizationDirection.Maximize [1 / 3]
        (exactSearchStart regularEnvironment [0] [0])).currentX = [1 / 2] := by decide!
  have hit : (exactSearchIteration halfSolver regularEnvironment OptimizationDirection.Maximize
        [1 / 3] (exactSearchStart regularEnvironment [0] [0])).iterations = 3 := by decide!
  refine ⟨⟨hit, by decide!⟩, ⟨by decide!, hcur⟩, by decide!, ?_, by decide!, by decide!⟩
  intro kmSharpen st' hround hstatus
  obtain ⟨_, h1, _, _, hcase⟩ := exactSearchRound_spec halfSolver kmSharpen regularEnvironment
    OptimizationDirection.Maximize [1 / 3] (exactSearchStart regularEnvironment [0] [0]) st'
    ⟨rfl, rfl⟩ ⟨rfl, by decide⟩ hround
  rcases hcase with ⟨hc, _⟩ | ⟨_, hp, hx, _⟩
  · rw [hstatus] at hc
    exact absurd hc (by decide)
  · have hp' : st'.precision = 1 / 100 := by
      rw [hp]
      decide!
    have hx' : st'.bufs.get st'.currentX = [1 / 2] := hx.trans hcur
    refine ⟨hp', hx', ?_, ?_⟩
    · rw [hx']
      decide!
    · unfold exactSearchIteration
      rw [hp', h1, hit]

/-! ## The reduction for an empty decomposition -/

end storm
